import Mathlib

/-!
# cpu-ray-tracer: frame work scheduler and intersection kernel

A shallow embedding of the parts of `main.cpp`, `math.h` and `base.h` that the
verified properties talk about.

* Machine integers (`s32`) are `Int`, with `wrapS32` applied where the source
  arithmetic can leave the 32-bit range.
* `f32` values are read over an ordered field `α` (the theorems instantiate it
  with `ℝ` and `Real.sqrt`); the square root is passed explicitly so that the
  definitions stay executable.
* Code that can fault (an `Assert`, a write outside an array, the cast `(s64)` of a float
  outside the range of `s64`) returns `Option`.
* The frame buffer is a list of bytes; a counted `for` loop is a recursion on the number
  of iterations that are left.
-/

namespace RayTracer

/-! ## Machine integers -/

/-- Two's-complement wrap of an integer into the range of `s32`. -/
def wrapS32 (x : Int) : Int := (x + 2147483648) % 4294967296 - 2147483648

/-- Conversion of an `s32` value to `size_t` (64-bit `umm`), as happens to the right
operand of `ArrayCount(arr) > expr`: a negative value becomes `x + 2^64`. -/
def toUmm (x : Int) : Int := if x < 0 then x + 18446744073709551616 else x

/-- `MinS32` of math.h. -/
def MinS32 (a b : Int) : Int := if a ≤ b then a else b

/-! ## Work queue (main.cpp, `work_entry`, `global_state`, `BeginFrame`) -/

/-- `struct work_entry`: a band of frame-buffer rows. -/
structure work_entry where
  firstRowY : Int
  numRows : Int
deriving DecidableEq, Repr

/-- A Win32 counting semaphore: current count and the maximum given to
`CreateSemaphore`. -/
structure semaphore where
  count : Int
  maximum : Int
deriving DecidableEq, Repr

/-- The work-queue part of `struct global_state` (the camera fields written by
`BeginFrame` do not influence the queue and are embedded separately).
`entries` stands for `work_entry entries[100]`. -/
structure global_state where
  frameDimY : Int
  numEntries : Int
  entries : List work_entry
  semaphoreEntriesToDo : semaphore
  nextEntry : Int
  completedEntriesCount : Int
deriving DecidableEq, Repr

/-- `ArrayCount(gs->entries)`. -/
def entriesCapacity : Int := 100

/-- The value of `rowsPerEntry` in `BeginFrame`. -/
def rowsPerEntry : Int := 10

/-- The loop `for(s32 y = 0; y < gs->frameDim.y; y += rowsPerEntry)` of `BeginFrame`,
started at `y`. A write to `entries[numEntries]` outside the array is a fault
(`none`). Every iteration uses one more slot, which bounds the number of
iterations by the capacity whatever the wrapped value of `y` does. -/
def fillWorkQueue (y : Int) (gs : global_state) : Option global_state :=
  if y < gs.frameDimY then
    if 0 ≤ gs.numEntries ∧ gs.numEntries < entriesCapacity then
      fillWorkQueue (wrapS32 (y + rowsPerEntry))
        { gs with
          entries := gs.entries.set gs.numEntries.toNat
            { firstRowY := y, numRows := MinS32 rowsPerEntry (wrapS32 (gs.frameDimY - y)) }
          numEntries := gs.numEntries + 1 }
    else none
  else some gs
termination_by (entriesCapacity - gs.numEntries).toNat
decreasing_by
  simp only [entriesCapacity] at *
  omega

/-- `ReleaseSemaphore(sem, releaseCount, &prevCount)` with `prevCount` initialised to 0:
the call fails, changing nothing, when the release count is not positive or the
count would exceed the maximum; otherwise the count grows and the previous count
is stored. Returns the semaphore and the value of `prevCount` afterwards. -/
def ReleaseSemaphore (s : semaphore) (releaseCount : Int) : semaphore × Int :=
  if 0 < releaseCount ∧ s.count + releaseCount ≤ s.maximum then
    ({ s with count := s.count + releaseCount }, s.count)
  else (s, 0)

/-- `BeginFrame` up to and including the call of `ReleaseSemaphore`: resets the
counters, checks `Assert(ArrayCount(gs->entries) > gs->frameDim.y/rowsPerEntry)`
(a failed `Assert` writes through a null pointer: `none`), fills the queue and
releases one permit per entry. Returns the state and `prevCount`. -/
def BeginFramePublish (gs : global_state) : Option (global_state × Int) :=
  let gs1 := { gs with numEntries := 0, nextEntry := 0, completedEntriesCount := 0 }
  if entriesCapacity > toUmm (gs1.frameDimY.tdiv rowsPerEntry) then
    match fillWorkQueue 0 gs1 with
    | none => none
    | some gs2 =>
      let r := ReleaseSemaphore gs2.semaphoreEntriesToDo gs2.numEntries
      some ({ gs2 with semaphoreEntriesToDo := r.1 }, r.2)
  else none

/-- `BeginFrame` (work-queue part): `BeginFramePublish` followed by
`Assert(prevCount == 0)`. -/
def BeginFrame (gs : global_state) : Option global_state :=
  match BeginFramePublish gs with
  | none => none
  | some (gs2, prevCount) => if prevCount = 0 then some gs2 else none

/-- The tasks a state publishes: `entries[0 .. numEntries)`. -/
def publishedTasks (gs : global_state) : List work_entry :=
  gs.entries.take gs.numEntries.toNat

/-- Row `row` is rendered by task `e`: the worker loop is
`for(s32 y = entry->firstRowY; y < entry->firstRowY + entry->numRows; y++)`. -/
def work_entry.covers (e : work_entry) (row : Int) : Prop :=
  e.firstRowY ≤ row ∧ row < e.firstRowY + e.numRows

instance (e : work_entry) (row : Int) : Decidable (e.covers row) := by
  unfold work_entry.covers; infer_instance

/-- The band `[10*k, 10*k + min(10, h - 10*k))` that the row partition of a frame of
height `h` gives to task `k`. -/
def rowBand (h : Int) (k : Nat) : work_entry :=
  { firstRowY := 10 * k, numRows := min 10 (h - 10 * k) }

/-- The state of a process that has just been started: an all-zero `entries`
array and a semaphore created by `CreateSemaphore(NULL, 0, frameDim.y, NULL)`. -/
def initialState (frameDimY : Int) : global_state :=
  { frameDimY := frameDimY
    numEntries := 0
    entries := List.replicate 100 { firstRowY := 0, numRows := 0 }
    semaphoreEntriesToDo := { count := 0, maximum := frameDimY }
    nextEntry := 0
    completedEntriesCount := 0 }

/-! ## Worker threads (main.cpp, `ThreadProc`) as a step relation -/

/-- Where a worker thread stands in `ThreadProc`:
* `waiting`: at `WaitForSingleObject(gs->semaphoreEntriesToDo, INFINITE)`;
* `reading`: about to execute `s32 entryIndex = gs->nextEntry`;
* `swapping entryIndex`: about to execute
  `InterlockedCompareExchange(&gs->nextEntry, entryIndex + 1, entryIndex)`;
* `rendering entryIndex`: the exchange succeeded, the worker renders
  `entries[entryIndex]` and will then execute
  `InterlockedIncrement(&gs->completedEntriesCount)` and `break`. -/
inductive worker_state where
  | waiting : worker_state
  | reading : worker_state
  | swapping (entryIndex : Int) : worker_state
  | rendering (entryIndex : Int) : worker_state
deriving DecidableEq, Repr

/-- The shared state, the control state of every worker thread, and a log of the
successful exchanges `(thread, entryIndex)`, newest first (the log is not program
state: it records which thread claimed which task). -/
structure system_state where
  gs : global_state
  workers : List worker_state
  claimed : List (Nat × Int)
deriving DecidableEq, Repr

/-- One atomic step of worker thread `w`; `none` when the thread does not exist or is
blocked on the semaphore. -/
def workerStep (w : Nat) (st : system_state) : Option system_state :=
  match st.workers[w]? with
  | none => none
  | some worker_state.waiting =>
    if 0 < st.gs.semaphoreEntriesToDo.count then
      some { st with
        gs := { st.gs with
          semaphoreEntriesToDo :=
            { st.gs.semaphoreEntriesToDo with count := st.gs.semaphoreEntriesToDo.count - 1 } }
        workers := st.workers.set w worker_state.reading }
    else none
  | some worker_state.reading =>
    some { st with workers := st.workers.set w (worker_state.swapping st.gs.nextEntry) }
  | some (worker_state.swapping entryIndex) =>
    if st.gs.nextEntry = entryIndex then
      some { gs := { st.gs with nextEntry := wrapS32 (entryIndex + 1) }
             workers := st.workers.set w (worker_state.rendering entryIndex)
             claimed := (w, entryIndex) :: st.claimed }
    else
      some { st with workers := st.workers.set w worker_state.reading }
  | some (worker_state.rendering _) =>
    some { st with
      gs := { st.gs with completedEntriesCount := wrapS32 (st.gs.completedEntriesCount + 1) }
      workers := st.workers.set w worker_state.waiting }

/-- An interleaving: the threads named by the schedule take one step each, in order;
`none` when a scheduled thread cannot step. -/
def runSchedule : List Nat → system_state → Option system_state
  | [], st => some st
  | w :: rest, st =>
    match workerStep w st with
    | none => none
    | some st2 => runSchedule rest st2

/-- The system right after `BeginFrame` returned `gs`: every worker is at the
semaphore and no task of the frame has been claimed. -/
def startFrame (gs : global_state) (numWorkers : Nat) : system_state :=
  { gs := gs, workers := List.replicate numWorkers worker_state.waiting, claimed := [] }

/-- How many times task `entryIndex` has been claimed. -/
def claimCount (st : system_state) (entryIndex : Int) : Nat :=
  (st.claimed.filter (fun c => c.2 == entryIndex)).length

/-- A worker that holds a permit but has not yet claimed a task. -/
def worker_state.isClaiming : worker_state → Bool
  | worker_state.reading => true
  | worker_state.swapping _ => true
  | _ => false

/-- The frame is drained: no permit is left and no worker is still trying to claim. -/
def isDrained (st : system_state) : Bool :=
  st.gs.semaphoreEntriesToDo.count == 0 && st.workers.all (fun p => !p.isClaiming)

/-! ## Vectors (math.h) -/

/-- `struct v2` of math.h: two `f32` components. -/
structure v2 (α : Type) where
  x : α
  y : α
deriving DecidableEq, Repr

/-- `union v3` of math.h: three `f32` components. -/
structure v3 (α : Type) where
  x : α
  y : α
  z : α
deriving DecidableEq, Repr

section Geometry

variable {α : Type} [LinearOrderedField α]

/-- `V3(f32 x, f32 y, f32 z)`. -/
def V3 (x y z : α) : v3 α := { x := x, y := y, z := z }

/-- `V3(f32 xyz)`, the one-argument overload. -/
def V3xyz (xyz : α) : v3 α := { x := xyz, y := xyz, z := xyz }

/-- `operator+(v3, v3)`. -/
instance : Add (v3 α) := ⟨fun a b => { x := a.x + b.x, y := a.y + b.y, z := a.z + b.z }⟩

/-- `operator-(v3, v3)`. -/
instance : Sub (v3 α) := ⟨fun a b => { x := a.x - b.x, y := a.y - b.y, z := a.z - b.z }⟩

/-- `operator-(v3)`. -/
instance : Neg (v3 α) := ⟨fun a => { x := -a.x, y := -a.y, z := -a.z }⟩

/-- `operator*(f32, v3)`. -/
instance : HMul α (v3 α) (v3 α) := ⟨fun a b => { x := a * b.x, y := a * b.y, z := a * b.z }⟩

/-- `operator*(v3, f32)`. -/
instance : HMul (v3 α) α (v3 α) := ⟨fun a b => { x := a.x * b, y := a.y * b, z := a.z * b }⟩

/-- `operator/(v3, f32)`. -/
instance : HDiv (v3 α) α (v3 α) := ⟨fun a b => { x := a.x / b, y := a.y / b, z := a.z / b }⟩

/-- `operator/(v3, f32)` where a zero divisor is reported as a fault. -/
def v3.divChecked (a : v3 α) (b : α) : Option (v3 α) :=
  if b = 0 then none else some (a / b)

/-- `Dot(v3, v3)`. -/
def Dot (a b : v3 α) : α := a.x * b.x + a.y * b.y + a.z * b.z

/-- `Cross(v3, v3)`. -/
def Cross (a b : v3 α) : v3 α :=
  { x := a.y * b.z - a.z * b.y, y := a.z * b.x - a.x * b.z, z := a.x * b.y - a.y * b.x }

/-- `Length(v3)`: `SquareRoot(SQUARE(a.x) + SQUARE(a.y) + SQUARE(a.z))`; `sqrt` is the
square root function (`SquareRoot`). -/
def Length (sqrt : α → α) (a : v3 α) : α := sqrt (a.x * a.x + a.y * a.y + a.z * a.z)

/-- The constant `.00000000001f` of `Normalize`. -/
def normalizeEpsilon : α := 1 / 100000000000

/-- `Normalize(v3)`. -/
def Normalize (sqrt : α → α) (a : v3 α) : v3 α :=
  let length := Length sqrt a
  if length > normalizeEpsilon then a / length else V3 0 0 1

/-- `Normalize(v3)` with its division checked: `none` would be a division by zero. -/
def NormalizeChecked (sqrt : α → α) (a : v3 α) : Option (v3 α) :=
  let length := Length sqrt a
  if length > normalizeEpsilon then a.divChecked length else some (V3 0 0 1)

/-- `NormalizeNonZero(v3)`. -/
def NormalizeNonZero (sqrt : α → α) (a : v3 α) : v3 α := a / Length sqrt a

/-! ## 3x3 matrices and the frozen camera (math.h, `BeginFrame`) -/

/-- `union mat3`: nine `f32` in row-major order; the fields are listed in the order of
the source (`p00, p10, p20, p01, ...`), which is the order of `p[0] .. p[8]`. -/
structure mat3 (α : Type) where
  p00 : α
  p10 : α
  p20 : α
  p01 : α
  p11 : α
  p21 : α
  p02 : α
  p12 : α
  p22 : α
deriving DecidableEq, Repr

/-- The view `f32 p[9]` of a `mat3`. -/
def mat3.p (m : mat3 α) (k : Nat) : α :=
  match k with
  | 0 => m.p00
  | 1 => m.p10
  | 2 => m.p20
  | 3 => m.p01
  | 4 => m.p11
  | 5 => m.p21
  | 6 => m.p02
  | 7 => m.p12
  | _ => m.p22

/-- A `mat3` given by its array view. -/
def mat3.ofArray (p : Nat → α) : mat3 α :=
  { p00 := p 0, p10 := p 1, p20 := p 2, p01 := p 3, p11 := p 4, p21 := p 5,
    p02 := p 6, p12 := p 7, p22 := p 8 }

/-- `operator*(mat3, mat3)`: `result.p[3*r + c] += a.p[3*r + i] * b.p[3*i + c]` for
`i = 0, 1, 2`, starting from 0. -/
instance : Mul (mat3 α) :=
  ⟨fun a b => mat3.ofArray (fun k =>
    ((0 + a.p (3 * (k / 3) + 0) * b.p (3 * 0 + k % 3))
      + a.p (3 * (k / 3) + 1) * b.p (3 * 1 + k % 3))
      + a.p (3 * (k / 3) + 2) * b.p (3 * 2 + k % 3))⟩

/-- `XRotation3(angle)`; `cos` and `sin` are `Cos` and `Sin`. -/
def XRotation3 (cos sin : α → α) (angle : α) : mat3 α :=
  let c := cos angle
  let s := sin angle
  { p00 := 1, p10 := 0, p20 := 0,
    p01 := 0, p11 := c, p21 := s,
    p02 := 0, p12 := -s, p22 := c }

/-- `YRotation3(angle)`. -/
def YRotation3 (cos sin : α → α) (angle : α) : mat3 α :=
  let c := cos angle
  let s := sin angle
  { p00 := c, p10 := 0, p20 := -s,
    p01 := 0, p11 := 1, p21 := 0,
    p02 := s, p12 := 0, p22 := c }

/-- `MatrixMultiply(v3, mat3)`. -/
def MatrixMultiply (v : v3 α) (m : mat3 α) : v3 α :=
  { x := v.x * m.p00 + v.y * m.p10 + v.z * m.p20,
    y := v.x * m.p01 + v.y * m.p11 + v.z * m.p21,
    z := v.x * m.p02 + v.y * m.p12 + v.z * m.p22 }

/-- The frozen per-frame camera fields of `global_state`. -/
structure frame_camera (α : Type) where
  frameCamPos : v3 α
  frameCamForward : v3 α
  frameCamRight : v3 α
  frameCamUp : v3 α
deriving DecidableEq, Repr

/-- The camera part of `BeginFrame`: the frozen position and basis computed from
`camPos`, `camAngleY` (yaw) and `camAngleX` (pitch). -/
def BeginFrameCamera (cos sin : α → α) (camPos : v3 α) (camAngleY camAngleX : α) :
    frame_camera α :=
  let rotation := YRotation3 cos sin camAngleY * XRotation3 cos sin camAngleX
  let frameCamForward := MatrixMultiply (V3 0 0 1) rotation
  let frameCamUp := MatrixMultiply (V3 0 1 0) rotation
  { frameCamPos := camPos
    frameCamForward := frameCamForward
    frameCamRight := -Cross frameCamForward frameCamUp
    frameCamUp := frameCamUp }

/-! ## Intersection routines (main.cpp) -/

/-- `struct sphere`. -/
structure sphere (α : Type) where
  c : v3 α
  r : α
deriving DecidableEq, Repr

/-- `IntersectSphere(sphere, ro, rd)`. -/
def IntersectSphere (sqrt : α → α) (sphere : sphere α) (ro rd : v3 α) : α :=
  let t : α := -1
  let ro := ro - sphere.c
  let b := 2 * Dot ro rd
  let c := Dot ro ro - sphere.r * sphere.r
  let d := b * b - 4 * c
  if d ≥ 0 then (-b - sqrt d) / 2 else t

/-- `NormalSphere(sphere, pos)`. -/
def NormalSphere (sphere : sphere α) (pos : v3 α) : v3 α := (pos - sphere.c) / sphere.r

/-- `IntersectPlane(y, ro, rd)`; `if (rd.y)` tests `rd.y != 0`. -/
def IntersectPlane (y : α) (ro rd : v3 α) : α :=
  let t : α := -1
  if rd.y ≠ 0 then (y - ro.y) / rd.y else t

/-- `NormalPlane()`. -/
def NormalPlane : v3 α := { x := 0, y := 1, z := 0 }

/-! ## Per-pixel code of `ThreadProc` (main.cpp) -/

/-- The camera ray direction of `ThreadProc`:
`NormalizeNonZero(forward + (-1 + 2*uv.x)*right*worldFrameDim.x/2
                          + (-1 + 2*uv.y)*up*worldFrameDim.y/2)`. -/
def cameraRayDir (sqrt : α → α) (frameCamForward frameCamRight frameCamUp : v3 α)
    (worldFrameDim uv : v2 α) : v3 α :=
  NormalizeNonZero sqrt
    (frameCamForward + (-1 + 2 * uv.x) * frameCamRight * worldFrameDim.x / (2 : α)
      + (-1 + 2 * uv.y) * frameCamUp * worldFrameDim.y / (2 : α))

/-- `uv = {(f32)x/gs->frameDim.x, (f32)y/gs->frameDim.y}` for pixel `(x, y)`. -/
def pixelUV (frameDimX frameDimY x y : Int) : v2 α :=
  { x := (x : α) / (frameDimX : α), y := (y : α) / (frameDimY : α) }

/-- The array `sphere spheres[6]` declared for every pixel; the last sphere follows
the frozen camera position. -/
def sceneSpheres (frameCamPos : v3 α) : List (sphere α) :=
  [ { c := V3xyz 0, r := 5 },
    { c := V3 0 6 0, r := 3 },
    { c := V3 8 0 0, r := 2 },
    { c := V3 9.2 4 1, r := 1.8 },
    { c := V3 0 15 0, r := 2.5 },
    { c := frameCamPos, r := 1.5 } ]

/-- The loop
`for(i = 0; i < ArrayCount(spheres); i++) if (tSphere[i] > camNear && tSphere[i] < t)
 { t = tSphere[i]; shapeIndex = 1 + i; }`
over the remaining distances, `i` being the index of the first of them; the
accumulator is `(t, shapeIndex)`. -/
def selectSpheres (camNear : α) : List α → Nat → α × Int → α × Int
  | [], _, acc => acc
  | ti :: rest, i, acc =>
    if ti > camNear ∧ ti < acc.1 then selectSpheres camNear rest (i + 1) (ti, 1 + (i : Int))
    else selectSpheres camNear rest (i + 1) acc

/-- Nearest-hit selection of `ThreadProc` (the same code serves the primary and the
reflected ray): start from `t = camFar`, `shapeIndex = 0`, run the sphere loop, then
test the plane. Returns `(t, shapeIndex)`. -/
def nearestHit (camNear camFar : α) (tSphere : List α) (tPlane : α) : α × Int :=
  let acc := selectSpheres camNear tSphere 0 (camFar, 0)
  if tPlane > camNear ∧ tPlane < acc.1 then (tPlane, 10) else acc

/-- Intersection of a ray with all objects followed by the nearest-hit selection:
`tSphere[i] = IntersectSphere(spheres[i], ro, rd)`, `tPlane = IntersectPlane(0, ro, rd)`. -/
def traceRay (sqrt : α → α) (camNear camFar : α) (frameCamPos ro rd : v3 α) : α × Int :=
  nearestHit camNear camFar
    ((sceneSpheres frameCamPos).map (fun s => IntersectSphere sqrt s ro rd))
    (IntersectPlane 0 ro rd)

end Geometry

/-- A square root on the rationals that is exact on squares of rationals, for
evaluating the definitions on concrete inputs. -/
def sqrtRat (q : ℚ) : ℚ := (Nat.sqrt q.num.toNat : ℚ) / (Nat.sqrt q.den : ℚ)

/-! ## Invariant and termination measure of the claim loop -/

/-- 1 for a worker that holds a permit and has not claimed yet, else 0. -/
def claimingWeight (p : worker_state) : Int := if p.isClaiming then 1 else 0

/-- 1 for a worker that is rendering a claimed task, else 0. -/
def renderingWeight : worker_state → Int
  | worker_state.rendering _ => 1
  | _ => 0

/-- Number of steps a worker needs at most to return to the semaphore when nobody
interferes; a worker whose exchange is bound to fail needs two more. -/
def stepsLeft (nextEntry : Int) : worker_state → Int
  | worker_state.waiting => 0
  | worker_state.reading => 3
  | worker_state.swapping e => if e = nextEntry then 2 else 4
  | worker_state.rendering _ => 1

/-- Termination measure of the claim loop for a frame of `n` tasks. -/
def claimMeasure (n : Int) (st : system_state) : Int :=
  (st.workers.map (stepsLeft st.gs.nextEntry)).sum
    + 4 * st.gs.semaphoreEntriesToDo.count
    + 2 * (st.workers.length : Int) * (n - st.gs.nextEntry)

/-- Invariant of the claim loop for a frame of `n` tasks. -/
structure ClaimInv (n : Int) (st : system_state) : Prop where
  sem_nonneg : 0 ≤ st.gs.semaphoreEntriesToDo.count
  next_nonneg : 0 ≤ st.gs.nextEntry
  permits : st.gs.nextEntry + st.gs.semaphoreEntriesToDo.count
    + (st.workers.map claimingWeight).sum = n
  counts : ∀ e : Int, claimCount st e = if 0 ≤ e ∧ e < st.gs.nextEntry then 1 else 0
  completed : st.gs.completedEntriesCount + (st.workers.map renderingWeight).sum
    = st.gs.nextEntry
  completed_nonneg : 0 ≤ st.gs.completedEntriesCount
  numEntries_eq : st.gs.numEntries = n

/-! ## Concrete states used to exercise the definitions -/

/-- The state `BeginFrame` leaves for a frame of 25 rows in a fresh process. -/
def frame25 : global_state :=
  { frameDimY := 25
    numEntries := 3
    entries := [{ firstRowY := 0, numRows := 10 }, { firstRowY := 10, numRows := 10 },
        { firstRowY := 20, numRows := 5 }] ++ List.replicate 97 { firstRowY := 0, numRows := 0 }
    semaphoreEntriesToDo := { count := 3, maximum := 25 }
    nextEntry := 0
    completedEntriesCount := 0 }

/-- An interleaving of two workers on `frame25`: both take a permit and read
`nextEntry = 0`, worker 0 wins the exchange, worker 1 fails, retries and claims task 1,
finishes it, takes the last permit and claims task 2. -/
def schedule25 : List Nat := [0, 1, 0, 1, 0, 1, 0, 1, 1, 1, 1, 1, 1]

/-- The state reached from `frame25` by `schedule25`. -/
def drained25 : system_state :=
  { gs := { frame25 with
      semaphoreEntriesToDo := { count := 0, maximum := 25 }
      nextEntry := 3
      completedEntriesCount := 2 }
    workers := [worker_state.waiting, worker_state.rendering 2]
    claimed := [(1, 2), (1, 1), (0, 0)] }

/-! ## Scalar helpers (math.h) -/

section Scalars

variable {α : Type} [LinearOrderedField α]

/-- `Square(f32)`. -/
def Square (x : α) : α := x * x

/-- `Max(f32, f32)`. -/
def Max (a b : α) : α := if a ≥ b then a else b

/-- `Min(f32, f32)`. -/
def Min (a b : α) : α := if a ≤ b then a else b

/-- `Lerp(a, b, t)`. -/
def Lerp (a b t : α) : α := (1 - t) * a + b * t

/-- `Clamp(value, min, max)`. -/
def Clamp (value min max : α) : α :=
  if value > max then max else if value < min then min else value

/-- `Clamp01(value)`. -/
def Clamp01 (value : α) : α := Clamp value 0 1

/-- `LerpClamp(a, b, t)`. -/
def LerpClamp (a b t : α) : α := Lerp a b (Clamp01 t)

/-- `MapRangeTo01(x, min, max)`. -/
def MapRangeTo01 (x min max : α) : α := (x - min) / (max - min)

/-- `Map01ToReverseSquare(t)`. -/
def Map01ToReverseSquare (t : α) : α := 1 - Square (1 - t)

/-- The constant `PI` of math.h, read as the decimal it is written as. -/
def PI : α := 3.141592653589793238

/-- `MAX_F32`, the largest finite `f32` (`0x7F7FFFFF`); `WinMain` sets `camFar` to it. -/
def MAX_F32 : α := 340282346638528859811704183484516925440

/-- `Length(v2)`. -/
def LengthV2 (sqrt : α → α) (a : v2 α) : α := sqrt (a.x * a.x + a.y * a.y)

/-- `Perpendicular(v3)`. -/
def Perpendicular (sqrt : α → α) (a : v3 α) : v3 α := Normalize sqrt (V3 a.y (-a.x) 0)

/-- `SrgbToLinear(sRGB)`; `pow` is `Pow`. -/
def SrgbToLinear (pow : α → α → α) (sRGB : α) : α :=
  if sRGB < 0.04045 then sRGB / 12.92 else pow ((sRGB + 0.055) / 1.055) 2.4

/-- `LinearToSrgb(linear)`. -/
def LinearToSrgb (pow : α → α → α) (linear : α) : α :=
  if linear < 0.0031308 then linear * 12.92 else 1.055 * pow linear (1 / 2.4) - 0.055

end Scalars

/-! ## Shading of a hit (main.cpp, `ThreadProc`) -/

/-- `struct shape_material`. -/
structure shape_material (α : Type) where
  color : v3 α
  reflectivity : α
deriving DecidableEq, Repr

/-- The accumulators of the occluder loop: `lMin`, `lSum`, `blockCount`, `blockedSum`. -/
structure shadow_accum (α : Type) where
  lMin : α
  lSum : α
  blockCount : α
  blockedSum : α
deriving DecidableEq, Repr

/-- The values computed for a hit inside `if (shapeIndex){ ... }`: `pointLightPre` is
`pointLight` before `if (pointLight){ ... }`, `l` the shadow multiplier (1 when the
shadow code is skipped), `pointLight` its value afterwards. -/
structure hit_shading (α : Type) where
  p : v3 α
  n : v3 α
  emit : α
  shapeCol : v3 α
  reflectivity : α
  pointLightLength : α
  pointLightDir : v3 α
  pointLightPre : α
  l : α
  pointLight : α
  reflectionCol : v3 α
  specular : v3 α
  col : v3 α
deriving DecidableEq, Repr

/-- The per-frame read-only part of `global_state` that the pixel code uses. -/
structure frame_state (α : Type) where
  frameDimX : Int
  frameDimY : Int
  camera : frame_camera α
  camNear : α
  camFar : α
  fovY : α
deriving DecidableEq, Repr

section Shading

variable {α : Type} [LinearOrderedField α]

/-- `ShapeMaterial(color, reflectivity)`. -/
def ShapeMaterial (color : v3 α) (reflectivity : α) : shape_material α :=
  { color := color, reflectivity := reflectivity }

/-- The array `shape_material materials[12]` declared for every pixel: the slots
1 to 6 and 10 are assigned; reading any other slot (`none`) reads an uninitialised or
out-of-range element. -/
def materials (shapeIndex : Int) : Option (shape_material α) :=
  if shapeIndex = 1 then some (ShapeMaterial (V3xyz 0.5) 1)
  else if shapeIndex = 2 then some (ShapeMaterial (V3 1 0.3 0.3) 1)
  else if shapeIndex = 3 then some (ShapeMaterial (V3 0.3 1 0.5) 1)
  else if shapeIndex = 4 then some (ShapeMaterial (V3 0.3 0.3 0.9) 0.5)
  else if shapeIndex = 5 then some (ShapeMaterial (V3 1 1 1) 0)
  else if shapeIndex = 6 then some (ShapeMaterial (V3 0.3 0.3 0.3) 0)
  else if shapeIndex = 10 then some (ShapeMaterial (V3 0.5 0.8 0.4) 0)
  else none

/-- `spheres[i]` (the indices used by the pixel code are inside the array). -/
def sphereAt (spheres : List (sphere α)) (i : Nat) : sphere α :=
  spheres.getD i { c := V3 0 0 0, r := 0 }

/-- The light term before the shadow code:
`pointLight = 10/SQUARE(pointLightLength) + 5/pointLightLength;`
`pointLight *= Max(0, Dot(n, pointLightDir));`
`pointLight *= Clamp01(MapRangeTo01(pointLight, .002f, .01f));`. -/
def pointLightTerm (pointLightLength : α) (n pointLightDir : v3 α) : α :=
  let pointLight := 10 / (pointLightLength * pointLightLength) + 5 / pointLightLength
  let pointLight := pointLight * Max 0 (Dot n pointLightDir)
  pointLight * Clamp01 (MapRangeTo01 pointLight 0.002 0.01)

/-- `blockedAmount` of the occluder loop for cone radius `r`, projected distance `dis`
and occluder radius `sphereR`:
`len = Min(r, dis + sphereR) - Max(-r, dis - sphereR)`,
`blockedAmount = Map01ToReverseSquare(Clamp01(len/r))`. -/
def blockedAmountOf (r dis sphereR : α) : α :=
  let len := Min r (dis + sphereR) - Max (-r) (dis - sphereR)
  Map01ToReverseSquare (Clamp01 (len / r))

/-- The update `if (blockedAmount){ blockCount++; blockedSum += blockedAmount;
lMin = Min(lMin, 1.f - blockedAmount); lSum = Max(0, lSum - blockedAmount); }`. -/
def accumulateBlocked (acc : shadow_accum α) (blockedAmount : α) : shadow_accum α :=
  if blockedAmount ≠ 0 then
    { blockCount := acc.blockCount + 1
      blockedSum := acc.blockedSum + blockedAmount
      lMin := Min acc.lMin (1 - blockedAmount)
      lSum := Max 0 (acc.lSum - blockedAmount) }
  else acc

/-- The value of `blockedAmount` that iteration `i` of the occluder loop computes for
sphere `s`, or `none` when the iteration ends at one of its two `continue`s (the light
itself, `i == 4`, or `d < 0 || d > pointLightLength`). -/
def occluderBlocked (sqrt : α → α) (p pointLightDir : v3 α) (pointLightLength r0 r1 : α)
    (perpX perpY : v3 α) (i : Nat) (s : sphere α) : Option α :=
  if i = 4 then none
  else
    let d := Dot (s.c - p) pointLightDir
    if d < 0 ∨ d > pointLightLength then none
    else
      let sphereProj : v2 α := { x := Dot (s.c - p) perpX, y := Dot (s.c - p) perpY }
      let r := LerpClamp r0 r1 (d / pointLightLength)
      let dis := LengthV2 sqrt sphereProj
      some (blockedAmountOf r dis s.r)

/-- The occluder loop `for(s32 i = 0; i < ArrayCount(spheres); i++)` over the remaining
spheres, `i` being the index of the first of them. -/
def occluderLoop (sqrt : α → α) (p pointLightDir : v3 α) (pointLightLength r0 r1 : α)
    (perpX perpY : v3 α) : List (sphere α) → Nat → shadow_accum α → shadow_accum α
  | [], _, acc => acc
  | s :: rest, i, acc =>
    occluderLoop sqrt p pointLightDir pointLightLength r0 r1 perpX perpY rest (i + 1)
      (match occluderBlocked sqrt p pointLightDir pointLightLength r0 r1 perpX perpY i s with
       | none => acc
       | some blockedAmount => accumulateBlocked acc blockedAmount)

/-- The final blend: `l = 1`, and
`if (blockCount) l = Min(lMin, Lerp(lMin, Lerp(lSum, 1.f - blockedSum/blockCount, .5f), .5f))`. -/
def shadowMultiplier (acc : shadow_accum α) : α :=
  if acc.blockCount ≠ 0 then
    Min acc.lMin (Lerp acc.lMin (Lerp acc.lSum (1 - acc.blockedSum / acc.blockCount) 0.5) 0.5)
  else 1

/-- The accumulators at the end of the occluder loop of the soft-shadow code
(`#if 1` branch): `r0` and `r1` are the radii of the cone of vision at `p` and at the
light, `perpX`, `perpY` span the plane perpendicular to the light direction. -/
def softShadowAccum (sqrt : α → α) (spheres : List (sphere α)) (worldFrameDim : v2 α)
    (frameDimX frameDimY : Int) (t : α) (p pointLightDir : v3 α) (pointLightLength : α) :
    shadow_accum α :=
  let pixelArea := (worldFrameDim.x / (frameDimX : α)) * (worldFrameDim.y / (frameDimY : α))
  let r0 := sqrt (pixelArea / (PI * t))
  let r1 := (sphereAt spheres 4).r
  let perpX := Perpendicular sqrt pointLightDir
  let perpY := Cross perpX pointLightDir
  occluderLoop sqrt p pointLightDir pointLightLength r0 r1 perpX perpY spheres 0
    { lMin := 1, lSum := 1, blockCount := 0, blockedSum := 0 }

/-- The secondary ray: `reflectionCol` inside
`if (reflectivity && shapeIndex <= ArrayCount(spheres)){ ... }`; `none` when
`materials[shapeIndex2]` is not an assigned slot. -/
def reflectionColor (sqrt : α → α) (camNear camFar : α) (frameCamPos p rd n : v3 α) :
    Option (v3 α) :=
  let ro2 := p
  let rd2 := rd - (2 * Dot rd n) * n
  let shapeIndex2 := (traceRay sqrt camNear camFar frameCamPos ro2 rd2).2
  let col2 : Option (v3 α) :=
    if shapeIndex2 ≠ 0 then (materials shapeIndex2).map (fun m => m.color)
    else some (V3xyz 0)
  col2.map (fun c => c * (0.06 * Square (Clamp01 (1 - Dot n (-rd))) + 0.01))

/-- The Blinn-Phong term: `specular` after `if (pointLight){ ... }`; `pow` is `Pow`. -/
def specularTerm (sqrt : α → α) (pow : α → α → α) (pointLight pointLightLength : α)
    (pointLightDir rd n : v3 α) : v3 α :=
  if pointLight ≠ 0 then
    let l := pointLightDir
    let v := -rd
    let h := Normalize sqrt (l + v)
    let intensity := 3 * pow (Dot n h) 50
    (pointLight * intensity) * (V3 1 1 1 : v3 α) / pointLightLength
  else V3 0 0 0

/-- The body of `if (shapeIndex){ ... }` for the primary hit `(t, shapeIndex)` of the ray
`(ro, rd)`; `none` when `materials[shapeIndex]` or `materials[shapeIndex2]` is not an
assigned slot. -/
def shadeHit (sqrt : α → α) (pow : α → α → α) (camNear camFar : α) (frameCamPos : v3 α)
    (worldFrameDim : v2 α) (frameDimX frameDimY : Int) (ro rd : v3 α) (t : α)
    (shapeIndex : Int) : Option (hit_shading α) :=
  let spheres := sceneSpheres frameCamPos
  let pointLightPos := (sphereAt spheres 4).c
  match materials shapeIndex with
  | none => none
  | some material =>
    let p := ro + t * rd
    let shapeCol := material.color
    let reflectivity := material.reflectivity
    let isSphere : Prop := shapeIndex ≥ 1 ∧ toUmm shapeIndex ≤ (spheres.length : Int)
    let n : v3 α :=
      if isSphere then NormalSphere (sphereAt spheres (shapeIndex - 1).toNat) p
      else if shapeIndex = 10 then NormalPlane
      else V3 0 0 0
    let emit : α := if isSphere then (if shapeIndex = 5 then 1 else 0) else 0
    let pointLightLength := Length sqrt (pointLightPos - p)
    let pointLightDir := Normalize sqrt (pointLightPos - p)
    let pointLightPre := pointLightTerm pointLightLength n pointLightDir
    let l : α :=
      if pointLightPre ≠ 0 then
        shadowMultiplier (softShadowAccum sqrt spheres worldFrameDim frameDimX frameDimY t p
          pointLightDir pointLightLength)
      else 1
    let pointLight := if pointLightPre ≠ 0 then pointLightPre * l else pointLightPre
    let reflectionCol : Option (v3 α) :=
      if reflectivity ≠ 0 ∧ toUmm shapeIndex ≤ (spheres.length : Int) then
        reflectionColor sqrt camNear camFar frameCamPos p rd n
      else some (V3 0 0 0)
    match reflectionCol with
    | none => none
    | some reflectionCol =>
      let specular := specularTerm sqrt pow pointLight pointLightLength pointLightDir rd n
      some
        { p := p, n := n, emit := emit, shapeCol := shapeCol, reflectivity := reflectivity
          pointLightLength := pointLightLength, pointLightDir := pointLightDir
          pointLightPre := pointLightPre, l := l, pointLight := pointLight
          reflectionCol := reflectionCol, specular := specular
          col := shapeCol * (emit + 0.03 + 0.12 * Max 0 n.y + pointLight) + specular
            + reflectionCol * reflectivity }

/-- Float to integer conversion of a cast: truncation towards zero. -/
def truncToInt [FloorRing α] (x : α) : Int := if x < 0 then ⌈x⌉ else ⌊x⌋

/-- The cast `(u8)(f32)`: truncation, then the low 8 bits. -/
def castU8 [FloorRing α] (x : α) : Int := truncToInt x % 256

/-- The three bytes `pixel[0]`, `pixel[1]`, `pixel[2]` written for the linear colour
`col`: `(u8)(Clamp01(LinearToSrgb(col.r))*255)` and likewise for `g` and `b`
(`r, g, b` alias `x, y, z`). -/
def pixelBytes [FloorRing α] (pow : α → α → α) (col : v3 α) : Int × Int × Int :=
  (castU8 (Clamp01 (LinearToSrgb pow col.x) * 255),
   castU8 (Clamp01 (LinearToSrgb pow col.y) * 255),
   castU8 (Clamp01 (LinearToSrgb pow col.z) * 255))

/-- `worldFrameDim` of `ThreadProc`: `y = Tan(fovY/2)`,
`x = y*(frameDim.x/(f32)frameDim.y)`. -/
def worldFrameDimOf (tan : α → α) (fs : frame_state α) : v2 α :=
  { x := tan (fs.fovY / 2) * ((fs.frameDimX : α) / (fs.frameDimY : α))
    y := tan (fs.fovY / 2) }

/-- The direction `rd` of the camera ray of pixel `(x, y)`. -/
def primaryRay (sqrt : α → α) (tan : α → α) (fs : frame_state α) (x y : Int) : v3 α :=
  cameraRayDir sqrt fs.camera.frameCamForward fs.camera.frameCamRight fs.camera.frameCamUp
    (worldFrameDimOf tan fs) (pixelUV fs.frameDimX fs.frameDimY x y)

/-- The nearest hit `(t, shapeIndex)` of the camera ray of pixel `(x, y)`, whose origin
is `ro = gs->frameCamPos`. -/
def primaryHit (sqrt : α → α) (tan : α → α) (fs : frame_state α) (x y : Int) : α × Int :=
  traceRay sqrt fs.camNear fs.camFar fs.camera.frameCamPos fs.camera.frameCamPos
    (primaryRay sqrt tan fs x y)

/-- The linear colour `col` of pixel `(x, y)`: camera ray, intersection with all
objects, nearest hit, and `col = {0}` unless `shapeIndex` is non-zero. -/
def pixelColor (sqrt : α → α) (pow : α → α → α) (tan : α → α) (fs : frame_state α)
    (x y : Int) : Option (v3 α) :=
  let hit := primaryHit sqrt tan fs x y
  if hit.2 ≠ 0 then
    (shadeHit sqrt pow fs.camNear fs.camFar fs.camera.frameCamPos (worldFrameDimOf tan fs)
      fs.frameDimX fs.frameDimY fs.camera.frameCamPos (primaryRay sqrt tan fs x y)
      hit.1 hit.2).map (fun s => s.col)
  else some (V3xyz 0)

/-- The three bytes written for pixel `(x, y)`. -/
def renderPixel [FloorRing α] (sqrt : α → α) (pow : α → α → α) (tan : α → α)
    (fs : frame_state α) (x y : Int) : Option (Int × Int × Int) :=
  (pixelColor sqrt pow tan fs x y).map (pixelBytes pow)

end Shading

/-! ## The occluder loop as the spec words it -/

section ShadowSpec

variable {α : Type} [LinearOrderedField α]

/-- The list `b_1 .. b_k` of the non-zero blocked fractions of the in-range occluders,
in loop order, for the remaining spheres (`i` is the index of the first of them). -/
def blockedFractions (sqrt : α → α) (p pointLightDir : v3 α) (pointLightLength r0 r1 : α)
    (perpX perpY : v3 α) : List (sphere α) → Nat → List α
  | [], _ => []
  | s :: rest, i =>
    match occluderBlocked sqrt p pointLightDir pointLightLength r0 r1 perpX perpY i s with
    | none => blockedFractions sqrt p pointLightDir pointLightLength r0 r1 perpX perpY rest (i + 1)
    | some b =>
      if b ≠ 0 then
        b :: blockedFractions sqrt p pointLightDir pointLightLength r0 r1 perpX perpY rest (i + 1)
      else blockedFractions sqrt p pointLightDir pointLightLength r0 r1 perpX perpY rest (i + 1)

/-- The non-zero blocked fractions of the soft-shadow code of a shading point, with the
cone radii and the perpendicular basis computed as in `softShadowAccum`. -/
def softShadowFractions (sqrt : α → α) (spheres : List (sphere α)) (worldFrameDim : v2 α)
    (frameDimX frameDimY : Int) (t : α) (p pointLightDir : v3 α) (pointLightLength : α) :
    List α :=
  let pixelArea := (worldFrameDim.x / (frameDimX : α)) * (worldFrameDim.y / (frameDimY : α))
  let r0 := sqrt (pixelArea / (PI * t))
  let r1 := (sphereAt spheres 4).r
  let perpX := Perpendicular sqrt pointLightDir
  let perpY := Cross perpX pointLightDir
  blockedFractions sqrt p pointLightDir pointLightLength r0 r1 perpX perpY spheres 0

end ShadowSpec

/-- The frame state of a 640x480 frame with the camera at the initial position
`(0, 10, -15)`, yaw = pitch = 0, near clip `.001`, far clip `MAX_F32` and a field of view
of 95 degrees (`fovY` in radians, with `PI` as written in math.h). -/
def levelFrame {α : Type} [LinearOrderedField α] : frame_state α :=
  { frameDimX := 640
    frameDimY := 480
    camera :=
      { frameCamPos := V3 0 10 (-15), frameCamForward := V3 0 0 1,
        frameCamRight := V3 1 0 0, frameCamUp := V3 0 1 0 }
    camNear := 1 / 1000
    camFar := MAX_F32
    fovY := 95 * PI / 180 }

/-! ## Integer conversions (base.h) -/

/-- The value ranges of the integer types of base.h (`umm` is 64 bits wide). -/
def inU8 (a : Int) : Prop := 0 ≤ a ∧ a < 256

/-- Range of `s8`. -/
def inS8 (a : Int) : Prop := -128 ≤ a ∧ a < 128

/-- Range of `u16`. -/
def inU16 (a : Int) : Prop := 0 ≤ a ∧ a < 65536

/-- Range of `s16`. -/
def inS16 (a : Int) : Prop := -32768 ≤ a ∧ a < 32768

/-- Range of `u32`. -/
def inU32 (a : Int) : Prop := 0 ≤ a ∧ a < 4294967296

/-- Range of `s32`. -/
def inS32 (a : Int) : Prop := -2147483648 ≤ a ∧ a < 2147483648

/-- Range of `u64` and of `umm`. -/
def inU64 (a : Int) : Prop := 0 ≤ a ∧ a < 18446744073709551616

/-- Range of `s64`. -/
def inS64 (a : Int) : Prop := -9223372036854775808 ≤ a ∧ a < 9223372036854775808

/-- The cast `(u8)a` of an integer: the low 8 bits. -/
def wrapU8 (a : Int) : Int := a % 256

/-- The cast `(s8)a` of an integer. -/
def wrapS8 (a : Int) : Int := (a + 128) % 256 - 128

/-- The cast `(u16)a` of an integer. -/
def wrapU16 (a : Int) : Int := a % 65536

/-- The cast `(s16)a` of an integer. -/
def wrapS16 (a : Int) : Int := (a + 32768) % 65536 - 32768

/-- The cast `(u32)a` of an integer. -/
def wrapU32 (a : Int) : Int := a % 4294967296

/-- `SafeUmmToS32`: `Assert(a < 0x7FFFFFFF); return (s32)a;` (a failed `Assert` is
`none`). -/
def SafeUmmToS32 (a : Int) : Option Int := if a < 0x7FFFFFFF then some (wrapS32 a) else none

/-- `SafeUmmToU32`: `Assert(a <= 0xFFFFFFFF); return (u32)a;`. -/
def SafeUmmToU32 (a : Int) : Option Int := if a ≤ 0xFFFFFFFF then some (wrapU32 a) else none

/-- `SafeUmmToU8`: `Assert(a <= 0xFF); return (u8)a;`. -/
def SafeUmmToU8 (a : Int) : Option Int := if a ≤ 0xFF then some (wrapU8 a) else none

/-- `SafeUmmToU16`: `Assert(a <= 0xFFFF); return (u16)a;`. -/
def SafeUmmToU16 (a : Int) : Option Int := if a ≤ 0xFFFF then some (wrapU16 a) else none

/-- `SafeS32ToU8`: `Assert((a >= 0) && (a <= 0xFF)); return (u8)a;`. -/
def SafeS32ToU8 (a : Int) : Option Int :=
  if a ≥ 0 ∧ a ≤ 0xFF then some (wrapU8 a) else none

/-- `SafeS32ToS8`: `Assert((a >= -128) && (a < 128)); return (s8)a;`. -/
def SafeS32ToS8 (a : Int) : Option Int :=
  if a ≥ -128 ∧ a < 128 then some (wrapS8 a) else none

/-- `SafeS32ToU16`: `Assert((a >= 0) && (a <= 0xFFFF)); return (u16)a;`. -/
def SafeS32ToU16 (a : Int) : Option Int :=
  if a ≥ 0 ∧ a ≤ 0xFFFF then some (wrapU16 a) else none

/-- `SafeS32ToS16`: `Assert((a >= -32768) && (a < 32768)); return (u16)a;`: the value
is cast to `u16` and then converted to the return type `s16`. -/
def SafeS32ToS16 (a : Int) : Option Int :=
  if a ≥ -32768 ∧ a < 32768 then some (wrapS16 (wrapU16 a)) else none

/-- `SafeS64ToS32`:
`Assert((a >= -(s64)0x80000000) && (a < (s64)0x80000000)); return (s32)a;`. -/
def SafeS64ToS32 (a : Int) : Option Int :=
  if a ≥ -0x80000000 ∧ a < 0x80000000 then some (wrapS32 a) else none

/-- `SafeU32ToU8`: `Assert(a <= 0xFF); return (u8)a;`. -/
def SafeU32ToU8 (a : Int) : Option Int := if a ≤ 0xFF then some (wrapU8 a) else none

/-- `SafeU32ToS8`: `Assert(a <= 0x7F); return (s8)a;`. -/
def SafeU32ToS8 (a : Int) : Option Int := if a ≤ 0x7F then some (wrapS8 a) else none

/-- `SafeU32ToU16`: `Assert(a <= 0xFFFF); return (u16)a;`. -/
def SafeU32ToU16 (a : Int) : Option Int := if a ≤ 0xFFFF then some (wrapU16 a) else none

/-- `SafeU32ToS32`: `Assert(a <= 0x7FFFFFFF); return (s32)a;`. -/
def SafeU32ToS32 (a : Int) : Option Int := if a ≤ 0x7FFFFFFF then some (wrapS32 a) else none

/-- `SafeS16ToU16`: `Assert(a >= 0); return (u16)a;`. -/
def SafeS16ToU16 (a : Int) : Option Int := if a ≥ 0 then some (wrapU16 a) else none

/-- `SafeU16ToS16`: `Assert(a < 32768); return (s16)a;`. -/
def SafeU16ToS16 (a : Int) : Option Int := if a < 32768 then some (wrapS16 a) else none

/-- `SafeU64ToU32`: `Assert(a < (u64)0x800000000); return (u32)a;` (the constant has
eight zeros after the 8). -/
def SafeU64ToU32 (a : Int) : Option Int := if a < 0x800000000 then some (wrapU32 a) else none

/-! ## Single-precision rounding -/

/-- Round to the nearest integer, a tie to the even neighbour. -/
def roundHalfEven (x : ℚ) : Int :=
  if x - (⌊x⌋ : ℚ) < 1 / 2 then ⌊x⌋
  else if 1 / 2 < x - (⌊x⌋ : ℚ) then ⌊x⌋ + 1
  else if ⌊x⌋ % 2 = 0 then ⌊x⌋ else ⌊x⌋ + 1

/-- The binary exponent of the `f32` binade of `x`: `floor(log2 |x|)`, and `-126` in the
subnormal range. -/
def f32Exponent (x : ℚ) : Int := max (Int.log 2 |x|) (-126)

/-- The value of type `f32` nearest to the rational `x` (IEEE 754 binary32, round to
nearest, ties to even): the multiple of `2^(e - 23)` nearest to `x`, `e` being the
exponent of the binade of `x`, so 24 significant bits. Overflow to infinity is not
represented: above the largest finite `f32` the result is the 24-bit rounding. -/
def roundF32 (x : ℚ) : ℚ :=
  (roundHalfEven (x / 2 ^ (f32Exponent x - 23)) : ℚ) * 2 ^ (f32Exponent x - 23)

/-! ## Angles (math.h) -/

section Angles

variable {α : Type} [LinearOrderedField α] [FloorRing α]

/-- The cast `(s64)x` of a float: truncation towards zero; a value outside the range
of `s64` has no defined result (`none`). -/
def castS64 (x : α) : Option Int :=
  if -9223372036854775808 ≤ truncToInt x ∧ truncToInt x < 9223372036854775808 then
    some (truncToInt x)
  else none

/-- `FMod(value, mod)`: `value - (mod * (f32)((s64)(value/mod)))`. Each of the four
operations (the division, the conversion of the `s64` to `f32`, the product and the
difference) delivers an `f32`: `rnd` is the rounding of an exact result to `f32`
(`roundF32`; with `id` the arithmetic is read as exact). -/
def FMod (rnd : α → α) (value mod : α) : Option α :=
  match castS64 (rnd (value / mod)) with
  | none => none
  | some q => some (rnd (value - rnd (mod * rnd (q : α))))

/-- `NormalizeAngle(a)`: `FMod(a, 2*PI)`, plus `2*PI` when negative, then minus `2*PI`
when above `PI`; the constant `PI` and every result are rounded by `rnd`. -/
def NormalizeAngle (rnd : α → α) (a : α) : Option α :=
  match FMod rnd a (rnd (2 * rnd PI)) with
  | none => none
  | some result =>
    let result := if result < 0 then rnd (result + rnd (2 * rnd PI)) else result
    some (if result > rnd PI then rnd (result - rnd (2 * rnd PI)) else result)

/-- `NormalizeAnglePositive(a)`: `FMod(a, 2*PI)`, plus `2*PI` when negative. -/
def NormalizeAnglePositive (rnd : α → α) (a : α) : Option α :=
  match FMod rnd a (rnd (2 * rnd PI)) with
  | none => none
  | some result => some (if result < 0 then rnd (result + rnd (2 * rnd PI)) else result)

/-- `AngleDifference(to, from)`: `NormalizeAngle(to - from)`. -/
def AngleDifference (rnd : α → α) (angleTo angleFrom : α) : Option α :=
  NormalizeAngle rnd (rnd (angleTo - angleFrom))

/-- The block `if (limit0 != 0 && limit1 != 2*PI){ ... }` of `ClampAngle`, entered with
the normalised `angle`; returns the new value of `angle`. -/
def ClampAngleLimited (rnd : α → α) (angle limit0 limit1 : α) : Option α :=
  match NormalizeAnglePositive rnd limit0, NormalizeAnglePositive rnd limit1 with
  | some limit0, some limit1 =>
    if limit0 ≤ limit1 then
      if angle < limit0 ∨ angle > limit1 then
        match AngleDifference rnd angle (rnd (rnd (limit1 + limit0) / 2)) with
        | none => none
        | some d => if d < 0 then some limit0 else some limit1
      else some angle
    else
      if angle < limit0 ∧ angle > limit1 then
        match AngleDifference rnd angle (rnd (rnd (limit1 + limit0) / 2)) with
        | none => none
        | some d => if d < 0 then some limit1 else some limit0
      else some angle
  | _, _ => none

/-- `ClampAngle(a, limit0, limit1)`. -/
def ClampAngle (rnd : α → α) (a limit0 limit1 : α) : Option α :=
  match NormalizeAnglePositive rnd a with
  | none => none
  | some angle =>
    match (if limit0 ≠ 0 ∧ limit1 ≠ rnd (2 * rnd PI) then
             ClampAngleLimited rnd angle limit0 limit1
           else some angle) with
    | none => none
    | some angle => some (if angle > rnd PI then rnd (angle - rnd (2 * rnd PI)) else angle)

end Angles

/-- A unit direction one part in 10^12 away from the Z axis:
`(0, 2n, n^2 - 1)/(n^2 + 1)` with `n = 10^12`. -/
def nearAxisDir {α : Type} [LinearOrderedField α] : v3 α :=
  V3 0 (2000000000000 / 1000000000000000000000001)
    (999999999999999999999999 / 1000000000000000000000001)

/-! ## The camera ray before normalisation, and the frame buffer (main.cpp) -/

section FrameBuffer

variable {α : Type} [LinearOrderedField α]

/-- The argument of `NormalizeNonZero` in the camera ray of `ThreadProc`:
`forward + (-1 + 2*uv.x)*right*worldFrameDim.x/2 + (-1 + 2*uv.y)*up*worldFrameDim.y/2`. -/
def cameraRayUnnormalized (frameCamForward frameCamRight frameCamUp : v3 α)
    (worldFrameDim uv : v2 α) : v3 α :=
  frameCamForward + (-1 + 2 * uv.x) * frameCamRight * worldFrameDim.x / (2 : α)
    + (-1 + 2 * uv.y) * frameCamUp * worldFrameDim.y / (2 : α)

/-- The un-normalised direction of the camera ray of pixel `(x, y)`. -/
def primaryRayUnnormalized (tan : α → α) (fs : frame_state α) (x y : Int) : v3 α :=
  cameraRayUnnormalized fs.camera.frameCamForward fs.camera.frameCamRight
    fs.camera.frameCamUp (worldFrameDimOf tan fs) (pixelUV fs.frameDimX fs.frameDimY x y)

end FrameBuffer

section FrameBufferWrites

variable {α : Type} [LinearOrderedField α] [FloorRing α]

/-- The number of bytes of `gs->frameBuffer`:
`malloc(gs->frameDim.x*gs->frameDim.y*3)`, the product computed in `s32` and converted
to `size_t`. -/
def frameBufferSize (frameDimX frameDimY : Int) : Int :=
  toUmm (wrapS32 (wrapS32 (frameDimX * frameDimY) * 3))

/-- The index of `u8 *pixel = &gs->frameBuffer[3*(y*gs->frameDim.x + x)]`, computed in
`s32`. -/
def pixelOffset (frameDimX x y : Int) : Int :=
  wrapS32 (3 * wrapS32 (wrapS32 (y * frameDimX) + x))

/-- A store of one byte into the frame buffer; a store outside the buffer is a fault
(`none`). -/
def storeByte (frameBuffer : List Int) (offset value : Int) : Option (List Int) :=
  if 0 ≤ offset ∧ offset < (frameBuffer.length : Int) then
    some (frameBuffer.set offset.toNat value)
  else none

/-- The stores `pixel[0] = ...; pixel[1] = ...; pixel[2] = ...;` of the bytes of pixel
`(x, y)`. -/
def writePixel (frameBuffer : List Int) (frameDimX x y : Int) (bytes : Int × Int × Int) :
    Option (List Int) :=
  match storeByte frameBuffer (pixelOffset frameDimX x y) bytes.1 with
  | none => none
  | some fb1 =>
    match storeByte fb1 (pixelOffset frameDimX x y + 1) bytes.2.1 with
    | none => none
    | some fb2 => storeByte fb2 (pixelOffset frameDimX x y + 2) bytes.2.2

/-- The loop `for(s32 x = 0; x < gs->frameDim.x; x++){ ... }` of row `y` with `count`
iterations left, the next column being `x`: every iteration renders one pixel and
stores its three bytes. -/
def renderColumns (sqrt : α → α) (pow : α → α → α) (tan : α → α) (fs : frame_state α)
    (y : Int) : Nat → Int → List Int → Option (List Int)
  | 0, _, frameBuffer => some frameBuffer
  | count + 1, x, frameBuffer =>
    match renderPixel sqrt pow tan fs x y with
    | none => none
    | some bytes =>
      match writePixel frameBuffer fs.frameDimX x y bytes with
      | none => none
      | some fb1 => renderColumns sqrt pow tan fs y count (x + 1) fb1

/-- One row: the columns `0 .. frameDim.x - 1`. -/
def renderRow (sqrt : α → α) (pow : α → α → α) (tan : α → α) (fs : frame_state α)
    (y : Int) (frameBuffer : List Int) : Option (List Int) :=
  renderColumns sqrt pow tan fs y fs.frameDimX.toNat 0 frameBuffer

/-- The loop `for(s32 y = ...; y < entry->firstRowY + entry->numRows; y++)` with `count`
iterations left, the next row being `y`. -/
def renderRowsFrom (sqrt : α → α) (pow : α → α → α) (tan : α → α) (fs : frame_state α) :
    Nat → Int → List Int → Option (List Int)
  | 0, _, frameBuffer => some frameBuffer
  | count + 1, y, frameBuffer =>
    match renderRow sqrt pow tan fs y frameBuffer with
    | none => none
    | some fb1 => renderRowsFrom sqrt pow tan fs count (y + 1) fb1

/-- The rendering of one task by a worker:
`for(s32 y = entry->firstRowY; y < entry->firstRowY + entry->numRows; y++)`. The bound, a
sum of two `s32`, does not change during the loop, so the loop runs
`bound - firstRowY` times (not at all when that is not positive) and `y`, which stays
below the bound, never wraps. -/
def renderTask (sqrt : α → α) (pow : α → α → α) (tan : α → α) (fs : frame_state α)
    (entry : work_entry) (frameBuffer : List Int) : Option (List Int) :=
  renderRowsFrom sqrt pow tan fs
    (wrapS32 (entry.firstRowY + entry.numRows) - entry.firstRowY).toNat entry.firstRowY
    frameBuffer

/-- The tasks of a list rendered one after the other, in the order of the list. -/
def renderTasks (sqrt : α → α) (pow : α → α → α) (tan : α → α) (fs : frame_state α) :
    List work_entry → List Int → Option (List Int)
  | [], frameBuffer => some frameBuffer
  | entry :: rest, frameBuffer =>
    match renderTask sqrt pow tan fs entry frameBuffer with
    | none => none
    | some fb1 => renderTasks sqrt pow tan fs rest fb1

/-- Channel `c` (0, 1 or 2) of the three bytes of a pixel. -/
def channelOf (bytes : Int × Int × Int) (c : Int) : Int :=
  if c = 0 then bytes.1 else if c = 1 then bytes.2.1 else bytes.2.2

end FrameBufferWrites

section FrameImage

variable {α : Type} [LinearOrderedField α] [FloorRing α]

/-- The byte that the frozen frame state `fs` determines for offset `k` of the frame
buffer: channel `k % 3` of the pixel in column `(k/3) % width` of row `(k/3) / width`. -/
def frameByteAt (sqrt : α → α) (pow : α → α → α) (tan : α → α) (fs : frame_state α)
    (k : Nat) : Int :=
  channelOf
    ((renderPixel sqrt pow tan fs (((k : Int) / 3) % fs.frameDimX)
      (((k : Int) / 3) / fs.frameDimX)).getD (0, 0, 0))
    ((k : Int) % 3)

/-- The frame that the frozen frame state determines: `3 * width * height` bytes. -/
def renderedFrame (sqrt : α → α) (pow : α → α → α) (tan : α → α) (fs : frame_state α) :
    List Int :=
  (List.range (3 * fs.frameDimX * fs.frameDimY).toNat).map (frameByteAt sqrt pow tan fs)

end FrameImage

/-- `Painted f S fb fb2`: the buffer `fb2` is `fb` with the byte at every offset of `S`
replaced by `f`, every other byte unchanged. -/
def Painted (f : Nat → Int) (S : Nat → Prop) (fb fb2 : List Int) : Prop :=
  fb2.length = fb.length ∧
  ∀ k : Nat, k < fb.length → (S k → fb2[k]? = some (f k)) ∧ (¬ S k → fb2[k]? = fb[k]?)

/-- Offset `k` lies in the bytes of the rows of task `e` in a frame of width `W`:
`3*firstRowY*W ≤ k < 3*(firstRowY + numRows)*W`. -/
def inTaskBytes (W : Int) (e : work_entry) (k : Nat) : Prop :=
  3 * (e.firstRowY * W) ≤ (k : Int) ∧ (k : Int) < 3 * (e.firstRowY * W + e.numRows * W)

/-- A task whose rows lie inside a frame of height `H`. -/
def taskInFrame (H : Int) (e : work_entry) : Prop :=
  0 ≤ e.firstRowY ∧ 0 ≤ e.numRows ∧ e.firstRowY + e.numRows ≤ H

/-- A frame of 2 columns and 25 rows with the camera of `levelFrame`. -/
def narrowFrame {α : Type} [LinearOrderedField α] : frame_state α :=
  { frameDimX := 2
    frameDimY := 25
    camera :=
      { frameCamPos := V3 0 10 (-15), frameCamForward := V3 0 0 1,
        frameCamRight := V3 1 0 0, frameCamUp := V3 0 1 0 }
    camNear := 1 / 1000
    camFar := MAX_F32
    fovY := 95 * PI / 180 }

/-! ## The main loop and the workers as one step relation (main.cpp, `WinMain`) -/

/-- One pass of the main loop of `WinMain` over the work queue:
`if (gs->completedEntriesCount == gs->numEntries){ ...; BeginFrame(); }`.
A failed `Assert` of `BeginFrame` is `none`. `BeginFrame` is one step here: in the
states in which it is called every worker is blocked on the semaphore until
`ReleaseSemaphore`, the last access of `BeginFrame` to shared state (this is proved
below of every reachable state). The log of claims is kept per frame. -/
def mainLoopStep (st : system_state) : Option system_state :=
  if st.gs.completedEntriesCount = st.gs.numEntries then
    match BeginFrame st.gs with
    | none => none
    | some gs2 => some { st with gs := gs2, claimed := [] }
  else some st

/-- Who takes the next step: worker thread `w`, or the main loop. -/
inductive system_action where
  | worker (w : Nat) : system_action
  | mainLoop : system_action
deriving DecidableEq, Repr

/-- One step of the whole system. -/
def systemStep (a : system_action) (st : system_state) : Option system_state :=
  match a with
  | system_action.worker w => workerStep w st
  | system_action.mainLoop => mainLoopStep st

/-- A run of the system: the actions of the list, one after the other; `none` when a
step is not enabled (a blocked worker) or faults (an `Assert`). -/
def runSystem : List system_action → system_state → Option system_state
  | [], st => some st
  | a :: rest, st =>
    match systemStep a st with
    | none => none
    | some st2 => runSystem rest st2

/-- The state in which `WinMain` enters its main loop: the semaphore is created with
count 0 and maximum `frameDim.y`, the worker threads are created (they block on the
semaphore), and `BeginFrame()` is called once. -/
def processStart (frameDimY : Int) (numWorkers : Nat) : Option system_state :=
  match BeginFrame (initialState frameDimY) with
  | none => none
  | some gs => some (startFrame gs numWorkers)

/-- Invariant of the system of main loop and workers for a frame height `H`. -/
structure SystemInv (H : Int) (st : system_state) : Prop where
  claim : ClaimInv ((H + 9) / 10) st
  entries_length : st.gs.entries.length = 100
  frameDimY_eq : st.gs.frameDimY = H
  semaphore_maximum : st.gs.semaphoreEntriesToDo.maximum = H

/-- The interleaving `schedule25` of two workers followed by the last step of worker 1,
after which every task of `frame25` is complete. -/
def trace25 : List system_action :=
  schedule25.map system_action.worker ++ [system_action.worker 1]

/-- The state reached from `frame25` by `trace25`. -/
def finished25 : system_state :=
  { gs := { frame25 with
      semaphoreEntriesToDo := { count := 0, maximum := 25 }
      nextEntry := 3
      completedEntriesCount := 3 }
    workers := [worker_state.waiting, worker_state.waiting]
    claimed := [(1, 2), (1, 1), (0, 0)] }

/-! ## 2D vectors (math.h) -/

/-- `struct v2s` of math.h: two `s32` components. -/
structure v2s where
  x : Int
  y : Int
deriving DecidableEq, Repr

/-- `HadamardV2S(a, b)`: `v2s result = {a.x*a.x, a.y*a.y};` (products of `s32`); the
second parameter, `b` in the source, does not occur in the body. -/
def HadamardV2S (a _b : v2s) : v2s :=
  { x := wrapS32 (a.x * a.x), y := wrapS32 (a.y * a.y) }

section Vectors2

variable {α : Type} [LinearOrderedField α]

/-- `V2(x, y)`. -/
def V2 (x y : α) : v2 α := { x := x, y := y }

/-- `Hadamard(v2, v2)`: `{a.x*b.x, a.y*b.y}`. -/
def Hadamard (a b : v2 α) : v2 α := { x := a.x * b.x, y := a.y * b.y }

/-- `AngleOf(v2)`: `if (a.x && a.y) return ATan2(a.y, a.x); return 0;`; `atan2` is
`ATan2`. -/
def AngleOf (atan2 : α → α → α) (a : v2 α) : α :=
  if a.x ≠ 0 ∧ a.y ≠ 0 then atan2 a.y a.x else 0

/-- `V2LengthDir(length, direction)`: `{Cos(direction)*length, Sin(direction)*length}`. -/
def V2LengthDir (cos sin : α → α) (length direction : α) : v2 α :=
  { x := cos direction * length, y := sin direction * length }

/-- `Normalize(v2)`: `V2LengthDir(1.f, AngleOf(a))`. -/
def NormalizeV2 (cos sin : α → α) (atan2 : α → α → α) (a : v2 α) : v2 α :=
  V2LengthDir cos sin 1 (AngleOf atan2 a)

end Vectors2

/-- The second sphere of the scene, `{ V3(0, 6.f, 0), 3.f }`. -/
def secondSphere {α : Type} [LinearOrderedField α] : sphere α := { c := V3 0 6 0, r := 3 }

/-! ## Theorems: work queue -/

theorem wrapS32_of_range (x : Int) (h1 : -2147483648 ≤ x) (h2 : x < 2147483648) :
    wrapS32 x = x := by
  unfold wrapS32; omega

theorem fillWorkQueue_spec (h : Int) (hh0 : 0 ≤ h) (hcap : h ≤ 999) :
    ∀ (m k : Nat) (gs : global_state), gs.frameDimY = h → gs.numEntries = k →
      gs.entries.length = 100 → ((k + m : Nat) : Int) = (h + 9) / 10 →
      ∃ gs2, fillWorkQueue (10 * k) gs = some gs2 ∧ gs2.numEntries = (k + m : Nat) ∧
        gs2.entries.length = 100 ∧ gs2.frameDimY = h ∧
        gs2.semaphoreEntriesToDo = gs.semaphoreEntriesToDo ∧
        gs2.nextEntry = gs.nextEntry ∧
        gs2.completedEntriesCount = gs.completedEntriesCount ∧
        (∀ j : Nat, j < k → gs2.entries[j]? = gs.entries[j]?) ∧
        (∀ j : Nat, k ≤ j → j < k + m → gs2.entries[j]? = some (rowBand h j)) := by
  intro m
  induction m with
  | zero =>
    intro k gs hf hn hl hk
    refine ⟨gs, ?_, by simpa using hn, hl, hf, rfl, rfl, rfl, fun _ _ => rfl, ?_⟩
    · unfold fillWorkQueue
      have : ¬ (10 * (k : Int) < gs.frameDimY) := by
        rw [hf]; simp at hk; omega
      simp [this]
    · intro j h1 h2; omega
  | succ m ih =>
    intro k gs hf hn hl hk
    have hlt : 10 * (k : Int) < h := by push_cast at hk; omega
    have hk100 : (k : Int) < 100 := by omega
    unfold fillWorkQueue
    have c1 : 10 * (k : Int) < gs.frameDimY := by rw [hf]; exact hlt
    have c2 : 0 ≤ gs.numEntries ∧ gs.numEntries < entriesCapacity := by
      rw [hn]; simp only [entriesCapacity]; omega
    rw [if_pos c1, if_pos c2]
    have hw1 : wrapS32 (10 * (k : Int) + rowsPerEntry) = 10 * ((k + 1 : Nat) : Int) := by
      rw [wrapS32_of_range] <;> simp only [rowsPerEntry] <;> push_cast <;> omega
    have hw2 : wrapS32 (gs.frameDimY - 10 * (k : Int)) = h - 10 * k := by
      rw [hf, wrapS32_of_range] <;> omega
    rw [hw1, hw2]
    obtain ⟨gs2, e1, e2, e3, e4, e5, e6, e7, e8, e9⟩ :=
      ih (k + 1)
        { gs with
          entries := gs.entries.set gs.numEntries.toNat
            { firstRowY := 10 * k, numRows := MinS32 rowsPerEntry (h - 10 * k) }
          numEntries := gs.numEntries + 1 }
        hf (by simp [hn]) (by simp [hl]) (by rw [← hk]; push_cast; omega)
    refine ⟨gs2, e1, ?_, e3, e4, e5, e6, e7, ?_, ?_⟩
    · rw [e2]; push_cast; omega
    · intro j hj
      rw [e8 j (by omega)]
      simp only [hn, Int.toNat_ofNat]
      rw [List.getElem?_set]
      have : k ≠ j := by omega
      simp [this]
    · intro j hj1 hj2
      by_cases hjk : j = k
      · subst hjk
        rw [e8 j (by omega)]
        simp only [hn, Int.toNat_ofNat]
        rw [List.getElem?_set]
        have : j < gs.entries.length := by rw [hl]; omega
        simp only [if_true, this, rowBand, MinS32, rowsPerEntry]
        rw [min_def]
      · exact e9 j (by omega) (by omega)

/-- Shared description of what `BeginFramePublish` leaves behind for a frame height
that passes the capacity assertion. -/
theorem BeginFramePublish_spec (gs : global_state) (hlen : gs.entries.length = 100)
    (hh : 0 ≤ gs.frameDimY)
    (hassert : entriesCapacity > toUmm (gs.frameDimY.tdiv rowsPerEntry)) :
    ∃ gs2 prevCount, BeginFramePublish gs = some (gs2, prevCount) ∧
      (gs.semaphoreEntriesToDo.count = 0 → prevCount = 0) ∧
      gs2.numEntries = (gs.frameDimY + 9) / 10 ∧ gs2.entries.length = 100 ∧
      gs2.frameDimY = gs.frameDimY ∧ gs2.nextEntry = 0 ∧ gs2.completedEntriesCount = 0 ∧
      (∀ j : Nat, (j : Int) < gs2.numEntries →
        gs2.entries[j]? = some (rowBand gs.frameDimY j)) := by
  have hcap : gs.frameDimY ≤ 999 := by
    have h2 : gs.frameDimY.tdiv 10 = gs.frameDimY / 10 := by
      rw [Int.tdiv_eq_ediv hh (by decide)]
    simp only [entriesCapacity, toUmm, rowsPerEntry, h2] at hassert
    split at hassert <;> omega
  obtain ⟨n, hn⟩ : ∃ n : Nat, (n : Int) = (gs.frameDimY + 9) / 10 :=
    ⟨((gs.frameDimY + 9) / 10).toNat, Int.toNat_of_nonneg (by omega)⟩
  obtain ⟨gs2, e1, e2, e3, e4, e5, e6, e7, _, e9⟩ :=
    fillWorkQueue_spec gs.frameDimY hh hcap n 0
      { gs with numEntries := 0, nextEntry := 0, completedEntriesCount := 0 }
      rfl rfl hlen (by simpa using hn)
  refine ⟨{ gs2 with semaphoreEntriesToDo :=
      (ReleaseSemaphore gs2.semaphoreEntriesToDo gs2.numEntries).1 },
    (ReleaseSemaphore gs2.semaphoreEntriesToDo gs2.numEntries).2, ?_, ?_, ?_, e3, e4, e6, e7, ?_⟩
  · unfold BeginFramePublish
    simp only [hassert, if_true]
    simp only [Nat.cast_zero, mul_zero] at e1
    rw [e1]
  · intro h0
    rw [e5]
    unfold ReleaseSemaphore
    split
    · exact h0
    · rfl
  · show gs2.numEntries = _
    rw [e2, ← hn]; simp
  · intro j hj
    show gs2.entries[j]? = _
    rw [e2] at hj
    exact e9 j (Nat.zero_le _) (by exact_mod_cast hj)

/-- The published tasks after `BeginFramePublish`, slot by slot. -/
theorem publishedTasks_getElem? (h : Int) (gs2 : global_state)
    (he : ∀ j : Nat, (j : Int) < gs2.numEntries → gs2.entries[j]? = some (rowBand h j))
    (k : Nat) :
    (publishedTasks gs2)[k]? = if (k : Int) < gs2.numEntries then some (rowBand h k) else none := by
  unfold publishedTasks
  rw [List.getElem?_take]
  by_cases hk : (k : Int) < gs2.numEntries
  · have : k < gs2.numEntries.toNat := by omega
    simp only [this, hk, if_true]
    exact he k hk
  · have : ¬ k < gs2.numEntries.toNat := by omega
    simp only [this, hk, if_false]

/-- C1. For every frame height `h ≥ 0` that passes the capacity assertion of
`BeginFrame`, the published tasks are consecutive row bands: task `k` starts at row
`10*k` and has `min(10, h - 10*k)` rows, every task has between 1 and 10 rows, the
bands of two different tasks share no row, and a row is rendered by some task exactly
when it lies in `[0, h)`. `BeginFrame` itself returns this state when no permit is
outstanding at the call. -/
theorem BeginFrame_tasks_partition_rows (gs : global_state)
    (hlen : gs.entries.length = 100) (hh : 0 ≤ gs.frameDimY)
    (hassert : entriesCapacity > toUmm (gs.frameDimY.tdiv rowsPerEntry)) :
    ∃ gs2 prevCount, BeginFramePublish gs = some (gs2, prevCount) ∧
      (gs.semaphoreEntriesToDo.count = 0 → BeginFrame gs = some gs2) ∧
      (∀ k : Nat, k < (publishedTasks gs2).length →
        (publishedTasks gs2)[k]? =
          some { firstRowY := 10 * k, numRows := min 10 (gs.frameDimY - 10 * k) }) ∧
      (∀ e ∈ publishedTasks gs2, 1 ≤ e.numRows ∧ e.numRows ≤ 10) ∧
      (∀ (j k : Nat) (ej ek : work_entry), (publishedTasks gs2)[j]? = some ej →
        (publishedTasks gs2)[k]? = some ek → j ≠ k →
        ∀ row : Int, ¬ (ej.covers row ∧ ek.covers row)) ∧
      (∀ row : Int, (0 ≤ row ∧ row < gs.frameDimY) ↔
        ∃ e ∈ publishedTasks gs2, e.covers row) := by
  obtain ⟨gs2, prevCount, e1, e2, e3, e4, _, _, _, e8⟩ :=
    BeginFramePublish_spec gs hlen hh hassert
  have hcap : gs.frameDimY ≤ 999 := by
    have h2 : gs.frameDimY.tdiv 10 = gs.frameDimY / 10 := by
      rw [Int.tdiv_eq_ediv hh (by decide)]
    simp only [entriesCapacity, toUmm, rowsPerEntry, h2] at hassert
    split at hassert <;> omega
  have key := publishedTasks_getElem? gs.frameDimY gs2 e8
  have hget : ∀ (k : Nat) (e : work_entry), (publishedTasks gs2)[k]? = some e →
      (k : Int) < gs2.numEntries ∧ e = rowBand gs.frameDimY k := by
    intro k e hk
    rw [key k] at hk
    split at hk
    · exact ⟨by assumption, by injection hk with hk; exact hk.symm⟩
    · exact absurd hk (by simp)
  refine ⟨gs2, prevCount, e1, ?_, ?_, ?_, ?_, ?_⟩
  · intro h0
    unfold BeginFrame
    rw [e1]
    simp [e2 h0]
  · intro k hk
    obtain ⟨e, he⟩ : ∃ e, (publishedTasks gs2)[k]? = some e :=
      ⟨_, List.getElem?_eq_getElem hk⟩
    rw [he, (hget k e he).2]
    rfl
  · intro e he
    obtain ⟨k, hk⟩ := List.mem_iff_getElem?.mp he
    obtain ⟨h1, h2⟩ := hget k e hk
    subst h2
    simp only [rowBand]
    rw [e3] at h1
    constructor
    · apply le_min <;> omega
    · exact min_le_left _ _
  · intro j k ej ek hj hk hjk row hcov
    obtain ⟨_, h2⟩ := hget j ej hj
    obtain ⟨_, h4⟩ := hget k ek hk
    subst h2; subst h4
    simp only [work_entry.covers, rowBand] at hcov
    obtain ⟨⟨a1, a2⟩, b1, b2⟩ := hcov
    have := min_le_left (10 : Int) (gs.frameDimY - 10 * (j : Int))
    have := min_le_left (10 : Int) (gs.frameDimY - 10 * (k : Int))
    omega
  · intro row
    constructor
    · rintro ⟨r0, r1⟩
      have hk : ((row / 10).toNat : Int) = row / 10 := Int.toNat_of_nonneg (by omega)
      have hlt : ((row / 10).toNat : Int) < gs2.numEntries := by rw [e3, hk]; omega
      refine ⟨rowBand gs.frameDimY (row / 10).toNat, ?_, ?_⟩
      · apply List.mem_iff_getElem?.mpr
        exact ⟨(row / 10).toNat, by rw [key, if_pos hlt]⟩
      · simp only [work_entry.covers, rowBand, hk]
        refine ⟨by omega, ?_⟩
        rcases min_choice (10 : Int) (gs.frameDimY - 10 * (row / 10)) with hm | hm <;>
          rw [hm] <;> omega
    · rintro ⟨e, he, hcov⟩
      obtain ⟨k, hk⟩ := List.mem_iff_getElem?.mp he
      obtain ⟨_, h2⟩ := hget k e hk
      subst h2
      simp only [work_entry.covers, rowBand] at hcov
      have := min_le_right (10 : Int) (gs.frameDimY - 10 * (k : Int))
      omega

/-- Witness for C1: a freshly started process with a frame of 25 rows. -/
theorem BeginFrame_tasks_partition_rows_witness :
    (initialState 25).entries.length = 100 ∧ 0 ≤ (initialState 25).frameDimY ∧
    entriesCapacity > toUmm ((initialState 25).frameDimY.tdiv rowsPerEntry) ∧
    ∃ gs2 prevCount, BeginFramePublish (initialState 25) = some (gs2, prevCount) ∧
      ((initialState 25).semaphoreEntriesToDo.count = 0 →
        BeginFrame (initialState 25) = some gs2) ∧
      (∀ k : Nat, k < (publishedTasks gs2).length →
        (publishedTasks gs2)[k]? =
          some { firstRowY := 10 * k,
                 numRows := min 10 ((initialState 25).frameDimY - 10 * k) }) ∧
      (∀ e ∈ publishedTasks gs2, 1 ≤ e.numRows ∧ e.numRows ≤ 10) ∧
      (∀ (j k : Nat) (ej ek : work_entry), (publishedTasks gs2)[j]? = some ej →
        (publishedTasks gs2)[k]? = some ek → j ≠ k →
        ∀ row : Int, ¬ (ej.covers row ∧ ek.covers row)) ∧
      (∀ row : Int, (0 ≤ row ∧ row < (initialState 25).frameDimY) ↔
        ∃ e ∈ publishedTasks gs2, e.covers row) :=
  ⟨by simp [initialState], by decide, by decide,
    BeginFrame_tasks_partition_rows (initialState 25) (by simp [initialState]) (by decide)
      (by decide)⟩

/-- C2. Whenever the assertion `ArrayCount(entries) > frameDim.y/rowsPerEntry` holds
for a height `frameDim.y ≥ 0`, the loop of `BeginFrame` runs without writing outside
`entries` (the model returns `some`; an out-of-range write would be `none`), the
number of tasks written is `ceil(frameDim.y/10)` and at most 100, and `nextEntry`
and `completedEntriesCount` are left at 0. -/
theorem BeginFrame_task_count_within_capacity (gs : global_state)
    (hlen : gs.entries.length = 100) (hh : 0 ≤ gs.frameDimY)
    (hassert : entriesCapacity > toUmm (gs.frameDimY.tdiv rowsPerEntry)) :
    ∃ gs2 prevCount, BeginFramePublish gs = some (gs2, prevCount) ∧
      (gs.semaphoreEntriesToDo.count = 0 → BeginFrame gs = some gs2) ∧
      gs2.numEntries = ⌈(gs.frameDimY : ℚ) / 10⌉ ∧
      0 ≤ gs2.numEntries ∧ gs2.numEntries ≤ entriesCapacity ∧
      ((publishedTasks gs2).length : Int) = gs2.numEntries ∧
      gs2.entries.length = 100 ∧
      gs2.nextEntry = 0 ∧ gs2.completedEntriesCount = 0 := by
  obtain ⟨gs2, prevCount, e1, e2, e3, e4, _, e6, e7, _⟩ :=
    BeginFramePublish_spec gs hlen hh hassert
  have hcap : gs.frameDimY ≤ 999 := by
    have h2 : gs.frameDimY.tdiv 10 = gs.frameDimY / 10 := by
      rw [Int.tdiv_eq_ediv hh (by decide)]
    simp only [entriesCapacity, toUmm, rowsPerEntry, h2] at hassert
    split at hassert <;> omega
  refine ⟨gs2, prevCount, e1, ?_, ?_, ?_, ?_, ?_, e4, e6, e7⟩
  · intro h0
    unfold BeginFrame
    rw [e1]
    simp [e2 h0]
  · rw [e3]
    symm
    rw [Int.ceil_eq_iff]
    have h1 : (10 : Int) * ((gs.frameDimY + 9) / 10) ≤ gs.frameDimY + 9 := by omega
    have h2 : gs.frameDimY ≤ 10 * ((gs.frameDimY + 9) / 10) := by omega
    have h1q : (10 : ℚ) * (((gs.frameDimY + 9) / 10 : Int) : ℚ) ≤ (gs.frameDimY : ℚ) + 9 := by
      exact_mod_cast h1
    have h2q : (gs.frameDimY : ℚ) ≤ 10 * (((gs.frameDimY + 9) / 10 : Int) : ℚ) := by
      exact_mod_cast h2
    constructor
    · linarith
    · linarith
  · rw [e3]; omega
  · rw [e3]; simp only [entriesCapacity]; omega
  · unfold publishedTasks
    rw [List.length_take, e4]
    rw [e3]
    omega

/-- Witness for C2: the frame height 480 of the program. -/
theorem BeginFrame_task_count_within_capacity_witness :
    (initialState 480).entries.length = 100 ∧ 0 ≤ (initialState 480).frameDimY ∧
    entriesCapacity > toUmm ((initialState 480).frameDimY.tdiv rowsPerEntry) ∧
    ∃ gs2 prevCount, BeginFramePublish (initialState 480) = some (gs2, prevCount) ∧
      ((initialState 480).semaphoreEntriesToDo.count = 0 →
        BeginFrame (initialState 480) = some gs2) ∧
      gs2.numEntries = ⌈((initialState 480).frameDimY : ℚ) / 10⌉ ∧
      0 ≤ gs2.numEntries ∧ gs2.numEntries ≤ entriesCapacity ∧
      ((publishedTasks gs2).length : Int) = gs2.numEntries ∧
      gs2.entries.length = 100 ∧
      gs2.nextEntry = 0 ∧ gs2.completedEntriesCount = 0 :=
  ⟨by simp [initialState], by decide, by decide,
    BeginFrame_task_count_within_capacity (initialState 480) (by simp [initialState])
      (by decide) (by decide)⟩

/-! ## Theorems: vectors and intersections -/

@[simp] theorem v3_add_x {α : Type} [LinearOrderedField α] (a b : v3 α) : (a + b).x = a.x + b.x := rfl
@[simp] theorem v3_add_y {α : Type} [LinearOrderedField α] (a b : v3 α) : (a + b).y = a.y + b.y := rfl
@[simp] theorem v3_add_z {α : Type} [LinearOrderedField α] (a b : v3 α) : (a + b).z = a.z + b.z := rfl
@[simp] theorem v3_sub_x {α : Type} [LinearOrderedField α] (a b : v3 α) : (a - b).x = a.x - b.x := rfl
@[simp] theorem v3_sub_y {α : Type} [LinearOrderedField α] (a b : v3 α) : (a - b).y = a.y - b.y := rfl
@[simp] theorem v3_sub_z {α : Type} [LinearOrderedField α] (a b : v3 α) : (a - b).z = a.z - b.z := rfl
@[simp] theorem v3_smul_x {α : Type} [LinearOrderedField α] (t : α) (a : v3 α) : (t * a).x = t * a.x := rfl
@[simp] theorem v3_smul_y {α : Type} [LinearOrderedField α] (t : α) (a : v3 α) : (t * a).y = t * a.y := rfl
@[simp] theorem v3_smul_z {α : Type} [LinearOrderedField α] (t : α) (a : v3 α) : (t * a).z = t * a.z := rfl
@[simp] theorem v3_muls_x {α : Type} [LinearOrderedField α] (a : v3 α) (t : α) : (a * t).x = a.x * t := rfl
@[simp] theorem v3_muls_y {α : Type} [LinearOrderedField α] (a : v3 α) (t : α) : (a * t).y = a.y * t := rfl
@[simp] theorem v3_muls_z {α : Type} [LinearOrderedField α] (a : v3 α) (t : α) : (a * t).z = a.z * t := rfl
@[simp] theorem v3_div_x {α : Type} [LinearOrderedField α] (a : v3 α) (t : α) : (a / t).x = a.x / t := rfl
@[simp] theorem v3_div_y {α : Type} [LinearOrderedField α] (a : v3 α) (t : α) : (a / t).y = a.y / t := rfl
@[simp] theorem v3_div_z {α : Type} [LinearOrderedField α] (a : v3 α) (t : α) : (a / t).z = a.z / t := rfl
@[simp] theorem v3_neg_x {α : Type} [LinearOrderedField α] (a : v3 α) : (-a).x = -a.x := rfl
@[simp] theorem v3_neg_y {α : Type} [LinearOrderedField α] (a : v3 α) : (-a).y = -a.y := rfl
@[simp] theorem v3_neg_z {α : Type} [LinearOrderedField α] (a : v3 α) : (-a).z = -a.z := rfl
@[simp] theorem V3_x {α : Type} [LinearOrderedField α] (x y z : α) : (V3 x y z).x = x := rfl
@[simp] theorem V3_y {α : Type} [LinearOrderedField α] (x y z : α) : (V3 x y z).y = y := rfl
@[simp] theorem V3_z {α : Type} [LinearOrderedField α] (x y z : α) : (V3 x y z).z = z := rfl
@[simp] theorem V3xyz_x {α : Type} [LinearOrderedField α] (x : α) : (V3xyz x).x = x := rfl
@[simp] theorem V3xyz_y {α : Type} [LinearOrderedField α] (x : α) : (V3xyz x).y = x := rfl
@[simp] theorem V3xyz_z {α : Type} [LinearOrderedField α] (x : α) : (V3xyz x).z = x := rfl

theorem v3_ext_iff {α : Type} [LinearOrderedField α] (a b : v3 α) : a = b ↔ a.x = b.x ∧ a.y = b.y ∧ a.z = b.z := by
  cases a; cases b; simp

/-- The discriminant test of `IntersectSphere`, unfolded. -/
theorem IntersectSphere_eq (s : sphere ℝ) (ro rd : v3 ℝ) :
    IntersectSphere Real.sqrt s ro rd =
      if 0 ≤ (2 * Dot (ro - s.c) rd) ^ 2 - 4 * (Dot (ro - s.c) (ro - s.c) - s.r ^ 2) then
        (-(2 * Dot (ro - s.c) rd) -
          Real.sqrt ((2 * Dot (ro - s.c) rd) ^ 2 -
            4 * (Dot (ro - s.c) (ro - s.c) - s.r ^ 2))) / 2
      else -1 := by
  unfold IntersectSphere
  simp only [ge_iff_le, pow_two]

/-- The value returned for a non-negative discriminant solves
`t^2 + 2*dot(ro, rd)*t + dot(ro, ro) - r^2 = 0` (`ro` relative to the centre). -/
theorem IntersectSphere_root (s : sphere ℝ) (ro rd : v3 ℝ)
    (hd : 0 ≤ (2 * Dot (ro - s.c) rd) ^ 2 - 4 * (Dot (ro - s.c) (ro - s.c) - s.r ^ 2)) :
    IntersectSphere Real.sqrt s ro rd ^ 2
      + 2 * Dot (ro - s.c) rd * IntersectSphere Real.sqrt s ro rd
      + (Dot (ro - s.c) (ro - s.c) - s.r ^ 2) = 0 := by
  rw [IntersectSphere_eq, if_pos hd]
  have hs := Real.mul_self_sqrt hd
  linear_combination (1 / 4) * hs

/-- A vector of length 1 has `Dot rd rd = 1`. -/
theorem Dot_self_of_Length_eq_one (rd : v3 ℝ) (h : Length Real.sqrt rd = 1) :
    Dot rd rd = 1 := by
  unfold Length at h
  unfold Dot
  have h0 : 0 ≤ rd.x * rd.x + rd.y * rd.y + rd.z * rd.z :=
    add_nonneg (add_nonneg (mul_self_nonneg _) (mul_self_nonneg _)) (mul_self_nonneg _)
  have := Real.mul_self_sqrt h0
  rw [h] at this
  linarith

/-- Squared distance from the centre of the point `ro + t*rd` for a unit direction. -/
theorem dist_sq_along_ray (s : sphere ℝ) (ro rd : v3 ℝ) (t : ℝ) (hu : Dot rd rd = 1) :
    Dot (ro + t * rd - s.c) (ro + t * rd - s.c) =
      t ^ 2 + 2 * Dot (ro - s.c) rd * t + Dot (ro - s.c) (ro - s.c) := by
  unfold Dot at *
  simp only [v3_add_x, v3_add_y, v3_add_z, v3_sub_x, v3_sub_y, v3_sub_z, v3_smul_x,
    v3_smul_y, v3_smul_z]
  linear_combination (t ^ 2) * hu

theorem Length_eq_sqrt_Dot (a : v3 ℝ) : Length Real.sqrt a = Real.sqrt (Dot a a) := rfl

/-- Distance of the returned hit point from the centre, for any sign of `r`. -/
theorem IntersectSphere_hit_distance (s : sphere ℝ) (ro rd : v3 ℝ)
    (hunit : Length Real.sqrt rd = 1)
    (hd : 0 ≤ (2 * Dot (ro - s.c) rd) ^ 2 - 4 * (Dot (ro - s.c) (ro - s.c) - s.r ^ 2)) :
    Length Real.sqrt (ro + IntersectSphere Real.sqrt s ro rd * rd - s.c) = |s.r| := by
  rw [Length_eq_sqrt_Dot, dist_sq_along_ray s ro rd _ (Dot_self_of_Length_eq_one rd hunit)]
  have h := IntersectSphere_root s ro rd hd
  have : IntersectSphere Real.sqrt s ro rd ^ 2
      + 2 * Dot (ro - s.c) rd * IntersectSphere Real.sqrt s ro rd
      + Dot (ro - s.c) (ro - s.c) = s.r ^ 2 := by linarith
  rw [this]
  exact Real.sqrt_sq_eq_abs s.r

/-- `Length` of the unit vector along +Z. -/
theorem Length_V3_0_0_1 : Length Real.sqrt (V3 0 0 1 : v3 ℝ) = 1 := by
  simp [Length]

/-- C4: for every sphere (radius `r ≥ 0`), ray origin and unit direction with a
non-negative discriminant, the point `ro + t*rd` for the returned `t` lies on the sphere
surface: its distance from the centre is exactly `r`. (`IntersectSphere` only uses `r`
squared, so for a record with any sign of `r` the distance is `|r|`.) -/
theorem IntersectSphere_hit_on_surface (s : sphere ℝ) (ro rd : v3 ℝ)
    (hunit : Length Real.sqrt rd = 1)
    (hd : 0 ≤ (2 * Dot (ro - s.c) rd) ^ 2 - 4 * (Dot (ro - s.c) (ro - s.c) - s.r ^ 2)) :
    Length Real.sqrt (ro + IntersectSphere Real.sqrt s ro rd * rd - s.c) = |s.r| ∧
    (0 ≤ s.r →
      Length Real.sqrt (ro + IntersectSphere Real.sqrt s ro rd * rd - s.c) = s.r) := by
  have h := IntersectSphere_hit_distance s ro rd hunit hd
  exact ⟨h, fun hr => by rw [h, abs_of_nonneg hr]⟩

/-- Witness for C4: the sphere of radius 5 at the origin seen from `(0,0,-15)`. -/
theorem IntersectSphere_hit_on_surface_witness :
    Length Real.sqrt (V3 0 0 1 : v3 ℝ) = 1 ∧
    (0 : ℝ) ≤ (2 * Dot (V3 0 0 (-15) - (V3xyz 0 : v3 ℝ)) (V3 0 0 1)) ^ 2
      - 4 * (Dot (V3 0 0 (-15) - (V3xyz 0 : v3 ℝ)) (V3 0 0 (-15) - V3xyz 0) - (5 : ℝ) ^ 2) ∧
    Length Real.sqrt (V3 0 0 (-15)
      + IntersectSphere Real.sqrt { c := V3xyz 0, r := 5 } (V3 0 0 (-15)) (V3 0 0 1)
        * (V3 0 0 1 : v3 ℝ) - V3xyz 0) = (5 : ℝ) :=
  ⟨Length_V3_0_0_1, by norm_num [Dot],
    (IntersectSphere_hit_on_surface { c := V3xyz 0, r := 5 } (V3 0 0 (-15)) (V3 0 0 1)
      Length_V3_0_0_1 (by norm_num [Dot])).2 (by norm_num)⟩

/-- Every root of the quadratic of `IntersectSphere` is at least the returned value. -/
theorem IntersectSphere_le_root (s : sphere ℝ) (ro rd : v3 ℝ)
    (hd : 0 ≤ (2 * Dot (ro - s.c) rd) ^ 2 - 4 * (Dot (ro - s.c) (ro - s.c) - s.r ^ 2))
    (t2 : ℝ)
    (ht : t2 ^ 2 + 2 * Dot (ro - s.c) rd * t2 + (Dot (ro - s.c) (ro - s.c) - s.r ^ 2) = 0) :
    IntersectSphere Real.sqrt s ro rd ≤ t2 := by
  rw [IntersectSphere_eq, if_pos hd]
  have hsq : (2 * t2 + 2 * Dot (ro - s.c) rd) ^ 2 ≤
      (2 * Dot (ro - s.c) rd) ^ 2 - 4 * (Dot (ro - s.c) (ro - s.c) - s.r ^ 2) := by
    apply le_of_eq
    linear_combination 4 * ht
  have habs := Real.abs_le_sqrt hsq
  have hneg := neg_abs_le (2 * t2 + 2 * Dot (ro - s.c) rd)
  linarith

/-- C5. `IntersectSphere` returns exactly -1 when the discriminant is negative;
otherwise it returns the lower root of `t^2 + 2*dot(ro-c, rd)*t + dot(ro-c, ro-c) - r^2`:
it is a root and no root is smaller, and for a unit direction every `t'` whose point
`ro + t'*rd` is at distance `r` from the centre satisfies `t ≤ t'`. -/
theorem IntersectSphere_sentinel_or_lower_root (s : sphere ℝ) (ro rd : v3 ℝ) :
    ((2 * Dot (ro - s.c) rd) ^ 2 - 4 * (Dot (ro - s.c) (ro - s.c) - s.r ^ 2) < 0 →
      IntersectSphere Real.sqrt s ro rd = -1) ∧
    (0 ≤ (2 * Dot (ro - s.c) rd) ^ 2 - 4 * (Dot (ro - s.c) (ro - s.c) - s.r ^ 2) →
      (IntersectSphere Real.sqrt s ro rd ^ 2
        + 2 * Dot (ro - s.c) rd * IntersectSphere Real.sqrt s ro rd
        + (Dot (ro - s.c) (ro - s.c) - s.r ^ 2) = 0) ∧
      (∀ t2 : ℝ,
        t2 ^ 2 + 2 * Dot (ro - s.c) rd * t2 + (Dot (ro - s.c) (ro - s.c) - s.r ^ 2) = 0 →
        IntersectSphere Real.sqrt s ro rd ≤ t2) ∧
      (Length Real.sqrt rd = 1 → ∀ t2 : ℝ,
        Length Real.sqrt (ro + t2 * rd - s.c) = s.r →
        IntersectSphere Real.sqrt s ro rd ≤ t2)) := by
  refine ⟨?_, ?_⟩
  · intro hneg
    rw [IntersectSphere_eq, if_neg (not_le.mpr hneg)]
  · intro hd
    refine ⟨IntersectSphere_root s ro rd hd, IntersectSphere_le_root s ro rd hd, ?_⟩
    intro hunit t2 hlen
    apply IntersectSphere_le_root s ro rd hd
    have hdist := dist_sq_along_ray s ro rd t2 (Dot_self_of_Length_eq_one rd hunit)
    rw [Length_eq_sqrt_Dot] at hlen
    have hnonneg : 0 ≤ Dot (ro + t2 * rd - s.c) (ro + t2 * rd - s.c) := by
      unfold Dot
      exact add_nonneg (add_nonneg (mul_self_nonneg _) (mul_self_nonneg _)) (mul_self_nonneg _)
    have hsq := Real.sq_sqrt hnonneg
    rw [hlen] at hsq
    linarith

/-- Witness for C5: a ray that misses the unit sphere (discriminant -12) and a ray
that hits the sphere of radius 5 (discriminant 100). -/
theorem IntersectSphere_sentinel_or_lower_root_witness :
    ((2 * Dot (V3 0 2 (-3) - (V3 0 0 0 : v3 ℝ)) (V3 0 0 1)) ^ 2
        - 4 * (Dot (V3 0 2 (-3) - (V3 0 0 0 : v3 ℝ)) (V3 0 2 (-3) - V3 0 0 0) - (1 : ℝ) ^ 2) < 0 ∧
      IntersectSphere Real.sqrt { c := V3 0 0 0, r := 1 } (V3 0 2 (-3)) (V3 0 0 1) = (-1 : ℝ)) ∧
    ((0 : ℝ) ≤ (2 * Dot (V3 0 0 (-15) - (V3 0 0 0 : v3 ℝ)) (V3 0 0 1)) ^ 2
        - 4 * (Dot (V3 0 0 (-15) - (V3 0 0 0 : v3 ℝ)) (V3 0 0 (-15) - V3 0 0 0) - (5 : ℝ) ^ 2) ∧
      Length Real.sqrt (V3 0 0 1 : v3 ℝ) = 1 ∧
      ∀ t2 : ℝ, Length Real.sqrt (V3 0 0 (-15) + t2 * (V3 0 0 1 : v3 ℝ) - V3 0 0 0) = 5 →
        IntersectSphere Real.sqrt { c := V3 0 0 0, r := 5 } (V3 0 0 (-15)) (V3 0 0 1) ≤ t2) :=
  ⟨⟨by norm_num [Dot],
    (IntersectSphere_sentinel_or_lower_root { c := V3 0 0 0, r := 1 } (V3 0 2 (-3))
      (V3 0 0 1)).1 (by norm_num [Dot])⟩,
   ⟨by norm_num [Dot], Length_V3_0_0_1,
    ((IntersectSphere_sentinel_or_lower_root { c := V3 0 0 0, r := 5 } (V3 0 0 (-15))
      (V3 0 0 1)).2 (by norm_num [Dot])).2.2 Length_V3_0_0_1⟩⟩

/-- C6. `IntersectPlane(heightY, ro, rd)` returns the sentinel -1 for every ray with
`rd.y = 0`; for `rd.y ≠ 0` it returns `t = (heightY - ro.y)/rd.y`, and the `y`
coordinate of `ro + t*rd` is `heightY`. -/
theorem IntersectPlane_sentinel_or_solution {α : Type} [LinearOrderedField α]
    (heightY : α) (ro rd : v3 α) :
    (rd.y = 0 → IntersectPlane heightY ro rd = -1) ∧
    (rd.y ≠ 0 →
      IntersectPlane heightY ro rd = (heightY - ro.y) / rd.y ∧
      (ro + IntersectPlane heightY ro rd * rd).y = heightY) := by
  constructor
  · intro h0
    simp [IntersectPlane, h0]
  · intro hne
    have ht : IntersectPlane heightY ro rd = (heightY - ro.y) / rd.y := by
      simp [IntersectPlane, hne]
    refine ⟨ht, ?_⟩
    rw [ht, v3_add_y, v3_smul_y]
    field_simp

/-- Witness for C6: a horizontal ray and a ray that descends to the ground plane. -/
theorem IntersectPlane_sentinel_or_solution_witness :
    ((V3 1 0 0 : v3 ℚ).y = 0 ∧ IntersectPlane (0 : ℚ) (V3 0 10 (-15)) (V3 1 0 0) = -1) ∧
    ((V3 0 (-2) 1 : v3 ℚ).y ≠ 0 ∧
      IntersectPlane (0 : ℚ) (V3 0 10 (-15)) (V3 0 (-2) 1) = (0 - 10) / (-2) ∧
      ((V3 0 10 (-15) : v3 ℚ)
        + IntersectPlane (0 : ℚ) (V3 0 10 (-15)) (V3 0 (-2) 1) * (V3 0 (-2) 1 : v3 ℚ)).y = 0) :=
  ⟨⟨rfl, (IntersectPlane_sentinel_or_solution (0 : ℚ) (V3 0 10 (-15)) (V3 1 0 0)).1 rfl⟩,
   ⟨by decide,
    (IntersectPlane_sentinel_or_solution (0 : ℚ) (V3 0 10 (-15)) (V3 0 (-2) 1)).2 (by decide)⟩⟩

/-- What the sphere loop computes from an accumulator `(t0, idx0)`: either nothing in
the list is selected, or the result is the first occurrence of the least distance
that is greater than `camNear` and smaller than `t0`. -/
theorem selectSpheres_spec {α : Type} [LinearOrderedField α] (camNear : α) :
    ∀ (l : List α) (i : Nat) (t0 : α) (idx0 : Int),
      (selectSpheres camNear l i (t0, idx0) = (t0, idx0) ∧
        ∀ c ∈ l, camNear < c → t0 ≤ c) ∨
      (∃ j : Nat, l[j]? = some (selectSpheres camNear l i (t0, idx0)).1 ∧
        (selectSpheres camNear l i (t0, idx0)).2 = 1 + ((i + j : Nat) : Int) ∧
        camNear < (selectSpheres camNear l i (t0, idx0)).1 ∧
        (selectSpheres camNear l i (t0, idx0)).1 < t0 ∧
        (∀ k : Nat, k < j → l[k]? ≠ some (selectSpheres camNear l i (t0, idx0)).1) ∧
        ∀ c ∈ l, camNear < c → (selectSpheres camNear l i (t0, idx0)).1 ≤ c) := by
  intro l
  induction l with
  | nil =>
    intro i t0 idx0
    left
    exact ⟨rfl, fun c hc => absurd hc (List.not_mem_nil c)⟩
  | cons ti rest ih =>
    intro i t0 idx0
    by_cases hsel : ti > camNear ∧ ti < t0
    · have hstep : selectSpheres camNear (ti :: rest) i (t0, idx0) =
          selectSpheres camNear rest (i + 1) (ti, 1 + (i : Int)) := by
        simp only [selectSpheres, hsel, and_self, if_true]
      rw [hstep]
      right
      rcases ih (i + 1) ti (1 + (i : Int)) with ⟨heq, hall⟩ | ⟨j, h1, h2, h3, h4, h5, h6⟩
      · rw [heq]
        refine ⟨0, by simp, by simp, hsel.1, hsel.2, fun k hk => absurd hk (Nat.not_lt_zero k), ?_⟩
        intro c hc hcn
        rcases List.mem_cons.mp hc with rfl | hc
        · exact le_refl _
        · exact hall c hc hcn
      · refine ⟨j + 1, by simpa using h1, ?_, h3, lt_trans h4 hsel.2, ?_, ?_⟩
        · rw [h2]; push_cast; ring
        · intro k hk
          cases k with
          | zero =>
            simp only [List.getElem?_cons_zero, ne_eq, Option.some.injEq]
            exact fun h => (ne_of_gt h4) h
          | succ k =>
            simpa using h5 k (by omega)
        · intro c hc hcn
          rcases List.mem_cons.mp hc with rfl | hc
          · exact le_of_lt h4
          · exact h6 c hc hcn
    · have hstep : selectSpheres camNear (ti :: rest) i (t0, idx0) =
          selectSpheres camNear rest (i + 1) (t0, idx0) := by
        simp only [selectSpheres, hsel, if_false]
      rw [hstep]
      have hti : camNear < ti → t0 ≤ ti := by
        intro h
        by_contra hlt
        exact hsel ⟨h, not_le.mp hlt⟩
      rcases ih (i + 1) t0 idx0 with ⟨heq, hall⟩ | ⟨j, h1, h2, h3, h4, h5, h6⟩
      · left
        refine ⟨heq, ?_⟩
        intro c hc hcn
        rcases List.mem_cons.mp hc with rfl | hc
        · exact hti hcn
        · exact hall c hc hcn
      · right
        refine ⟨j + 1, by simpa using h1, ?_, h3, h4, ?_, ?_⟩
        · rw [h2]; push_cast; ring
        · intro k hk
          cases k with
          | zero =>
            simp only [List.getElem?_cons_zero, ne_eq, Option.some.injEq]
            intro h
            have hle := hti (h ▸ h3)
            exact (ne_of_gt (lt_of_lt_of_le h4 hle)) h
          | succ k =>
            simpa using h5 k (by omega)
        · intro c hc hcn
          rcases List.mem_cons.mp hc with rfl | hc
          · exact le_trans (le_of_lt h4) (hti hcn)
          · exact h6 c hc hcn

/-- C7. Nearest-hit selection over the sphere distances `tSphere` and the plane
distance `tPlane`. If no candidate lies in `(camNear, camFar)` the shape index is 0.
Otherwise the selected `t` is a candidate in `(camNear, camFar)`, no candidate in that
interval is smaller, and the shape index is `1 + i` for the lowest sphere index `i`
whose distance equals `t`, or 10 (the plane) when no sphere distance equals `t`. -/
theorem nearestHit_selects_first_minimum {α : Type} [LinearOrderedField α]
    (camNear camFar : α) (tSphere : List α) (tPlane : α) :
    ((∀ c ∈ tSphere ++ [tPlane], ¬ (camNear < c ∧ c < camFar)) →
      (nearestHit camNear camFar tSphere tPlane).2 = 0) ∧
    ((∃ c ∈ tSphere ++ [tPlane], camNear < c ∧ c < camFar) →
      (camNear < (nearestHit camNear camFar tSphere tPlane).1 ∧
        (nearestHit camNear camFar tSphere tPlane).1 < camFar) ∧
      (nearestHit camNear camFar tSphere tPlane).1 ∈ tSphere ++ [tPlane] ∧
      (∀ c ∈ tSphere ++ [tPlane], camNear < c ∧ c < camFar →
        (nearestHit camNear camFar tSphere tPlane).1 ≤ c) ∧
      ((∃ i : Nat, tSphere[i]? = some (nearestHit camNear camFar tSphere tPlane).1 ∧
          (∀ k : Nat, k < i →
            tSphere[k]? ≠ some (nearestHit camNear camFar tSphere tPlane).1) ∧
          (nearestHit camNear camFar tSphere tPlane).2 = 1 + (i : Int)) ∨
        ((nearestHit camNear camFar tSphere tPlane).1 ∉ tSphere ∧
          tPlane = (nearestHit camNear camFar tSphere tPlane).1 ∧
          (nearestHit camNear camFar tSphere tPlane).2 = 10))) := by
  have hspec := selectSpheres_spec camNear tSphere 0 camFar 0
  by_cases hpl : tPlane > camNear ∧ tPlane < (selectSpheres camNear tSphere 0 (camFar, 0)).1
  · -- the plane is selected
    have hres : nearestHit camNear camFar tSphere tPlane = (tPlane, 10) := by
      simp only [nearestHit, hpl, and_self, if_true]
    have hfar : tPlane < camFar := by
      rcases hspec with ⟨heq, _⟩ | ⟨j, _, _, _, h4, _, _⟩
      · have := hpl.2; rw [heq] at this; exact this
      · exact lt_trans hpl.2 h4
    have hsph : ∀ c ∈ tSphere, camNear < c → tPlane < c := by
      intro c hc hcn
      rcases hspec with ⟨heq, hall⟩ | ⟨j, _, _, _, _, _, h6⟩
      · have := hpl.2; rw [heq] at this
        exact lt_of_lt_of_le this (hall c hc hcn)
      · exact lt_of_lt_of_le hpl.2 (h6 c hc hcn)
    rw [hres]
    refine ⟨?_, ?_⟩
    · intro hnone
      exact absurd ⟨hpl.1, hfar⟩ (hnone tPlane (by simp))
    · intro _
      refine ⟨⟨hpl.1, hfar⟩, by simp, ?_, ?_⟩
      · intro c hc hv
        rcases List.mem_append.mp hc with hc | hc
        · exact le_of_lt (hsph c hc hv.1)
        · rw [List.mem_singleton.mp hc]
      · right
        refine ⟨?_, rfl, rfl⟩
        intro hmem
        exact absurd (hsph tPlane hmem hpl.1) (lt_irrefl _)
  · -- the plane is not selected
    have hres : nearestHit camNear camFar tSphere tPlane =
        selectSpheres camNear tSphere 0 (camFar, 0) := by
      simp only [nearestHit, hpl, if_false]
    rw [hres]
    rcases hspec with ⟨heq, hall⟩ | ⟨j, h1, h2, h3, h4, h5, h6⟩
    · rw [heq] at hpl ⊢
      refine ⟨fun _ => rfl, ?_⟩
      rintro ⟨c, hc, hv⟩
      exfalso
      rcases List.mem_append.mp hc with hc | hc
      · exact absurd (hall c hc hv.1) (not_le.mpr hv.2)
      · rw [List.mem_singleton.mp hc] at hv
        exact hpl hv
    · have hmem : (selectSpheres camNear tSphere 0 (camFar, 0)).1 ∈ tSphere :=
        List.mem_iff_getElem?.mpr ⟨j, h1⟩
      refine ⟨?_, ?_⟩
      · intro hnone
        exact absurd ⟨h3, h4⟩ (hnone _ (List.mem_append_left _ hmem))
      · intro _
        refine ⟨⟨h3, h4⟩, List.mem_append_left _ hmem, ?_, ?_⟩
        · intro c hc hv
          rcases List.mem_append.mp hc with hc | hc
          · exact h6 c hc hv.1
          · have hce := List.mem_singleton.mp hc
            subst hce
            by_contra hlt
            exact hpl ⟨hv.1, not_le.mp hlt⟩
        · left
          exact ⟨j, h1, h5, by rw [h2]; simp⟩

/-- Witness for C7: no candidate in range gives index 0; with distances
`5, 3, 3, 7, -1, -3/2` and plane distance 3 the minimum 3 is attained first by
sphere 1, so the index is 2 although sphere 2 and the plane tie. -/
theorem nearestHit_selects_first_minimum_witness :
    ((∀ c ∈ [(-1 : ℚ), -1, -1, -1, -1, -3 / 2] ++ [-1], ¬ (1 / 1000 < c ∧ c < 1000)) ∧
      (nearestHit (1 / 1000 : ℚ) 1000 [-1, -1, -1, -1, -1, -3 / 2] (-1)).2 = 0) ∧
    ((∃ c ∈ [(5 : ℚ), 3, 3, 7, -1, -3 / 2] ++ [3], 1 / 1000 < c ∧ c < 1000) ∧
      (nearestHit (1 / 1000 : ℚ) 1000 [5, 3, 3, 7, -1, -3 / 2] 3).1 ∈
        [(5 : ℚ), 3, 3, 7, -1, -3 / 2] ++ [3] ∧
      (∀ c ∈ [(5 : ℚ), 3, 3, 7, -1, -3 / 2] ++ [3], 1 / 1000 < c ∧ c < 1000 →
        (nearestHit (1 / 1000 : ℚ) 1000 [5, 3, 3, 7, -1, -3 / 2] 3).1 ≤ c)) :=
  ⟨⟨by norm_num,
    (nearestHit_selects_first_minimum (1 / 1000 : ℚ) 1000 [-1, -1, -1, -1, -1, -3 / 2]
      (-1)).1 (by norm_num)⟩,
   ⟨⟨3, by simp, by norm_num⟩,
    ((nearestHit_selects_first_minimum (1 / 1000 : ℚ) 1000 [5, 3, 3, 7, -1, -3 / 2] 3).2
      ⟨3, by simp, by norm_num⟩).2.1,
    ((nearestHit_selects_first_minimum (1 / 1000 : ℚ) 1000 [5, 3, 3, 7, -1, -3 / 2] 3).2
      ⟨3, by simp, by norm_num⟩).2.2.1⟩⟩

/-- `Real.sqrt` of 100. -/
theorem sqrt_100 : Real.sqrt 100 = 10 := by
  rw [show (100 : ℝ) = 10 ^ 2 by norm_num]
  exact Real.sqrt_sq (by norm_num)

/-- C8. For a camera at `(0,0,-15)` with yaw = pitch = 0, `BeginFrame` freezes the
basis forward `(0,0,1)`, right `(1,0,0)`, up `(0,1,0)`; the ray through the image centre
(pixel (320, 240) of the 640x480 frame) then has direction `(0,0,1)`, whatever the
frustum extent; for the sphere of radius 5 centred at the origin and the ray with
origin `(0,0,-15)` and direction `(0,0,1)`, `IntersectSphere` returns `t = 10` and
`NormalSphere` at the hit point `ro + t*rd` returns `(0,0,-1)`. -/
theorem center_ray_hits_sphere_at_10 :
    BeginFrameCamera Real.cos Real.sin (V3 0 0 (-15)) 0 0 =
      { frameCamPos := V3 0 0 (-15), frameCamForward := V3 0 0 1,
        frameCamRight := V3 1 0 0, frameCamUp := V3 0 1 0 } ∧
    (∀ worldFrameDim : v2 ℝ,
      cameraRayDir Real.sqrt (V3 0 0 1) (V3 1 0 0) (V3 0 1 0) worldFrameDim
        (pixelUV 640 480 320 240) = V3 0 0 1) ∧
    IntersectSphere Real.sqrt { c := V3xyz 0, r := 5 } (V3 0 0 (-15)) (V3 0 0 1) = (10 : ℝ) ∧
    NormalSphere ({ c := V3xyz 0, r := 5 } : sphere ℝ)
      ((V3 0 0 (-15) : v3 ℝ)
        + IntersectSphere Real.sqrt { c := V3xyz 0, r := 5 } (V3 0 0 (-15)) (V3 0 0 1)
          * (V3 0 0 1 : v3 ℝ)) = (V3 0 0 (-1) : v3 ℝ) := by
  have ht : IntersectSphere Real.sqrt { c := V3xyz 0, r := 5 } (V3 0 0 (-15)) (V3 0 0 1)
      = (10 : ℝ) := by
    rw [IntersectSphere_eq]
    norm_num [Dot, sqrt_100]
  refine ⟨?_, ?_, ht, ?_⟩
  · have hrot : YRotation3 Real.cos Real.sin 0 * XRotation3 Real.cos Real.sin 0 =
        ({ p00 := 1, p10 := 0, p20 := 0, p01 := 0, p11 := 1, p21 := 0,
           p02 := 0, p12 := 0, p22 := 1 } : mat3 ℝ) := by
      show mat3.ofArray _ = _
      simp [mat3.ofArray, mat3.p, YRotation3, XRotation3]
    unfold BeginFrameCamera
    simp only [hrot]
    simp [MatrixMultiply, Cross, v3_ext_iff]
  · intro w
    rw [v3_ext_iff]
    simp only [cameraRayDir, NormalizeNonZero, Length, pixelUV, v3_div_x, v3_div_y, v3_div_z,
      v3_add_x, v3_add_y, v3_add_z, v3_muls_x, v3_muls_y, v3_muls_z, v3_smul_x, v3_smul_y,
      v3_smul_z, V3_x, V3_y, V3_z]
    norm_num
  · rw [ht, v3_ext_iff]
    simp only [NormalSphere, v3_div_x, v3_div_y, v3_div_z, v3_add_x, v3_add_y, v3_add_z,
      v3_sub_x, v3_sub_y, v3_sub_z, v3_smul_x, v3_smul_y, v3_smul_z, V3_x, V3_y, V3_z,
      V3xyz_x, V3xyz_y, V3xyz_z]
    norm_num

/-- The threshold of `Normalize` is positive. -/
theorem normalizeEpsilon_pos : (0 : ℝ) < normalizeEpsilon := by
  unfold normalizeEpsilon; norm_num

/-- Dividing a vector by its positive length gives a vector of length 1. -/
theorem Length_div_Length (a : v3 ℝ) (h : 0 < Length Real.sqrt a) :
    Length Real.sqrt (a / Length Real.sqrt a) = 1 := by
  have h0 : 0 ≤ a.x * a.x + a.y * a.y + a.z * a.z :=
    add_nonneg (add_nonneg (mul_self_nonneg _) (mul_self_nonneg _)) (mul_self_nonneg _)
  have hsq : Length Real.sqrt a * Length Real.sqrt a = a.x * a.x + a.y * a.y + a.z * a.z :=
    Real.mul_self_sqrt h0
  have hne : Length Real.sqrt a ≠ 0 := ne_of_gt h
  have : (a / Length Real.sqrt a).x * (a / Length Real.sqrt a).x
      + (a / Length Real.sqrt a).y * (a / Length Real.sqrt a).y
      + (a / Length Real.sqrt a).z * (a / Length Real.sqrt a).z = 1 := by
    simp only [v3_div_x, v3_div_y, v3_div_z]
    field_simp
    linarith
  show Real.sqrt _ = 1
  rw [this, Real.sqrt_one]

/-- C10. `Normalize` returns a vector of length 1 for every input: `a/Length(a)` when
`Length(a) > 1e-11` and the default `(0,0,1)` otherwise, in particular for the zero
vector; its division never has a zero divisor (the checked version returns the same
vector and never faults). -/
theorem Normalize_unit_or_default (a : v3 ℝ) :
    Length Real.sqrt (Normalize Real.sqrt a) = 1 ∧
    (Length Real.sqrt a > 1 / 100000000000 →
      Normalize Real.sqrt a = a / Length Real.sqrt a) ∧
    (¬ Length Real.sqrt a > 1 / 100000000000 → Normalize Real.sqrt a = V3 0 0 1) ∧
    Normalize Real.sqrt (V3 0 0 0 : v3 ℝ) = V3 0 0 1 ∧
    NormalizeChecked Real.sqrt a = some (Normalize Real.sqrt a) := by
  have hpos : Length Real.sqrt a > normalizeEpsilon →
      Normalize Real.sqrt a = a / Length Real.sqrt a := by
    intro h
    simp only [Normalize, h, if_true]
  have hnot : ¬ Length Real.sqrt a > normalizeEpsilon → Normalize Real.sqrt a = V3 0 0 1 := by
    intro h
    simp only [Normalize, h, if_false]
  refine ⟨?_, hpos, hnot, ?_, ?_⟩
  · by_cases h : Length Real.sqrt a > normalizeEpsilon
    · rw [hpos h]
      exact Length_div_Length a (lt_trans normalizeEpsilon_pos h)
    · rw [hnot h]
      exact Length_V3_0_0_1
  · have : ¬ Length Real.sqrt (V3 0 0 0 : v3 ℝ) > normalizeEpsilon := by
      have h0 : Length Real.sqrt (V3 0 0 0 : v3 ℝ) = 0 := by simp [Length]
      rw [h0]
      exact not_lt.mpr (le_of_lt normalizeEpsilon_pos)
    simp only [Normalize, this, if_false]
  · by_cases h : Length Real.sqrt a > normalizeEpsilon
    · have hne : Length Real.sqrt a ≠ 0 := ne_of_gt (lt_trans normalizeEpsilon_pos h)
      simp only [NormalizeChecked, Normalize, h, if_true, v3.divChecked, hne, if_false]
    · simp only [NormalizeChecked, Normalize, h, if_false]

/-- `IntersectSphere` is negative when the origin is strictly inside the sphere,
stated on the squared distance. -/
theorem IntersectSphere_neg_of_inside (s : sphere ℝ) (ro rd : v3 ℝ)
    (hin : Dot (ro - s.c) (ro - s.c) < s.r ^ 2) :
    IntersectSphere Real.sqrt s ro rd < 0 := by
  have hb : (2 * Dot (ro - s.c) rd) ^ 2 <
      (2 * Dot (ro - s.c) rd) ^ 2 - 4 * (Dot (ro - s.c) (ro - s.c) - s.r ^ 2) := by
    linarith
  have hd : 0 ≤ (2 * Dot (ro - s.c) rd) ^ 2 - 4 * (Dot (ro - s.c) (ro - s.c) - s.r ^ 2) :=
    le_trans (sq_nonneg _) (le_of_lt hb)
  rw [IntersectSphere_eq, if_pos hd]
  have h1 := Real.sqrt_lt_sqrt (sq_nonneg _) hb
  rw [Real.sqrt_sq_eq_abs] at h1
  have h2 := neg_abs_le (2 * Dot (ro - s.c) rd)
  linarith

/-- A shape index `1 + j` other than the plane's index 10 is only produced for a sphere
distance greater than `camNear`. -/
theorem nearestHit_index_sphere {α : Type} [LinearOrderedField α]
    (camNear camFar : α) (tSphere : List α) (tPlane : α) (j : Nat)
    (hidx : (nearestHit camNear camFar tSphere tPlane).2 = 1 + (j : Int)) (hj : j ≠ 9) :
    ∃ t, tSphere[j]? = some t ∧ camNear < t := by
  have hspec := selectSpheres_spec camNear tSphere 0 camFar 0
  unfold nearestHit at hidx
  simp only at hidx
  split at hidx
  · exfalso
    simp only at hidx
    omega
  · rcases hspec with ⟨heq, _⟩ | ⟨k, h1, h2, h3, _, _, _⟩
    · exfalso
      rw [heq] at hidx
      simp only at hidx
      omega
    · rw [h2] at hidx
      have hkj : k = j := by
        simp only [zero_add] at hidx
        omega
      subst hkj
      exact ⟨_, h1, h3⟩

/-- C9. For every sphere with `r > 0` and every ray origin strictly inside it
(`|ro - c| < r`), whatever the direction, `IntersectSphere` returns a strictly
negative `t`, exactly `-r` when `ro = c`, so the filter `t > camNear` rejects it for
every `camNear ≥ 0`; and a primary ray from `frameCamPos` never selects the
camera-tracking sphere (shape index 6) when `camNear ≥ 0`. -/
theorem IntersectSphere_negative_inside :
    (∀ (s : sphere ℝ) (ro rd : v3 ℝ), 0 < s.r → Length Real.sqrt (ro - s.c) < s.r →
      IntersectSphere Real.sqrt s ro rd < 0 ∧
      (ro = s.c → IntersectSphere Real.sqrt s ro rd = -s.r) ∧
      (∀ camNear : ℝ, 0 ≤ camNear → ¬ (IntersectSphere Real.sqrt s ro rd > camNear))) ∧
    (∀ (camNear camFar : ℝ) (frameCamPos rd : v3 ℝ), 0 ≤ camNear →
      (traceRay Real.sqrt camNear camFar frameCamPos frameCamPos rd).2 ≠ 6) := by
  have hinside : ∀ (s : sphere ℝ) (ro rd : v3 ℝ), 0 < s.r →
      Length Real.sqrt (ro - s.c) < s.r → IntersectSphere Real.sqrt s ro rd < 0 := by
    intro s ro rd hr hlen
    apply IntersectSphere_neg_of_inside
    rw [Length_eq_sqrt_Dot] at hlen
    exact (Real.sqrt_lt' hr).mp hlen
  refine ⟨?_, ?_⟩
  · intro s ro rd hr hlen
    have hneg := hinside s ro rd hr hlen
    refine ⟨hneg, ?_, ?_⟩
    · intro hc
      rw [hc, IntersectSphere_eq]
      have h0 : ∀ b : v3 ℝ, Dot (s.c - s.c) b = 0 := by
        intro b
        simp [Dot]
      rw [h0, h0]
      have hsq : Real.sqrt ((2 * 0) ^ 2 - 4 * (0 - s.r ^ 2)) = 2 * s.r := by
        rw [show (2 * (0 : ℝ)) ^ 2 - 4 * (0 - s.r ^ 2) = (2 * s.r) ^ 2 by ring]
        exact Real.sqrt_sq (by linarith)
      have hd : (0 : ℝ) ≤ (2 * 0) ^ 2 - 4 * (0 - s.r ^ 2) := by
        nlinarith [sq_nonneg s.r]
      rw [if_pos hd, hsq]
      ring
    · intro camNear hcn hgt
      linarith
  · intro camNear camFar frameCamPos rd hcn hidx
    unfold traceRay at hidx
    obtain ⟨t, ht, hlt⟩ := nearestHit_index_sphere camNear camFar _ _ 5
      (by rw [hidx]; norm_num) (by decide)
    simp only [sceneSpheres, List.map_cons, List.map_nil, List.getElem?_cons_succ,
      List.getElem?_cons_zero, Option.some.injEq] at ht
    have hneg := hinside { c := frameCamPos, r := 1.5 } frameCamPos rd (by norm_num)
      (by
        have : Length Real.sqrt (frameCamPos - frameCamPos) = 0 := by simp [Length]
        rw [this]; norm_num)
    rw [ht] at hneg
    linarith

/-- Witness for C9: an origin inside the sphere of radius 5, and a primary ray of the
initial camera at `(0, 10, -15)` with the program's near clip `.001`. -/
theorem IntersectSphere_negative_inside_witness :
    ((0 : ℝ) < 5 ∧ Length Real.sqrt ((V3 0 0 1 : v3 ℝ) - V3 0 0 0) < 5 ∧
      IntersectSphere Real.sqrt { c := V3 0 0 0, r := 5 } (V3 0 0 1) (V3 0 0 1) < (0 : ℝ)) ∧
    ((0 : ℝ) ≤ 1 / 1000 ∧
      (traceRay Real.sqrt (1 / 1000) 1000000 (V3 0 10 (-15)) (V3 0 10 (-15))
        (V3 0 0 1 : v3 ℝ)).2 ≠ 6) :=
  ⟨⟨by norm_num, by simp [Length],
    (IntersectSphere_negative_inside.1 { c := V3 0 0 0, r := 5 } (V3 0 0 1) (V3 0 0 1)
      (by norm_num) (by simp [Length])).1⟩,
   ⟨by norm_num,
    IntersectSphere_negative_inside.2 (1 / 1000) 1000000 (V3 0 10 (-15)) (V3 0 0 1)
      (by norm_num)⟩⟩

/-! ## Theorems: worker threads -/

/-- Replacing one element of a list changes the sum of `f` over it accordingly. -/
theorem sum_map_set {β : Type} (f : β → Int) :
    ∀ (l : List β) (w : Nat) (a x : β), l[w]? = some a →
      ((l.set w x).map f).sum = (l.map f).sum - f a + f x := by
  intro l
  induction l with
  | nil => intro w a x h; simp at h
  | cons b rest ih =>
    intro w a x h
    cases w with
    | zero =>
      simp only [List.getElem?_cons_zero, Option.some.injEq] at h
      subst h
      simp only [List.set_cons_zero, List.map_cons, List.sum_cons]
      ring
    | succ w =>
      simp only [List.getElem?_cons_succ] at h
      simp only [List.set_cons_succ, List.map_cons, List.sum_cons, ih w a x h]
      ring

/-- A pointwise bound on the summands bounds the sum. -/
theorem sum_map_le_add {β : Type} (f g : β → Int) (h : ∀ a, f a ≤ g a + 2) :
    ∀ l : List β, (l.map f).sum ≤ (l.map g).sum + 2 * (l.length : Int) := by
  intro l
  induction l with
  | nil => simp
  | cons b rest ih =>
    simp only [List.map_cons, List.sum_cons, List.length_cons]
    have := h b
    push_cast
    linarith

/-- A sum of non-negative summands is non-negative. -/
theorem sum_map_nonneg {β : Type} (f : β → Int) (h : ∀ a, 0 ≤ f a) :
    ∀ l : List β, 0 ≤ (l.map f).sum := by
  intro l
  induction l with
  | nil => simp
  | cons b rest ih =>
    simp only [List.map_cons, List.sum_cons]
    have := h b
    linarith

theorem stepsLeft_nonneg (k : Int) (p : worker_state) : 0 ≤ stepsLeft k p := by
  cases p <;> simp only [stepsLeft] <;> try split
  all_goals omega

theorem stepsLeft_le_add (k k2 : Int) (p : worker_state) :
    stepsLeft k2 p ≤ stepsLeft k p + 2 := by
  cases p <;> simp only [stepsLeft] <;> try split
  all_goals try split
  all_goals omega

theorem claimingWeight_nonneg (p : worker_state) : 0 ≤ claimingWeight p := by
  unfold claimingWeight; split <;> omega

theorem renderingWeight_nonneg (p : worker_state) : 0 ≤ renderingWeight p := by
  cases p <;> simp [renderingWeight]

theorem claimMeasure_nonneg (n : Int) (st : system_state) (h : ClaimInv n st) :
    0 ≤ claimMeasure n st := by
  unfold claimMeasure
  have h1 := sum_map_nonneg (stepsLeft st.gs.nextEntry) (stepsLeft_nonneg _) st.workers
  have h2 := h.sem_nonneg
  have h3 := sum_map_nonneg claimingWeight claimingWeight_nonneg st.workers
  have h4 := h.permits
  have h5 : 0 ≤ n - st.gs.nextEntry := by linarith
  have h6 : (0 : Int) ≤ 2 * (st.workers.length : Int) := by positivity
  have := mul_nonneg h6 h5
  linarith

/-- Every step of a worker keeps the invariant and lowers the measure. -/
theorem workerStep_preserves (n : Int) (hn : n ≤ 100) (w : Nat) (st st2 : system_state)
    (hinv : ClaimInv n st) (hstep : workerStep w st = some st2) :
    ClaimInv n st2 ∧ claimMeasure n st2 + 1 ≤ claimMeasure n st ∧
      st2.workers.length = st.workers.length := by
  obtain ⟨i1, i2, i3, i4, i5, i6, i7⟩ := hinv
  have hcw := fun a x h => sum_map_set claimingWeight st.workers w a x h
  have hrw := fun a x h => sum_map_set renderingWeight st.workers w a x h
  have hsl := fun k a x h => sum_map_set (stepsLeft k) st.workers w a x h
  have cW : claimingWeight worker_state.waiting = 0 := rfl
  have cR : claimingWeight worker_state.reading = 1 := rfl
  have cS : ∀ e, claimingWeight (worker_state.swapping e) = 1 := fun _ => rfl
  have cD : ∀ e, claimingWeight (worker_state.rendering e) = 0 := fun _ => rfl
  have rW : renderingWeight worker_state.waiting = 0 := rfl
  have rR : renderingWeight worker_state.reading = 0 := rfl
  have rS : ∀ e, renderingWeight (worker_state.swapping e) = 0 := fun _ => rfl
  have rD : ∀ e, renderingWeight (worker_state.rendering e) = 1 := fun _ => rfl
  have sW : ∀ k, stepsLeft k worker_state.waiting = 0 := fun _ => rfl
  have sR : ∀ k, stepsLeft k worker_state.reading = 3 := fun _ => rfl
  have sD : ∀ k e, stepsLeft k (worker_state.rendering e) = 1 := fun _ _ => rfl
  have sSeq : ∀ k, stepsLeft k (worker_state.swapping k) = 2 := by
    intro k; simp [stepsLeft]
  have sSne : ∀ k e, e ≠ k → stepsLeft k (worker_state.swapping e) = 4 := by
    intro k e h; simp [stepsLeft, h]
  unfold workerStep at hstep
  split at hstep
  · exact absurd hstep (by simp)
  · -- waiting
    rename_i hw
    split at hstep
    · rename_i hpos
      injection hstep with hstep
      subst hstep
      refine ⟨⟨?_, i2, ?_, i4, ?_, i6, i7⟩, ?_, by simp⟩
      · show 0 ≤ st.gs.semaphoreEntriesToDo.count - 1
        omega
      · show st.gs.nextEntry + (st.gs.semaphoreEntriesToDo.count - 1)
          + ((st.workers.set w worker_state.reading).map claimingWeight).sum = n
        rw [hcw _ _ hw, cW, cR]
        omega
      · show st.gs.completedEntriesCount
          + ((st.workers.set w worker_state.reading).map renderingWeight).sum = st.gs.nextEntry
        rw [hrw _ _ hw, rW, rR]
        omega
      · show ((st.workers.set w worker_state.reading).map (stepsLeft st.gs.nextEntry)).sum
          + 4 * (st.gs.semaphoreEntriesToDo.count - 1)
          + 2 * ((st.workers.set w worker_state.reading).length : Int) * (n - st.gs.nextEntry)
          + 1 ≤ claimMeasure n st
        rw [hsl _ _ _ hw, List.length_set, sW, sR]
        unfold claimMeasure
        omega
    · exact absurd hstep (by simp)
  · -- reading
    rename_i hw
    injection hstep with hstep
    subst hstep
    refine ⟨⟨i1, i2, ?_, i4, ?_, i6, i7⟩, ?_, by simp⟩
    · show st.gs.nextEntry + st.gs.semaphoreEntriesToDo.count
        + ((st.workers.set w (worker_state.swapping st.gs.nextEntry)).map claimingWeight).sum = n
      rw [hcw _ _ hw, cR, cS]
      omega
    · show st.gs.completedEntriesCount
        + ((st.workers.set w (worker_state.swapping st.gs.nextEntry)).map renderingWeight).sum
        = st.gs.nextEntry
      rw [hrw _ _ hw, rR, rS]
      omega
    · show ((st.workers.set w (worker_state.swapping st.gs.nextEntry)).map
          (stepsLeft st.gs.nextEntry)).sum
        + 4 * st.gs.semaphoreEntriesToDo.count
        + 2 * ((st.workers.set w (worker_state.swapping st.gs.nextEntry)).length : Int)
          * (n - st.gs.nextEntry)
        + 1 ≤ claimMeasure n st
      rw [hsl _ _ _ hw, List.length_set, sR, sSeq]
      unfold claimMeasure
      omega
  · -- swapping
    rename_i e hw
    split at hstep
    · rename_i heq
      injection hstep with hstep
      subst hstep
      have hsum := hcw _ (worker_state.rendering e) hw
      rw [cS, cD] at hsum
      have hnn := sum_map_nonneg claimingWeight claimingWeight_nonneg
        (st.workers.set w (worker_state.rendering e))
      have he0 : 0 ≤ e := heq ▸ i2
      have hen : e < n := by rw [← heq]; omega
      have hwrap : wrapS32 (e + 1) = e + 1 := wrapS32_of_range _ (by omega) (by omega)
      refine ⟨⟨i1, ?_, ?_, ?_, ?_, i6, i7⟩, ?_, by simp⟩
      · show 0 ≤ wrapS32 (e + 1)
        omega
      · show wrapS32 (e + 1) + st.gs.semaphoreEntriesToDo.count
          + ((st.workers.set w (worker_state.rendering e)).map claimingWeight).sum = n
        rw [hsum, hwrap]
        omega
      · intro e2
        show ((((w, e) :: st.claimed).filter (fun c => c.2 == e2)).length : Nat)
          = if 0 ≤ e2 ∧ e2 < wrapS32 (e + 1) then 1 else 0
        have hc := i4 e2
        unfold claimCount at hc
        rw [hwrap, List.filter_cons]
        by_cases hee : e = e2
        · subst hee
          simp only [beq_self_eq_true, if_true, List.length_cons, hc]
          rw [if_neg (by omega), if_pos (by omega)]
        · have hne : (e == e2) = false := by simpa using hee
          simp only [hne, Bool.false_eq_true, if_false, hc]
          by_cases hr : 0 ≤ e2 ∧ e2 < st.gs.nextEntry
          · rw [if_pos hr, if_pos (by omega)]
          · rw [if_neg hr, if_neg (by omega)]
      · show st.gs.completedEntriesCount
          + ((st.workers.set w (worker_state.rendering e)).map renderingWeight).sum
          = wrapS32 (e + 1)
        rw [hrw _ _ hw, hwrap, rS, rD]
        omega
      · show ((st.workers.set w (worker_state.rendering e)).map
            (stepsLeft (wrapS32 (e + 1)))).sum
          + 4 * st.gs.semaphoreEntriesToDo.count
          + 2 * ((st.workers.set w (worker_state.rendering e)).length : Int)
            * (n - wrapS32 (e + 1))
          + 1 ≤ claimMeasure n st
        have hb := sum_map_le_add (stepsLeft (e + 1)) (stepsLeft e)
          (fun a => stepsLeft_le_add e (e + 1) a)
          (st.workers.set w (worker_state.rendering e))
        have hs := hsl e _ (worker_state.rendering e) hw
        rw [sSeq, sD] at hs
        rw [List.length_set] at hb ⊢
        rw [hwrap]
        unfold claimMeasure
        rw [heq]
        have hexp : 2 * (st.workers.length : Int) * (n - (e + 1))
            = 2 * (st.workers.length : Int) * (n - e) - 2 * (st.workers.length : Int) := by
          ring
        rw [hexp]
        omega
    · rename_i hne
      injection hstep with hstep
      subst hstep
      refine ⟨⟨i1, i2, ?_, i4, ?_, i6, i7⟩, ?_, by simp⟩
      · show st.gs.nextEntry + st.gs.semaphoreEntriesToDo.count
          + ((st.workers.set w worker_state.reading).map claimingWeight).sum = n
        rw [hcw _ _ hw, cS, cR]
        omega
      · show st.gs.completedEntriesCount
          + ((st.workers.set w worker_state.reading).map renderingWeight).sum
          = st.gs.nextEntry
        rw [hrw _ _ hw, rS, rR]
        omega
      · show ((st.workers.set w worker_state.reading).map (stepsLeft st.gs.nextEntry)).sum
          + 4 * st.gs.semaphoreEntriesToDo.count
          + 2 * ((st.workers.set w worker_state.reading).length : Int) * (n - st.gs.nextEntry)
          + 1 ≤ claimMeasure n st
        rw [hsl _ _ _ hw, List.length_set, sR, sSne _ _ (fun h => hne h.symm)]
        unfold claimMeasure
        omega
  · -- rendering
    rename_i e hw
    injection hstep with hstep
    subst hstep
    have hsum := hrw _ worker_state.waiting hw
    rw [rD, rW] at hsum
    have hnn := sum_map_nonneg renderingWeight renderingWeight_nonneg
      (st.workers.set w worker_state.waiting)
    have hcn := sum_map_nonneg claimingWeight claimingWeight_nonneg st.workers
    have hwrap : wrapS32 (st.gs.completedEntriesCount + 1) = st.gs.completedEntriesCount + 1 :=
      wrapS32_of_range _ (by omega) (by omega)
    refine ⟨⟨i1, i2, ?_, i4, ?_, ?_, i7⟩, ?_, by simp⟩
    · show st.gs.nextEntry + st.gs.semaphoreEntriesToDo.count
        + ((st.workers.set w worker_state.waiting).map claimingWeight).sum = n
      rw [hcw _ _ hw, cD, cW]
      omega
    · show wrapS32 (st.gs.completedEntriesCount + 1)
        + ((st.workers.set w worker_state.waiting).map renderingWeight).sum = st.gs.nextEntry
      rw [hwrap, hsum]
      omega
    · show 0 ≤ wrapS32 (st.gs.completedEntriesCount + 1)
      rw [hwrap]; omega
    · show ((st.workers.set w worker_state.waiting).map (stepsLeft st.gs.nextEntry)).sum
        + 4 * st.gs.semaphoreEntriesToDo.count
        + 2 * ((st.workers.set w worker_state.waiting).length : Int) * (n - st.gs.nextEntry)
        + 1 ≤ claimMeasure n st
      rw [hsl _ _ _ hw, List.length_set, sD, sW]
      unfold claimMeasure
      omega

/-- One iteration of the loop of `BeginFrame`. -/
theorem fillWorkQueue_step (y : Int) (gs : global_state) (h1 : y < gs.frameDimY)
    (h2 : 0 ≤ gs.numEntries ∧ gs.numEntries < entriesCapacity) :
    fillWorkQueue y gs = fillWorkQueue (wrapS32 (y + rowsPerEntry))
        { gs with
          entries := gs.entries.set gs.numEntries.toNat
            { firstRowY := y, numRows := MinS32 rowsPerEntry (wrapS32 (gs.frameDimY - y)) }
          numEntries := gs.numEntries + 1 } := by
  rw [fillWorkQueue, if_pos h1, if_pos h2]

/-- Exit of the loop of `BeginFrame`. -/
theorem fillWorkQueue_done (y : Int) (gs : global_state) (h1 : ¬ y < gs.frameDimY) :
    fillWorkQueue y gs = some gs := by
  rw [fillWorkQueue, if_neg h1]

/-- The loop of `BeginFrame` touches neither counter nor the semaphore and keeps
`numEntries` within the array. -/
theorem fillWorkQueue_frame : ∀ (m : Nat) (y : Int) (gs gs2 : global_state),
    (entriesCapacity - gs.numEntries).toNat = m →
    fillWorkQueue y gs = some gs2 → 0 ≤ gs.numEntries → gs.numEntries ≤ 100 →
    gs2.nextEntry = gs.nextEntry ∧ gs2.completedEntriesCount = gs.completedEntriesCount ∧
    gs2.semaphoreEntriesToDo = gs.semaphoreEntriesToDo ∧
    0 ≤ gs2.numEntries ∧ gs2.numEntries ≤ 100 := by
  intro m
  induction m using Nat.strong_induction_on with
  | _ m ih =>
    intro y gs gs2 hm hfill h0 h100
    by_cases h1 : y < gs.frameDimY
    · by_cases h2 : 0 ≤ gs.numEntries ∧ gs.numEntries < entriesCapacity
      · rw [fillWorkQueue_step y gs h1 h2] at hfill
        simp only [entriesCapacity] at h2 hm
        have := ih (entriesCapacity - (gs.numEntries + 1)).toNat
          (by simp only [entriesCapacity]; omega) _ _ gs2 rfl hfill
          (by show 0 ≤ gs.numEntries + 1; omega) (by show gs.numEntries + 1 ≤ 100; omega)
        exact this
      · rw [fillWorkQueue, if_pos h1, if_neg h2] at hfill
        exact absurd hfill (by simp)
    · rw [fillWorkQueue_done y gs h1] at hfill
      injection hfill with hfill
      subst hfill
      exact ⟨rfl, rfl, rfl, h0, h100⟩

/-- What every successful `BeginFrame` leaves in the counters. -/
theorem BeginFrame_counters (gs0 gs1 : global_state) (h : BeginFrame gs0 = some gs1) :
    gs1.nextEntry = 0 ∧ gs1.completedEntriesCount = 0 ∧
    0 ≤ gs1.numEntries ∧ gs1.numEntries ≤ 100 := by
  unfold BeginFrame at h
  split at h
  · exact absurd h (by simp)
  · rename_i gs2 prevCount hpub
    split at h
    · injection h with h
      subst h
      unfold BeginFramePublish at hpub
      simp only at hpub
      split at hpub
      · split at hpub
        · exact absurd hpub (by simp)
        · rename_i gs3 hfill
          injection hpub with hpub
          injection hpub with hpub1 hpub2
          subst hpub1
          obtain ⟨a1, a2, _, a4, a5⟩ := fillWorkQueue_frame _ _ _ gs3 rfl hfill
            (le_refl _) (by show (0 : Int) ≤ 100; omega)
          exact ⟨a1, a2, a4, a5⟩
      · exact absurd hpub (by simp)
    · exact absurd h (by simp)

/-- A sum of zeros is zero. -/
theorem sum_map_eq_zero {β : Type} (f : β → Int) :
    ∀ l : List β, (∀ a ∈ l, f a = 0) → (l.map f).sum = 0 := by
  intro l
  induction l with
  | nil => intro _; rfl
  | cons b rest ih =>
    intro h
    simp only [List.map_cons, List.sum_cons]
    rw [h b (List.mem_cons_self _ _), ih (fun a ha => h a (List.mem_cons_of_mem _ ha))]
    rfl

/-- The invariant holds right after `BeginFrame` released one permit per task. -/
theorem startFrame_inv (gs1 : global_state) (numWorkers : Nat)
    (hnext : gs1.nextEntry = 0) (hdone : gs1.completedEntriesCount = 0)
    (hn : 0 ≤ gs1.numEntries)
    (hrel : gs1.semaphoreEntriesToDo.count = gs1.numEntries) :
    ClaimInv gs1.numEntries (startFrame gs1 numWorkers) := by
  have hc : ((startFrame gs1 numWorkers).workers.map claimingWeight).sum = 0 := by
    apply sum_map_eq_zero
    intro a ha
    rw [List.eq_of_mem_replicate ha]
    rfl
  have hr : ((startFrame gs1 numWorkers).workers.map renderingWeight).sum = 0 := by
    apply sum_map_eq_zero
    intro a ha
    rw [List.eq_of_mem_replicate ha]
    rfl
  refine ⟨?_, ?_, ?_, ?_, ?_, ?_, rfl⟩
  · show 0 ≤ gs1.semaphoreEntriesToDo.count
    omega
  · show 0 ≤ gs1.nextEntry
    omega
  · rw [hc]
    show gs1.nextEntry + gs1.semaphoreEntriesToDo.count + 0 = gs1.numEntries
    omega
  · intro e
    show (([] : List (Nat × Int)).filter (fun c => c.2 == e)).length
      = if 0 ≤ e ∧ e < gs1.nextEntry then 1 else 0
    rw [if_neg (by omega)]
    rfl
  · rw [hr]
    show gs1.completedEntriesCount + 0 = gs1.nextEntry
    omega
  · show 0 ≤ gs1.completedEntriesCount
    omega

/-- Along every interleaving the invariant is kept and each step lowers the measure. -/
theorem runSchedule_preserves (n : Int) (hn : n ≤ 100) :
    ∀ (schedule : List Nat) (st st2 : system_state), ClaimInv n st →
      runSchedule schedule st = some st2 →
      ClaimInv n st2 ∧ claimMeasure n st2 + (schedule.length : Int) ≤ claimMeasure n st ∧
        st2.workers.length = st.workers.length := by
  intro schedule
  induction schedule with
  | nil =>
    intro st st2 hinv hrun
    simp only [runSchedule, Option.some.injEq] at hrun
    subst hrun
    exact ⟨hinv, by simp, rfl⟩
  | cons w rest ih =>
    intro st st2 hinv hrun
    simp only [runSchedule] at hrun
    split at hrun
    · exact absurd hrun (by simp)
    · rename_i st1 hstep
      obtain ⟨h1, h2, h3⟩ := workerStep_preserves n hn w st st1 hinv hstep
      obtain ⟨k1, k2, k3⟩ := ih st1 st2 h1 hrun
      refine ⟨k1, ?_, by rw [k3, h3]⟩
      simp only [List.length_cons]
      push_cast
      omega

/-- A worker can step unless it waits at a semaphore without permits. -/
theorem workerStep_isSome (st : system_state) (w : Nat) (p : worker_state)
    (hw : st.workers[w]? = some p)
    (h : p = worker_state.waiting → 0 < st.gs.semaphoreEntriesToDo.count) :
    (workerStep w st).isSome = true := by
  unfold workerStep
  rw [hw]
  cases p with
  | waiting => simp only [h rfl, if_true, Option.isSome_some]
  | reading => rfl
  | swapping e =>
    simp only
    split <;> rfl
  | rendering e => rfl

/-- Unless the frame is drained, some worker can take a step. -/
theorem workerStep_enabled (st : system_state) (numWorkers : Nat)
    (hlen : st.workers.length = numWorkers) (hpos : 0 < numWorkers)
    (hsem : 0 ≤ st.gs.semaphoreEntriesToDo.count) (hnd : isDrained st = false) :
    ∃ w, w < numWorkers ∧ (workerStep w st).isSome = true := by
  by_cases hc : st.gs.semaphoreEntriesToDo.count = 0
  · have hall : st.workers.all (fun p => !p.isClaiming) = false := by
      unfold isDrained at hnd
      rw [hc] at hnd
      simpa using hnd
    rw [List.all_eq_false] at hall
    obtain ⟨p, hp, hcl⟩ := hall
    obtain ⟨w, hw⟩ := List.mem_iff_getElem?.mp hp
    have hwlt : w < st.workers.length := by
      by_contra hge
      rw [List.getElem?_eq_none (by omega)] at hw
      exact absurd hw (by simp)
    refine ⟨w, by omega, workerStep_isSome st w p hw ?_⟩
    intro hwait
    subst hwait
    simp [worker_state.isClaiming] at hcl
  · have h0 : 0 < st.workers.length := by omega
    refine ⟨0, hpos, workerStep_isSome st 0 (st.workers.get ⟨0, h0⟩) ?_ ?_⟩
    · exact List.getElem?_eq_getElem h0
    · intro _
      omega

/-- In a drained frame no worker holds an unused permit. -/
theorem drained_next_eq (n : Int) (st : system_state) (hinv : ClaimInv n st)
    (hd : isDrained st = true) : st.gs.nextEntry = n := by
  unfold isDrained at hd
  simp only [Bool.and_eq_true, beq_iff_eq, List.all_eq_true, Bool.not_eq_true'] at hd
  have hz : (st.workers.map claimingWeight).sum = 0 := by
    apply sum_map_eq_zero
    intro a ha
    simp only [claimingWeight, hd.2 a ha, Bool.false_eq_true, if_false]
  have := hinv.permits
  rw [hz, hd.1] at this
  omega

/-- From every state that satisfies the invariant the workers can run on until the
frame is drained. -/
theorem exists_drained (n : Int) (hn : n ≤ 100) (numWorkers : Nat) (hpos : 0 < numWorkers) :
    ∀ (m : Nat) (st : system_state), ClaimInv n st → st.workers.length = numWorkers →
      (claimMeasure n st).toNat = m →
      ∃ rest st2, runSchedule rest st = some st2 ∧ isDrained st2 = true := by
  intro m
  induction m using Nat.strong_induction_on with
  | _ m ih =>
    intro st hinv hlen hm
    by_cases hd : isDrained st = true
    · exact ⟨[], st, rfl, hd⟩
    · have hnd : isDrained st = false := by simpa using hd
      obtain ⟨w, _, hsome⟩ := workerStep_enabled st numWorkers hlen hpos hinv.sem_nonneg hnd
      obtain ⟨st1, hstep⟩ := Option.isSome_iff_exists.mp hsome
      obtain ⟨hinv1, hless, hlen1⟩ := workerStep_preserves n hn w st st1 hinv hstep
      have hnn := claimMeasure_nonneg n st1 hinv1
      obtain ⟨rest, st2, hrun, hdr⟩ := ih (claimMeasure n st1).toNat (by omega) st1 hinv1
        (by rw [hlen1, hlen]) rfl
      refine ⟨w :: rest, st2, ?_, hdr⟩
      simp only [runSchedule, hstep, hrun]

/-- C3. After `BeginFrame` released `numEntries` permits, in every interleaving of
the worker threads running the claim loop of `ThreadProc` (wait for a permit, read
`nextEntry`, compare-and-swap it to the value read plus one, retry on failure):
every claimed index lies in `[0, numEntries)`; no index is claimed twice; the
claimed indices are exactly those below `nextEntry`, each claimed once, and
`nextEntry` never exceeds `numEntries`; once the frame is drained (no permit left, no
worker still claiming) every index in `[0, numEntries)` has been claimed exactly
once; until then some worker can take a step, no interleaving is longer than
`(2*numWorkers + 4) * numEntries` steps, and every interleaving can be continued to a
drained frame. -/
theorem claim_loop_claims_each_task_once (gs0 gs1 : global_state) (numWorkers : Nat)
    (schedule : List Nat) (st : system_state)
    (hbegin : BeginFrame gs0 = some gs1)
    (hrel : gs1.semaphoreEntriesToDo.count = gs1.numEntries)
    (hrun : runSchedule schedule (startFrame gs1 numWorkers) = some st) :
    (∀ c ∈ st.claimed, 0 ≤ c.2 ∧ c.2 < gs1.numEntries) ∧
    (∀ e : Int, claimCount st e ≤ 1) ∧
    (∀ e : Int, claimCount st e = if 0 ≤ e ∧ e < st.gs.nextEntry then 1 else 0) ∧
    st.gs.nextEntry ≤ gs1.numEntries ∧
    (isDrained st = true →
      ∀ e : Int, 0 ≤ e → e < gs1.numEntries → claimCount st e = 1) ∧
    (isDrained st = false → 0 < numWorkers →
      ∃ w, w < numWorkers ∧ (workerStep w st).isSome = true) ∧
    (schedule.length : Int) ≤ (2 * (numWorkers : Int) + 4) * gs1.numEntries ∧
    (0 < numWorkers →
      ∃ rest st2, runSchedule rest st = some st2 ∧ isDrained st2 = true) := by
  obtain ⟨b1, b2, b3, b4⟩ := BeginFrame_counters gs0 gs1 hbegin
  have hinv0 := startFrame_inv gs1 numWorkers b1 b2 b3 hrel
  obtain ⟨hinv, hmeas, hlen⟩ :=
    runSchedule_preserves gs1.numEntries b4 schedule _ st hinv0 hrun
  have hnext : st.gs.nextEntry ≤ gs1.numEntries := by
    have h1 := hinv.permits
    have h2 := hinv.sem_nonneg
    have h3 := sum_map_nonneg claimingWeight claimingWeight_nonneg st.workers
    omega
  have hl : st.workers.length = numWorkers := by
    rw [hlen]
    simp [startFrame]
  refine ⟨?_, ?_, hinv.counts, hnext, ?_, ?_, ?_, ?_⟩
  · intro c hc
    have hcount := hinv.counts c.2
    have hpos : 0 < claimCount st c.2 := by
      unfold claimCount
      apply List.length_pos_of_mem (a := c)
      rw [List.mem_filter]
      exact ⟨hc, by simp⟩
    by_cases hr : 0 ≤ c.2 ∧ c.2 < st.gs.nextEntry
    · exact ⟨hr.1, lt_of_lt_of_le hr.2 hnext⟩
    · rw [if_neg hr] at hcount
      omega
  · intro e
    rw [hinv.counts e]
    split <;> omega
  · intro hd e he0 hen
    rw [hinv.counts e, drained_next_eq _ st hinv hd, if_pos ⟨he0, hen⟩]
  · intro hnd hpos
    exact workerStep_enabled st numWorkers hl hpos hinv.sem_nonneg hnd
  · have hnn := claimMeasure_nonneg _ st hinv
    have hstart : claimMeasure gs1.numEntries (startFrame gs1 numWorkers)
        = (2 * (numWorkers : Int) + 4) * gs1.numEntries := by
      unfold claimMeasure
      have hs : ((startFrame gs1 numWorkers).workers.map
          (stepsLeft (startFrame gs1 numWorkers).gs.nextEntry)).sum = 0 := by
        apply sum_map_eq_zero
        intro a ha
        rw [List.eq_of_mem_replicate ha]
        rfl
      rw [hs]
      show 0 + 4 * gs1.semaphoreEntriesToDo.count
        + 2 * ((List.replicate numWorkers worker_state.waiting).length : Int)
          * (gs1.numEntries - gs1.nextEntry) = _
      rw [List.length_replicate, hrel, b1]
      ring
    rw [hstart] at hmeas
    omega
  · intro hpos
    exact exists_drained gs1.numEntries b4 numWorkers hpos _ st hinv hl rfl

/-- `BeginFrame` on a fresh process with a frame of 25 rows. -/
theorem BeginFrame_initialState_25 : BeginFrame (initialState 25) = some frame25 := by
  unfold BeginFrame BeginFramePublish
  rw [if_pos (by decide)]
  rw [fillWorkQueue_step _ _ (by decide) (by decide)]
  rw [fillWorkQueue_step _ _ (by decide) (by decide)]
  rw [fillWorkQueue_step _ _ (by decide) (by decide)]
  rw [fillWorkQueue_done _ _ (by decide)]
  decide

/-- The interleaving `schedule25` of two workers ends in `drained25`. -/
theorem runSchedule_schedule25 :
    runSchedule schedule25 (startFrame frame25 2) = some drained25 := by
  decide

/-- Witness for C3: two workers contending for the three tasks of a 25-row frame. -/
theorem claim_loop_claims_each_task_once_witness :
    BeginFrame (initialState 25) = some frame25 ∧
    frame25.semaphoreEntriesToDo.count = frame25.numEntries ∧
    runSchedule schedule25 (startFrame frame25 2) = some drained25 ∧
    ((∀ c ∈ drained25.claimed, 0 ≤ c.2 ∧ c.2 < frame25.numEntries) ∧
      (∀ e : Int, claimCount drained25 e ≤ 1) ∧
      (∀ e : Int, claimCount drained25 e
        = if 0 ≤ e ∧ e < drained25.gs.nextEntry then 1 else 0) ∧
      drained25.gs.nextEntry ≤ frame25.numEntries ∧
      (isDrained drained25 = true →
        ∀ e : Int, 0 ≤ e → e < frame25.numEntries → claimCount drained25 e = 1) ∧
      (isDrained drained25 = false → 0 < 2 →
        ∃ w, w < 2 ∧ (workerStep w drained25).isSome = true) ∧
      (schedule25.length : Int) ≤ (2 * ((2 : Nat) : Int) + 4) * frame25.numEntries ∧
      (0 < 2 → ∃ rest st2, runSchedule rest drained25 = some st2 ∧ isDrained st2 = true)) :=
  ⟨BeginFrame_initialState_25, rfl, runSchedule_schedule25,
    claim_loop_claims_each_task_once (initialState 25) frame25 2 schedule25 drained25
      BeginFrame_initialState_25 rfl runSchedule_schedule25⟩

/-! ## Theorems: `Perpendicular` and the sRGB transfer functions -/

/-- Away from the construction axis (the length of `(a.y, -a.x, 0)` above the
threshold of `Normalize`), `Perpendicular` returns a unit vector orthogonal to `a`. -/
theorem Perpendicular_unit_orthogonal (a : v3 ℝ)
    (h : Length Real.sqrt (V3 a.y (-a.x) 0) > 1 / 100000000000) :
    Length Real.sqrt (Perpendicular Real.sqrt a) = 1 ∧
    Dot a (Perpendicular Real.sqrt a) = 0 := by
  have hpos : 0 < Length Real.sqrt (V3 a.y (-a.x) 0) := lt_trans (by norm_num) h
  have hN : Perpendicular Real.sqrt a
      = V3 a.y (-a.x) 0 / Length Real.sqrt (V3 a.y (-a.x) 0) := by
    have h2 : Length Real.sqrt (V3 a.y (-a.x) 0) > normalizeEpsilon := h
    simp only [Perpendicular, Normalize, h2, if_true]
  rw [hN]
  refine ⟨Length_div_Length _ hpos, ?_⟩
  simp only [Dot, v3_div_x, v3_div_y, v3_div_z, V3_x, V3_y, V3_z]
  field_simp
  ring

/-- On and near the construction axis `Perpendicular` returns the default `(0,0,1)` of
`Normalize`, whose dot product with `a` is `a.z`. -/
theorem Perpendicular_near_axis (a : v3 ℝ)
    (h : ¬ Length Real.sqrt (V3 a.y (-a.x) 0) > 1 / 100000000000) :
    Perpendicular Real.sqrt a = V3 0 0 1 ∧ Dot a (Perpendicular Real.sqrt a) = a.z := by
  have h2 : ¬ Length Real.sqrt (V3 a.y (-a.x) 0) > normalizeEpsilon := h
  have hN : Perpendicular Real.sqrt a = V3 0 0 1 := by
    simp only [Perpendicular, Normalize, h2, if_false]
  rw [hN]
  exact ⟨rfl, by simp [Dot]⟩

/-- C11 (failing input). For `a = (0,0,1)`, `Perpendicular` normalises the zero vector
`(a.y, -a.x, 0)`, gets the default `(0,0,1)` of `Normalize`, and so returns `a` itself:
a unit vector whose dot product with `a` is 1, not 0. -/
theorem Perpendicular_axis_not_orthogonal :
    Perpendicular Real.sqrt (V3 0 0 1 : v3 ℝ) = V3 0 0 1 ∧
    Length Real.sqrt (Perpendicular Real.sqrt (V3 0 0 1 : v3 ℝ)) = 1 ∧
    Dot (V3 0 0 1 : v3 ℝ) (Perpendicular Real.sqrt (V3 0 0 1)) = 1 ∧
    Dot (V3 0 0 1 : v3 ℝ) (Perpendicular Real.sqrt (V3 0 0 1)) ≠ 0 := by
  have h : ¬ Length Real.sqrt (V3 (V3 0 0 1 : v3 ℝ).y (-(V3 0 0 1 : v3 ℝ).x) 0)
      > 1 / 100000000000 := by
    simp [Length]
  obtain ⟨h1, h2⟩ := Perpendicular_near_axis (V3 0 0 1) h
  refine ⟨h1, ?_, ?_, ?_⟩
  · rw [h1]; exact Length_V3_0_0_1
  · rw [h2]; rfl
  · rw [h2]; simp

/-- The 12th power of `l^(1/2.4)` is `l^5`. -/
theorem rpow_inv_gamma_pow (l : ℝ) (hl : 0 ≤ l) : (Real.rpow l (1 / 2.4)) ^ 12 = l ^ 5 := by
  show (l ^ ((1 : ℝ) / 2.4)) ^ 12 = l ^ 5
  rw [← Real.rpow_natCast (l ^ ((1 : ℝ) / 2.4)) 12, ← Real.rpow_mul hl,
    ← Real.rpow_natCast l 5]
  norm_num

/-- The 5th power of `b^2.4` is `b^12`. -/
theorem rpow_gamma_pow (b : ℝ) (hb : 0 ≤ b) : (Real.rpow b 2.4) ^ 5 = b ^ 12 := by
  show (b ^ (2.4 : ℝ)) ^ 5 = b ^ 12
  rw [← Real.rpow_natCast (b ^ (2.4 : ℝ)) 5, ← Real.rpow_mul hb, ← Real.rpow_natCast b 12]
  norm_num

/-- Taking the power 2.4 and then 1/2.4 gives back a non-negative base. -/
theorem rpow_gamma_inv (b : ℝ) (hb : 0 ≤ b) : Real.rpow (Real.rpow b 2.4) (1 / 2.4) = b := by
  show (b ^ (2.4 : ℝ)) ^ ((1 : ℝ) / 2.4) = b
  rw [← Real.rpow_mul hb]
  norm_num

/-- Below `0.0031308 * 12.92 = 0.040449936` both functions use their linear branch. -/
theorem srgb_roundtrip_linear (x : ℝ) (hx : x < 0.040449936) :
    LinearToSrgb Real.rpow (SrgbToLinear Real.rpow x) = x := by
  have h1 : x < 0.04045 := by linarith
  have h2 : x / 12.92 < 0.0031308 := by
    rw [div_lt_iff₀ (by norm_num)]
    linarith
  simp only [SrgbToLinear, LinearToSrgb, h1, h2, if_true]
  field_simp

/-- From the threshold `0.04045` on both functions use their power branch. -/
theorem srgb_roundtrip_power (x : ℝ) (hx : 0.04045 ≤ x) :
    LinearToSrgb Real.rpow (SrgbToLinear Real.rpow x) = x := by
  have h1 : ¬ x < 0.04045 := not_lt.mpr hx
  have hb : (0 : ℝ) ≤ (x + 0.055) / 1.055 := by
    apply div_nonneg <;> linarith
  have hb0 : ((0.04045 : ℝ) + 0.055) / 1.055 ≤ (x + 0.055) / 1.055 := by
    apply div_le_div_of_nonneg_right _ (by norm_num)
    linarith
  have hm : Real.rpow ((0.04045 + 0.055) / 1.055) 2.4 ≤ Real.rpow ((x + 0.055) / 1.055) 2.4 :=
    Real.rpow_le_rpow (by norm_num) hb0 (by norm_num)
  have h2 : ¬ Real.rpow ((x + 0.055) / 1.055) 2.4 < 0.0031308 := by
    intro hlt
    have hlt0 : Real.rpow ((0.04045 + 0.055) / 1.055) 2.4 < 0.0031308 := lt_of_le_of_lt hm hlt
    have hnn : 0 ≤ Real.rpow ((0.04045 + 0.055) / 1.055) 2.4 :=
      Real.rpow_nonneg (by norm_num) _
    have h5 := pow_lt_pow_left₀ hlt0 hnn (by norm_num : (5 : ℕ) ≠ 0)
    rw [rpow_gamma_pow _ (by norm_num)] at h5
    norm_num at h5
  simp only [SrgbToLinear, LinearToSrgb, h1, h2, if_false]
  rw [rpow_gamma_inv _ hb]
  field_simp

/-- In the gap `[0.040449936, 0.04045)` `SrgbToLinear` uses its linear branch and
`LinearToSrgb` its power branch; the result stays within `1e-7` of `x`. -/
theorem srgb_roundtrip_gap (x : ℝ) (h1 : 0.040449936 ≤ x) (h2 : x < 0.04045) :
    LinearToSrgb Real.rpow (SrgbToLinear Real.rpow x)
      = 1.055 * Real.rpow (x / 12.92) (1 / 2.4) - 0.055 ∧
    |LinearToSrgb Real.rpow (SrgbToLinear Real.rpow x) - x| < 1 / 10000000 := by
  have hl : ¬ x / 12.92 < 0.0031308 := by
    rw [not_lt, le_div_iff₀ (by norm_num)]
    linarith
  have heq : LinearToSrgb Real.rpow (SrgbToLinear Real.rpow x)
      = 1.055 * Real.rpow (x / 12.92) (1 / 2.4) - 0.055 := by
    simp only [SrgbToLinear, LinearToSrgb, h2, hl, if_true, if_false]
  refine ⟨heq, ?_⟩
  rw [heq]
  have hl0 : (0 : ℝ) ≤ x / 12.92 := by
    apply div_nonneg <;> linarith
  have hy := rpow_inv_gamma_pow (x / 12.92) hl0
  have hynn : 0 ≤ Real.rpow (x / 12.92) (1 / 2.4) := Real.rpow_nonneg hl0 _
  have hlo : (0.0031308 : ℝ) ≤ x / 12.92 := by
    rw [le_div_iff₀ (by norm_num)]
    linarith
  have hhi : x / 12.92 < 0.04045 / 12.92 := by
    apply div_lt_div_of_pos_right h2 (by norm_num)
  have hc1 : (0.09047384 : ℝ) ≤ Real.rpow (x / 12.92) (1 / 2.4) := by
    by_contra hlt
    have h12 := pow_lt_pow_left₀ (not_le.mp hlt) hynn (by norm_num : (12 : ℕ) ≠ 0)
    rw [hy] at h12
    have h5 : (0.0031308 : ℝ) ^ 5 ≤ (x / 12.92) ^ 5 := pow_le_pow_left₀ (by norm_num) hlo 5
    have : (0.09047384 : ℝ) ^ 12 ≤ (0.0031308 : ℝ) ^ 5 := by norm_num
    linarith
  have hc2 : Real.rpow (x / 12.92) (1 / 2.4) ≤ (0.09047391 : ℝ) := by
    by_contra hlt
    have h12 := pow_lt_pow_left₀ (not_le.mp hlt) (by norm_num) (by norm_num : (12 : ℕ) ≠ 0)
    rw [hy] at h12
    have h5 : (x / 12.92) ^ 5 ≤ (0.04045 / 12.92 : ℝ) ^ 5 :=
      pow_le_pow_left₀ hl0 (le_of_lt hhi) 5
    have : (0.04045 / 12.92 : ℝ) ^ 5 ≤ (0.09047391 : ℝ) ^ 12 := by norm_num
    linarith
  rw [abs_lt]
  constructor <;> linarith

/-- C12 (as amended). Over real arithmetic the round trip
`LinearToSrgb(SrgbToLinear(x))` equals `x` for every `x` outside the interval
`[0.040449936, 0.04045)` just below the branch threshold, and is within `1e-7` of `x`
for every `x`, in particular on `[0,1]`. -/
theorem srgb_roundtrip_within_tolerance (x : ℝ) :
    (x < 0.040449936 ∨ 0.04045 ≤ x →
      LinearToSrgb Real.rpow (SrgbToLinear Real.rpow x) = x) ∧
    |LinearToSrgb Real.rpow (SrgbToLinear Real.rpow x) - x| < 1 / 10000000 := by
  have hexact : x < 0.040449936 ∨ 0.04045 ≤ x →
      LinearToSrgb Real.rpow (SrgbToLinear Real.rpow x) = x := by
    rintro (h | h)
    · exact srgb_roundtrip_linear x h
    · exact srgb_roundtrip_power x h
  refine ⟨hexact, ?_⟩
  by_cases h1 : x < 0.040449936
  · rw [hexact (Or.inl h1)]; norm_num
  · by_cases h2 : 0.04045 ≤ x
    · rw [hexact (Or.inr h2)]; norm_num
    · exact (srgb_roundtrip_gap x (not_lt.mp h1) (not_le.mp h2)).2

/-- Witness for C12: `x = 0.5` goes through both power branches and comes back. -/
theorem srgb_roundtrip_within_tolerance_witness :
    ((0.5 : ℝ) < 0.040449936 ∨ (0.04045 : ℝ) ≤ 0.5) ∧
    LinearToSrgb Real.rpow (SrgbToLinear Real.rpow (0.5 : ℝ)) = 0.5 :=
  ⟨Or.inr (by norm_num),
    (srgb_roundtrip_within_tolerance 0.5).1 (Or.inr (by norm_num))⟩

/-- Counterexample to C12 as stated: `x = 0.040449936` lies in `[0,1]` just below the
threshold `0.04045`; `SrgbToLinear` takes the linear branch and returns exactly
`0.0031308`, which is not below `0.0031308`, so `LinearToSrgb` takes the power branch
and the result `1.055 * 0.0031308^(1/2.4) - 0.055` is not `x`. -/
theorem srgb_roundtrip_counterexample :
    (0 : ℝ) ≤ 0.040449936 ∧ (0.040449936 : ℝ) ≤ 1 ∧ (0.040449936 : ℝ) < 0.04045 ∧
    SrgbToLinear Real.rpow (0.040449936 : ℝ) = 0.0031308 ∧
    LinearToSrgb Real.rpow (SrgbToLinear Real.rpow (0.040449936 : ℝ))
      = 1.055 * Real.rpow 0.0031308 (1 / 2.4) - 0.055 ∧
    LinearToSrgb Real.rpow (SrgbToLinear Real.rpow (0.040449936 : ℝ)) ≠ 0.040449936 := by
  have hs : SrgbToLinear Real.rpow (0.040449936 : ℝ) = 0.0031308 := by
    have h1 : (0.040449936 : ℝ) < 0.04045 := by norm_num
    simp only [SrgbToLinear, h1, if_true]
    norm_num
  have hl : LinearToSrgb Real.rpow (0.0031308 : ℝ)
      = 1.055 * Real.rpow 0.0031308 (1 / 2.4) - 0.055 := by
    have h2 : ¬ (0.0031308 : ℝ) < 0.0031308 := lt_irrefl _
    simp only [LinearToSrgb, h2, if_false]
  refine ⟨by norm_num, by norm_num, by norm_num, hs, by rw [hs, hl], ?_⟩
  rw [hs, hl]
  intro heq
  have hy := rpow_inv_gamma_pow (0.0031308 : ℝ) (by norm_num)
  have hval : Real.rpow 0.0031308 (1 / 2.4) = (0.040449936 + 0.055) / 1.055 := by
    rw [eq_div_iff (by norm_num)]
    linarith
  rw [hval] at hy
  norm_num at hy

/-! ## Theorems: shading of a hit -/

/-- What a successful `shadeHit` returns, field by field. -/
theorem shadeHit_some {α : Type} [LinearOrderedField α] (sqrt : α → α) (pow : α → α → α)
    (camNear camFar : α) (frameCamPos : v3 α) (worldFrameDim : v2 α)
    (frameDimX frameDimY : Int) (ro rd : v3 α) (t : α) (shapeIndex : Int)
    (res : hit_shading α)
    (h : shadeHit sqrt pow camNear camFar frameCamPos worldFrameDim frameDimX frameDimY
      ro rd t shapeIndex = some res) :
    ∃ material : shape_material α, materials shapeIndex = some material ∧
      res.p = ro + t * rd ∧
      res.shapeCol = material.color ∧
      res.reflectivity = material.reflectivity ∧
      res.n = (if shapeIndex ≥ 1 ∧ toUmm shapeIndex ≤ ((sceneSpheres frameCamPos).length : Int)
        then NormalSphere (sphereAt (sceneSpheres frameCamPos) (shapeIndex - 1).toNat) res.p
        else if shapeIndex = 10 then NormalPlane else V3 0 0 0) ∧
      res.emit = (if shapeIndex ≥ 1 ∧ toUmm shapeIndex ≤ ((sceneSpheres frameCamPos).length : Int)
        then (if shapeIndex = 5 then 1 else 0) else 0) ∧
      res.pointLightLength
        = Length sqrt ((sphereAt (sceneSpheres frameCamPos) 4).c - res.p) ∧
      res.pointLightDir
        = Normalize sqrt ((sphereAt (sceneSpheres frameCamPos) 4).c - res.p) ∧
      res.pointLightPre = pointLightTerm res.pointLightLength res.n res.pointLightDir ∧
      res.l = (if res.pointLightPre ≠ 0 then
          shadowMultiplier (softShadowAccum sqrt (sceneSpheres frameCamPos) worldFrameDim
            frameDimX frameDimY t res.p res.pointLightDir res.pointLightLength)
        else 1) ∧
      res.pointLight
        = (if res.pointLightPre ≠ 0 then res.pointLightPre * res.l else res.pointLightPre) ∧
      (if res.reflectivity ≠ 0 ∧ toUmm shapeIndex ≤ ((sceneSpheres frameCamPos).length : Int)
        then reflectionColor sqrt camNear camFar frameCamPos res.p rd res.n
        else some (V3 0 0 0)) = some res.reflectionCol ∧
      res.specular = specularTerm sqrt pow res.pointLight res.pointLightLength
        res.pointLightDir rd res.n ∧
      res.col = res.shapeCol * (res.emit + 0.03 + 0.12 * Max 0 res.n.y + res.pointLight)
        + res.specular + res.reflectionCol * res.reflectivity := by
  unfold shadeHit at h
  simp only at h
  split at h
  · exact absurd h (by simp)
  · rename_i material hmat
    split at h
    · exact absurd h (by simp)
    · rename_i reflCol hrefl
      injection h with h
      subst h
      exact ⟨material, hmat, rfl, rfl, rfl, rfl, rfl, rfl, rfl, rfl, rfl, rfl, hrefl, rfl, rfl⟩

/-! ## Theorems: light term and blocked fraction -/

theorem Max_eq_max {α : Type} [LinearOrderedField α] (a b : α) : Max a b = max a b := by
  unfold Max
  split
  · rw [max_eq_left (by assumption)]
  · rw [max_eq_right (le_of_lt (not_le.mp (by assumption)))]

theorem Min_eq_min {α : Type} [LinearOrderedField α] (a b : α) : Min a b = min a b := by
  unfold Min
  split
  · rw [min_eq_left (by assumption)]
  · rw [min_eq_right (le_of_lt (not_le.mp (by assumption)))]

theorem Clamp01_eq {α : Type} [LinearOrderedField α] (v : α) :
    Clamp01 v = max 0 (min 1 v) := by
  unfold Clamp01 Clamp
  by_cases h1 : v > 1
  · rw [if_pos h1, min_eq_left (le_of_lt h1), max_eq_right zero_le_one]
  · rw [if_neg h1, min_eq_right (not_lt.mp h1)]
    by_cases h0 : v < 0
    · rw [if_pos h0, max_eq_left (le_of_lt h0)]
    · rw [if_neg h0, max_eq_right (not_lt.mp h0)]

theorem Clamp01_nonneg {α : Type} [LinearOrderedField α] (v : α) : 0 ≤ Clamp01 v := by
  rw [Clamp01_eq]; exact le_max_left _ _

theorem Clamp01_le_one {α : Type} [LinearOrderedField α] (v : α) : Clamp01 v ≤ 1 := by
  rw [Clamp01_eq]; exact max_le zero_le_one (min_le_left _ _)

theorem Lerp_half {α : Type} [LinearOrderedField α] (a b : α) :
    Lerp a b 0.5 = 0.5 * a + 0.5 * b := by
  unfold Lerp
  norm_num
  ring

/-- C14. Direct-light cutoff. With `L0 = (10/d^2 + 5/d) * max(0, Dot(n, lightDir))` for
a light distance `d > 0`, the light term before the shadow code is
`L0 * clamp01((L0 - 0.002)/0.008)`; it is exactly 0 whenever `L0 ≤ 0.002`, equals `L0`
whenever `L0 ≥ 0.01`, and always lies in `[0, L0]`; when it is 0 the shadow and
specular code of a hit is skipped (multiplier 1, zero specular). -/
theorem pointLightTerm_cutoff {α : Type} [LinearOrderedField α] (d : α)
    (n lightDir : v3 α) (hd : 0 < d) :
    pointLightTerm d n lightDir =
      (10 / d ^ 2 + 5 / d) * max 0 (Dot n lightDir)
        * max 0 (min 1 (((10 / d ^ 2 + 5 / d) * max 0 (Dot n lightDir) - 0.002) / 0.008)) ∧
    ((10 / d ^ 2 + 5 / d) * max 0 (Dot n lightDir) ≤ 0.002 →
      pointLightTerm d n lightDir = 0) ∧
    (0.01 ≤ (10 / d ^ 2 + 5 / d) * max 0 (Dot n lightDir) →
      pointLightTerm d n lightDir = (10 / d ^ 2 + 5 / d) * max 0 (Dot n lightDir)) ∧
    0 ≤ pointLightTerm d n lightDir ∧
    pointLightTerm d n lightDir ≤ (10 / d ^ 2 + 5 / d) * max 0 (Dot n lightDir) ∧
    (∀ (sqrt : α → α) (pow : α → α → α) (camNear camFar : α) (frameCamPos : v3 α)
      (worldFrameDim : v2 α) (frameDimX frameDimY : Int) (ro rd : v3 α) (t : α)
      (shapeIndex : Int) (res : hit_shading α),
      shadeHit sqrt pow camNear camFar frameCamPos worldFrameDim frameDimX frameDimY
        ro rd t shapeIndex = some res →
      res.pointLightPre = pointLightTerm res.pointLightLength res.n res.pointLightDir ∧
      (res.pointLightPre = 0 →
        res.l = 1 ∧ res.pointLight = 0 ∧ res.specular = V3 0 0 0)) := by
  have hL0 : (0 : α) ≤ (10 / d ^ 2 + 5 / d) * max 0 (Dot n lightDir) := by
    apply mul_nonneg
    · positivity
    · exact le_max_left _ _
  have hform : pointLightTerm d n lightDir =
      (10 / d ^ 2 + 5 / d) * max 0 (Dot n lightDir)
        * max 0 (min 1 (((10 / d ^ 2 + 5 / d) * max 0 (Dot n lightDir) - 0.002) / 0.008)) := by
    simp only [pointLightTerm, MapRangeTo01, Max_eq_max, Clamp01_eq, pow_two]
    norm_num
  have hc0 : (0 : α) ≤
      max 0 (min 1 (((10 / d ^ 2 + 5 / d) * max 0 (Dot n lightDir) - 0.002) / 0.008)) :=
    le_max_left _ _
  have hc1 : max 0 (min 1 (((10 / d ^ 2 + 5 / d) * max 0 (Dot n lightDir) - 0.002) / 0.008))
      ≤ (1 : α) := max_le zero_le_one (min_le_left _ _)
  refine ⟨hform, ?_, ?_, ?_, ?_, ?_⟩
  · intro hle
    rw [hform]
    have : ((10 / d ^ 2 + 5 / d) * max 0 (Dot n lightDir) - 0.002) / 0.008 ≤ (0 : α) := by
      apply div_nonpos_of_nonpos_of_nonneg
      · linarith
      · norm_num
    rw [max_eq_left (le_trans (min_le_right _ _) this), mul_zero]
  · intro hge
    rw [hform]
    have : (1 : α) ≤ ((10 / d ^ 2 + 5 / d) * max 0 (Dot n lightDir) - 0.002) / 0.008 := by
      rw [le_div_iff₀ (by norm_num)]
      linarith
    rw [min_eq_left this, max_eq_right zero_le_one, mul_one]
  · rw [hform]
    exact mul_nonneg hL0 hc0
  · rw [hform]
    exact mul_le_of_le_one_right hL0 hc1
  · intro sqrt pow camNear camFar frameCamPos worldFrameDim frameDimX frameDimY ro rd t
      shapeIndex res hres
    obtain ⟨_, _, _, _, _, _, _, _, _, hpre, hl, hpl, _, hspec, _⟩ :=
      shadeHit_some sqrt pow camNear camFar frameCamPos worldFrameDim frameDimX frameDimY
        ro rd t shapeIndex res hres
    refine ⟨hpre, ?_⟩
    intro h0
    have hpl0 : res.pointLight = 0 := by
      rw [hpl, if_neg (by simp [h0]), h0]
    refine ⟨by rw [hl, if_neg (by simp [h0])], hpl0, ?_⟩
    rw [hspec, hpl0]
    simp [specularTerm]

/-- Witness for C14: a surface facing a light at distance 5. -/
theorem pointLightTerm_cutoff_witness :
    (0 : ℚ) < 5 ∧
    (0 : ℚ) ≤ pointLightTerm 5 (V3 0 1 0) (V3 0 1 0) ∧
    pointLightTerm (5 : ℚ) (V3 0 1 0) (V3 0 1 0)
      ≤ (10 / (5 : ℚ) ^ 2 + 5 / 5) * max 0 (Dot (V3 0 1 0 : v3 ℚ) (V3 0 1 0)) :=
  ⟨by norm_num,
    (pointLightTerm_cutoff (5 : ℚ) (V3 0 1 0) (V3 0 1 0) (by norm_num)).2.2.2.1,
    (pointLightTerm_cutoff (5 : ℚ) (V3 0 1 0) (V3 0 1 0) (by norm_num)).2.2.2.2.1⟩

/-- The curve `Map01ToReverseSquare` on clamped arguments. -/
theorem Map01ToReverseSquare_range {α : Type} [LinearOrderedField α] (c : α)
    (h0 : 0 ≤ c) (h1 : c ≤ 1) :
    0 ≤ Map01ToReverseSquare c ∧ Map01ToReverseSquare c ≤ 1 := by
  unfold Map01ToReverseSquare Square
  constructor
  · nlinarith
  · nlinarith [mul_self_nonneg (1 - c)]

/-- The blocked fraction always lies in `[0,1]`. -/
theorem blockedAmountOf_range {α : Type} [LinearOrderedField α] (r dis sphereR : α) :
    0 ≤ blockedAmountOf r dis sphereR ∧ blockedAmountOf r dis sphereR ≤ 1 := by
  unfold blockedAmountOf
  exact Map01ToReverseSquare_range _ (Clamp01_nonneg _) (Clamp01_le_one _)

/-- C15. For every cone radius `r > 0`, occluder radius `R` and projected distance
`dist ≥ 0`, the blocked fraction `Map01ToReverseSquare(Clamp01(len/r))` with
`len = min(r, dist+R) - max(-r, dist-R)` equals `1 - (1 - clamp01(len/r))^2` and lies in
`[0,1]`; `Map01ToReverseSquare` is non-decreasing on `[0,1]` with values 0 at 0, 0.75 at
0.5 and 1 at 1. -/
theorem blockedAmountOf_formula_and_range {α : Type} [LinearOrderedField α]
    (r R dist : α) (hr : 0 < r) (hdist : 0 ≤ dist) :
    blockedAmountOf r dist R =
      1 - (1 - max 0 (min 1 ((min r (dist + R) - max (-r) (dist - R)) / r))) ^ 2 ∧
    0 ≤ blockedAmountOf r dist R ∧ blockedAmountOf r dist R ≤ 1 ∧
    (∀ s t : α, 0 ≤ s → s ≤ t → t ≤ 1 →
      Map01ToReverseSquare s ≤ Map01ToReverseSquare t) ∧
    Map01ToReverseSquare (0 : α) = 0 ∧ Map01ToReverseSquare (0.5 : α) = 0.75 ∧
    Map01ToReverseSquare (1 : α) = 1 := by
  have _ := hr
  have _ := hdist
  refine ⟨?_, (blockedAmountOf_range r dist R).1, (blockedAmountOf_range r dist R).2,
    ?_, ?_, ?_, ?_⟩
  · simp only [blockedAmountOf, Map01ToReverseSquare, Square, Clamp01_eq, Max_eq_max,
      Min_eq_min, pow_two]
  · intro s t hs hst ht
    unfold Map01ToReverseSquare Square
    nlinarith
  · simp [Map01ToReverseSquare, Square]
  · unfold Map01ToReverseSquare Square
    norm_num
  · simp [Map01ToReverseSquare, Square]

/-- Witness for C15: a cone of radius 1 and an occluder of radius 1 at distance 1. -/
theorem blockedAmountOf_formula_and_range_witness :
    (0 : ℚ) < 1 ∧ (0 : ℚ) ≤ 1 ∧
    blockedAmountOf (1 : ℚ) 1 1 =
      1 - (1 - max 0 (min 1 ((min (1 : ℚ) (1 + 1) - max (-1) (1 - 1)) / 1))) ^ 2 ∧
    0 ≤ blockedAmountOf (1 : ℚ) 1 1 ∧ blockedAmountOf (1 : ℚ) 1 1 ≤ 1 :=
  ⟨by norm_num, by norm_num,
    (blockedAmountOf_formula_and_range (1 : ℚ) 1 1 (by norm_num) (by norm_num)).1,
    (blockedAmountOf_formula_and_range (1 : ℚ) 1 1 (by norm_num) (by norm_num)).2.1,
    (blockedAmountOf_formula_and_range (1 : ℚ) 1 1 (by norm_num) (by norm_num)).2.2.1⟩

/-! ## Theorems: the occluder loop -/

/-- A blocked amount computed by an iteration lies in `[0,1]`. -/
theorem occluderBlocked_range {α : Type} [LinearOrderedField α] (sqrt : α → α)
    (p pointLightDir : v3 α) (pointLightLength r0 r1 : α) (perpX perpY : v3 α) (i : Nat)
    (s : sphere α) (b : α)
    (h : occluderBlocked sqrt p pointLightDir pointLightLength r0 r1 perpX perpY i s = some b) :
    0 ≤ b ∧ b ≤ 1 := by
  unfold occluderBlocked at h
  split at h
  · exact absurd h (by simp)
  · simp only at h
    split at h
    · exact absurd h (by simp)
    · injection h with h
      rw [← h]
      exact blockedAmountOf_range _ _ _

/-- The clamped running sum telescopes. -/
theorem max_zero_sub_sub {α : Type} [LinearOrderedField α] (x b S : α) (hS : 0 ≤ S) :
    max 0 (max 0 (x - b) - S) = max 0 (x - (b + S)) := by
  rcases le_total 0 (x - b) with h | h
  · rw [max_eq_right h]
    congr 1
    ring
  · rw [max_eq_left h, max_eq_left (by linarith), max_eq_left (by linarith)]

/-- The occluder loop computes count, sum, clamped sum and minimum of the list of
non-zero blocked fractions. -/
theorem occluderLoop_spec {α : Type} [LinearOrderedField α] (sqrt : α → α)
    (p pointLightDir : v3 α) (pointLightLength r0 r1 : α) (perpX perpY : v3 α) :
    ∀ (spheres : List (sphere α)) (i : Nat) (acc : shadow_accum α), 0 ≤ acc.lSum →
      (∀ b ∈ blockedFractions sqrt p pointLightDir pointLightLength r0 r1 perpX perpY spheres i,
        0 < b ∧ b ≤ 1) ∧
      (occluderLoop sqrt p pointLightDir pointLightLength r0 r1 perpX perpY spheres i acc).blockCount
        = acc.blockCount
          + ((blockedFractions sqrt p pointLightDir pointLightLength r0 r1 perpX perpY
              spheres i).length : α) ∧
      (occluderLoop sqrt p pointLightDir pointLightLength r0 r1 perpX perpY spheres i acc).blockedSum
        = acc.blockedSum
          + (blockedFractions sqrt p pointLightDir pointLightLength r0 r1 perpX perpY
              spheres i).sum ∧
      (occluderLoop sqrt p pointLightDir pointLightLength r0 r1 perpX perpY spheres i acc).lSum
        = max 0 (acc.lSum
          - (blockedFractions sqrt p pointLightDir pointLightLength r0 r1 perpX perpY
              spheres i).sum) ∧
      (occluderLoop sqrt p pointLightDir pointLightLength r0 r1 perpX perpY spheres i acc).lMin
        ≤ acc.lMin ∧
      (∀ b ∈ blockedFractions sqrt p pointLightDir pointLightLength r0 r1 perpX perpY spheres i,
        (occluderLoop sqrt p pointLightDir pointLightLength r0 r1 perpX perpY spheres i acc).lMin
          ≤ 1 - b) ∧
      ((occluderLoop sqrt p pointLightDir pointLightLength r0 r1 perpX perpY spheres i acc).lMin
          = acc.lMin ∨
        ∃ b ∈ blockedFractions sqrt p pointLightDir pointLightLength r0 r1 perpX perpY spheres i,
          (occluderLoop sqrt p pointLightDir pointLightLength r0 r1 perpX perpY spheres i
            acc).lMin = 1 - b) := by
  intro spheres
  induction spheres with
  | nil =>
    intro i acc hacc
    simp only [blockedFractions, occluderLoop, List.not_mem_nil, false_implies, implies_true,
      List.length_nil, Nat.cast_zero, add_zero, List.sum_nil, sub_zero, le_refl, true_and,
      false_and, exists_false, or_false, and_true]
    exact (max_eq_right hacc).symm
  | cons s rest ih =>
    intro i acc hacc
    cases hb : occluderBlocked sqrt p pointLightDir pointLightLength r0 r1 perpX perpY i s with
    | none =>
      simp only [blockedFractions, occluderLoop, hb]
      exact ih (i + 1) acc hacc
    | some b =>
      obtain ⟨hb0, hb1⟩ := occluderBlocked_range sqrt p pointLightDir pointLightLength r0 r1
        perpX perpY i s b hb
      by_cases hz : b = 0
      · subst hz
        have hacc2 : accumulateBlocked acc (0 : α) = acc := by
          simp [accumulateBlocked]
        simp only [blockedFractions, occluderLoop, hb, hacc2, ne_eq, not_true_eq_false,
          if_false]
        exact ih (i + 1) acc hacc
      · have hacc2 : accumulateBlocked acc b =
            { blockCount := acc.blockCount + 1
              blockedSum := acc.blockedSum + b
              lMin := Min acc.lMin (1 - b)
              lSum := Max 0 (acc.lSum - b) } := by
          simp [accumulateBlocked, hz]
        simp only [blockedFractions, occluderLoop, hb, hacc2, hz, ne_eq, not_false_eq_true,
          if_true]
        obtain ⟨k1, k2, k3, k4, k5, k6, k7⟩ := ih (i + 1)
          { blockCount := acc.blockCount + 1
            blockedSum := acc.blockedSum + b
            lMin := Min acc.lMin (1 - b)
            lSum := Max 0 (acc.lSum - b) }
          (by show 0 ≤ Max 0 (acc.lSum - b); rw [Max_eq_max]; exact le_max_left _ _)
        simp only [Max_eq_max, Min_eq_min] at k2 k3 k4 k5 k6 k7 ⊢
        have hS : 0 ≤ (blockedFractions sqrt p pointLightDir pointLightLength r0 r1 perpX perpY
            rest (i + 1)).sum :=
          List.sum_nonneg (fun x hx => le_of_lt (k1 x hx).1)
        have hbpos : 0 < b := lt_of_le_of_ne hb0 (Ne.symm hz)
        refine ⟨?_, ?_, ?_, ?_, ?_, ?_, ?_⟩
        · intro x hx
          rcases List.mem_cons.mp hx with rfl | hx
          · exact ⟨hbpos, hb1⟩
          · exact k1 x hx
        · rw [k2, List.length_cons]
          push_cast
          ring
        · rw [k3, List.sum_cons]
          ring
        · rw [k4, List.sum_cons]
          exact max_zero_sub_sub _ _ _ hS
        · exact le_trans k5 (min_le_left _ _)
        · intro x hx
          rcases List.mem_cons.mp hx with rfl | hx
          · exact le_trans k5 (min_le_right _ _)
          · exact k6 x hx
        · rcases k7 with h7 | ⟨x, hx, h7⟩
          · rcases min_choice acc.lMin (1 - b) with hm | hm
            · left
              rw [h7, hm]
            · right
              exact ⟨b, List.mem_cons_self _ _, by rw [h7, hm]⟩
          · right
            exact ⟨x, List.mem_cons_of_mem _ hx, h7⟩

/-- When every iteration ends at a `continue`, the loop leaves the accumulators alone. -/
theorem occluderLoop_skip {α : Type} [LinearOrderedField α] (sqrt : α → α)
    (p pointLightDir : v3 α) (pointLightLength r0 r1 : α) (perpX perpY : v3 α) :
    ∀ (spheres : List (sphere α)) (i : Nat) (acc : shadow_accum α),
      (∀ (j : Nat) (s : sphere α), spheres[j]? = some s → i + j ≠ 4 →
        Dot (s.c - p) pointLightDir < 0 ∨ Dot (s.c - p) pointLightDir > pointLightLength) →
      occluderLoop sqrt p pointLightDir pointLightLength r0 r1 perpX perpY spheres i acc
        = acc := by
  intro spheres
  induction spheres with
  | nil => intro i acc _; rfl
  | cons s rest ih =>
    intro i acc hall
    have hnone : occluderBlocked sqrt p pointLightDir pointLightLength r0 r1 perpX perpY i s
        = none := by
      unfold occluderBlocked
      by_cases h4 : i = 4
      · rw [if_pos h4]
      · rw [if_neg h4]
        simp only
        rw [if_pos (hall 0 s (by simp) (by simpa using h4))]
    simp only [occluderLoop, hnone]
    apply ih
    intro j s2 hj hne
    exact hall (j + 1) s2 (by simpa using hj) (by omega)

/-! ## Theorems: shape indices and totality of the shading code -/

/-- The nearest-hit search produces 0, `1 + i` for a sphere index `i`, or 10. -/
theorem nearestHit_index_range {α : Type} [LinearOrderedField α]
    (camNear camFar : α) (tSphere : List α) (tPlane : α) :
    (nearestHit camNear camFar tSphere tPlane).2 = 0 ∨
    (1 ≤ (nearestHit camNear camFar tSphere tPlane).2 ∧
      (nearestHit camNear camFar tSphere tPlane).2 ≤ (tSphere.length : Int)) ∨
    (nearestHit camNear camFar tSphere tPlane).2 = 10 := by
  have hspec := selectSpheres_spec camNear tSphere 0 camFar 0
  unfold nearestHit
  simp only
  split
  · right; right; rfl
  · rcases hspec with ⟨heq, _⟩ | ⟨j, h1, h2, _⟩
    · left
      rw [heq]
    · right; left
      have hj : j < tSphere.length := by
        by_contra hge
        rw [List.getElem?_eq_none (by omega)] at h1
        exact absurd h1 (by simp)
      rw [h2]
      simp only [zero_add]
      omega

/-- The shape index found along any ray of the scene is 0, one of 1 to 6, or 10. -/
theorem traceRay_index_range {α : Type} [LinearOrderedField α] (sqrt : α → α)
    (camNear camFar : α) (frameCamPos ro rd : v3 α) :
    (traceRay sqrt camNear camFar frameCamPos ro rd).2 = 0 ∨
    (1 ≤ (traceRay sqrt camNear camFar frameCamPos ro rd).2 ∧
      (traceRay sqrt camNear camFar frameCamPos ro rd).2 ≤ 6) ∨
    (traceRay sqrt camNear camFar frameCamPos ro rd).2 = 10 := by
  have h := nearestHit_index_range camNear camFar
    ((sceneSpheres frameCamPos).map (fun s => IntersectSphere sqrt s ro rd))
    (IntersectPlane 0 ro rd)
  simpa [traceRay, sceneSpheres] using h

/-- Every slot of `materials` that a hit can index is assigned. -/
theorem materials_isSome {α : Type} [LinearOrderedField α] (shapeIndex : Int)
    (h : (1 ≤ shapeIndex ∧ shapeIndex ≤ 6) ∨ shapeIndex = 10) :
    ∃ m : shape_material α, materials shapeIndex = some m := by
  have hcases : shapeIndex = 1 ∨ shapeIndex = 2 ∨ shapeIndex = 3 ∨ shapeIndex = 4 ∨
      shapeIndex = 5 ∨ shapeIndex = 6 ∨ shapeIndex = 10 := by omega
  rcases hcases with h | h | h | h | h | h | h <;> subst h <;> simp [materials]

/-- A slot of `materials` is assigned only for the indices 1 to 6 and 10. -/
theorem materials_some_index {α : Type} [LinearOrderedField α] (shapeIndex : Int)
    (m : shape_material α) (h : materials shapeIndex = some m) :
    (1 ≤ shapeIndex ∧ shapeIndex ≤ 6) ∨ shapeIndex = 10 := by
  unfold materials at h
  by_contra hne
  have h1 : ¬ shapeIndex = 1 := by omega
  have h2 : ¬ shapeIndex = 2 := by omega
  have h3 : ¬ shapeIndex = 3 := by omega
  have h4 : ¬ shapeIndex = 4 := by omega
  have h5 : ¬ shapeIndex = 5 := by omega
  have h6 : ¬ shapeIndex = 6 := by omega
  have h10 : ¬ shapeIndex = 10 := by omega
  simp only [h1, h2, h3, h4, h5, h6, h10, if_false] at h
  exact absurd h (by simp)

/-- The secondary ray never reads an unassigned slot of `materials`. -/
theorem reflectionColor_isSome {α : Type} [LinearOrderedField α] (sqrt : α → α)
    (camNear camFar : α) (frameCamPos p rd n : v3 α) :
    ∃ c, reflectionColor sqrt camNear camFar frameCamPos p rd n = some c := by
  unfold reflectionColor
  simp only
  rcases traceRay_index_range sqrt camNear camFar frameCamPos p (rd - (2 * Dot rd n) * n)
    with h0 | h16 | h10
  · rw [h0]
    simp
  · obtain ⟨m, hm⟩ := materials_isSome (α := α) _ (Or.inl h16)
    have hne : (traceRay sqrt camNear camFar frameCamPos p (rd - (2 * Dot rd n) * n)).2 ≠ 0 := by
      omega
    simp [hne, hm]
  · obtain ⟨m, hm⟩ := materials_isSome (α := α) _ (Or.inr h10)
    have hne : (traceRay sqrt camNear camFar frameCamPos p (rd - (2 * Dot rd n) * n)).2 ≠ 0 := by
      omega
    simp [hne, hm]

/-- The shading code of a hit runs to completion for every shape index a hit can have. -/
theorem shadeHit_isSome {α : Type} [LinearOrderedField α] (sqrt : α → α) (pow : α → α → α)
    (camNear camFar : α) (frameCamPos : v3 α) (worldFrameDim : v2 α)
    (frameDimX frameDimY : Int) (ro rd : v3 α) (t : α) (shapeIndex : Int)
    (h : (1 ≤ shapeIndex ∧ shapeIndex ≤ 6) ∨ shapeIndex = 10) :
    ∃ res, shadeHit sqrt pow camNear camFar frameCamPos worldFrameDim frameDimX frameDimY
      ro rd t shapeIndex = some res := by
  obtain ⟨m, hm⟩ := materials_isSome (α := α) shapeIndex h
  unfold shadeHit
  simp only [hm]
  split
  · rename_i hnone
    exfalso
    split at hnone
    · obtain ⟨c, hc⟩ := reflectionColor_isSome sqrt camNear camFar frameCamPos
        (ro + t * rd) rd
        (if shapeIndex ≥ 1 ∧ toUmm shapeIndex ≤ ((sceneSpheres frameCamPos).length : Int)
          then NormalSphere (sphereAt (sceneSpheres frameCamPos) (shapeIndex - 1).toNat)
            (ro + t * rd)
          else if shapeIndex = 10 then NormalPlane else V3 0 0 0)
      rw [hc] at hnone
      exact absurd hnone (by simp)
    · exact absurd hnone (by simp)
  · exact ⟨_, rfl⟩

/-! ## Theorems: soft shadow -/

/-- C13. For a shaded hit, if no non-light sphere has its projection
`d = Dot(center - p, lightDir)` inside `[0, distanceToLight]`, the occluder loop leaves
`blockCount` at 0, the shadow multiplier `l` is exactly 1 and the direct-light term is
left unchanged. -/
theorem softShadow_no_occluder_in_range {α : Type} [LinearOrderedField α] (sqrt : α → α)
    (pow : α → α → α) (camNear camFar : α) (frameCamPos : v3 α) (worldFrameDim : v2 α)
    (frameDimX frameDimY : Int) (ro rd : v3 α) (t : α) (shapeIndex : Int)
    (res : hit_shading α)
    (hres : shadeHit sqrt pow camNear camFar frameCamPos worldFrameDim frameDimX frameDimY
      ro rd t shapeIndex = some res)
    (hout : ∀ (i : Nat) (s : sphere α), (sceneSpheres frameCamPos)[i]? = some s → i ≠ 4 →
      Dot (s.c - res.p) res.pointLightDir < 0 ∨
      Dot (s.c - res.p) res.pointLightDir > res.pointLightLength) :
    (softShadowAccum sqrt (sceneSpheres frameCamPos) worldFrameDim frameDimX frameDimY t
      res.p res.pointLightDir res.pointLightLength).blockCount = 0 ∧
    shadowMultiplier (softShadowAccum sqrt (sceneSpheres frameCamPos) worldFrameDim
      frameDimX frameDimY t res.p res.pointLightDir res.pointLightLength) = 1 ∧
    res.l = 1 ∧ res.pointLight = res.pointLightPre := by
  obtain ⟨_, _, _, _, _, _, _, _, _, _, hl, hpl, _, _, _⟩ :=
    shadeHit_some sqrt pow camNear camFar frameCamPos worldFrameDim frameDimX frameDimY
      ro rd t shapeIndex res hres
  have hacc : softShadowAccum sqrt (sceneSpheres frameCamPos) worldFrameDim frameDimX
      frameDimY t res.p res.pointLightDir res.pointLightLength
      = { lMin := 1, lSum := 1, blockCount := 0, blockedSum := 0 } := by
    unfold softShadowAccum
    simp only
    apply occluderLoop_skip
    intro j s hj hne
    exact hout j s hj (by omega)
  have hmul : shadowMultiplier (softShadowAccum sqrt (sceneSpheres frameCamPos)
      worldFrameDim frameDimX frameDimY t res.p res.pointLightDir res.pointLightLength)
      = 1 := by
    rw [hacc]
    simp [shadowMultiplier]
  have hl1 : res.l = 1 := by
    rw [hl, hmul]
    simp
  refine ⟨by rw [hacc], hmul, hl1, ?_⟩
  rw [hpl, hl1]
  simp

/-- `blockCount` is the number of non-zero blocked fractions. -/
theorem occluder_accumulators_count {α : Type} [LinearOrderedField α] (sqrt : α → α)
    (spheres : List (sphere α)) (worldFrameDim : v2 α) (frameDimX frameDimY : Int) (t : α)
    (p pointLightDir : v3 α) (pointLightLength : α) :
    (softShadowAccum sqrt spheres worldFrameDim frameDimX frameDimY t p pointLightDir
        pointLightLength).blockCount
      = ((softShadowFractions sqrt spheres worldFrameDim frameDimX frameDimY t p
          pointLightDir pointLightLength).length : α) := by
  unfold softShadowAccum softShadowFractions
  simp only
  have h := (occluderLoop_spec sqrt p pointLightDir pointLightLength
    (sqrt (worldFrameDim.x / (frameDimX : α) * (worldFrameDim.y / (frameDimY : α)) / (PI * t)))
    (sphereAt spheres 4).r (Perpendicular sqrt pointLightDir)
    (Cross (Perpendicular sqrt pointLightDir) pointLightDir) spheres 0
    { lMin := 1, lSum := 1, blockCount := 0, blockedSum := 0 } zero_le_one).2.1
  simpa using h

/-- C16. After the occluder loop, for the list `b_1 .. b_k` of the non-zero blocked
fractions of the in-range occluders (each lies in `(0,1]`): `blockCount = k`,
`blockedSum` is their sum, `lSum` is the closed form `max(0, 1 - sum)`, and `lMin` is
`1 - max b_i`: it is 1 when `k = 0`, otherwise it is `1 - b` for one of the fractions
and at most `1 - b` for all of them. -/
theorem occluder_accumulators_closed_form {α : Type} [LinearOrderedField α] (sqrt : α → α)
    (spheres : List (sphere α)) (worldFrameDim : v2 α) (frameDimX frameDimY : Int) (t : α)
    (p pointLightDir : v3 α) (pointLightLength : α) :
    (∀ b ∈ softShadowFractions sqrt spheres worldFrameDim frameDimX frameDimY t p
        pointLightDir pointLightLength, 0 < b ∧ b ≤ 1) ∧
    (softShadowAccum sqrt spheres worldFrameDim frameDimX frameDimY t p pointLightDir
        pointLightLength).blockCount
      = ((softShadowFractions sqrt spheres worldFrameDim frameDimX frameDimY t p
          pointLightDir pointLightLength).length : α) ∧
    (softShadowAccum sqrt spheres worldFrameDim frameDimX frameDimY t p pointLightDir
        pointLightLength).blockedSum
      = (softShadowFractions sqrt spheres worldFrameDim frameDimX frameDimY t p
          pointLightDir pointLightLength).sum ∧
    (softShadowAccum sqrt spheres worldFrameDim frameDimX frameDimY t p pointLightDir
        pointLightLength).lSum
      = max 0 (1 - (softShadowFractions sqrt spheres worldFrameDim frameDimX frameDimY t p
          pointLightDir pointLightLength).sum) ∧
    (softShadowFractions sqrt spheres worldFrameDim frameDimX frameDimY t p pointLightDir
        pointLightLength = [] →
      (softShadowAccum sqrt spheres worldFrameDim frameDimX frameDimY t p pointLightDir
        pointLightLength).lMin = 1) ∧
    (∀ b ∈ softShadowFractions sqrt spheres worldFrameDim frameDimX frameDimY t p
        pointLightDir pointLightLength,
      (softShadowAccum sqrt spheres worldFrameDim frameDimX frameDimY t p pointLightDir
        pointLightLength).lMin ≤ 1 - b) ∧
    (softShadowFractions sqrt spheres worldFrameDim frameDimX frameDimY t p pointLightDir
        pointLightLength ≠ [] →
      ∃ b ∈ softShadowFractions sqrt spheres worldFrameDim frameDimX frameDimY t p
        pointLightDir pointLightLength,
      (softShadowAccum sqrt spheres worldFrameDim frameDimX frameDimY t p pointLightDir
        pointLightLength).lMin = 1 - b) := by
  unfold softShadowAccum softShadowFractions
  simp only
  obtain ⟨k1, k2, k3, k4, _, k6, k7⟩ := occluderLoop_spec sqrt p pointLightDir pointLightLength
    (sqrt (worldFrameDim.x / (frameDimX : α) * (worldFrameDim.y / (frameDimY : α)) / (PI * t)))
    (sphereAt spheres 4).r (Perpendicular sqrt pointLightDir)
    (Cross (Perpendicular sqrt pointLightDir) pointLightDir) spheres 0
    { lMin := 1, lSum := 1, blockCount := 0, blockedSum := 0 } zero_le_one
  simp only [zero_add] at k2 k3
  refine ⟨k1, k2, k3, k4, ?_, k6, ?_⟩
  · intro hnil
    rcases k7 with h | ⟨b, hb, _⟩
    · exact h
    · rw [hnil] at hb
      exact absurd hb (List.not_mem_nil b)
  · intro hne
    rcases k7 with h | h
    · obtain ⟨b, hb⟩ := List.exists_mem_of_ne_nil _ hne
      have h1 := k6 b hb
      have h2 := (k1 b hb).1
      rw [h] at h1
      simp only at h1
      linarith
    · exact h

/-- The blend of the three estimators, written out. -/
theorem shadowMultiplier_blend {α : Type} [LinearOrderedField α] (acc : shadow_accum α)
    (h : acc.blockCount ≠ 0) :
    shadowMultiplier acc = min acc.lMin (0.5 * acc.lMin
      + 0.5 * (0.5 * acc.lSum + 0.5 * (1 - acc.blockedSum / acc.blockCount))) := by
  simp only [shadowMultiplier, h, ne_eq, not_false_eq_true, if_true, Min_eq_min, Lerp_half]

/-- C17. When at least one occluder contributed non-zero blockage, `blockCount` is not
zero, the final shadow multiplier is
`min(lMin, 0.5*lMin + 0.5*(0.5*lSum + 0.5*(1 - blockedSum/blockCount)))`, and the
direct-light term of the hit is its value before the shadow code times this
multiplier. -/
theorem shadow_blend_of_three_estimators {α : Type} [LinearOrderedField α] (sqrt : α → α)
    (pow : α → α → α) (camNear camFar : α) (frameCamPos : v3 α) (worldFrameDim : v2 α)
    (frameDimX frameDimY : Int) (ro rd : v3 α) (t : α) (shapeIndex : Int)
    (res : hit_shading α)
    (hres : shadeHit sqrt pow camNear camFar frameCamPos worldFrameDim frameDimX frameDimY
      ro rd t shapeIndex = some res)
    (hbs : softShadowFractions sqrt (sceneSpheres frameCamPos) worldFrameDim frameDimX
      frameDimY t res.p res.pointLightDir res.pointLightLength ≠ []) :
    (softShadowAccum sqrt (sceneSpheres frameCamPos) worldFrameDim frameDimX frameDimY t
      res.p res.pointLightDir res.pointLightLength).blockCount ≠ 0 ∧
    shadowMultiplier (softShadowAccum sqrt (sceneSpheres frameCamPos) worldFrameDim
        frameDimX frameDimY t res.p res.pointLightDir res.pointLightLength)
      = min (softShadowAccum sqrt (sceneSpheres frameCamPos) worldFrameDim frameDimX
          frameDimY t res.p res.pointLightDir res.pointLightLength).lMin
        (0.5 * (softShadowAccum sqrt (sceneSpheres frameCamPos) worldFrameDim frameDimX
            frameDimY t res.p res.pointLightDir res.pointLightLength).lMin
          + 0.5 * (0.5 * (softShadowAccum sqrt (sceneSpheres frameCamPos) worldFrameDim
              frameDimX frameDimY t res.p res.pointLightDir res.pointLightLength).lSum
            + 0.5 * (1 - (softShadowAccum sqrt (sceneSpheres frameCamPos) worldFrameDim
                frameDimX frameDimY t res.p res.pointLightDir res.pointLightLength).blockedSum
              / (softShadowAccum sqrt (sceneSpheres frameCamPos) worldFrameDim frameDimX
                frameDimY t res.p res.pointLightDir res.pointLightLength).blockCount))) ∧
    (res.pointLightPre ≠ 0 →
      res.l = shadowMultiplier (softShadowAccum sqrt (sceneSpheres frameCamPos)
        worldFrameDim frameDimX frameDimY t res.p res.pointLightDir
        res.pointLightLength)) ∧
    res.pointLight = res.pointLightPre
      * shadowMultiplier (softShadowAccum sqrt (sceneSpheres frameCamPos) worldFrameDim
        frameDimX frameDimY t res.p res.pointLightDir res.pointLightLength) := by
  obtain ⟨_, _, _, _, _, _, _, _, _, _, hl, hpl, _, _, _⟩ :=
    shadeHit_some sqrt pow camNear camFar frameCamPos worldFrameDim frameDimX frameDimY
      ro rd t shapeIndex res hres
  have hcount := (occluder_accumulators_count sqrt (sceneSpheres frameCamPos) worldFrameDim
    frameDimX frameDimY t res.p res.pointLightDir res.pointLightLength)
  have hne : (softShadowAccum sqrt (sceneSpheres frameCamPos) worldFrameDim frameDimX
      frameDimY t res.p res.pointLightDir res.pointLightLength).blockCount ≠ 0 := by
    rw [hcount]
    have : 0 < (softShadowFractions sqrt (sceneSpheres frameCamPos) worldFrameDim frameDimX
        frameDimY t res.p res.pointLightDir res.pointLightLength).length :=
      List.length_pos.mpr hbs
    exact_mod_cast (Nat.pos_iff_ne_zero.mp this)
  refine ⟨hne, shadowMultiplier_blend _ hne, ?_, ?_⟩
  · intro hpre
    rw [hl, if_pos hpre]
  · by_cases hpre : res.pointLightPre = 0
    · rw [hpl, if_neg (by simp [hpre]), hpre, zero_mul]
    · rw [hpl, if_pos hpre, hl, if_pos hpre]

/-! ## A concrete shading point: the top of the second sphere -/

/-- The light sphere is `spheres[4]`. -/
theorem sphereAt_light {α : Type} [LinearOrderedField α] (frameCamPos : v3 α) :
    sphereAt (sceneSpheres frameCamPos) 4 = { c := V3 0 15 0, r := 2.5 } := by
  simp [sphereAt, sceneSpheres]

/-- `Real.sqrt` of 36. -/
theorem sqrt_36 : Real.sqrt 36 = 6 := by
  rw [show (36 : ℝ) = 6 ^ 2 by norm_num]
  exact Real.sqrt_sq (by norm_num)

/-- Shading the point `(0, 9, 0)` on top of the sphere with centre `(0, 6, 0)`: the
light is straight above at distance 6. -/
theorem shade_top_of_sphere2 (camNear camFar : ℝ) (frameCamPos : v3 ℝ)
    (worldFrameDim : v2 ℝ) (frameDimX frameDimY : Int) (res : hit_shading ℝ)
    (hres : shadeHit Real.sqrt Real.rpow camNear camFar frameCamPos worldFrameDim
      frameDimX frameDimY (V3 0 9 (-10)) (V3 0 0 1) 10 2 = some res) :
    res.p = V3 0 9 0 ∧ res.pointLightDir = V3 0 1 0 ∧ res.pointLightLength = 6 := by
  obtain ⟨_, _, hp, _, _, _, _, hlen, hdir, _⟩ :=
    shadeHit_some Real.sqrt Real.rpow camNear camFar frameCamPos worldFrameDim frameDimX
      frameDimY (V3 0 9 (-10)) (V3 0 0 1) 10 2 res hres
  have hp2 : res.p = V3 0 9 0 := by
    rw [hp, v3_ext_iff]
    simp
  have hlen2 : Length Real.sqrt ((V3 0 15 0 : v3 ℝ) - V3 0 9 0) = 6 := by
    simp only [Length, v3_sub_x, v3_sub_y, v3_sub_z, V3_x, V3_y, V3_z]
    norm_num
    exact sqrt_36
  rw [sphereAt_light, hp2] at hlen hdir
  simp only at hlen hdir
  refine ⟨hp2, ?_, by rw [hlen, hlen2]⟩
  have hgt : Length Real.sqrt ((V3 0 15 0 : v3 ℝ) - V3 0 9 0) > normalizeEpsilon := by
    rw [hlen2]
    unfold normalizeEpsilon
    norm_num
  have hN : Normalize Real.sqrt ((V3 0 15 0 : v3 ℝ) - V3 0 9 0)
      = ((V3 0 15 0 : v3 ℝ) - V3 0 9 0) / Length Real.sqrt ((V3 0 15 0 : v3 ℝ) - V3 0 9 0) := by
    unfold Normalize
    simp only
    rw [if_pos hgt]
  rw [hdir, hN, hlen2, v3_ext_iff]
  simp only [v3_div_x, v3_div_y, v3_div_z, v3_sub_x, v3_sub_y, v3_sub_z, V3_x, V3_y, V3_z]
  norm_num

/-- An in-range occluder with a non-zero blocked amount makes the list of blocked
fractions non-empty. -/
theorem blockedFractions_ne_nil {α : Type} [LinearOrderedField α] (sqrt : α → α)
    (p pointLightDir : v3 α) (pointLightLength r0 r1 : α) (perpX perpY : v3 α) :
    ∀ (spheres : List (sphere α)) (i j : Nat) (s : sphere α) (b : α),
      spheres[j]? = some s →
      occluderBlocked sqrt p pointLightDir pointLightLength r0 r1 perpX perpY (i + j) s
        = some b → b ≠ 0 →
      blockedFractions sqrt p pointLightDir pointLightLength r0 r1 perpX perpY spheres i
        ≠ [] := by
  intro spheres
  induction spheres with
  | nil => intro i j s b hj; simp at hj
  | cons s0 rest ih =>
    intro i j s b hj hb hne
    cases j with
    | zero =>
      simp only [List.getElem?_cons_zero, Option.some.injEq] at hj
      subst hj
      simp only [add_zero] at hb
      simp [blockedFractions, hb, hne]
    | succ j =>
      simp only [List.getElem?_cons_succ] at hj
      have hrest := ih (i + 1) j s b hj (by rw [← hb]; congr 1; omega) hne
      unfold blockedFractions
      split
      · exact hrest
      · split
        · simp
        · exact hrest

/-- Overlapping circles give a positive blocked amount. -/
theorem blockedAmountOf_pos {α : Type} [LinearOrderedField α] (r dis sphereR : α)
    (hr : 0 < r) (hR : 0 < sphereR) (hd0 : 0 ≤ dis) (hd : dis < r + sphereR) :
    0 < blockedAmountOf r dis sphereR := by
  simp only [blockedAmountOf, Map01ToReverseSquare, Square, Clamp01_eq, Max_eq_max,
    Min_eq_min]
  have hlen : 0 < min r (dis + sphereR) - max (-r) (dis - sphereR) := by
    have h1 : max (-r) (dis - sphereR) < min r (dis + sphereR) := by
      rw [max_lt_iff, lt_min_iff, lt_min_iff]
      refine ⟨⟨by linarith, by linarith⟩, by linarith, by linarith⟩
    linarith
  have hq : 0 < (min r (dis + sphereR) - max (-r) (dis - sphereR)) / r := div_pos hlen hr
  have hc0 : 0 < max 0 (min 1 ((min r (dis + sphereR) - max (-r) (dis - sphereR)) / r)) :=
    lt_max_of_lt_right (lt_min zero_lt_one hq)
  have hc1 : max 0 (min 1 ((min r (dis + sphereR) - max (-r) (dis - sphereR)) / r)) ≤ 1 :=
    max_le zero_le_one (min_le_left _ _)
  nlinarith

/-- `Perpendicular` of the upward direction. -/
theorem Perpendicular_up : Perpendicular Real.sqrt (V3 0 1 0 : v3 ℝ) = V3 1 0 0 := by
  have hlen : Length Real.sqrt (V3 (V3 0 1 0 : v3 ℝ).y (-(V3 0 1 0 : v3 ℝ).x) 0) = 1 := by
    simp [Length]
  have hgt : Length Real.sqrt (V3 (V3 0 1 0 : v3 ℝ).y (-(V3 0 1 0 : v3 ℝ).x) 0)
      > normalizeEpsilon := by
    rw [hlen]
    unfold normalizeEpsilon
    norm_num
  unfold Perpendicular Normalize
  simp only
  rw [if_pos hgt, hlen, v3_ext_iff]
  simp

/-- Witness for C13: the top `(0, 9, 0)` of the second sphere with the camera at
`(0, 2, -15)`; every other sphere, and the camera sphere, lies below the point. -/
theorem softShadow_no_occluder_in_range_witness :
    ∃ res : hit_shading ℝ,
      shadeHit Real.sqrt Real.rpow (1 / 1000) 1000000 (V3 0 2 (-15)) { x := 1, y := 1 }
        640 480 (V3 0 9 (-10)) (V3 0 0 1) 10 2 = some res ∧
      (∀ (i : Nat) (s : sphere ℝ), (sceneSpheres (V3 0 2 (-15) : v3 ℝ))[i]? = some s →
        i ≠ 4 →
        Dot (s.c - res.p) res.pointLightDir < 0 ∨
        Dot (s.c - res.p) res.pointLightDir > res.pointLightLength) ∧
      res.l = 1 ∧ res.pointLight = res.pointLightPre := by
  obtain ⟨res, hres⟩ := shadeHit_isSome Real.sqrt Real.rpow (1 / 1000 : ℝ) 1000000
    (V3 0 2 (-15)) { x := 1, y := 1 } 640 480 (V3 0 9 (-10)) (V3 0 0 1) 10 2
    (Or.inl ⟨by norm_num, by norm_num⟩)
  obtain ⟨hp, hdir, _⟩ := shade_top_of_sphere2 _ _ _ _ _ _ res hres
  have hout : ∀ (i : Nat) (s : sphere ℝ),
      (sceneSpheres (V3 0 2 (-15) : v3 ℝ))[i]? = some s → i ≠ 4 →
      Dot (s.c - res.p) res.pointLightDir < 0 ∨
      Dot (s.c - res.p) res.pointLightDir > res.pointLightLength := by
    intro i s hi hne
    left
    rw [hp, hdir]
    rcases i with _ | _ | _ | _ | _ | _ | i
    all_goals simp [sceneSpheres] at hi
    all_goals try (subst hi; norm_num [Dot])
    exact absurd rfl hne
  exact ⟨res, hres, hout,
    (softShadow_no_occluder_in_range Real.sqrt Real.rpow (1 / 1000 : ℝ) 1000000
      (V3 0 2 (-15)) { x := 1, y := 1 } 640 480 (V3 0 9 (-10)) (V3 0 0 1) 10 2 res hres
      hout).2.2⟩

/-- With the camera at `(0, 12, 0)` the camera sphere hangs between the point
`(0, 9, 0)` and the light and blocks part of it. -/
theorem camera_sphere_blocks (worldFrameDim : v2 ℝ) (frameDimX frameDimY : Int) (t : ℝ) :
    softShadowFractions Real.sqrt (sceneSpheres (V3 0 12 0 : v3 ℝ)) worldFrameDim frameDimX
      frameDimY t (V3 0 9 0) (V3 0 1 0) 6 ≠ [] := by
  unfold softShadowFractions
  simp only [sphereAt_light, Perpendicular_up]
  have hd : Dot ((V3 0 12 0 : v3 ℝ) - V3 0 9 0) (V3 0 1 0) = 3 := by norm_num [Dot]
  have hcond : ¬ (Dot ((V3 0 12 0 : v3 ℝ) - V3 0 9 0) (V3 0 1 0) < 0 ∨
      Dot ((V3 0 12 0 : v3 ℝ) - V3 0 9 0) (V3 0 1 0) > 6) := by
    rw [hd]; norm_num
  have hdis : LengthV2 Real.sqrt
      { x := Dot ((V3 0 12 0 : v3 ℝ) - V3 0 9 0) (V3 1 0 0),
        y := Dot ((V3 0 12 0 : v3 ℝ) - V3 0 9 0) (Cross (V3 1 0 0) (V3 0 1 0)) } = 0 := by
    simp [LengthV2, Dot, Cross]
  have hr : ∀ r0 : ℝ, 0 ≤ r0 → 0 < LerpClamp r0 2.5
      (Dot ((V3 0 12 0 : v3 ℝ) - V3 0 9 0) (V3 0 1 0) / 6) := by
    intro r0 hr0
    rw [hd]
    have hc : Clamp01 ((3 : ℝ) / 6) = 1 / 2 := by
      rw [Clamp01_eq]
      norm_num
    simp only [LerpClamp, Lerp, hc]
    linarith
  apply blockedFractions_ne_nil Real.sqrt _ _ _ _ _ _ _ (sceneSpheres (V3 0 12 0 : v3 ℝ)) 0 5
    { c := V3 0 12 0, r := 1.5 }
    (blockedAmountOf
      (LerpClamp (Real.sqrt (worldFrameDim.x / (frameDimX : ℝ) * (worldFrameDim.y / (frameDimY : ℝ))
        / (PI * t))) 2.5 (Dot ((V3 0 12 0 : v3 ℝ) - V3 0 9 0) (V3 0 1 0) / 6))
      (LengthV2 Real.sqrt
        { x := Dot ((V3 0 12 0 : v3 ℝ) - V3 0 9 0) (V3 1 0 0),
          y := Dot ((V3 0 12 0 : v3 ℝ) - V3 0 9 0) (Cross (V3 1 0 0) (V3 0 1 0)) })
      1.5)
  · simp [sceneSpheres]
  · unfold occluderBlocked
    rw [if_neg (by decide)]
    simp only
    rw [if_neg hcond]
  · apply ne_of_gt
    rw [hdis]
    have h := hr _ (Real.sqrt_nonneg
      (worldFrameDim.x / (frameDimX : ℝ) * (worldFrameDim.y / (frameDimY : ℝ)) / (PI * t)))
    exact blockedAmountOf_pos _ _ _ h (by norm_num) (le_refl _) (by linarith)

/-- Witness for C17: the top `(0, 9, 0)` of the second sphere with the camera at
`(0, 12, 0)`, whose sphere blocks part of the light. -/
theorem shadow_blend_of_three_estimators_witness :
    ∃ res : hit_shading ℝ,
      shadeHit Real.sqrt Real.rpow (1 / 1000) 1000000 (V3 0 12 0) { x := 1, y := 1 }
        640 480 (V3 0 9 (-10)) (V3 0 0 1) 10 2 = some res ∧
      softShadowFractions Real.sqrt (sceneSpheres (V3 0 12 0 : v3 ℝ)) { x := 1, y := 1 } 640
        480 10 res.p res.pointLightDir res.pointLightLength ≠ [] ∧
      res.pointLight = res.pointLightPre
        * shadowMultiplier (softShadowAccum Real.sqrt (sceneSpheres (V3 0 12 0 : v3 ℝ))
          { x := 1, y := 1 } 640 480 10 res.p res.pointLightDir res.pointLightLength) := by
  obtain ⟨res, hres⟩ := shadeHit_isSome Real.sqrt Real.rpow (1 / 1000 : ℝ) 1000000
    (V3 0 12 0) { x := 1, y := 1 } 640 480 (V3 0 9 (-10)) (V3 0 0 1) 10 2
    (Or.inl ⟨by norm_num, by norm_num⟩)
  obtain ⟨hp, hdir, hlen⟩ := shade_top_of_sphere2 _ _ _ _ _ _ res hres
  have hbs : softShadowFractions Real.sqrt (sceneSpheres (V3 0 12 0 : v3 ℝ))
      { x := 1, y := 1 } 640 480 10 res.p res.pointLightDir res.pointLightLength ≠ [] := by
    rw [hp, hdir, hlen]
    exact camera_sphere_blocks _ _ _ _
  exact ⟨res, hres, hbs,
    (shadow_blend_of_three_estimators Real.sqrt Real.rpow (1 / 1000 : ℝ) 1000000 (V3 0 12 0)
      { x := 1, y := 1 } 640 480 (V3 0 9 (-10)) (V3 0 0 1) 10 2 res hres hbs).2.2.2⟩

/-! ## Theorems: pixel output -/

/-- The bytes written for the black colour are all 0. -/
theorem pixelBytes_black {α : Type} [LinearOrderedField α] [FloorRing α]
    (pow : α → α → α) : pixelBytes pow (V3xyz 0 : v3 α) = (0, 0, 0) := by
  have hlin : LinearToSrgb pow (0 : α) = 0 := by
    have h0 : (0 : α) < 0.0031308 := by norm_num
    simp only [LinearToSrgb, h0, if_true, zero_mul]
  have hclamp : Clamp01 (0 : α) = 0 := by
    rw [Clamp01_eq]
    simp
  have hbyte : castU8 (Clamp01 (LinearToSrgb pow (0 : α)) * 255) = 0 := by
    rw [hlin, hclamp, zero_mul]
    simp [castU8, truncToInt]
  simp only [pixelBytes, V3xyz_x, V3xyz_y, V3xyz_z, hbyte]

/-- C19. When the primary ray of a pixel selects no shape (shape index 0), the colour
is black and the three bytes written for the pixel are all 0. -/
theorem no_hit_pixel_is_black {α : Type} [LinearOrderedField α] [FloorRing α]
    (sqrt : α → α) (pow : α → α → α) (tan : α → α) (fs : frame_state α) (x y : Int)
    (hmiss : (primaryHit sqrt tan fs x y).2 = 0) :
    pixelColor sqrt pow tan fs x y = some (V3xyz 0) ∧
    renderPixel sqrt pow tan fs x y = some (0, 0, 0) := by
  have hcol : pixelColor sqrt pow tan fs x y = some (V3xyz 0) := by
    unfold pixelColor
    simp only [hmiss, ne_eq, not_true_eq_false, if_false]
  refine ⟨hcol, ?_⟩
  unfold renderPixel
  rw [hcol]
  simp only [Option.map_some', pixelBytes_black]

/-- The sphere loop selects nothing when no distance exceeds `camNear`. -/
theorem selectSpheres_none {α : Type} [LinearOrderedField α] (camNear : α) :
    ∀ (l : List α) (i : Nat) (acc : α × Int), (∀ c ∈ l, ¬ camNear < c) →
      selectSpheres camNear l i acc = acc := by
  intro l
  induction l with
  | nil => intro i acc _; rfl
  | cons c rest ih =>
    intro i acc h
    have hc : ¬ (c > camNear ∧ c < acc.1) := fun hh => h c (List.mem_cons_self _ _) hh.1
    simp only [selectSpheres, hc, if_false]
    exact ih (i + 1) acc (fun d hd => h d (List.mem_cons_of_mem _ hd))

/-- The nearest-hit search finds nothing when no distance exceeds `camNear`. -/
theorem nearestHit_none {α : Type} [LinearOrderedField α] (camNear camFar : α)
    (tSphere : List α) (tPlane : α) (hs : ∀ c ∈ tSphere, ¬ camNear < c)
    (hp : ¬ camNear < tPlane) :
    nearestHit camNear camFar tSphere tPlane = (camFar, 0) := by
  unfold nearestHit
  rw [selectSpheres_none camNear tSphere 0 (camFar, 0) hs]
  simp only
  rw [if_neg (fun hh => hp hh.1)]

/-- `IntersectSphere` returns -1 for a negative discriminant. -/
theorem IntersectSphere_miss (s : sphere ℝ) (ro rd : v3 ℝ)
    (h : (2 * Dot (ro - s.c) rd) ^ 2 - 4 * (Dot (ro - s.c) (ro - s.c) - s.r ^ 2) < 0) :
    IntersectSphere Real.sqrt s ro rd = -1 := by
  rw [IntersectSphere_eq, if_neg (not_le.mpr h)]

/-- The ray through the image centre for the basis of yaw = pitch = 0. -/
theorem cameraRayDir_center (worldFrameDim : v2 ℝ) :
    cameraRayDir Real.sqrt (V3 0 0 1) (V3 1 0 0) (V3 0 1 0) worldFrameDim
      (pixelUV 640 480 320 240) = V3 0 0 1 := by
  rw [v3_ext_iff]
  simp only [cameraRayDir, NormalizeNonZero, Length, pixelUV, v3_div_x, v3_div_y, v3_div_z,
    v3_add_x, v3_add_y, v3_add_z, v3_muls_x, v3_muls_y, v3_muls_z, v3_smul_x, v3_smul_y,
    v3_smul_z, V3_x, V3_y, V3_z]
  norm_num

/-- From `(0, 10, -15)` the ray along +Z misses every shape of the scene. -/
theorem level_center_ray_misses :
    (primaryHit Real.sqrt Real.tan (levelFrame : frame_state ℝ) 320 240).2 = 0 := by
  have hrd : primaryRay Real.sqrt Real.tan (levelFrame : frame_state ℝ) 320 240 = V3 0 0 1 := by
    unfold primaryRay levelFrame
    simp only
    exact cameraRayDir_center _
  unfold primaryHit
  rw [hrd]
  unfold traceRay
  have hnone := nearestHit_none ((levelFrame : frame_state ℝ).camNear) (levelFrame.camFar)
    ((sceneSpheres levelFrame.camera.frameCamPos).map
      (fun s => IntersectSphere Real.sqrt s levelFrame.camera.frameCamPos (V3 0 0 1)))
    (IntersectPlane 0 levelFrame.camera.frameCamPos (V3 0 0 1))
    (by
      intro c hc
      simp only [sceneSpheres, List.map_cons, List.map_nil, List.mem_cons,
        List.mem_singleton, List.not_mem_nil, or_false] at hc
      have hnear : (levelFrame : frame_state ℝ).camNear = 1 / 1000 := rfl
      rw [hnear]
      rcases hc with h | h | h | h | h | h
      · rw [h, IntersectSphere_miss _ _ _ (by norm_num [Dot, levelFrame])]
        norm_num
      · rw [h, IntersectSphere_miss _ _ _ (by norm_num [Dot, levelFrame])]
        norm_num
      · rw [h, IntersectSphere_miss _ _ _ (by norm_num [Dot, levelFrame])]
        norm_num
      · rw [h, IntersectSphere_miss _ _ _ (by norm_num [Dot, levelFrame])]
        norm_num
      · rw [h, IntersectSphere_miss _ _ _ (by norm_num [Dot, levelFrame])]
        norm_num
      · have hneg := IntersectSphere_neg_of_inside
          { c := (levelFrame : frame_state ℝ).camera.frameCamPos, r := 1.5 }
          levelFrame.camera.frameCamPos
          (V3 0 0 1) (by norm_num [Dot])
        rw [h]
        linarith)
    (by
      have hpl : IntersectPlane 0 (levelFrame : frame_state ℝ).camera.frameCamPos
          (V3 0 0 1 : v3 ℝ) = -1 := by
        simp [IntersectPlane]
      rw [hpl]
      show ¬ ((1 : ℝ) / 1000 < -1)
      norm_num)
  rw [hnone]

/-- Witness for C19: the centre pixel of `levelFrame`, whose ray misses the scene. -/
theorem no_hit_pixel_is_black_witness :
    (primaryHit Real.sqrt Real.tan (levelFrame : frame_state ℝ) 320 240).2 = 0 ∧
    renderPixel Real.sqrt Real.rpow Real.tan (levelFrame : frame_state ℝ) 320 240 = some (0, 0, 0) :=
  ⟨level_center_ray_misses,
    (no_hit_pixel_is_black Real.sqrt Real.rpow Real.tan (levelFrame : frame_state ℝ) 320 240
      level_center_ray_misses).2⟩

/-! ## Theorems: composite colour and reflection -/

/-- The emission flag of a shaded hit. -/
theorem shadeHit_emit {α : Type} [LinearOrderedField α] (sqrt : α → α) (pow : α → α → α)
    (camNear camFar : α) (frameCamPos : v3 α) (worldFrameDim : v2 α)
    (frameDimX frameDimY : Int) (ro rd : v3 α) (t : α) (shapeIndex : Int)
    (res : hit_shading α)
    (h : shadeHit sqrt pow camNear camFar frameCamPos worldFrameDim frameDimX frameDimY
      ro rd t shapeIndex = some res) :
    ((1 ≤ shapeIndex ∧ shapeIndex ≤ 6) ∨ shapeIndex = 10) ∧
    (shapeIndex = 5 → res.emit = 1) ∧ (shapeIndex ≠ 5 → res.emit = 0) := by
  obtain ⟨m, hm, _, _, _, _, hemit, _⟩ :=
    shadeHit_some sqrt pow camNear camFar frameCamPos worldFrameDim frameDimX frameDimY
      ro rd t shapeIndex res h
  have hidx := materials_some_index shapeIndex m hm
  refine ⟨hidx, ?_, ?_⟩
  · intro h5
    subst h5
    rw [hemit]
    simp [toUmm, sceneSpheres]
  · intro h5
    rw [hemit]
    simp [h5]

/-- C18. Every hit of a ray is shaded, and the linear colour of a shaded hit is
`baseColor*(emission + 0.03 + 0.12*max(0, normal.y) + shadowedDirectLight) + specular
+ reflectionColor*reflectivity`, with base colour and reflectivity from the material
of the shape; `emission` is 1 exactly when the shape index is 5, the light sphere
`spheres[4]` whose centre `(0, 15, 0)` is the light position, and 0 otherwise; `specular`
is the zero vector when the shadowed light term is 0 and otherwise
`shadowedDirectLight*3*Dot(n, h)^50/distanceToLight` on all three channels, `h` being
the normalised half vector of the light direction and `-rd`. -/
theorem hit_colour_composite (camNear camFar : ℝ) (frameCamPos : v3 ℝ)
    (worldFrameDim : v2 ℝ) (frameDimX frameDimY : Int) :
    (∀ ro rd : v3 ℝ, (traceRay Real.sqrt camNear camFar frameCamPos ro rd).2 ≠ 0 →
      ∃ res, shadeHit Real.sqrt Real.rpow camNear camFar frameCamPos worldFrameDim frameDimX
        frameDimY ro rd (traceRay Real.sqrt camNear camFar frameCamPos ro rd).1
        (traceRay Real.sqrt camNear camFar frameCamPos ro rd).2 = some res) ∧
    (∀ (ro rd : v3 ℝ) (t : ℝ) (shapeIndex : Int) (res : hit_shading ℝ),
      shadeHit Real.sqrt Real.rpow camNear camFar frameCamPos worldFrameDim frameDimX
        frameDimY ro rd t shapeIndex = some res →
      res.col = res.shapeCol * (res.emit + 0.03 + 0.12 * max 0 res.n.y + res.pointLight)
        + res.specular + res.reflectionCol * res.reflectivity ∧
      materials shapeIndex
        = some { color := res.shapeCol, reflectivity := res.reflectivity } ∧
      (shapeIndex = 5 → res.emit = 1) ∧ (shapeIndex ≠ 5 → res.emit = 0) ∧
      sphereAt (sceneSpheres frameCamPos) 4 = { c := V3 0 15 0, r := 2.5 } ∧
      (shapeIndex = 5 →
        res.n = NormalSphere (sphereAt (sceneSpheres frameCamPos) 4) res.p) ∧
      res.pointLightLength = Length Real.sqrt (V3 0 15 0 - res.p) ∧
      res.pointLightDir = Normalize Real.sqrt (V3 0 15 0 - res.p) ∧
      (res.pointLight = 0 → res.specular = V3 0 0 0) ∧
      (res.pointLight ≠ 0 →
        res.specular = V3xyz (res.pointLight * 3
          * Dot res.n (Normalize Real.sqrt (res.pointLightDir + -rd)) ^ 50
          / res.pointLightLength))) := by
  refine ⟨?_, ?_⟩
  · intro ro rd hne
    apply shadeHit_isSome
    rcases traceRay_index_range Real.sqrt camNear camFar frameCamPos ro rd with h | h | h
    · exact absurd h hne
    · exact Or.inl h
    · exact Or.inr h
  · intro ro rd t shapeIndex res hres
    obtain ⟨hidx, hemit1, hemit0⟩ := shadeHit_emit _ _ _ _ _ _ _ _ _ _ _ _ res hres
    obtain ⟨m, hm, _, hcol, hrefl, hn, _, hlen, hdir, _, _, _, _, hspec, hc⟩ :=
      shadeHit_some Real.sqrt Real.rpow camNear camFar frameCamPos worldFrameDim frameDimX
        frameDimY ro rd t shapeIndex res hres
    rw [sphereAt_light] at hlen hdir
    refine ⟨?_, ?_, hemit1, hemit0, sphereAt_light _, ?_, hlen, hdir, ?_, ?_⟩
    · rw [hc, Max_eq_max]
    · rw [hm, hcol, hrefl]
    · intro h5
      subst h5
      rw [hn]
      simp [toUmm, sceneSpheres]
    · intro h0
      rw [hspec, h0]
      simp [specularTerm]
    · intro hne
      rw [hspec]
      simp only [specularTerm, hne, ne_eq, not_false_eq_true, if_true]
      have hpow : Real.rpow (Dot res.n (Normalize Real.sqrt (res.pointLightDir + -rd))) 50
          = Dot res.n (Normalize Real.sqrt (res.pointLightDir + -rd)) ^ 50 := by
        show Dot res.n (Normalize Real.sqrt (res.pointLightDir + -rd)) ^ (50 : ℝ) = _
        rw [show (50 : ℝ) = ((50 : ℕ) : ℝ) by norm_num, Real.rpow_natCast]
      rw [hpow, v3_ext_iff]
      simp only [v3_div_x, v3_div_y, v3_div_z, v3_smul_x, v3_smul_y, v3_smul_z, V3_x, V3_y,
        V3_z, V3xyz_x, V3xyz_y, V3xyz_z]
      refine ⟨?_, ?_, ?_⟩ <;> ring

/-- Witness for C18: shading the top of the second sphere. -/
theorem hit_colour_composite_witness :
    ∃ res : hit_shading ℝ,
      shadeHit Real.sqrt Real.rpow (1 / 1000) 1000000 (V3 0 2 (-15)) { x := 1, y := 1 }
        640 480 (V3 0 9 (-10)) (V3 0 0 1) 10 2 = some res ∧
      res.col = res.shapeCol * (res.emit + 0.03 + 0.12 * max 0 res.n.y + res.pointLight)
        + res.specular + res.reflectionCol * res.reflectivity ∧
      res.emit = 0 := by
  obtain ⟨res, hres⟩ := shadeHit_isSome Real.sqrt Real.rpow (1 / 1000 : ℝ) 1000000
    (V3 0 2 (-15)) { x := 1, y := 1 } 640 480 (V3 0 9 (-10)) (V3 0 0 1) 10 2
    (Or.inl ⟨by norm_num, by norm_num⟩)
  have h := (hit_colour_composite (1 / 1000) 1000000 (V3 0 2 (-15)) { x := 1, y := 1 }
    640 480).2 (V3 0 9 (-10)) (V3 0 0 1) 10 2 res hres
  exact ⟨res, hres, h.1, h.2.2.2.1 (by norm_num)⟩

/-- The weight of the reflection colour lies in `[0.01, 0.07]`. -/
theorem reflection_weight_range {α : Type} [LinearOrderedField α] (x : α) :
    0.01 ≤ 0.06 * Square (Clamp01 x) + 0.01 ∧ 0.06 * Square (Clamp01 x) + 0.01 ≤ (0.07 : α) := by
  have h0 := Clamp01_nonneg x
  have h1 := Clamp01_le_one x
  have hsq0 : 0 ≤ Square (Clamp01 x) := mul_nonneg h0 h0
  have hsq1 : Square (Clamp01 x) ≤ 1 := by
    unfold Square
    nlinarith
  constructor
  · linarith
  · linarith

/-- C20. For a shaded hit the reflection colour is non-zero only when the shape is a
sphere (index 1 to 6) with reflectivity different from 0. For such a hit it is the
base colour of the shape that the nearest-hit search selects along the reflected ray
`rd - 2*Dot(rd, n)*n` from the hit point (black when it selects none), without any
lighting, times the weight `0.06*clamp01(1 - Dot(n, -rd))^2 + 0.01`; the weight always
lies in `[0.01, 0.07]`, and the composite adds the reflection colour times the surface
reflectivity. -/
theorem reflection_colour_unshaded {α : Type} [LinearOrderedField α] (sqrt : α → α)
    (pow : α → α → α) (camNear camFar : α) (frameCamPos : v3 α) (worldFrameDim : v2 α)
    (frameDimX frameDimY : Int) (ro rd : v3 α) (t : α) (shapeIndex : Int)
    (res : hit_shading α)
    (hres : shadeHit sqrt pow camNear camFar frameCamPos worldFrameDim frameDimX frameDimY
      ro rd t shapeIndex = some res) :
    (res.reflectionCol ≠ V3 0 0 0 →
      (1 ≤ shapeIndex ∧ shapeIndex ≤ 6) ∧ res.reflectivity ≠ 0) ∧
    ((1 ≤ shapeIndex ∧ shapeIndex ≤ 6) → res.reflectivity ≠ 0 →
      ((traceRay sqrt camNear camFar frameCamPos res.p (rd - (2 * Dot rd res.n) * res.n)).2 = 0 →
        res.reflectionCol = (V3xyz 0 : v3 α)
          * (0.06 * (max 0 (min 1 (1 - Dot res.n (-rd)))) ^ 2 + 0.01)) ∧
      ((traceRay sqrt camNear camFar frameCamPos res.p (rd - (2 * Dot rd res.n) * res.n)).2 ≠ 0 →
        ∃ m2 : shape_material α,
          materials (traceRay sqrt camNear camFar frameCamPos res.p
            (rd - (2 * Dot rd res.n) * res.n)).2 = some m2 ∧
          res.reflectionCol = m2.color
            * (0.06 * (max 0 (min 1 (1 - Dot res.n (-rd)))) ^ 2 + 0.01))) ∧
    (0.01 ≤ 0.06 * (max 0 (min 1 (1 - Dot res.n (-rd)))) ^ 2 + 0.01 ∧
      0.06 * (max 0 (min 1 (1 - Dot res.n (-rd)))) ^ 2 + 0.01 ≤ (0.07 : α)) ∧
    res.col = res.shapeCol * (res.emit + 0.03 + 0.12 * Max 0 res.n.y + res.pointLight)
      + res.specular + res.reflectionCol * res.reflectivity := by
  obtain ⟨m, hm, _, _, _, _, _, _, _, _, _, _, hrefl, _, hc⟩ :=
    shadeHit_some sqrt pow camNear camFar frameCamPos worldFrameDim frameDimX frameDimY
      ro rd t shapeIndex res hres
  have hidx := materials_some_index shapeIndex m hm
  have hlen : ((sceneSpheres frameCamPos).length : Int) = 6 := by simp [sceneSpheres]
  rw [hlen] at hrefl
  have hw := reflection_weight_range (1 - Dot res.n (-rd))
  simp only [Square, Clamp01_eq] at hw
  have hsq : ∀ c : α, c * c = c ^ 2 := fun c => (pow_two c).symm
  rw [hsq] at hw
  refine ⟨?_, ?_, hw, hc⟩
  · intro hne
    by_contra hcon
    have hcond : ¬ (res.reflectivity ≠ 0 ∧ toUmm shapeIndex ≤ 6) := by
      intro hh
      apply hcon
      refine ⟨?_, hh.1⟩
      rcases hidx with h | h
      · exact h
      · subst h
        simp [toUmm] at hh
    rw [if_neg hcond] at hrefl
    injection hrefl with hrefl
    exact hne hrefl.symm
  · intro h16 hr
    have hcond : res.reflectivity ≠ 0 ∧ toUmm shapeIndex ≤ 6 := by
      refine ⟨hr, ?_⟩
      unfold toUmm
      rw [if_neg (by omega)]
      exact h16.2
    rw [if_pos hcond] at hrefl
    unfold reflectionColor at hrefl
    simp only [Square, Clamp01_eq, hsq] at hrefl
    constructor
    · intro h0
      rw [h0] at hrefl
      simp only [ne_eq, not_true_eq_false, if_false, Option.map_some',
        Option.some.injEq] at hrefl
      exact hrefl.symm
    · intro hne
      rw [if_pos hne] at hrefl
      cases hmat : (materials (traceRay sqrt camNear camFar frameCamPos res.p
          (rd - (2 * Dot rd res.n) * res.n)).2 : Option (shape_material α)) with
      | none =>
        rw [hmat] at hrefl
        simp at hrefl
      | some m2 =>
        rw [hmat] at hrefl
        simp only [Option.map_some', Option.some.injEq] at hrefl
        exact ⟨m2, rfl, hrefl.symm⟩

/-- Witness for C20: shading the top of the second sphere, a sphere of reflectivity 1. -/
theorem reflection_colour_unshaded_witness :
    ∃ res : hit_shading ℝ,
      shadeHit Real.sqrt Real.rpow (1 / 1000) 1000000 (V3 0 2 (-15)) { x := 1, y := 1 }
        640 480 (V3 0 9 (-10)) (V3 0 0 1) 10 2 = some res ∧
      (res.reflectionCol ≠ V3 0 0 0 →
        ((1 : Int) ≤ 2 ∧ (2 : Int) ≤ 6) ∧ res.reflectivity ≠ 0) ∧
      ((0.01 : ℝ) ≤ 0.06 * (max 0 (min 1 (1 - Dot res.n (-(V3 0 0 1 : v3 ℝ))))) ^ 2 + 0.01 ∧
        0.06 * (max 0 (min 1 (1 - Dot res.n (-(V3 0 0 1 : v3 ℝ))))) ^ 2 + 0.01
          ≤ (0.07 : ℝ)) := by
  obtain ⟨res, hres⟩ := shadeHit_isSome Real.sqrt Real.rpow (1 / 1000 : ℝ) 1000000
    (V3 0 2 (-15)) { x := 1, y := 1 } 640 480 (V3 0 9 (-10)) (V3 0 0 1) 10 2
    (Or.inl ⟨by norm_num, by norm_num⟩)
  have h := reflection_colour_unshaded Real.sqrt Real.rpow (1 / 1000 : ℝ) 1000000
    (V3 0 2 (-15)) { x := 1, y := 1 } 640 480 (V3 0 9 (-10)) (V3 0 0 1) 10 2 res hres
  exact ⟨res, hres, h.1, h.2.2.1⟩

/-! ## Theorems: integer conversions -/

/-- C27: `SafeU64ToU32` is not lossless under its own assertion. The argument
`0x100000000` (2^32) is a `u64`, passes `Assert(a < (u64)0x800000000)` (the constant is
2^35) and is returned as 0; under the assertion the result equals the argument exactly
when the argument is below 2^32. The other fifteen integer conversions of base.h return
their argument unchanged whenever their assertion passes. -/
theorem SafeU64ToU32_not_lossless :
    (inU64 0x100000000 ∧ SafeU64ToU32 0x100000000 = some 0) ∧
    (∀ a r : Int, inU64 a → SafeU64ToU32 a = some r → (r = a ↔ a < 4294967296)) ∧
    (∀ a r : Int, inU64 a → SafeUmmToS32 a = some r → r = a ∧ inS32 r) ∧
    (∀ a r : Int, inU64 a → SafeUmmToU32 a = some r → r = a ∧ inU32 r) ∧
    (∀ a r : Int, inU64 a → SafeUmmToU8 a = some r → r = a ∧ inU8 r) ∧
    (∀ a r : Int, inU64 a → SafeUmmToU16 a = some r → r = a ∧ inU16 r) ∧
    (∀ a r : Int, inS32 a → SafeS32ToU8 a = some r → r = a ∧ inU8 r) ∧
    (∀ a r : Int, inS32 a → SafeS32ToS8 a = some r → r = a ∧ inS8 r) ∧
    (∀ a r : Int, inS32 a → SafeS32ToU16 a = some r → r = a ∧ inU16 r) ∧
    (∀ a r : Int, inS32 a → SafeS32ToS16 a = some r → r = a ∧ inS16 r) ∧
    (∀ a r : Int, inS64 a → SafeS64ToS32 a = some r → r = a ∧ inS32 r) ∧
    (∀ a r : Int, inU32 a → SafeU32ToU8 a = some r → r = a ∧ inU8 r) ∧
    (∀ a r : Int, inU32 a → SafeU32ToS8 a = some r → r = a ∧ inS8 r) ∧
    (∀ a r : Int, inU32 a → SafeU32ToU16 a = some r → r = a ∧ inU16 r) ∧
    (∀ a r : Int, inU32 a → SafeU32ToS32 a = some r → r = a ∧ inS32 r) ∧
    (∀ a r : Int, inS16 a → SafeS16ToU16 a = some r → r = a ∧ inU16 r) ∧
    (∀ a r : Int, inU16 a → SafeU16ToS16 a = some r → r = a ∧ inS16 r) := by
  refine ⟨⟨by unfold inU64; decide, by decide⟩, ?_, ?_, ?_, ?_, ?_, ?_, ?_, ?_, ?_, ?_, ?_, ?_,
    ?_, ?_, ?_, ?_⟩
  · intro a r ha h
    unfold SafeU64ToU32 at h
    unfold inU64 at ha
    split at h
    · simp only [Option.some.injEq] at h
      subst h
      unfold wrapU32
      constructor
      · intro h2; omega
      · intro h2; omega
    · exact absurd h (by simp)
  all_goals
    intro a r ha h
    simp only [SafeUmmToS32, SafeUmmToU32, SafeUmmToU8, SafeUmmToU16, SafeS32ToU8, SafeS32ToS8,
      SafeS32ToU16, SafeS32ToS16, SafeS64ToS32, SafeU32ToU8, SafeU32ToS8, SafeU32ToU16,
      SafeU32ToS32, SafeS16ToU16, SafeU16ToS16] at h
    simp only [inU64, inS32, inU32, inS16, inU16, inS64, inU8, inS8] at ha ⊢
    split at h
    · simp only [Option.some.injEq] at h
      subst h
      simp only [wrapS32, wrapU32, wrapU8, wrapU16, wrapS8, wrapS16]
      omega
    · exact absurd h (by simp)
/-! ## Theorems: single-precision rounding -/

theorem PI_pos {α : Type} [LinearOrderedField α] : (0 : α) < PI := by
  unfold PI; norm_num

/-- A rational within one half of the integer `n` rounds to `n`. -/
theorem roundHalfEven_of_near (y : ℚ) (n : Int) (h1 : (n : ℚ) - 1 / 2 < y)
    (h2 : y < (n : ℚ) + 1 / 2) : roundHalfEven y = n := by
  unfold roundHalfEven
  rcases le_or_lt (n : ℚ) y with h | h
  · have hf : ⌊y⌋ = n := by
      rw [Int.floor_eq_iff]
      exact ⟨h, by linarith⟩
    rw [hf, if_pos (by linarith)]
  · have hf : ⌊y⌋ = n - 1 := by
      rw [Int.floor_eq_iff]
      push_cast
      exact ⟨by linarith, by linarith⟩
    rw [hf]
    push_cast
    rw [if_neg (by linarith), if_pos (by linarith)]
    ring

/-- The exponent of a rational in the binade `[2^e, 2^(e+1))`, `e ≥ -126`. -/
theorem f32Exponent_of_binade (x : ℚ) (e : Int) (he : -126 ≤ e)
    (h1 : (2 : ℚ) ^ e ≤ |x|) (h2 : |x| < (2 : ℚ) ^ (e + 1)) : f32Exponent x = e := by
  have hpos : (0 : ℚ) < |x| := lt_of_lt_of_le (by positivity) h1
  have hlog : Int.log 2 |x| = e := by
    apply le_antisymm
    · have := (Int.lt_zpow_iff_log_lt (b := 2) (by norm_num) hpos (x := e + 1)).mp
        (by exact_mod_cast h2)
      omega
    · exact (Int.zpow_le_iff_le_log (b := 2) (by norm_num) hpos).mp (by exact_mod_cast h1)
  unfold f32Exponent
  rw [hlog]
  exact max_eq_left he

/-- Rounding to `f32` of a rational in the binade `[2^e, 2^(e+1))`: the multiple
`n * 2^(e-23)` within half a unit in the last place. -/
theorem roundF32_of_binade (x : ℚ) (e n : Int) (he : -126 ≤ e)
    (h1 : (2 : ℚ) ^ e ≤ |x|) (h2 : |x| < (2 : ℚ) ^ (e + 1))
    (h3 : (n : ℚ) - 1 / 2 < x / 2 ^ (e - 23)) (h4 : x / 2 ^ (e - 23) < (n : ℚ) + 1 / 2) :
    roundF32 x = (n : ℚ) * 2 ^ (e - 23) := by
  unfold roundF32
  rw [f32Exponent_of_binade x e he h1 h2, roundHalfEven_of_near _ n h3 h4]

theorem roundF32_zero : roundF32 0 = 0 := by
  simp [roundF32, roundHalfEven]

theorem roundF32_one : roundF32 1 = 1 := by
  rw [roundF32_of_binade 1 0 8388608 (by norm_num) (by norm_num) (by norm_num)
    (by norm_num) (by norm_num)]
  norm_num

/-- The constant `PI` of math.h as an `f32`. -/
theorem roundF32_PI : roundF32 (PI : ℚ) = 13176795 / 4194304 := by
  rw [roundF32_of_binade PI 1 13176795 (by norm_num)
    (by rw [abs_of_pos PI_pos]; unfold PI; norm_num)
    (by rw [abs_of_pos PI_pos]; unfold PI; norm_num)
    (by unfold PI; norm_num) (by unfold PI; norm_num)]
  norm_num

/-- The constant `2*PI` as an `f32`. -/
theorem roundF32_two_PI : roundF32 (2 * roundF32 (PI : ℚ)) = 13176795 / 2097152 := by
  rw [roundF32_PI]
  rw [roundF32_of_binade _ 2 13176795 (by norm_num)
    (by rw [abs_of_pos (by norm_num)]; norm_num)
    (by rw [abs_of_pos (by norm_num)]; norm_num)
    (by norm_num) (by norm_num)]
  norm_num

theorem truncToInt_bounds {α : Type} [LinearOrderedField α] [FloorRing α] (x : α) :
    (0 ≤ x → (truncToInt x : α) ≤ x ∧ x < (truncToInt x : α) + 1) ∧
    (x < 0 → x ≤ (truncToInt x : α) ∧ (truncToInt x : α) < x + 1) := by
  unfold truncToInt
  constructor
  · intro h
    rw [if_neg (not_lt.mpr h)]
    exact ⟨Int.floor_le x, Int.lt_floor_add_one x⟩
  · intro h
    rw [if_pos h]
    exact ⟨Int.le_ceil x, Int.ceil_lt_add_one x⟩

/-- The truncation of a float that is an integer. -/
theorem truncToInt_intCast {α : Type} [LinearOrderedField α] [FloorRing α] (n : Int) :
    truncToInt (n : α) = n := by
  unfold truncToInt
  split_ifs
  · exact Int.ceil_intCast n
  · exact Int.floor_intCast n

/-- With exact arithmetic `FMod` is `value - mod*q`, `q` the truncated quotient. -/
theorem FMod_id {α : Type} [LinearOrderedField α] [FloorRing α] (value mod : α) :
    FMod id value mod = (castS64 (value / mod)).map (fun q => value - mod * (q : α)) := by
  unfold FMod
  simp only [id_eq]
  cases castS64 (value / mod) <;> rfl

theorem FMod_spec {α : Type} [LinearOrderedField α] [FloorRing α] (a m : α) (hm : 0 < m)
    (hc : inS64 (truncToInt (a / m))) :
    ∃ q : Int, FMod id a m = some (a - m * (q : α)) ∧ -m < a - m * (q : α) ∧
      a - m * (q : α) < m := by
  refine ⟨truncToInt (a / m), ?_, ?_, ?_⟩
  · rw [FMod_id]
    unfold castS64
    unfold inS64 at hc
    rw [if_pos hc]
    rfl
  · rcases le_or_lt 0 (a / m) with h | h
    · obtain ⟨ha, _⟩ := (truncToInt_bounds (a / m)).1 h
      rw [le_div_iff₀ hm] at ha
      nlinarith
    · obtain ⟨_, hb⟩ := (truncToInt_bounds (a / m)).2 h
      have h5 : (truncToInt (a / m) : α) - 1 < a / m := by linarith
      rw [lt_div_iff₀ hm] at h5
      nlinarith
  · rcases le_or_lt 0 (a / m) with h | h
    · obtain ⟨_, hb⟩ := (truncToInt_bounds (a / m)).1 h
      rw [div_lt_iff₀ hm] at hb
      nlinarith
    · obtain ⟨ha, _⟩ := (truncToInt_bounds (a / m)).2 h
      rw [div_le_iff₀ hm] at ha
      nlinarith

/-- With exact arithmetic `NormalizeAnglePositive` is `FMod` plus the fold of the negative
remainders. -/
theorem NormalizeAnglePositive_id {α : Type} [LinearOrderedField α] [FloorRing α] (a : α) :
    NormalizeAnglePositive id a =
      (FMod id a (2 * PI)).map (fun r => if r < 0 then r + 2 * PI else r) := by
  unfold NormalizeAnglePositive
  simp only [id_eq]
  cases FMod id a (2 * PI) <;> rfl

theorem NormalizeAnglePositive_spec {α : Type} [LinearOrderedField α] [FloorRing α] (a : α)
    (hc : inS64 (truncToInt (a / (2 * PI)))) :
    ∃ (r : α) (k : Int), NormalizeAnglePositive id a = some r ∧ 0 ≤ r ∧ r < 2 * PI ∧
      r = a + (k : α) * (2 * PI) := by
  have hpi : (0 : α) < 2 * PI := by have := PI_pos (α := α); linarith
  obtain ⟨q, hq, h1, h2⟩ := FMod_spec a (2 * PI) hpi hc
  rw [NormalizeAnglePositive_id, hq]
  by_cases hneg : a - 2 * PI * (q : α) < 0
  · refine ⟨a - 2 * PI * (q : α) + 2 * PI, -q + 1, ?_, by linarith, by linarith, ?_⟩
    · simp only [Option.map_some', if_pos hneg]
    · push_cast; ring
  · refine ⟨a - 2 * PI * (q : α), -q, ?_, by linarith, by linarith, ?_⟩
    · simp only [Option.map_some', if_neg hneg]
    · push_cast; ring

/-- `NormalizeAngle` is `NormalizeAnglePositive` followed by the fold of `(PI, 2*PI)`
onto the negative half. -/
theorem NormalizeAngle_eq {α : Type} [LinearOrderedField α] [FloorRing α] (rnd : α → α)
    (a : α) :
    NormalizeAngle rnd a =
      (NormalizeAnglePositive rnd a).map
        (fun r => if r > rnd PI then rnd (r - rnd (2 * rnd PI)) else r) := by
  unfold NormalizeAngle NormalizeAnglePositive
  cases FMod rnd a (rnd (2 * rnd PI)) <;> rfl

/-- `FMod` when the quotient converts to the `s64` value `q`. -/
theorem FMod_of_cast {α : Type} [LinearOrderedField α] [FloorRing α] (rnd : α → α)
    (value mod : α) (q : Int) (h : castS64 (rnd (value / mod)) = some q) :
    FMod rnd value mod = some (rnd (value - rnd (mod * rnd (q : α)))) := by
  unfold FMod
  rw [h]

/-- `NormalizeAngle` when `FMod` returns `r`. -/
theorem NormalizeAngle_of_FMod {α : Type} [LinearOrderedField α] [FloorRing α]
    (rnd : α → α) (a r : α) (h : FMod rnd a (rnd (2 * rnd PI)) = some r) :
    NormalizeAngle rnd a =
      some (if (if r < 0 then rnd (r + rnd (2 * rnd PI)) else r) > rnd PI
        then rnd ((if r < 0 then rnd (r + rnd (2 * rnd PI)) else r) - rnd (2 * rnd PI))
        else (if r < 0 then rnd (r + rnd (2 * rnd PI)) else r)) := by
  unfold NormalizeAngle
  rw [h]

/-- `NormalizeAnglePositive` when `FMod` returns `r`. -/
theorem NormalizeAnglePositive_of_FMod {α : Type} [LinearOrderedField α] [FloorRing α]
    (rnd : α → α) (a r : α) (h : FMod rnd a (rnd (2 * rnd PI)) = some r) :
    NormalizeAnglePositive rnd a = some (if r < 0 then rnd (r + rnd (2 * rnd PI)) else r) := by
  unfold NormalizeAnglePositive
  rw [h]

theorem truncToInt_eq_zero {α : Type} [LinearOrderedField α] [FloorRing α] (x : α)
    (h1 : -1 < x) (h2 : x < 1) : truncToInt x = 0 := by
  unfold truncToInt
  by_cases h : x < 0
  · rw [if_pos h, Int.ceil_eq_iff]
    constructor
    · push_cast; linarith
    · push_cast; linarith
  · rw [if_neg h, Int.floor_eq_iff]
    push_neg at h
    constructor
    · push_cast; linarith
    · push_cast; linarith

/-- The cast `(s64)x` when the truncation is the in-range integer `q`. -/
theorem castS64_of_trunc {α : Type} [LinearOrderedField α] [FloorRing α] (x : α) (q : Int)
    (h : truncToInt x = q) (hq : inS64 q) : castS64 x = some q := by
  unfold castS64
  rw [h]
  exact if_pos hq

/-- `FMod` leaves a value of magnitude below the modulus unchanged. -/
theorem FMod_of_small {α : Type} [LinearOrderedField α] [FloorRing α] (a m : α) (hm : 0 < m)
    (h1 : -m < a) (h2 : a < m) : FMod id a m = some a := by
  have hq : truncToInt (a / m) = 0 := by
    apply truncToInt_eq_zero
    · rw [lt_div_iff₀ hm]; linarith
    · rw [div_lt_iff₀ hm]; linarith
  rw [FMod_id]
  unfold castS64
  rw [hq]
  simp

theorem NormalizeAnglePositive_of_range {α : Type} [LinearOrderedField α] [FloorRing α]
    (a : α) (h1 : 0 ≤ a) (h2 : a < 2 * PI) : NormalizeAnglePositive id a = some a := by
  have hpi : (0 : α) < 2 * PI := by have := PI_pos (α := α); linarith
  rw [NormalizeAnglePositive_id, FMod_of_small a (2 * PI) hpi (by linarith) h2]
  simp only [Option.map_some', if_neg (not_lt.mpr h1)]

theorem NormalizeAngle_of_small {α : Type} [LinearOrderedField α] [FloorRing α]
    (x : α) (h1 : -(2 * PI) < x) (h2 : x < 2 * PI) : ∃ d, NormalizeAngle id x = some d := by
  have hpi : (0 : α) < 2 * PI := by have := PI_pos (α := α); linarith
  have h := FMod_of_small x (2 * PI) hpi h1 h2
  rw [NormalizeAngle_of_FMod id x x (by simpa only [id_eq] using h)]
  exact ⟨_, rfl⟩

/-- `ClampAngle` when the normalised angle is `angle` and the limited-range block returns
`clamped`. -/
theorem ClampAngle_of_limited {α : Type} [LinearOrderedField α] [FloorRing α] (rnd : α → α)
    (a limit0 limit1 angle clamped : α) (h : NormalizeAnglePositive rnd a = some angle)
    (hguard : limit0 ≠ 0 ∧ limit1 ≠ rnd (2 * rnd PI))
    (hc : ClampAngleLimited rnd angle limit0 limit1 = some clamped) :
    ClampAngle rnd a limit0 limit1 =
      some (if clamped > rnd PI then rnd (clamped - rnd (2 * rnd PI)) else clamped) := by
  unfold ClampAngle
  rw [h]
  simp only
  rw [if_pos hguard, hc]

/-- `ClampAngle` when the guard `limit0 != 0 && limit1 != 2*PI` fails: the limited-range
block is skipped. -/
theorem ClampAngle_of_skip {α : Type} [LinearOrderedField α] [FloorRing α] (rnd : α → α)
    (a limit0 limit1 angle : α) (h : NormalizeAnglePositive rnd a = some angle)
    (hguard : ¬ (limit0 ≠ 0 ∧ limit1 ≠ rnd (2 * rnd PI))) :
    ClampAngle rnd a limit0 limit1 =
      some (if angle > rnd PI then rnd (angle - rnd (2 * rnd PI)) else angle) := by
  unfold ClampAngle
  rw [h]
  simp only
  rw [if_neg hguard]

/-- With both limits equal to `L`, the limited-range block of `ClampAngle` sets `angle` to
the normalised limit. -/
theorem ClampAngleLimited_same {α : Type} [LinearOrderedField α] [FloorRing α]
    (angle L l : α) (ha0 : 0 ≤ angle) (ha1 : angle < 2 * PI)
    (hl : NormalizeAnglePositive id L = some l) (hl0 : 0 ≤ l) (hl1 : l < 2 * PI) :
    ClampAngleLimited id angle L L = some l := by
  unfold ClampAngleLimited
  rw [hl]
  simp only [le_refl, if_true, id_eq]
  by_cases hout : angle < l ∨ angle > l
  · rw [if_pos hout]
    have hmid : (l + l) / 2 = l := by ring
    obtain ⟨d, hd⟩ := NormalizeAngle_of_small (angle - l) (by linarith) (by linarith)
    unfold AngleDifference
    simp only [id_eq]
    rw [hmid, hd]
    by_cases hneg : d < 0
    · simp only [if_pos hneg]
    · simp only [if_neg hneg]
  · rw [if_neg hout]
    push_neg at hout
    have : angle = l := le_antisymm (by simpa using hout.2) hout.1
    rw [this]

/-- The quotient `1/(2*PI)` in `f32`. -/
theorem roundF32_quotient_one :
    roundF32 ((1 : ℚ) / (13176795 / 2097152)) = 10680707 / 67108864 := by
  rw [roundF32_of_binade _ (-3) 10680707 (by norm_num)
    (by rw [abs_of_pos (by norm_num)]; norm_num)
    (by rw [abs_of_pos (by norm_num)]; norm_num)
    (by norm_num) (by norm_num)]
  norm_num

/-- The `f32` constant `2*PI` rounds to itself. -/
theorem roundF32_two_PI_fixed :
    roundF32 (13176795 / 2097152 : ℚ) = 13176795 / 2097152 := by
  rw [roundF32_of_binade _ 2 13176795 (by norm_num)
    (by rw [abs_of_pos (by norm_num)]; norm_num)
    (by rw [abs_of_pos (by norm_num)]; norm_num)
    (by norm_num) (by norm_num)]
  norm_num

theorem inS64_zero : inS64 0 := by unfold inS64; omega

theorem inS64_one : inS64 1 := by unfold inS64; omega

/-- `NormalizeAnglePositive(1)` in `f32` arithmetic is `1`. -/
theorem NormalizeAnglePositive_f32_one : NormalizeAnglePositive roundF32 (1 : ℚ) = some 1 := by
  have hq : castS64 (roundF32 ((1 : ℚ) / roundF32 (2 * roundF32 PI))) = some 0 := by
    rw [roundF32_two_PI, roundF32_quotient_one]
    exact castS64_of_trunc _ 0 (truncToInt_eq_zero _ (by norm_num) (by norm_num)) inS64_zero
  have hf : FMod roundF32 (1 : ℚ) (roundF32 (2 * roundF32 PI)) = some 1 := by
    rw [FMod_of_cast roundF32 _ _ 0 hq, Int.cast_zero, roundF32_zero, mul_zero,
      roundF32_zero, sub_zero, roundF32_one]
  rw [NormalizeAnglePositive_of_FMod roundF32 _ _ hf, if_neg (by norm_num)]

/-- `FMod(0, 2*PI)` in `f32` arithmetic is `0`. -/
theorem FMod_f32_zero : FMod roundF32 (0 : ℚ) (roundF32 (2 * roundF32 PI)) = some 0 := by
  have hq : castS64 (roundF32 ((0 : ℚ) / roundF32 (2 * roundF32 PI))) = some 0 := by
    rw [zero_div, roundF32_zero]
    exact castS64_of_trunc _ 0 (truncToInt_eq_zero _ (by norm_num) (by norm_num)) inS64_zero
  rw [FMod_of_cast roundF32 _ _ 0 hq, Int.cast_zero, roundF32_zero, mul_zero,
    roundF32_zero, sub_zero, roundF32_zero]

/-- `FMod(2*PI, 2*PI)` in `f32` arithmetic is `0`. -/
theorem FMod_f32_two_PI :
    FMod roundF32 (roundF32 (2 * roundF32 PI)) (roundF32 (2 * roundF32 PI)) = some 0 := by
  have hq : castS64 (roundF32 (roundF32 (2 * roundF32 PI) / roundF32 (2 * roundF32 PI)))
      = some 1 := by
    rw [roundF32_two_PI, div_self (by norm_num), roundF32_one]
    have h1 : truncToInt (1 : ℚ) = 1 := by
      have := truncToInt_intCast (α := ℚ) 1
      simpa using this
    exact castS64_of_trunc _ 1 h1 inS64_one
  rw [FMod_of_cast roundF32 _ _ 1 hq, Int.cast_one, roundF32_one, mul_one, roundF32_two_PI,
    roundF32_two_PI_fixed, sub_self, roundF32_zero]

/-- C30: `ClampAngle(a, L, L)` does not return the limit when `L` is `0` or `2*PI`: the
guard `limit0 != 0 && limit1 != 2*PI` skips the limited-range block as soon as one of
the two tests fails, so `ClampAngle(1, 0, 0)` and `ClampAngle(1, 2*PI, 2*PI)` return `1`
while both limits normalise to `0`, with exact arithmetic (`rnd = id`) and in `f32`
arithmetic (`rnd = roundF32`) alike. For every other limit `L` (with `a/(2*PI)` and
`L/(2*PI)` inside the range of `s64`, exact arithmetic) the result is
`NormalizeAngle(L)` whatever `a` is. -/
theorem ClampAngle_equal_limits {α : Type} [LinearOrderedField α] [FloorRing α] :
    (ClampAngle id (1 : α) 0 0 = some 1 ∧ NormalizeAngle id (0 : α) = some 0) ∧
    (ClampAngle id (1 : α) (2 * PI) (2 * PI) = some 1 ∧
      NormalizeAngle id (2 * PI : α) = some 0) ∧
    (∀ a L : α, inS64 (truncToInt (a / (2 * PI))) → inS64 (truncToInt (L / (2 * PI))) →
      L ≠ 0 → L ≠ 2 * PI →
      ∃ r, NormalizeAngle id L = some r ∧ ClampAngle id a L L = some r) ∧
    (ClampAngle roundF32 (1 : ℚ) 0 0 = some 1 ∧ NormalizeAngle roundF32 (0 : ℚ) = some 0) ∧
    (ClampAngle roundF32 (1 : ℚ) (roundF32 (2 * roundF32 PI)) (roundF32 (2 * roundF32 PI))
        = some 1 ∧
      NormalizeAngle roundF32 (roundF32 (2 * roundF32 PI)) = some 0) := by
  have hpi := PI_pos (α := α)
  have h3 : (3 : α) < PI := by unfold PI; norm_num
  have hone : NormalizeAnglePositive id (1 : α) = some 1 :=
    NormalizeAnglePositive_of_range 1 (by norm_num) (by linarith)
  have hle : ¬ (1 : α) > PI := by intro h; linarith
  have hle0 : ¬ (0 : α) > PI := by intro h; linarith
  have hf1 : ¬ (1 : ℚ) > roundF32 PI := by rw [roundF32_PI]; norm_num
  have hf0 : ¬ (0 : ℚ) > roundF32 PI := by rw [roundF32_PI]; norm_num
  refine ⟨⟨?_, ?_⟩, ⟨?_, ?_⟩, ?_, ⟨?_, ?_⟩, ⟨?_, ?_⟩⟩
  · rw [ClampAngle_of_skip id 1 0 0 1 hone (by simp)]
    simp only [id_eq, if_neg hle]
  · rw [NormalizeAngle_eq, NormalizeAnglePositive_of_range 0 (le_refl 0) (by linarith)]
    simp only [id_eq, Option.map_some', if_neg hle0]
  · rw [ClampAngle_of_skip id 1 (2 * PI) (2 * PI) 1 hone (by simp)]
    simp only [id_eq, if_neg hle]
  · have hq : castS64 ((2 * PI : α) / (2 * PI)) = some 1 := by
      rw [div_self (by linarith)]
      have h1 : truncToInt (1 : α) = 1 := by
        have := truncToInt_intCast (α := α) 1
        simpa using this
      exact castS64_of_trunc _ 1 h1 inS64_one
    have hf : FMod id (2 * PI : α) (id (2 * id PI)) = some 0 := by
      simp only [id_eq]
      rw [FMod_id, hq]
      simp
    rw [NormalizeAngle_of_FMod id _ _ hf]
    simp only [id_eq, lt_irrefl, if_false, if_neg hle0]
  · intro a L ha hL h0 h2
    obtain ⟨angle, _, hangle, ha0, ha1, _⟩ := NormalizeAnglePositive_spec a ha
    obtain ⟨l, _, hl, hl0, hl1, _⟩ := NormalizeAnglePositive_spec L hL
    refine ⟨if l > PI then l - 2 * PI else l, ?_, ?_⟩
    · rw [NormalizeAngle_eq, hl]
      rfl
    · rw [ClampAngle_of_limited id a L L angle l hangle ⟨h0, by simpa only [id_eq] using h2⟩
        (ClampAngleLimited_same angle L l ha0 ha1 hl hl0 hl1)]
      rfl
  · rw [ClampAngle_of_skip roundF32 1 0 0 1 NormalizeAnglePositive_f32_one (by simp),
      if_neg hf1]
  · rw [NormalizeAngle_of_FMod roundF32 _ _ FMod_f32_zero, if_neg (lt_irrefl 0), if_neg hf0]
  · rw [ClampAngle_of_skip roundF32 1 _ _ 1 NormalizeAnglePositive_f32_one (by simp),
      if_neg hf1]
  · rw [NormalizeAngle_of_FMod roundF32 _ _ FMod_f32_two_PI, if_neg (lt_irrefl 0),
      if_neg hf0]

theorem Length_eq_one_of_sq (a : v3 ℝ) (h : a.x * a.x + a.y * a.y + a.z * a.z = 1) :
    Length Real.sqrt a = 1 := by
  unfold Length
  rw [h, Real.sqrt_one]

/-- Away from the Z axis `perpX = Perpendicular(l)` and `perpY = Cross(perpX, l)` are an
orthonormal basis of the plane perpendicular to the unit vector `l`. -/
theorem shadow_basis_orthonormal (l : v3 ℝ) (hl : Length Real.sqrt l = 1)
    (h : Length Real.sqrt (V3 l.y (-l.x) 0) > 1 / 100000000000) :
    Length Real.sqrt (Perpendicular Real.sqrt l) = 1 ∧
    Length Real.sqrt (Cross (Perpendicular Real.sqrt l) l) = 1 ∧
    Dot (Perpendicular Real.sqrt l) (Cross (Perpendicular Real.sqrt l) l) = 0 ∧
    Dot (Perpendicular Real.sqrt l) l = 0 ∧
    Dot (Cross (Perpendicular Real.sqrt l) l) l = 0 := by
  obtain ⟨hu, ho⟩ := Perpendicular_unit_orthogonal l h
  have hl2 := Dot_self_of_Length_eq_one l hl
  have hu2 := Dot_self_of_Length_eq_one _ hu
  set q := Perpendicular Real.sqrt l with hq
  simp only [Dot] at hl2 hu2 ho
  refine ⟨hu, ?_, ?_, ?_, ?_⟩
  · apply Length_eq_one_of_sq
    simp only [Cross]
    nlinarith [hl2, hu2, ho, sq_nonneg (l.x * q.x + l.y * q.y + l.z * q.z)]
  · simp only [Dot, Cross]; ring
  · simp only [Dot]; linarith
  · simp only [Dot, Cross]; ring
theorem nearAxisDir_planar_length :
    Length Real.sqrt (V3 (nearAxisDir : v3 ℝ).y (-(nearAxisDir : v3 ℝ).x) 0)
      = 2000000000000 / 1000000000000000000000001 := by
  have h : (V3 (nearAxisDir : v3 ℝ).y (-(nearAxisDir : v3 ℝ).x) 0 : v3 ℝ)
      = V3 (2000000000000 / 1000000000000000000000001) 0 0 := by
    simp [nearAxisDir, V3]
  rw [h]
  unfold Length
  simp only [V3, mul_zero, add_zero]
  exact Real.sqrt_mul_self (by norm_num)

/-- The two functions on their own, for a direction within 1e-11 of the Z axis (no light
direction of the shading code is one, see `lit_hit_point` and `light_dir_off_axis`
below): `nearAxisDir` is a unit vector with `y ≠ 0`; the vector `(l.y, -l.x, 0)` is no
longer than the threshold of `Normalize`, so `Perpendicular` returns the default
`(0, 0, 1)`, `Dot(perpX, l)` is `l.z ≠ 0` and `Cross(perpX, l)` has length `l.y ≠ 1`.
When `(l.y, -l.x, 0)` is longer than 1e-11, `perpX` and `perpY` are an orthonormal basis
of the plane perpendicular to `l`. -/
theorem Perpendicular_basis_near_axis :
    (Length Real.sqrt (nearAxisDir : v3 ℝ) = 1 ∧
      ¬ ((nearAxisDir : v3 ℝ).x = 0 ∧ (nearAxisDir : v3 ℝ).y = 0)) ∧
    Perpendicular Real.sqrt (nearAxisDir : v3 ℝ) = V3 0 0 1 ∧
    Dot (Perpendicular Real.sqrt (nearAxisDir : v3 ℝ)) nearAxisDir
      = 999999999999999999999999 / 1000000000000000000000001 ∧
    Dot (Perpendicular Real.sqrt (nearAxisDir : v3 ℝ)) nearAxisDir ≠ 0 ∧
    Length Real.sqrt (Cross (Perpendicular Real.sqrt (nearAxisDir : v3 ℝ)) nearAxisDir)
      = 2000000000000 / 1000000000000000000000001 ∧
    Length Real.sqrt (Cross (Perpendicular Real.sqrt (nearAxisDir : v3 ℝ)) nearAxisDir) ≠ 1 ∧
    (∀ l : v3 ℝ, Length Real.sqrt l = 1 →
      Length Real.sqrt (V3 l.y (-l.x) 0) > 1 / 100000000000 →
      Length Real.sqrt (Perpendicular Real.sqrt l) = 1 ∧
      Length Real.sqrt (Cross (Perpendicular Real.sqrt l) l) = 1 ∧
      Dot (Perpendicular Real.sqrt l) (Cross (Perpendicular Real.sqrt l) l) = 0 ∧
      Dot (Perpendicular Real.sqrt l) l = 0 ∧
      Dot (Cross (Perpendicular Real.sqrt l) l) l = 0) := by
  have hperp : Perpendicular Real.sqrt (nearAxisDir : v3 ℝ) = V3 0 0 1 :=
    (Perpendicular_near_axis nearAxisDir (by
      rw [nearAxisDir_planar_length]; norm_num)).1
  have hdot : Dot (Perpendicular Real.sqrt (nearAxisDir : v3 ℝ)) nearAxisDir
      = 999999999999999999999999 / 1000000000000000000000001 := by
    rw [hperp]
    simp [Dot, V3, nearAxisDir]
  have hlen : Length Real.sqrt
      (Cross (Perpendicular Real.sqrt (nearAxisDir : v3 ℝ)) nearAxisDir)
      = 2000000000000 / 1000000000000000000000001 := by
    rw [hperp]
    unfold Length
    simp only [Cross, V3, nearAxisDir, mul_zero, zero_mul, add_zero, one_mul, zero_sub,
      sub_zero, neg_mul_neg, sub_self]
    exact Real.sqrt_mul_self (by norm_num)
  refine ⟨⟨?_, ?_⟩, hperp, hdot, ?_, hlen, ?_, ?_⟩
  · apply Length_eq_one_of_sq
    simp only [nearAxisDir, V3]
    norm_num
  · intro h
    have := h.2
    simp only [nearAxisDir, V3] at this
    norm_num at this
  · rw [hdot]; norm_num
  · rw [hlen]; norm_num
  · intro l hl h
    exact shadow_basis_orthonormal l hl h

theorem cameraRayDir_eq {α : Type} [LinearOrderedField α] (sqrt : α → α)
    (f r u : v3 α) (w uv : v2 α) :
    cameraRayDir sqrt f r u w uv = NormalizeNonZero sqrt (cameraRayUnnormalized f r u w uv) :=
  rfl

theorem primaryRay_eq {α : Type} [LinearOrderedField α] (sqrt tan : α → α)
    (fs : frame_state α) (x y : Int) :
    primaryRay sqrt tan fs x y = NormalizeNonZero sqrt (primaryRayUnnormalized tan fs x y) :=
  rfl

/-- The coordinate `-1 + 2*x/width` of a pixel column (or row) lies in `[-1, 1)`. -/
theorem pixel_ndc_range {α : Type} [LinearOrderedField α] (x w : Int) (h0 : 0 ≤ x)
    (h1 : x < w) : (-1 : α) ≤ -1 + 2 * ((x : α) / (w : α)) ∧
      -1 + 2 * ((x : α) / (w : α)) < 1 := by
  have hw : (0 : α) < (w : α) := by exact_mod_cast (lt_of_le_of_lt h0 h1)
  have hx0 : (0 : α) ≤ (x : α) := by exact_mod_cast h0
  have hx1 : (x : α) < (w : α) := by exact_mod_cast h1
  have h2 : (0 : α) ≤ (x : α) / (w : α) := div_nonneg hx0 (le_of_lt hw)
  have h3 : (x : α) / (w : α) < 1 := by rw [div_lt_one hw]; exact hx1
  constructor <;> linarith

/-- What the ray formula of `ThreadProc` computes: for a pixel `(x, y)` with
`0 ≤ x < width` and `0 ≤ y < height` the camera ray is `NormalizeNonZero` of
`forward + (u*X)*right + (v*Y)*up` with `u = -1 + 2*x/width`, `v = -1 + 2*y/height`,
both in `[-1, 1)`, and the scales `Y = tan(fovY/2)/2`, `X = Y*(width/height)`, half of
`worldFrameDim`. -/
theorem camera_ray_formula {α : Type} [LinearOrderedField α] (sqrt tan : α → α)
    (fs : frame_state α) (x y : Int)
    (hx0 : 0 ≤ x) (hx1 : x < fs.frameDimX) (hy0 : 0 ≤ y) (hy1 : y < fs.frameDimY) :
    primaryRay sqrt tan fs x y = NormalizeNonZero sqrt (primaryRayUnnormalized tan fs x y) ∧
    primaryRayUnnormalized tan fs x y =
      fs.camera.frameCamForward
        + ((-1 + 2 * ((x : α) / (fs.frameDimX : α)))
            * (tan (fs.fovY / 2) / 2 * ((fs.frameDimX : α) / (fs.frameDimY : α))))
          * fs.camera.frameCamRight
        + ((-1 + 2 * ((y : α) / (fs.frameDimY : α))) * (tan (fs.fovY / 2) / 2))
          * fs.camera.frameCamUp ∧
    ((-1 : α) ≤ -1 + 2 * ((x : α) / (fs.frameDimX : α)) ∧
      -1 + 2 * ((x : α) / (fs.frameDimX : α)) < 1) ∧
    ((-1 : α) ≤ -1 + 2 * ((y : α) / (fs.frameDimY : α)) ∧
      -1 + 2 * ((y : α) / (fs.frameDimY : α)) < 1) := by
  refine ⟨rfl, ?_, pixel_ndc_range x fs.frameDimX hx0 hx1,
    pixel_ndc_range y fs.frameDimY hy0 hy1⟩
  rw [v3_ext_iff]
  simp only [primaryRayUnnormalized, cameraRayUnnormalized, worldFrameDimOf, pixelUV,
    v3_add_x, v3_add_y, v3_add_z, v3_div_x, v3_div_y, v3_div_z, v3_muls_x, v3_muls_y,
    v3_muls_z, v3_smul_x, v3_smul_y, v3_smul_z]
  refine ⟨?_, ?_, ?_⟩ <;> ring

theorem camera_ray_formula_at_edge_pixel :
    ((0 : Int) ≤ 320 ∧ (320 : Int) < (levelFrame : frame_state ℝ).frameDimX ∧
      (0 : Int) ≤ 0 ∧ (0 : Int) < (levelFrame : frame_state ℝ).frameDimY) ∧
    primaryRayUnnormalized Real.tan (levelFrame : frame_state ℝ) 320 0 =
      (levelFrame : frame_state ℝ).camera.frameCamForward
        + ((-1 + 2 * (((320 : Int) : ℝ) / ((levelFrame : frame_state ℝ).frameDimX : ℝ)))
            * (Real.tan ((levelFrame : frame_state ℝ).fovY / 2) / 2
              * (((levelFrame : frame_state ℝ).frameDimX : ℝ)
                / ((levelFrame : frame_state ℝ).frameDimY : ℝ))))
          * (levelFrame : frame_state ℝ).camera.frameCamRight
        + ((-1 + 2 * (((0 : Int) : ℝ) / ((levelFrame : frame_state ℝ).frameDimY : ℝ)))
            * (Real.tan ((levelFrame : frame_state ℝ).fovY / 2) / 2))
          * (levelFrame : frame_state ℝ).camera.frameCamUp :=
  ⟨by simp [levelFrame],
   (camera_ray_formula Real.sqrt Real.tan (levelFrame : frame_state ℝ) 320 0
      (by norm_num) (by simp [levelFrame]) (by norm_num) (by simp [levelFrame])).2.1⟩
theorem tan_half_level_fov_pos : 0 < Real.tan ((levelFrame : frame_state ℝ).fovY / 2) := by
  have h3 := Real.pi_gt_three
  apply Real.tan_pos_of_pos_of_lt_pi_div_two
  · simp only [levelFrame, PI]; norm_num
  · simp only [levelFrame, PI]
    have : (95 * 3.141592653589793238 / 180 / 2 : ℝ) < 3 / 2 := by norm_num
    linarith

/-- C21: the camera ray does not span the vertical field of view. `worldFrameDim.y` is
`Tan(fovY/2)`, already half the height of the frustum at unit distance, and the ray
formula divides it by 2 once more. In the 640x480 frame of the program with its `fovY`
of 95 degrees and a level camera, the ray of pixel `(320, 0)`, on the edge row `v = -1`,
is `forward - (tan(fovY/2)/2)*up = (0, -tan(fovY/2)/2, 1)`, while the scale
`Y = tan(fovY/2)` gives `forward - tan(fovY/2)*up = (0, -tan(fovY/2), 1)`; the angle of
the edge ray with `forward` is `arctan(tan(fovY/2)/2)`, less than `fovY/2`. For every
frame and every pixel the scales of the formula are `tan(fovY/2)/2` and
`tan(fovY/2)/2 * (width/height)`. -/
theorem camera_ray_misses_vertical_fov :
    (worldFrameDimOf Real.tan (levelFrame : frame_state ℝ)).y
      = Real.tan ((levelFrame : frame_state ℝ).fovY / 2) ∧
    primaryRayUnnormalized Real.tan (levelFrame : frame_state ℝ) 320 0
      = V3 0 (-(Real.tan ((levelFrame : frame_state ℝ).fovY / 2) / 2)) 1 ∧
    (levelFrame : frame_state ℝ).camera.frameCamForward
        + ((-1 + 2 * (((320 : Int) : ℝ) / ((levelFrame : frame_state ℝ).frameDimX : ℝ)))
            * (Real.tan ((levelFrame : frame_state ℝ).fovY / 2)
              * (((levelFrame : frame_state ℝ).frameDimX : ℝ)
                / ((levelFrame : frame_state ℝ).frameDimY : ℝ))))
          * (levelFrame : frame_state ℝ).camera.frameCamRight
        + ((-1 + 2 * (((0 : Int) : ℝ) / ((levelFrame : frame_state ℝ).frameDimY : ℝ)))
            * Real.tan ((levelFrame : frame_state ℝ).fovY / 2))
          * (levelFrame : frame_state ℝ).camera.frameCamUp
      = V3 0 (-(Real.tan ((levelFrame : frame_state ℝ).fovY / 2))) 1 ∧
    primaryRayUnnormalized Real.tan (levelFrame : frame_state ℝ) 320 0
      ≠ V3 0 (-(Real.tan ((levelFrame : frame_state ℝ).fovY / 2))) 1 ∧
    Real.arctan (Real.tan ((levelFrame : frame_state ℝ).fovY / 2))
      = (levelFrame : frame_state ℝ).fovY / 2 ∧
    Real.arctan (Real.tan ((levelFrame : frame_state ℝ).fovY / 2) / 2)
      < (levelFrame : frame_state ℝ).fovY / 2 ∧
    (∀ (tan : ℝ → ℝ) (fs : frame_state ℝ) (x y : Int),
      primaryRayUnnormalized tan fs x y =
        fs.camera.frameCamForward
          + ((-1 + 2 * ((x : ℝ) / (fs.frameDimX : ℝ)))
              * (tan (fs.fovY / 2) / 2 * ((fs.frameDimX : ℝ) / (fs.frameDimY : ℝ))))
            * fs.camera.frameCamRight
          + ((-1 + 2 * ((y : ℝ) / (fs.frameDimY : ℝ))) * (tan (fs.fovY / 2) / 2))
            * fs.camera.frameCamUp) := by
  have hpos := tan_half_level_fov_pos
  have h3 := Real.pi_gt_three
  have hlo : -(Real.pi / 2) < (levelFrame : frame_state ℝ).fovY / 2 := by
    simp only [levelFrame, PI]
    have : (0 : ℝ) < 95 * 3.141592653589793238 / 180 / 2 := by norm_num
    linarith
  have hhi : (levelFrame : frame_state ℝ).fovY / 2 < Real.pi / 2 := by
    simp only [levelFrame, PI]
    have : (95 * 3.141592653589793238 / 180 / 2 : ℝ) < 3 / 2 := by norm_num
    linarith
  have harc := Real.arctan_tan hlo hhi
  have e1 : (levelFrame : frame_state ℝ).camera.frameCamForward = V3 0 0 1 := rfl
  have e2 : (levelFrame : frame_state ℝ).camera.frameCamRight = V3 1 0 0 := rfl
  have e3 : (levelFrame : frame_state ℝ).camera.frameCamUp = V3 0 1 0 := rfl
  have e4 : (levelFrame : frame_state ℝ).frameDimY = 480 := rfl
  have e5 : (levelFrame : frame_state ℝ).frameDimX = 640 := rfl
  have hcode : primaryRayUnnormalized Real.tan (levelFrame : frame_state ℝ) 320 0
      = V3 0 (-(Real.tan ((levelFrame : frame_state ℝ).fovY / 2) / 2)) 1 := by
    rw [v3_ext_iff]
    simp only [primaryRayUnnormalized, cameraRayUnnormalized, worldFrameDimOf, pixelUV,
      v3_add_x, v3_add_y, v3_add_z, v3_div_x, v3_div_y, v3_div_z, v3_muls_x, v3_muls_y,
      v3_muls_z, v3_smul_x, v3_smul_y, v3_smul_z, e1, e2, e3, e4, e5, V3_x, V3_y, V3_z]
    refine ⟨?_, ?_, ?_⟩ <;> norm_num
    ring
  refine ⟨rfl, hcode, ?_, ?_, harc, ?_, ?_⟩
  · rw [v3_ext_iff]
    simp only [v3_add_x, v3_add_y, v3_add_z, v3_smul_x, v3_smul_y, v3_smul_z, e1, e2, e3,
      e4, e5, V3_x, V3_y, V3_z]
    refine ⟨?_, ?_, ?_⟩ <;> norm_num
  · rw [hcode]
    intro h
    have hy := congrArg v3.y h
    simp only [V3_y] at hy
    linarith
  · calc Real.arctan (Real.tan ((levelFrame : frame_state ℝ).fovY / 2) / 2)
        < Real.arctan (Real.tan ((levelFrame : frame_state ℝ).fovY / 2)) :=
          Real.arctan_strictMono (by linarith)
      _ = (levelFrame : frame_state ℝ).fovY / 2 := harc
  · intro tan fs x y
    rw [v3_ext_iff]
    simp only [primaryRayUnnormalized, cameraRayUnnormalized, worldFrameDimOf, pixelUV,
      v3_add_x, v3_add_y, v3_add_z, v3_div_x, v3_div_y, v3_div_z, v3_muls_x, v3_muls_y,
      v3_muls_z, v3_smul_x, v3_smul_y, v3_smul_z]
    refine ⟨?_, ?_, ?_⟩ <;> ring

/-! ## Theorems: shape indices and the scene tables -/

/-- What the nearest-hit selection returns: the plane, nothing, or sphere `j` with its
distance. -/
theorem nearestHit_result {α : Type} [LinearOrderedField α]
    (camNear camFar : α) (tSphere : List α) (tPlane : α) :
    nearestHit camNear camFar tSphere tPlane = (tPlane, 10) ∨
    nearestHit camNear camFar tSphere tPlane = (camFar, 0) ∨
    ∃ j : Nat, tSphere[j]? = some (nearestHit camNear camFar tSphere tPlane).1 ∧
      (nearestHit camNear camFar tSphere tPlane).2 = 1 + (j : Int) := by
  have hspec := selectSpheres_spec camNear tSphere 0 camFar 0
  unfold nearestHit
  simp only
  split
  · left; rfl
  · rcases hspec with ⟨heq, _⟩ | ⟨j, h1, h2, _⟩
    · right; left; exact heq
    · right; right
      exact ⟨j, h1, by rw [h2]; simp⟩

/-- C25: whatever the ray (primary or reflected), the shape index of the nearest-hit
search is one of 0, 1, 2, 3, 4, 5, 6, 10; every non-zero index is an assigned slot of
`materials`; an index `1 + i` with `i < 6` comes with the distance of `spheres[i]`, which
is the element `spheres[shapeIndex - 1]` the shading code reads, and index 10 with the
distance of the plane; and the shading of such a hit, including the material lookup of
its reflected ray, reads no unassigned slot (it returns a result). -/
theorem shape_index_reads_assigned_slots {α : Type} [LinearOrderedField α] (sqrt : α → α)
    (pow : α → α → α) (camNear camFar : α) (frameCamPos ro rd : v3 α) :
    ((traceRay sqrt camNear camFar frameCamPos ro rd).2 = 0 ∨
      (traceRay sqrt camNear camFar frameCamPos ro rd).2 = 1 ∨
      (traceRay sqrt camNear camFar frameCamPos ro rd).2 = 2 ∨
      (traceRay sqrt camNear camFar frameCamPos ro rd).2 = 3 ∨
      (traceRay sqrt camNear camFar frameCamPos ro rd).2 = 4 ∨
      (traceRay sqrt camNear camFar frameCamPos ro rd).2 = 5 ∨
      (traceRay sqrt camNear camFar frameCamPos ro rd).2 = 6 ∨
      (traceRay sqrt camNear camFar frameCamPos ro rd).2 = 10) ∧
    ((traceRay sqrt camNear camFar frameCamPos ro rd).2 ≠ 0 →
      ∃ m : shape_material α,
        materials (traceRay sqrt camNear camFar frameCamPos ro rd).2 = some m) ∧
    (∀ i : Nat, i < 6 →
      (traceRay sqrt camNear camFar frameCamPos ro rd).2 = 1 + (i : Int) →
      ∃ s, (sceneSpheres frameCamPos)[i]? = some s ∧
        sphereAt (sceneSpheres frameCamPos)
          ((traceRay sqrt camNear camFar frameCamPos ro rd).2 - 1).toNat = s ∧
        (traceRay sqrt camNear camFar frameCamPos ro rd).1 = IntersectSphere sqrt s ro rd) ∧
    ((traceRay sqrt camNear camFar frameCamPos ro rd).2 = 10 →
      (traceRay sqrt camNear camFar frameCamPos ro rd).1 = IntersectPlane 0 ro rd) ∧
    (∀ (worldFrameDim : v2 α) (frameDimX frameDimY : Int),
      (traceRay sqrt camNear camFar frameCamPos ro rd).2 ≠ 0 →
      ∃ res, shadeHit sqrt pow camNear camFar frameCamPos worldFrameDim frameDimX frameDimY
        ro rd (traceRay sqrt camNear camFar frameCamPos ro rd).1
        (traceRay sqrt camNear camFar frameCamPos ro rd).2 = some res) := by
  have hrange := traceRay_index_range sqrt camNear camFar frameCamPos ro rd
  have hres := nearestHit_result camNear camFar
    ((sceneSpheres frameCamPos).map (fun s => IntersectSphere sqrt s ro rd))
    (IntersectPlane 0 ro rd)
  have htr : traceRay sqrt camNear camFar frameCamPos ro rd = nearestHit camNear camFar
      ((sceneSpheres frameCamPos).map (fun s => IntersectSphere sqrt s ro rd))
      (IntersectPlane 0 ro rd) := rfl
  rw [← htr] at hres
  have hnz : (traceRay sqrt camNear camFar frameCamPos ro rd).2 ≠ 0 →
      (1 ≤ (traceRay sqrt camNear camFar frameCamPos ro rd).2 ∧
        (traceRay sqrt camNear camFar frameCamPos ro rd).2 ≤ 6) ∨
      (traceRay sqrt camNear camFar frameCamPos ro rd).2 = 10 := by
    intro h
    rcases hrange with h0 | h1 | h2
    · exact absurd h0 h
    · exact Or.inl h1
    · exact Or.inr h2
  refine ⟨by omega, fun h => materials_isSome _ (hnz h), ?_, ?_, ?_⟩
  · intro i hi hidx
    rcases hres with h | h | ⟨j, hj1, hj2⟩
    · rw [h] at hidx; simp only at hidx; omega
    · rw [h] at hidx; simp only at hidx; omega
    · have hji : j = i := by omega
      subst hji
      rw [List.getElem?_map] at hj1
      cases hs : (sceneSpheres frameCamPos)[j]? with
      | none => rw [hs] at hj1; simp at hj1
      | some s =>
        rw [hs] at hj1
        simp only [Option.map_some', Option.some.injEq] at hj1
        refine ⟨s, rfl, ?_, hj1.symm⟩
        have hn : ((traceRay sqrt camNear camFar frameCamPos ro rd).2 - 1).toNat = j := by
          omega
        rw [hn]
        unfold sphereAt
        rw [List.getD_eq_getElem?_getD, hs]
        rfl
  · intro h10
    rcases hres with h | h | ⟨j, hj1, hj2⟩
    · rw [h]
    · rw [h] at h10; simp only at h10; omega
    · exfalso
      have hj : j < ((sceneSpheres frameCamPos).map
          (fun s => IntersectSphere sqrt s ro rd)).length := by
        by_contra hge
        rw [List.getElem?_eq_none (by omega)] at hj1
        exact absurd hj1 (by simp)
      simp only [sceneSpheres, List.map_cons, List.map_nil, List.length_cons,
        List.length_nil] at hj
      omega
  · intro worldFrameDim frameDimX frameDimY h
    exact shadeHit_isSome sqrt pow camNear camFar frameCamPos worldFrameDim frameDimX
      frameDimY ro rd _ _ (hnz h)

/-! ## Theorems: the frame buffer -/

theorem Painted_trans (f : Nat → Int) (S1 S2 : Nat → Prop) (fb fb1 fb2 : List Int)
    (h1 : Painted f S1 fb fb1) (h2 : Painted f S2 fb1 fb2) :
    Painted f (fun k => S1 k ∨ S2 k) fb fb2 := by
  refine ⟨by rw [h2.1, h1.1], ?_⟩
  intro k hk
  have hk1 : k < fb1.length := by rw [h1.1]; exact hk
  constructor
  · intro hS
    by_cases h : S2 k
    · exact ((h2.2 k hk1).1 h)
    · rw [(h2.2 k hk1).2 h]
      rcases hS with hS | hS
      · exact (h1.2 k hk).1 hS
      · exact absurd hS h
  · intro hS
    rw [(h2.2 k hk1).2 (fun h => hS (Or.inr h))]
    exact (h1.2 k hk).2 (fun h => hS (Or.inl h))

theorem Painted_congr (f : Nat → Int) (S T : Nat → Prop) (fb fb2 : List Int)
    (h : Painted f S fb fb2) (hST : ∀ k : Nat, k < fb.length → (S k ↔ T k)) :
    Painted f T fb fb2 := by
  refine ⟨h.1, ?_⟩
  intro k hk
  constructor
  · intro hT
    exact (h.2 k hk).1 ((hST k hk).2 hT)
  · intro hT
    exact (h.2 k hk).2 (fun hS => hT ((hST k hk).1 hS))

theorem Painted_none (f : Nat → Int) (fb : List Int) : Painted f (fun _ => False) fb fb :=
  ⟨rfl, fun _ _ => ⟨fun h => absurd h id, fun _ => rfl⟩⟩

/-- A buffer painted at every offset is the image itself. -/
theorem Painted_full (f : Nat → Int) (S : Nat → Prop) (fb fb2 : List Int)
    (h : Painted f S fb fb2) (hall : ∀ k : Nat, k < fb.length → S k) :
    fb2 = (List.range fb.length).map f := by
  apply List.ext_getElem?
  intro k
  by_cases hk : k < fb.length
  · rw [(h.2 k hk).1 (hall k hk)]
    rw [List.getElem?_map, List.getElem?_range hk]
    rfl
  · rw [List.getElem?_eq_none (by rw [h.1]; omega),
      List.getElem?_eq_none (by simp; omega)]

theorem storeByte_spec (fb : List Int) (o v : Int) (h0 : 0 ≤ o)
    (h1 : o < (fb.length : Int)) :
    storeByte fb o v = some (fb.set o.toNat v) := by
  unfold storeByte
  rw [if_pos ⟨h0, h1⟩]

/-- Inside the frame the index of a pixel is computed without wrapping. -/
theorem pixelOffset_eq (W H x y : Int) (hx0 : 0 ≤ x) (hx1 : x < W) (hy0 : 0 ≤ y)
    (hy1 : y < H) (hsize : 3 * W * H < 2147483648) :
    pixelOffset W x y = 3 * (y * W + x) ∧ 0 ≤ y * W + x ∧
      3 * (y * W + x) + 3 ≤ 3 * W * H := by
  have hW : 0 < W := by omega
  have h1 : 0 ≤ y * W := mul_nonneg hy0 (le_of_lt hW)
  have h2 : y * W + W ≤ H * W := by nlinarith
  have h3 : 3 * W * H = 3 * (H * W) := by ring
  have e1 : wrapS32 (y * W) = y * W := wrapS32_of_range _ (by omega) (by omega)
  have e2 : wrapS32 (y * W + x) = y * W + x := wrapS32_of_range _ (by omega) (by omega)
  have e3 : wrapS32 (3 * (y * W + x)) = 3 * (y * W + x) :=
    wrapS32_of_range _ (by omega) (by omega)
  unfold pixelOffset
  rw [e1, e2, e3]
  exact ⟨rfl, by omega, by omega⟩

/-- The three stores of a pixel inside the frame succeed and change exactly the three
bytes at `3*(y*width + x)`. -/
theorem writePixel_spec (fb : List Int) (W H x y : Int) (b : Int × Int × Int)
    (hx0 : 0 ≤ x) (hx1 : x < W) (hy0 : 0 ≤ y) (hy1 : y < H)
    (hsize : 3 * W * H < 2147483648) (hlen : (fb.length : Int) = 3 * W * H) :
    ∃ fb2, writePixel fb W x y b = some fb2 ∧ fb2.length = fb.length ∧
      ∀ k : Nat, fb2[k]? =
        if (k : Int) = 3 * (y * W + x) then some b.1
        else if (k : Int) = 3 * (y * W + x) + 1 then some b.2.1
        else if (k : Int) = 3 * (y * W + x) + 2 then some b.2.2
        else fb[k]? := by
  obtain ⟨ho, hp0, hp1⟩ := pixelOffset_eq W H x y hx0 hx1 hy0 hy1 hsize
  generalize y * W + x = p at ho hp0 hp1 ⊢
  unfold writePixel
  rw [ho, storeByte_spec fb (3 * p) b.1 (by omega) (by omega)]
  simp only
  rw [storeByte_spec _ (3 * p + 1) b.2.1 (by omega) (by rw [List.length_set]; omega)]
  simp only
  rw [storeByte_spec _ (3 * p + 2) b.2.2 (by omega)
    (by rw [List.length_set, List.length_set]; omega)]
  refine ⟨_, rfl, by simp only [List.length_set], ?_⟩
  intro k
  simp only [List.getElem?_set, List.length_set]
  have hlt : (3 * p + 2).toNat < fb.length := by omega
  by_cases h0 : (k : Int) = 3 * p
  · have e0 : (3 * p).toNat = k := by omega
    have e1 : ¬ (3 * p + 1).toNat = k := by omega
    have e2 : ¬ (3 * p + 2).toNat = k := by omega
    have e3 : (3 * p).toNat < fb.length := by omega
    simp only [h0, e0, e1, e2, if_true, if_false]
    rw [if_pos (by omega)]
  · by_cases h1 : (k : Int) = 3 * p + 1
    · have e1 : (3 * p + 1).toNat = k := by omega
      have e2 : ¬ (3 * p + 2).toNat = k := by omega
      simp only [h0, h1, e1, e2, if_true, if_false]
      rw [if_pos (by omega)]
      simp
    · by_cases h2 : (k : Int) = 3 * p + 2
      · have e2 : (3 * p + 2).toNat = k := by omega
        simp only [h0, h1, h2, e2, if_true, if_false]
        rw [if_pos (by omega)]
        simp
      · have e0 : ¬ (3 * p).toNat = k := by omega
        have e1 : ¬ (3 * p + 1).toNat = k := by omega
        have e2 : ¬ (3 * p + 2).toNat = k := by omega
        simp only [h0, h1, h2, e0, e1, e2, if_false]

/-- Every pixel is rendered to three bytes: no lookup of the shading code faults. -/
theorem renderPixel_isSome {α : Type} [LinearOrderedField α] [FloorRing α] (sqrt : α → α)
    (pow : α → α → α) (tan : α → α) (fs : frame_state α) (x y : Int) :
    ∃ bytes, renderPixel sqrt pow tan fs x y = some bytes := by
  unfold renderPixel pixelColor
  simp only
  by_cases h : (primaryHit sqrt tan fs x y).2 ≠ 0
  · rw [if_pos h]
    have hr := traceRay_index_range sqrt fs.camNear fs.camFar fs.camera.frameCamPos
      fs.camera.frameCamPos (primaryRay sqrt tan fs x y)
    have hidx : (1 ≤ (primaryHit sqrt tan fs x y).2 ∧ (primaryHit sqrt tan fs x y).2 ≤ 6) ∨
        (primaryHit sqrt tan fs x y).2 = 10 := by
      rcases hr with h0 | h1 | h2
      · exact absurd h0 h
      · exact Or.inl h1
      · exact Or.inr h2
    obtain ⟨res, hres⟩ := shadeHit_isSome sqrt pow fs.camNear fs.camFar
      fs.camera.frameCamPos (worldFrameDimOf tan fs) fs.frameDimX fs.frameDimY
      fs.camera.frameCamPos (primaryRay sqrt tan fs x y) (primaryHit sqrt tan fs x y).1
      (primaryHit sqrt tan fs x y).2 hidx
    rw [hres]
    exact ⟨_, rfl⟩
  · rw [if_neg h]
    exact ⟨_, rfl⟩

/-- The byte of the frame at channel `c` of pixel `(x, y)`. -/
theorem frameByteAt_pixel {α : Type} [LinearOrderedField α] [FloorRing α] (sqrt : α → α)
    (pow : α → α → α) (tan : α → α) (fs : frame_state α) (x y c : Int)
    (bytes : Int × Int × Int) (hx0 : 0 ≤ x) (hx1 : x < fs.frameDimX) (hc0 : 0 ≤ c)
    (hc1 : c < 3) (hb : renderPixel sqrt pow tan fs x y = some bytes) (k : Nat)
    (hk : (k : Int) = 3 * (y * fs.frameDimX + x) + c) :
    frameByteAt sqrt pow tan fs k = channelOf bytes c := by
  have h3 : (k : Int) / 3 = x + y * fs.frameDimX := by omega
  have hc : (k : Int) % 3 = c := by omega
  have hxm : (x + y * fs.frameDimX) % fs.frameDimX = x := by
    rw [Int.add_mul_emod_self, Int.emod_eq_of_lt hx0 hx1]
  have hyd : (x + y * fs.frameDimX) / fs.frameDimX = y := by
    rw [Int.add_mul_ediv_right _ _ (by omega), Int.ediv_eq_zero_of_lt hx0 hx1, zero_add]
  unfold frameByteAt
  rw [h3, hc, hxm, hyd, hb]
  rfl

theorem renderColumns_succ {α : Type} [LinearOrderedField α] [FloorRing α]
    (sqrt : α → α) (pow : α → α → α) (tan : α → α) (fs : frame_state α) (y : Int)
    (count : Nat) (x : Int) (fb : List Int) :
    renderColumns sqrt pow tan fs y (count + 1) x fb =
      match renderPixel sqrt pow tan fs x y with
      | none => none
      | some bytes =>
        match writePixel fb fs.frameDimX x y bytes with
        | none => none
        | some fb1 => renderColumns sqrt pow tan fs y count (x + 1) fb1 := by
  rfl

/-- The column loop of row `y`, started at column `x0` with `count` iterations, paints the
bytes of the pixels `x0 .. x0 + count - 1` of that row. -/
theorem renderColumns_painted {α : Type} [LinearOrderedField α] [FloorRing α]
    (sqrt : α → α) (pow : α → α → α) (tan : α → α) (fs : frame_state α) (y : Int)
    (hy0 : 0 ≤ y) (hy1 : y < fs.frameDimY)
    (hsize : 3 * fs.frameDimX * fs.frameDimY < 2147483648) :
    ∀ (count : Nat) (x0 : Int) (fb : List Int), 0 ≤ x0 → x0 + (count : Int) ≤ fs.frameDimX →
      (fb.length : Int) = 3 * fs.frameDimX * fs.frameDimY →
      ∃ fb2, renderColumns sqrt pow tan fs y count x0 fb = some fb2 ∧
        Painted (frameByteAt sqrt pow tan fs)
          (fun k => 3 * (y * fs.frameDimX + x0) ≤ (k : Int) ∧
            (k : Int) < 3 * (y * fs.frameDimX + x0 + (count : Int))) fb fb2 := by
  intro count
  induction count with
  | zero =>
    intro x0 fb _ _ _
    refine ⟨fb, rfl, Painted_congr _ _ _ _ _ (Painted_none _ fb) ?_⟩
    intro k _
    simp only [Nat.cast_zero, add_zero, false_iff, not_and, not_lt]
    intro h
    exact h
  | succ count ih =>
    intro x0 fb hx0 hx1 hlen
    obtain ⟨bytes, hb⟩ := renderPixel_isSome sqrt pow tan fs x0 y
    obtain ⟨fb1, hw, hl1, hget⟩ := writePixel_spec fb fs.frameDimX fs.frameDimY x0 y bytes
      hx0 (by omega) hy0 hy1 hsize hlen
    obtain ⟨fb2, hr, hp⟩ := ih (x0 + 1) fb1 (by omega) (by push_cast at hx1; omega)
      (by rw [hl1]; exact hlen)
    refine ⟨fb2, ?_, ?_⟩
    · rw [renderColumns_succ, hb]
      simp only
      rw [hw]
      exact hr
    · have hp1 : Painted (frameByteAt sqrt pow tan fs)
          (fun k => 3 * (y * fs.frameDimX + x0) ≤ (k : Int) ∧
            (k : Int) < 3 * (y * fs.frameDimX + x0) + 3) fb fb1 := by
        refine ⟨hl1, ?_⟩
        intro k _
        constructor
        · intro hS
          rw [hget k]
          have hch : frameByteAt sqrt pow tan fs k
              = channelOf bytes ((k : Int) - 3 * (y * fs.frameDimX + x0)) :=
            frameByteAt_pixel sqrt pow tan fs x0 y _ bytes hx0 (by omega) (by omega)
              (by omega) hb k (by omega)
          rw [hch]
          unfold channelOf
          by_cases h0 : (k : Int) = 3 * (y * fs.frameDimX + x0)
          · rw [if_pos h0, if_pos (by omega)]
          · rw [if_neg h0]
            by_cases h1 : (k : Int) = 3 * (y * fs.frameDimX + x0) + 1
            · rw [if_pos h1, if_neg (by omega), if_pos (by omega)]
            · rw [if_neg h1, if_pos (by omega), if_neg (by omega), if_neg (by omega)]
        · intro hS
          rw [hget k, if_neg (by omega), if_neg (by omega), if_neg (by omega)]
      refine Painted_congr _ _ _ _ _ (Painted_trans _ _ _ _ _ _ hp1 hp) ?_
      intro k _
      push_cast
      constructor
      · rintro (h | h) <;> omega
      · intro h
        omega

theorem renderRowsFrom_succ {α : Type} [LinearOrderedField α] [FloorRing α]
    (sqrt : α → α) (pow : α → α → α) (tan : α → α) (fs : frame_state α)
    (count : Nat) (y : Int) (fb : List Int) :
    renderRowsFrom sqrt pow tan fs (count + 1) y fb =
      match renderRow sqrt pow tan fs y fb with
      | none => none
      | some fb1 => renderRowsFrom sqrt pow tan fs count (y + 1) fb1 := by
  rfl

theorem renderTasks_cons {α : Type} [LinearOrderedField α] [FloorRing α]
    (sqrt : α → α) (pow : α → α → α) (tan : α → α) (fs : frame_state α)
    (entry : work_entry) (rest : List work_entry) (fb : List Int) :
    renderTasks sqrt pow tan fs (entry :: rest) fb =
      match renderTask sqrt pow tan fs entry fb with
      | none => none
      | some fb1 => renderTasks sqrt pow tan fs rest fb1 := by
  rfl

/-- One row paints the bytes `[3*y*width, 3*(y + 1)*width)`. -/
theorem renderRow_painted {α : Type} [LinearOrderedField α] [FloorRing α]
    (sqrt : α → α) (pow : α → α → α) (tan : α → α) (fs : frame_state α) (y : Int)
    (hW : 0 < fs.frameDimX) (hy0 : 0 ≤ y) (hy1 : y < fs.frameDimY)
    (hsize : 3 * fs.frameDimX * fs.frameDimY < 2147483648) (fb : List Int)
    (hlen : (fb.length : Int) = 3 * fs.frameDimX * fs.frameDimY) :
    ∃ fb2, renderRow sqrt pow tan fs y fb = some fb2 ∧
      Painted (frameByteAt sqrt pow tan fs)
        (fun k => 3 * (y * fs.frameDimX) ≤ (k : Int) ∧
          (k : Int) < 3 * (y * fs.frameDimX + fs.frameDimX)) fb fb2 := by
  have hn : ((fs.frameDimX.toNat : Nat) : Int) = fs.frameDimX := Int.toNat_of_nonneg (by omega)
  obtain ⟨fb2, hr, hp⟩ := renderColumns_painted sqrt pow tan fs y hy0 hy1 hsize
    fs.frameDimX.toNat 0 fb (le_refl 0) (by omega) hlen
  refine ⟨fb2, hr, Painted_congr _ _ _ _ _ hp ?_⟩
  intro k _
  rw [hn]
  simp only [add_zero]

/-- The row loop started at row `y0` with `count` iterations paints the bytes of the rows
`y0 .. y0 + count - 1`. -/
theorem renderRowsFrom_painted {α : Type} [LinearOrderedField α] [FloorRing α]
    (sqrt : α → α) (pow : α → α → α) (tan : α → α) (fs : frame_state α)
    (hW : 0 < fs.frameDimX) (hsize : 3 * fs.frameDimX * fs.frameDimY < 2147483648) :
    ∀ (count : Nat) (y0 : Int) (fb : List Int), 0 ≤ y0 → y0 + (count : Int) ≤ fs.frameDimY →
      (fb.length : Int) = 3 * fs.frameDimX * fs.frameDimY →
      ∃ fb2, renderRowsFrom sqrt pow tan fs count y0 fb = some fb2 ∧
        Painted (frameByteAt sqrt pow tan fs)
          (fun k => 3 * (y0 * fs.frameDimX) ≤ (k : Int) ∧
            (k : Int) < 3 * (y0 * fs.frameDimX + (count : Int) * fs.frameDimX)) fb fb2 := by
  intro count
  induction count with
  | zero =>
    intro y0 fb _ _ _
    refine ⟨fb, rfl, Painted_congr _ _ _ _ _ (Painted_none _ fb) ?_⟩
    intro k _
    simp only [Nat.cast_zero, zero_mul, add_zero, false_iff, not_and, not_lt]
    intro h
    exact h
  | succ count ih =>
    intro y0 fb hy0 hy1 hlen
    obtain ⟨fb1, hrow, hp1⟩ := renderRow_painted sqrt pow tan fs y0 hW hy0
      (by push_cast at hy1; omega) hsize fb hlen
    obtain ⟨fb2, hr, hp⟩ := ih (y0 + 1) fb1 (by omega) (by push_cast at hy1; omega)
      (by rw [hp1.1]; exact hlen)
    refine ⟨fb2, ?_, ?_⟩
    · rw [renderRowsFrom_succ, hrow]
      exact hr
    · refine Painted_congr _ _ _ _ _ (Painted_trans _ _ _ _ _ _ hp1 hp) ?_
      intro k _
      have hnn : 0 ≤ (count : Int) * fs.frameDimX :=
        mul_nonneg (Int.ofNat_nonneg count) (le_of_lt hW)
      simp only [Nat.cast_add, Nat.cast_one, add_mul, one_mul]
      constructor
      · rintro (h | h) <;> omega
      · intro h
        omega

/-- A task whose rows lie inside the frame paints the bytes of its rows. -/
theorem renderTask_painted {α : Type} [LinearOrderedField α] [FloorRing α]
    (sqrt : α → α) (pow : α → α → α) (tan : α → α) (fs : frame_state α)
    (hW : 0 < fs.frameDimX) (hsize : 3 * fs.frameDimX * fs.frameDimY < 2147483648)
    (e : work_entry) (he : taskInFrame fs.frameDimY e) (fb : List Int)
    (hlen : (fb.length : Int) = 3 * fs.frameDimX * fs.frameDimY) :
    ∃ fb2, renderTask sqrt pow tan fs e fb = some fb2 ∧
      Painted (frameByteAt sqrt pow tan fs) (inTaskBytes fs.frameDimX e) fb fb2 := by
  obtain ⟨h0, h1, h2⟩ := he
  have hH : fs.frameDimY < 2147483648 := by nlinarith
  have hwrap : wrapS32 (e.firstRowY + e.numRows) = e.firstRowY + e.numRows :=
    wrapS32_of_range _ (by omega) (by omega)
  have hcount : (((e.firstRowY + e.numRows - e.firstRowY).toNat : Nat) : Int) = e.numRows := by
    omega
  obtain ⟨fb2, hr, hp⟩ := renderRowsFrom_painted sqrt pow tan fs hW hsize
    (e.firstRowY + e.numRows - e.firstRowY).toNat e.firstRowY fb h0 (by omega) hlen
  refine ⟨fb2, ?_, ?_⟩
  · unfold renderTask
    rw [hwrap]
    exact hr
  · rw [hcount] at hp
    exact hp

/-- Tasks rendered one after the other paint the bytes of all their rows, whatever the
order and whether or not their rows overlap. -/
theorem renderTasks_painted {α : Type} [LinearOrderedField α] [FloorRing α]
    (sqrt : α → α) (pow : α → α → α) (tan : α → α) (fs : frame_state α)
    (hW : 0 < fs.frameDimX) (hsize : 3 * fs.frameDimX * fs.frameDimY < 2147483648) :
    ∀ (tasks : List work_entry) (fb : List Int),
      (∀ e ∈ tasks, taskInFrame fs.frameDimY e) →
      (fb.length : Int) = 3 * fs.frameDimX * fs.frameDimY →
      ∃ fb2, renderTasks sqrt pow tan fs tasks fb = some fb2 ∧
        Painted (frameByteAt sqrt pow tan fs)
          (fun k => ∃ e ∈ tasks, inTaskBytes fs.frameDimX e k) fb fb2 := by
  intro tasks
  induction tasks with
  | nil =>
    intro fb _ _
    refine ⟨fb, rfl, Painted_congr _ _ _ _ _ (Painted_none _ fb) ?_⟩
    intro k _
    simp
  | cons e rest ih =>
    intro fb hall hlen
    obtain ⟨fb1, hr1, hp1⟩ := renderTask_painted sqrt pow tan fs hW hsize e
      (hall e (List.mem_cons_self e rest)) fb hlen
    obtain ⟨fb2, hr2, hp2⟩ := ih fb1 (fun e2 he2 => hall e2 (List.mem_cons_of_mem e he2))
      (by rw [hp1.1]; exact hlen)
    refine ⟨fb2, ?_, ?_⟩
    · rw [renderTasks_cons, hr1]
      exact hr2
    · refine Painted_congr _ _ _ _ _ (Painted_trans _ _ _ _ _ _ hp1 hp2) ?_
      intro k _
      simp only [List.mem_cons, exists_eq_or_imp]

/-- A successful `BeginFrame` passed both of its assertions. -/
theorem BeginFrame_some (gs0 gs1 : global_state) (hbegin : BeginFrame gs0 = some gs1) :
    BeginFramePublish gs0 = some (gs1, 0) ∧
    entriesCapacity > toUmm (gs0.frameDimY.tdiv rowsPerEntry) := by
  unfold BeginFrame at hbegin
  cases hpub : BeginFramePublish gs0 with
  | none => rw [hpub] at hbegin; exact absurd hbegin (by simp)
  | some r =>
    obtain ⟨gs2, prev⟩ := r
    rw [hpub] at hbegin
    simp only at hbegin
    split at hbegin
    · rename_i hprev
      simp only [Option.some.injEq] at hbegin
      subst hbegin
      subst hprev
      refine ⟨rfl, ?_⟩
      by_contra hna
      unfold BeginFramePublish at hpub
      simp only [hna, if_false] at hpub
      exact absurd hpub (by simp)
    · exact absurd hbegin (by simp)

/-- The tasks published by `BeginFrame` for a frame of height `h`: task `k` is the band
`rowBand h k`, for the `k` with `10*k < h`. -/
theorem BeginFrame_published (gs0 gs1 : global_state) (hlen : gs0.entries.length = 100)
    (hh : 0 ≤ gs0.frameDimY) (hbegin : BeginFrame gs0 = some gs1) :
    gs0.frameDimY ≤ 999 ∧ gs1.frameDimY = gs0.frameDimY ∧
    gs1.numEntries = (gs0.frameDimY + 9) / 10 ∧
    ∀ k : Nat, (publishedTasks gs1)[k]? =
      if 10 * (k : Int) < gs0.frameDimY then some (rowBand gs0.frameDimY k) else none := by
  obtain ⟨hpub, hassert⟩ := BeginFrame_some gs0 gs1 hbegin
  obtain ⟨gs2, prevCount, e1, _, e3, _, e5, _, _, e8⟩ :=
    BeginFramePublish_spec gs0 hlen hh hassert
  rw [hpub] at e1
  simp only [Option.some.injEq, Prod.mk.injEq] at e1
  obtain ⟨hgs, _⟩ := e1
  subst hgs
  have hcap : gs0.frameDimY ≤ 999 := by
    have h2 : gs0.frameDimY.tdiv 10 = gs0.frameDimY / 10 := by
      rw [Int.tdiv_eq_ediv hh (by decide)]
    simp only [entriesCapacity, toUmm, rowsPerEntry, h2] at hassert
    split at hassert <;> omega
  refine ⟨hcap, e5, e3, ?_⟩
  intro k
  rw [publishedTasks_getElem? gs0.frameDimY gs1 e8 k, e3]
  by_cases hk : 10 * (k : Int) < gs0.frameDimY
  · rw [if_pos hk, if_pos (by omega)]
  · rw [if_neg hk, if_neg (by omega)]

/-- Every published task lies inside the frame, and every row of the frame belongs to a
published task. -/
theorem BeginFrame_published_cover (gs0 gs1 : global_state)
    (hlen : gs0.entries.length = 100) (hh : 0 ≤ gs0.frameDimY)
    (hbegin : BeginFrame gs0 = some gs1) :
    (∀ e ∈ publishedTasks gs1, taskInFrame gs0.frameDimY e) ∧
    (∀ row : Int, 0 ≤ row → row < gs0.frameDimY →
      ∃ e ∈ publishedTasks gs1, e.firstRowY ≤ row ∧ row < e.firstRowY + e.numRows) := by
  obtain ⟨_, _, _, hget⟩ := BeginFrame_published gs0 gs1 hlen hh hbegin
  constructor
  · intro e he
    obtain ⟨k, hk⟩ := List.mem_iff_getElem?.mp he
    rw [hget k] at hk
    split at hk
    · rename_i hlt
      simp only [Option.some.injEq] at hk
      subst hk
      simp only [taskInFrame, rowBand]
      omega
    · exact absurd hk (by simp)
  · intro row h0 h1
    refine ⟨rowBand gs0.frameDimY (row / 10).toNat, ?_, ?_⟩
    · apply List.mem_iff_getElem?.mpr
      refine ⟨(row / 10).toNat, ?_⟩
      rw [hget, if_pos (by omega)]
    · simp only [rowBand]
      omega

/-- The allocation size of the frame buffer when the product does not overflow. -/
theorem frameBufferSize_eq (W H : Int) (hW : 0 < W) (hH : 0 ≤ H)
    (hsize : 3 * W * H < 2147483648) : frameBufferSize W H = 3 * W * H := by
  have h0 : 0 ≤ W * H := mul_nonneg (le_of_lt hW) hH
  have h3 : 3 * W * H = W * H * 3 := by ring
  have e1 : wrapS32 (W * H) = W * H := wrapS32_of_range _ (by omega) (by omega)
  have e2 : wrapS32 (W * H * 3) = W * H * 3 := wrapS32_of_range _ (by omega) (by omega)
  unfold frameBufferSize toUmm
  rw [e1, e2, if_neg (by omega), h3]

/-- Every offset of the frame buffer lies in the bytes of exactly the row
`(k/3) / width`. -/
theorem byte_row (W H : Int) (hW : 0 < W) (k : Nat) (hk : (k : Int) < 3 * W * H) :
    ∃ row : Int, 0 ≤ row ∧ row < H ∧ 3 * (row * W) ≤ (k : Int) ∧
      (k : Int) < 3 * (row * W + W) := by
  have h3 : 3 * W * H = 3 * (H * W) := by ring
  have hq0 : 0 ≤ (k : Int) / 3 := by omega
  have h1 : (k : Int) / 3 / W * W ≤ (k : Int) / 3 := Int.ediv_mul_le _ (by omega)
  have h2 : (k : Int) / 3 < ((k : Int) / 3 / W + 1) * W :=
    Int.lt_ediv_add_one_mul_self _ hW
  have h4 : ((k : Int) / 3 / W + 1) * W = (k : Int) / 3 / W * W + W := by ring
  refine ⟨(k : Int) / 3 / W, Int.ediv_nonneg hq0 (le_of_lt hW), ?_, by omega, by omega⟩
  apply Int.ediv_lt_of_lt_mul hW
  omega

theorem inTaskBytes_of_row (W : Int) (hW : 0 < W) (e : work_entry) (row : Int) (k : Nat)
    (h1 : e.firstRowY ≤ row) (h2 : row < e.firstRowY + e.numRows)
    (h3 : 3 * (row * W) ≤ (k : Int)) (h4 : (k : Int) < 3 * (row * W + W)) :
    inTaskBytes W e k := by
  have ha : e.firstRowY * W ≤ row * W := mul_le_mul_of_nonneg_right h1 (le_of_lt hW)
  have hb : (row + 1) * W ≤ (e.firstRowY + e.numRows) * W :=
    mul_le_mul_of_nonneg_right (by omega) (le_of_lt hW)
  have hc : (row + 1) * W = row * W + W := by ring
  have hd : (e.firstRowY + e.numRows) * W = e.firstRowY * W + e.numRows * W := by ring
  unfold inTaskBytes
  constructor <;> omega

/-- A buffer painted by tasks that cover every row is the frame determined by the frame
state. -/
theorem painted_cover_eq {α : Type} [LinearOrderedField α] [FloorRing α]
    (sqrt : α → α) (pow : α → α → α) (tan : α → α) (fs : frame_state α)
    (hW : 0 < fs.frameDimX) (tasks : List work_entry) (fb fb2 : List Int)
    (hlen : (fb.length : Int) = 3 * fs.frameDimX * fs.frameDimY)
    (hp : Painted (frameByteAt sqrt pow tan fs)
      (fun k => ∃ e ∈ tasks, inTaskBytes fs.frameDimX e k) fb fb2)
    (hcover : ∀ row : Int, 0 ≤ row → row < fs.frameDimY →
      ∃ e ∈ tasks, e.firstRowY ≤ row ∧ row < e.firstRowY + e.numRows) :
    fb2 = renderedFrame sqrt pow tan fs := by
  have hn : fb.length = (3 * fs.frameDimX * fs.frameDimY).toNat := by omega
  unfold renderedFrame
  rw [← hn]
  apply Painted_full _ _ _ _ hp
  intro k hk
  obtain ⟨row, hr0, hr1, hr2, hr3⟩ := byte_row fs.frameDimX fs.frameDimY hW k (by omega)
  obtain ⟨e, he, h1, h2⟩ := hcover row hr0 hr1
  exact ⟨e, he, inTaskBytes_of_row fs.frameDimX hW e row k h1 h2 hr2 hr3⟩

/-- C24: rendering is a function of the frozen frame state. For a frame whose tasks were
published by `BeginFrame`, rendering the published tasks one after the other in any
order (any permutation), from any initial contents of the frame buffer, yields the
buffer `renderedFrame fs`, which is also what rendering the rows `0 .. height - 1`
sequentially yields; that buffer holds at the offsets of pixel `(x, y)` the three bytes
`renderPixel fs x y`, which depend on the frame state and the pixel only. -/
theorem render_order_independent {α : Type} [LinearOrderedField α] [FloorRing α]
    (sqrt : α → α) (pow : α → α → α) (tan : α → α) (fs : frame_state α)
    (gs0 gs1 : global_state) (order : List work_entry) (fb : List Int)
    (hentries : gs0.entries.length = 100) (hdim : gs0.frameDimY = fs.frameDimY)
    (hW : 0 < fs.frameDimX) (hH : 0 ≤ fs.frameDimY)
    (hsize : 3 * fs.frameDimX * fs.frameDimY < 2147483648)
    (hbegin : BeginFrame gs0 = some gs1)
    (hperm : order.Perm (publishedTasks gs1))
    (hfb : (fb.length : Int) = frameBufferSize fs.frameDimX fs.frameDimY) :
    renderTasks sqrt pow tan fs order fb = some (renderedFrame sqrt pow tan fs) ∧
    renderRowsFrom sqrt pow tan fs fs.frameDimY.toNat 0 fb
      = some (renderedFrame sqrt pow tan fs) ∧
    ((renderedFrame sqrt pow tan fs).length : Int) = 3 * fs.frameDimX * fs.frameDimY ∧
    (∀ x y c : Int, 0 ≤ x → x < fs.frameDimX → 0 ≤ y → y < fs.frameDimY → 0 ≤ c → c < 3 →
      ∃ bytes, renderPixel sqrt pow tan fs x y = some bytes ∧
        (renderedFrame sqrt pow tan fs)[(pixelOffset fs.frameDimX x y + c).toNat]?
          = some (channelOf bytes c)) := by
  have hlen : (fb.length : Int) = 3 * fs.frameDimX * fs.frameDimY := by
    rw [hfb, frameBufferSize_eq _ _ hW hH hsize]
  obtain ⟨hin, hcov⟩ := BeginFrame_published_cover gs0 gs1 hentries (by omega) hbegin
  rw [hdim] at hin hcov
  have h3 : 3 * fs.frameDimX * fs.frameDimY = 3 * (fs.frameDimY * fs.frameDimX) := by ring
  have hnn : 0 ≤ fs.frameDimY * fs.frameDimX := mul_nonneg hH (le_of_lt hW)
  refine ⟨?_, ?_, ?_, ?_⟩
  · obtain ⟨fb2, hr, hp⟩ := renderTasks_painted sqrt pow tan fs hW hsize order fb
      (fun e he => hin e (hperm.mem_iff.mp he)) hlen
    rw [hr, painted_cover_eq sqrt pow tan fs hW order fb fb2 hlen hp]
    intro row h0 h1
    obtain ⟨e, he, h⟩ := hcov row h0 h1
    exact ⟨e, hperm.mem_iff.mpr he, h⟩
  · obtain ⟨fb2, hr, hp⟩ := renderRowsFrom_painted sqrt pow tan fs hW hsize
      fs.frameDimY.toNat 0 fb (le_refl 0) (by omega) hlen
    rw [hr]
    have hn : fb.length = (3 * fs.frameDimX * fs.frameDimY).toNat := by omega
    have hfull := Painted_full _ _ _ _ hp (by
      intro k hk
      have hc : ((fs.frameDimY.toNat : Nat) : Int) = fs.frameDimY := Int.toNat_of_nonneg hH
      rw [hc]
      simp only [zero_mul, mul_zero, zero_add]
      omega)
    rw [hfull, hn]
    rfl
  · unfold renderedFrame
    simp only [List.length_map, List.length_range]
    omega
  · intro x y c hx0 hx1 hy0 hy1 hc0 hc1
    obtain ⟨bytes, hb⟩ := renderPixel_isSome sqrt pow tan fs x y
    obtain ⟨ho, hp0, hp1⟩ := pixelOffset_eq fs.frameDimX fs.frameDimY x y hx0 hx1 hy0 hy1 hsize
    refine ⟨bytes, hb, ?_⟩
    unfold renderedFrame
    rw [ho, List.getElem?_map, List.getElem?_range (by omega)]
    simp only [Option.map_some', Option.some.injEq]
    exact frameByteAt_pixel sqrt pow tan fs x y c bytes hx0 hx1 hc0 hc1 hb _ (by omega)

/-- Different bytes of the frame have different offsets. -/
theorem pixel_byte_injective (W : Int) (x y c x2 y2 c2 : Int)
    (hx0 : 0 ≤ x) (hx1 : x < W) (hc0 : 0 ≤ c) (hc1 : c < 3)
    (hx20 : 0 ≤ x2) (hx21 : x2 < W) (hc20 : 0 ≤ c2) (hc21 : c2 < 3)
    (h : 3 * (y * W + x) + c = 3 * (y2 * W + x2) + c2) :
    x = x2 ∧ y = y2 ∧ c = c2 := by
  have hW : 0 ≤ W := by omega
  have hy : y = y2 := by
    rcases lt_trichotomy y y2 with hlt | heq | hgt
    · exfalso
      have h1 : (y + 1) * W ≤ y2 * W := mul_le_mul_of_nonneg_right (by omega) hW
      have h2 : (y + 1) * W = y * W + W := by ring
      omega
    · exact heq
    · exfalso
      have h1 : (y2 + 1) * W ≤ y * W := mul_le_mul_of_nonneg_right (by omega) hW
      have h2 : (y2 + 1) * W = y2 * W + W := by ring
      omega
  subst hy
  refine ⟨by omega, rfl, by omega⟩

/-- The bytes of the rows of a task are the bytes of the pixels of those rows. -/
theorem inTaskBytes_iff_pixels (W H : Int) (hW : 0 < W)
    (hsize : 3 * W * H < 2147483648) (e : work_entry) (he : taskInFrame H e) (k : Nat) :
    inTaskBytes W e k ↔
      ∃ x y c : Int, (0 ≤ x ∧ x < W) ∧ (e.firstRowY ≤ y ∧ y < e.firstRowY + e.numRows) ∧
        (0 ≤ c ∧ c < 3) ∧ (k : Int) = pixelOffset W x y + c := by
  obtain ⟨h0, h1, h2⟩ := he
  have hd : (e.firstRowY + e.numRows) * W = e.firstRowY * W + e.numRows * W := by ring
  constructor
  · intro hk
    obtain ⟨hk1, hk2⟩ := hk
    have hle : (e.firstRowY + e.numRows) * W ≤ H * W :=
      mul_le_mul_of_nonneg_right h2 (le_of_lt hW)
    have h3 : 3 * W * H = 3 * (H * W) := by ring
    obtain ⟨row, hr0, hr1, hr2, hr3⟩ := byte_row W H hW k (by omega)
    have hrow1 : e.firstRowY ≤ row := by
      have : e.firstRowY * W < (row + 1) * W := by
        have h4 : (row + 1) * W = row * W + W := by ring
        omega
      have := lt_of_mul_lt_mul_right this (le_of_lt hW)
      omega
    have hrow2 : row < e.firstRowY + e.numRows := by
      have : row * W < (e.firstRowY + e.numRows) * W := by omega
      exact lt_of_mul_lt_mul_right this (le_of_lt hW)
    obtain ⟨ho, _, _⟩ := pixelOffset_eq W H ((k : Int) / 3 - row * W) row (by omega)
      (by omega) hr0 hr1 hsize
    refine ⟨(k : Int) / 3 - row * W, row, (k : Int) % 3, by omega, ⟨hrow1, hrow2⟩,
      by omega, ?_⟩
    rw [ho]
    omega
  · rintro ⟨x, y, c, ⟨hx0, hx1⟩, ⟨hy0, hy1⟩, ⟨hc0, hc1⟩, hk⟩
    obtain ⟨ho, _, _⟩ := pixelOffset_eq W H x y hx0 hx1 (by omega) (by omega) hsize
    rw [ho] at hk
    exact inTaskBytes_of_row W hW e y k hy0 hy1 (by omega) (by omega)

/-- C23: in a frame buffer of `width*height*3` bytes (the product not overflowing `s32`)
the three bytes of pixel `(x, y)`, `0 ≤ x < width`, `0 ≤ y < height`, are at the offsets
`3*(y*width + x) + {0, 1, 2}`, all inside the buffer, and `(x, y, channel) ↦ offset` is
injective. A task for the rows `[a, a + n)` of the frame writes exactly the bytes
`[3*a*width, 3*(a + n)*width)`: these are the offsets of the pixels of its rows, after
the task they hold the bytes of those pixels, and every other byte is unchanged. Tasks
that share no row share no byte. -/
theorem task_writes_exactly_its_rows {α : Type} [LinearOrderedField α] [FloorRing α]
    (sqrt : α → α) (pow : α → α → α) (tan : α → α) (fs : frame_state α) (fb : List Int)
    (hW : 0 < fs.frameDimX) (hH : 0 ≤ fs.frameDimY)
    (hsize : 3 * fs.frameDimX * fs.frameDimY < 2147483648)
    (hfb : (fb.length : Int) = frameBufferSize fs.frameDimX fs.frameDimY) :
    (fb.length : Int) = 3 * fs.frameDimX * fs.frameDimY ∧
    (∀ x y c : Int, 0 ≤ x → x < fs.frameDimX → 0 ≤ y → y < fs.frameDimY → 0 ≤ c → c < 3 →
      pixelOffset fs.frameDimX x y = 3 * (y * fs.frameDimX + x) ∧
      0 ≤ pixelOffset fs.frameDimX x y + c ∧
      pixelOffset fs.frameDimX x y + c < (fb.length : Int)) ∧
    (∀ x y c x2 y2 c2 : Int, 0 ≤ x → x < fs.frameDimX → 0 ≤ y → y < fs.frameDimY →
      0 ≤ c → c < 3 → 0 ≤ x2 → x2 < fs.frameDimX → 0 ≤ y2 → y2 < fs.frameDimY →
      0 ≤ c2 → c2 < 3 →
      pixelOffset fs.frameDimX x y + c = pixelOffset fs.frameDimX x2 y2 + c2 →
      x = x2 ∧ y = y2 ∧ c = c2) ∧
    (∀ e : work_entry, taskInFrame fs.frameDimY e →
      (∀ k : Nat,
        (3 * e.firstRowY * fs.frameDimX ≤ (k : Int) ∧
          (k : Int) < 3 * (e.firstRowY + e.numRows) * fs.frameDimX) ↔
        ∃ x y c : Int, (0 ≤ x ∧ x < fs.frameDimX) ∧
          (e.firstRowY ≤ y ∧ y < e.firstRowY + e.numRows) ∧ (0 ≤ c ∧ c < 3) ∧
          (k : Int) = pixelOffset fs.frameDimX x y + c) ∧
      ∃ fb2, renderTask sqrt pow tan fs e fb = some fb2 ∧ fb2.length = fb.length ∧
        (∀ k : Nat,
          ¬ (3 * e.firstRowY * fs.frameDimX ≤ (k : Int) ∧
            (k : Int) < 3 * (e.firstRowY + e.numRows) * fs.frameDimX) →
          fb2[k]? = fb[k]?) ∧
        (∀ x y c : Int, 0 ≤ x → x < fs.frameDimX → e.firstRowY ≤ y →
          y < e.firstRowY + e.numRows → 0 ≤ c → c < 3 →
          ∃ bytes, renderPixel sqrt pow tan fs x y = some bytes ∧
            fb2[(pixelOffset fs.frameDimX x y + c).toNat]? = some (channelOf bytes c))) ∧
    (∀ e1 e2 : work_entry, taskInFrame fs.frameDimY e1 → taskInFrame fs.frameDimY e2 →
      (∀ row : Int, ¬ (e1.covers row ∧ e2.covers row)) →
      ∀ k : Nat,
        ¬ ((3 * e1.firstRowY * fs.frameDimX ≤ (k : Int) ∧
            (k : Int) < 3 * (e1.firstRowY + e1.numRows) * fs.frameDimX) ∧
          (3 * e2.firstRowY * fs.frameDimX ≤ (k : Int) ∧
            (k : Int) < 3 * (e2.firstRowY + e2.numRows) * fs.frameDimX))) := by
  have hlen : (fb.length : Int) = 3 * fs.frameDimX * fs.frameDimY := by
    rw [hfb, frameBufferSize_eq _ _ hW hH hsize]
  have hbytes : ∀ (e : work_entry) (k : Nat),
      (3 * e.firstRowY * fs.frameDimX ≤ (k : Int) ∧
        (k : Int) < 3 * (e.firstRowY + e.numRows) * fs.frameDimX) ↔
      inTaskBytes fs.frameDimX e k := by
    intro e k
    have e1 : 3 * e.firstRowY * fs.frameDimX = 3 * (e.firstRowY * fs.frameDimX) := by ring
    have e2 : 3 * (e.firstRowY + e.numRows) * fs.frameDimX
        = 3 * (e.firstRowY * fs.frameDimX + e.numRows * fs.frameDimX) := by ring
    unfold inTaskBytes
    rw [e1, e2]
  refine ⟨hlen, ?_, ?_, ?_, ?_⟩
  · intro x y c hx0 hx1 hy0 hy1 hc0 hc1
    obtain ⟨ho, hp0, hp1⟩ := pixelOffset_eq fs.frameDimX fs.frameDimY x y hx0 hx1 hy0 hy1 hsize
    exact ⟨ho, by omega, by omega⟩
  · intro x y c x2 y2 c2 hx0 hx1 hy0 hy1 hc0 hc1 hx20 hx21 hy20 hy21 hc20 hc21 h
    obtain ⟨ho, _, _⟩ := pixelOffset_eq fs.frameDimX fs.frameDimY x y hx0 hx1 hy0 hy1 hsize
    obtain ⟨ho2, _, _⟩ := pixelOffset_eq fs.frameDimX fs.frameDimY x2 y2 hx20 hx21 hy20 hy21
      hsize
    rw [ho, ho2] at h
    exact pixel_byte_injective fs.frameDimX x y c x2 y2 c2 hx0 hx1 hc0 hc1 hx20 hx21 hc20
      hc21 h
  · intro e he
    constructor
    · intro k
      rw [hbytes e k]
      exact inTaskBytes_iff_pixels fs.frameDimX fs.frameDimY hW hsize e he k
    · obtain ⟨fb2, hr, hp⟩ := renderTask_painted sqrt pow tan fs hW hsize e he fb hlen
      refine ⟨fb2, hr, hp.1, ?_, ?_⟩
      · intro k hk
        rw [hbytes e k] at hk
        by_cases hlt : k < fb.length
        · exact (hp.2 k hlt).2 hk
        · rw [List.getElem?_eq_none (by rw [hp.1]; omega), List.getElem?_eq_none (by omega)]
      · intro x y c hx0 hx1 hy0 hy1 hc0 hc1
        obtain ⟨h0, h1, h2⟩ := he
        obtain ⟨bytes, hb⟩ := renderPixel_isSome sqrt pow tan fs x y
        obtain ⟨ho, hp0, hp1⟩ := pixelOffset_eq fs.frameDimX fs.frameDimY x y hx0 hx1
          (by omega) (by omega) hsize
        refine ⟨bytes, hb, ?_⟩
        have hk : inTaskBytes fs.frameDimX e (pixelOffset fs.frameDimX x y + c).toNat :=
          inTaskBytes_of_row fs.frameDimX hW e y _ hy0 hy1 (by omega) (by omega)
        rw [(hp.2 _ (by omega)).1 hk]
        rw [frameByteAt_pixel sqrt pow tan fs x y c bytes hx0 hx1 hc0 hc1 hb _ (by omega)]
  · intro e1 e2 he1 he2 hdisj k hk
    rw [hbytes e1 k, hbytes e2 k] at hk
    obtain ⟨x, y, c, ⟨hx0, hx1⟩, ⟨hy0, hy1⟩, ⟨hc0, hc1⟩, hk1⟩ :=
      (inTaskBytes_iff_pixels fs.frameDimX fs.frameDimY hW hsize e1 he1 k).mp hk.1
    obtain ⟨x2, y2, c2, ⟨hx20, hx21⟩, ⟨hy20, hy21⟩, ⟨hc20, hc21⟩, hk2⟩ :=
      (inTaskBytes_iff_pixels fs.frameDimX fs.frameDimY hW hsize e2 he2 k).mp hk.2
    obtain ⟨a0, a1, a2⟩ := he1
    obtain ⟨b0, b1, b2⟩ := he2
    obtain ⟨ho, _, _⟩ := pixelOffset_eq fs.frameDimX fs.frameDimY x y hx0 hx1 (by omega)
      (by omega) hsize
    obtain ⟨ho2, _, _⟩ := pixelOffset_eq fs.frameDimX fs.frameDimY x2 y2 hx20 hx21 (by omega)
      (by omega) hsize
    rw [ho] at hk1
    rw [ho2] at hk2
    obtain ⟨_, hyy, _⟩ := pixel_byte_injective fs.frameDimX x y c x2 y2 c2 hx0 hx1 hc0 hc1
      hx20 hx21 hc20 hc21 (by omega)
    subst hyy
    exact hdisj y ⟨⟨hy0, hy1⟩, ⟨hy20, hy21⟩⟩

theorem narrowFrame_buffer_length :
    (((List.replicate 150 (0 : Int)).length : Nat) : Int)
      = frameBufferSize (narrowFrame : frame_state ℝ).frameDimX
          (narrowFrame : frame_state ℝ).frameDimY := by
  rw [List.length_replicate]
  decide

theorem task_writes_exactly_its_rows_witness :
    ((0 : Int) < (narrowFrame : frame_state ℝ).frameDimX ∧
      (0 : Int) ≤ (narrowFrame : frame_state ℝ).frameDimY ∧
      3 * (narrowFrame : frame_state ℝ).frameDimX * (narrowFrame : frame_state ℝ).frameDimY
        < 2147483648 ∧
      (((List.replicate 150 (0 : Int)).length : Nat) : Int)
        = frameBufferSize (narrowFrame : frame_state ℝ).frameDimX
            (narrowFrame : frame_state ℝ).frameDimY) ∧
    ∃ fb2, renderTask Real.sqrt Real.rpow Real.tan (narrowFrame : frame_state ℝ)
        { firstRowY := 10, numRows := 10 } (List.replicate 150 (0 : Int)) = some fb2 ∧
      fb2.length = (List.replicate 150 (0 : Int)).length ∧
      (∀ k : Nat,
        ¬ (3 * (10 : Int) * (narrowFrame : frame_state ℝ).frameDimX ≤ (k : Int) ∧
          (k : Int) < 3 * ((10 : Int) + 10) * (narrowFrame : frame_state ℝ).frameDimX) →
        fb2[k]? = (List.replicate 150 (0 : Int))[k]?) :=
  ⟨⟨by decide, by decide, by decide, narrowFrame_buffer_length⟩,
   by
    obtain ⟨fb2, h1, h2, h3, _⟩ :=
      ((task_writes_exactly_its_rows Real.sqrt Real.rpow Real.tan
        (narrowFrame : frame_state ℝ) (List.replicate 150 (0 : Int)) (by decide) (by decide)
        (by decide) narrowFrame_buffer_length).2.2.2.1 { firstRowY := 10, numRows := 10 }
        (by unfold taskInFrame; decide)).2
    exact ⟨fb2, h1, h2, h3⟩⟩

theorem render_order_independent_witness :
    ((initialState 25).entries.length = 100 ∧
      (initialState 25).frameDimY = (narrowFrame : frame_state ℝ).frameDimY ∧
      (0 : Int) < (narrowFrame : frame_state ℝ).frameDimX ∧
      (0 : Int) ≤ (narrowFrame : frame_state ℝ).frameDimY ∧
      3 * (narrowFrame : frame_state ℝ).frameDimX * (narrowFrame : frame_state ℝ).frameDimY
        < 2147483648 ∧
      BeginFrame (initialState 25) = some frame25 ∧
      [rowBand 25 2, rowBand 25 0, rowBand 25 1].Perm (publishedTasks frame25) ∧
      (((List.replicate 150 (0 : Int)).length : Nat) : Int)
        = frameBufferSize (narrowFrame : frame_state ℝ).frameDimX
            (narrowFrame : frame_state ℝ).frameDimY) ∧
    renderTasks Real.sqrt Real.rpow Real.tan (narrowFrame : frame_state ℝ)
        [rowBand 25 2, rowBand 25 0, rowBand 25 1] (List.replicate 150 (0 : Int))
      = some (renderedFrame Real.sqrt Real.rpow Real.tan (narrowFrame : frame_state ℝ)) ∧
    renderRowsFrom Real.sqrt Real.rpow Real.tan (narrowFrame : frame_state ℝ)
        (narrowFrame : frame_state ℝ).frameDimY.toNat 0 (List.replicate 150 (0 : Int))
      = some (renderedFrame Real.sqrt Real.rpow Real.tan (narrowFrame : frame_state ℝ)) :=
  ⟨⟨by simp [initialState], by decide, by decide, by decide, by decide,
      BeginFrame_initialState_25, by decide, narrowFrame_buffer_length⟩,
    (render_order_independent Real.sqrt Real.rpow Real.tan (narrowFrame : frame_state ℝ)
      (initialState 25) frame25 [rowBand 25 2, rowBand 25 0, rowBand 25 1]
      (List.replicate 150 (0 : Int)) (by simp [initialState]) (by decide) (by decide)
      (by decide) (by decide) BeginFrame_initialState_25 (by decide)
      narrowFrame_buffer_length).1,
    (render_order_independent Real.sqrt Real.rpow Real.tan (narrowFrame : frame_state ℝ)
      (initialState 25) frame25 [rowBand 25 2, rowBand 25 0, rowBand 25 1]
      (List.replicate 150 (0 : Int)) (by simp [initialState]) (by decide) (by decide)
      (by decide) (by decide) BeginFrame_initialState_25 (by decide)
      narrowFrame_buffer_length).2.1⟩

/-! ## Theorems: the bytes of a pixel -/

theorem truncToInt_scaled_range {α : Type} [LinearOrderedField α] [FloorRing α] (v : α)
    (h0 : 0 ≤ v) (h1 : v ≤ 1) :
    truncToInt (v * 255) = ⌊v * 255⌋ ∧ 0 ≤ truncToInt (v * 255) ∧
      truncToInt (v * 255) ≤ 255 := by
  have hn : (0 : α) ≤ v * 255 := by nlinarith
  have ht : truncToInt (v * 255) = ⌊v * 255⌋ := by
    unfold truncToInt
    rw [if_neg (not_lt.mpr hn)]
  refine ⟨ht, ?_, ?_⟩
  · rw [ht]
    exact Int.floor_nonneg.mpr hn
  · rw [ht]
    have h2 : v * 255 ≤ ((255 : Int) : α) := by push_cast; nlinarith
    have := Int.floor_mono h2
    rw [Int.floor_intCast] at this
    exact this

theorem storeByte_some (fb fb2 : List Int) (o v : Int) (h : storeByte fb o v = some fb2) :
    0 ≤ o ∧ o < (fb.length : Int) ∧ fb2 = fb.set o.toNat v := by
  unfold storeByte at h
  split at h
  · rename_i hr
    simp only [Option.some.injEq] at h
    exact ⟨hr.1, hr.2, h.symm⟩
  · exact absurd h (by simp)

/-- A successful `writePixel` stored its three bytes at consecutive offsets. -/
theorem writePixel_some (fb fb2 : List Int) (W x y : Int) (b : Int × Int × Int)
    (hw : writePixel fb W x y b = some fb2) :
    0 ≤ pixelOffset W x y ∧ fb2.length = fb.length ∧
    fb2[(pixelOffset W x y).toNat]? = some b.1 ∧
    fb2[(pixelOffset W x y).toNat + 1]? = some b.2.1 ∧
    fb2[(pixelOffset W x y).toNat + 2]? = some b.2.2 := by
  unfold writePixel at hw
  generalize pixelOffset W x y = o at hw ⊢
  cases h1 : storeByte fb o b.1 with
  | none => rw [h1] at hw; exact absurd hw (by simp)
  | some fb1 =>
    rw [h1] at hw
    simp only at hw
    cases h2 : storeByte fb1 (o + 1) b.2.1 with
    | none => rw [h2] at hw; exact absurd hw (by simp)
    | some fbx =>
      rw [h2] at hw
      simp only at hw
      obtain ⟨a0, a1, a2⟩ := storeByte_some _ _ _ _ h1
      obtain ⟨b0, b1, b2⟩ := storeByte_some _ _ _ _ h2
      obtain ⟨c0, c1, c2⟩ := storeByte_some _ _ _ _ hw
      subst a2
      subst b2
      subst c2
      simp only [List.length_set] at b1 c1
      have e1 : (o + 1).toNat = o.toNat + 1 := by omega
      have e2 : (o + 2).toNat = o.toNat + 2 := by omega
      rw [e1, e2]
      refine ⟨a0, by simp only [List.length_set], ?_, ?_, ?_⟩
      · simp only [List.getElem?_set, List.length_set]
        split_ifs <;> first | rfl | omega
      · simp only [List.getElem?_set, List.length_set]
        split_ifs <;> first | rfl | omega
      · simp only [List.getElem?_set, List.length_set]
        split_ifs <;> first | rfl | omega

/-- C22: each output byte is `trunc(255 * Clamp01(LinearToSrgb(c)))` of its linear channel
`c`; for every `c` (and whatever `Pow` returns) the truncated value is an integer in
`[0, 255]`, equal to the floor, so the cast to `u8` does not wrap; and the three stores of
a pixel put the bytes of the channels `r`, `g`, `b` (the fields `x`, `y`, `z` of `v3`) at
the offsets 0, 1, 2 from the pixel's first byte. -/
theorem pixel_bytes_trunc_in_range {α : Type} [LinearOrderedField α] [FloorRing α]
    (pow : α → α → α) :
    (∀ c : α,
      castU8 (Clamp01 (LinearToSrgb pow c) * 255)
        = truncToInt (255 * Clamp01 (LinearToSrgb pow c)) ∧
      truncToInt (255 * Clamp01 (LinearToSrgb pow c))
        = ⌊255 * Clamp01 (LinearToSrgb pow c)⌋ ∧
      0 ≤ truncToInt (255 * Clamp01 (LinearToSrgb pow c)) ∧
      truncToInt (255 * Clamp01 (LinearToSrgb pow c)) ≤ 255) ∧
    (∀ col : v3 α, pixelBytes pow col =
      (truncToInt (255 * Clamp01 (LinearToSrgb pow col.x)),
       truncToInt (255 * Clamp01 (LinearToSrgb pow col.y)),
       truncToInt (255 * Clamp01 (LinearToSrgb pow col.z)))) ∧
    (∀ (fb fb2 : List Int) (frameDimX x y : Int) (col : v3 α),
      writePixel fb frameDimX x y (pixelBytes pow col) = some fb2 →
      0 ≤ pixelOffset frameDimX x y ∧
      fb2.length = fb.length ∧
      fb2[(pixelOffset frameDimX x y).toNat]?
        = some (truncToInt (255 * Clamp01 (LinearToSrgb pow col.x))) ∧
      fb2[(pixelOffset frameDimX x y).toNat + 1]?
        = some (truncToInt (255 * Clamp01 (LinearToSrgb pow col.y))) ∧
      fb2[(pixelOffset frameDimX x y).toNat + 2]?
        = some (truncToInt (255 * Clamp01 (LinearToSrgb pow col.z)))) := by
  have hbyte : ∀ c : α,
      castU8 (Clamp01 (LinearToSrgb pow c) * 255)
        = truncToInt (255 * Clamp01 (LinearToSrgb pow c)) ∧
      truncToInt (255 * Clamp01 (LinearToSrgb pow c))
        = ⌊255 * Clamp01 (LinearToSrgb pow c)⌋ ∧
      0 ≤ truncToInt (255 * Clamp01 (LinearToSrgb pow c)) ∧
      truncToInt (255 * Clamp01 (LinearToSrgb pow c)) ≤ 255 := by
    intro c
    obtain ⟨h1, h2, h3⟩ := truncToInt_scaled_range (Clamp01 (LinearToSrgb pow c))
      (Clamp01_nonneg _) (Clamp01_le_one _)
    rw [mul_comm (255 : α)]
    refine ⟨?_, h1, h2, h3⟩
    unfold castU8
    omega
  refine ⟨hbyte, ?_, ?_⟩
  · intro col
    unfold pixelBytes
    rw [(hbyte col.x).1, (hbyte col.y).1, (hbyte col.z).1]
  · intro fb fb2 frameDimX x y col hw
    have hpb : pixelBytes pow col =
        (truncToInt (255 * Clamp01 (LinearToSrgb pow col.x)),
         truncToInt (255 * Clamp01 (LinearToSrgb pow col.y)),
         truncToInt (255 * Clamp01 (LinearToSrgb pow col.z))) := by
      unfold pixelBytes
      rw [(hbyte col.x).1, (hbyte col.y).1, (hbyte col.z).1]
    rw [hpb] at hw
    exact writePixel_some fb fb2 frameDimX x y _ hw

/-! ## Theorems: the main loop and the workers -/

/-- `BeginFrame` called with no permit outstanding: both assertions pass and the
semaphore is released by exactly `numEntries`. -/
theorem BeginFrame_release (gs : global_state) (hlen : gs.entries.length = 100)
    (hh : 0 ≤ gs.frameDimY) (hcap : gs.frameDimY ≤ 999)
    (hcount : gs.semaphoreEntriesToDo.count = 0)
    (hmax : gs.semaphoreEntriesToDo.maximum = gs.frameDimY) :
    ∃ gs2, BeginFramePublish gs = some (gs2, 0) ∧ BeginFrame gs = some gs2 ∧
      gs2.semaphoreEntriesToDo.count = gs2.numEntries ∧
      gs2.semaphoreEntriesToDo.maximum = gs.frameDimY ∧
      gs2.numEntries = (gs.frameDimY + 9) / 10 ∧ gs2.entries.length = 100 ∧
      gs2.frameDimY = gs.frameDimY ∧ gs2.nextEntry = 0 ∧ gs2.completedEntriesCount = 0 := by
  have hassert : entriesCapacity > toUmm (gs.frameDimY.tdiv rowsPerEntry) := by
    have h2 : gs.frameDimY.tdiv 10 = gs.frameDimY / 10 := by
      rw [Int.tdiv_eq_ediv hh (by decide)]
    simp only [entriesCapacity, toUmm, rowsPerEntry, h2]
    rw [if_neg (by omega)]
    omega
  obtain ⟨n, hn⟩ : ∃ n : Nat, (n : Int) = (gs.frameDimY + 9) / 10 :=
    ⟨((gs.frameDimY + 9) / 10).toNat, Int.toNat_of_nonneg (by omega)⟩
  obtain ⟨gsF, e1, e2, e3, e4, e5, e6, e7, _, _⟩ :=
    fillWorkQueue_spec gs.frameDimY hh hcap n 0
      { gs with numEntries := 0, nextEntry := 0, completedEntriesCount := 0 }
      rfl rfl hlen (by simpa using hn)
  simp only [Nat.cast_zero, mul_zero] at e1
  have hnum : gsF.numEntries = (gs.frameDimY + 9) / 10 := by
    rw [e2, ← hn]; simp
  have hsem : gsF.semaphoreEntriesToDo = gs.semaphoreEntriesToDo := e5
  have hpub : BeginFramePublish gs = some
      ({ gsF with semaphoreEntriesToDo :=
          (ReleaseSemaphore gsF.semaphoreEntriesToDo gsF.numEntries).1 },
        (ReleaseSemaphore gsF.semaphoreEntriesToDo gsF.numEntries).2) := by
    unfold BeginFramePublish
    simp only [hassert, if_true]
    rw [e1]
  have hprev : (ReleaseSemaphore gsF.semaphoreEntriesToDo gsF.numEntries).2 = 0 := by
    rw [hsem]
    unfold ReleaseSemaphore
    split
    · exact hcount
    · rfl
  have hrel : (ReleaseSemaphore gsF.semaphoreEntriesToDo gsF.numEntries).1.count
        = gsF.numEntries ∧
      (ReleaseSemaphore gsF.semaphoreEntriesToDo gsF.numEntries).1.maximum
        = gs.frameDimY := by
    rw [hsem]
    unfold ReleaseSemaphore
    split
    · simp only
      exact ⟨by rw [hcount]; omega, hmax⟩
    · rename_i hno
      simp only
      refine ⟨?_, hmax⟩
      rw [hcount, hmax, hnum] at hno
      rw [hcount, hnum]
      omega
  rw [hprev] at hpub
  refine ⟨_, hpub, ?_, hrel.1, hrel.2, hnum, e3, e4, e6, e7⟩
  unfold BeginFrame
  rw [hpub]
  simp only [if_true]

/-- A step of a worker leaves the published frame untouched. -/
theorem workerStep_frame (w : Nat) (st st2 : system_state)
    (h : workerStep w st = some st2) :
    st2.gs.entries = st.gs.entries ∧ st2.gs.frameDimY = st.gs.frameDimY ∧
    st2.gs.numEntries = st.gs.numEntries ∧
    st2.gs.semaphoreEntriesToDo.maximum = st.gs.semaphoreEntriesToDo.maximum := by
  unfold workerStep at h
  split at h
  · exact absurd h (by simp)
  · split at h
    · simp only [Option.some.injEq] at h
      subst h
      exact ⟨rfl, rfl, rfl, rfl⟩
    · exact absurd h (by simp)
  · simp only [Option.some.injEq] at h
    subst h
    exact ⟨rfl, rfl, rfl, rfl⟩
  · split at h
    · simp only [Option.some.injEq] at h
      subst h
      exact ⟨rfl, rfl, rfl, rfl⟩
    · simp only [Option.some.injEq] at h
      subst h
      exact ⟨rfl, rfl, rfl, rfl⟩
  · simp only [Option.some.injEq] at h
    subst h
    exact ⟨rfl, rfl, rfl, rfl⟩

/-- A sum of non-negative terms that is zero has only zero terms. -/
theorem sum_map_zero_terms {β : Type} (f : β → Int) (hf : ∀ a, 0 ≤ f a) :
    ∀ l : List β, (l.map f).sum = 0 → ∀ a ∈ l, f a = 0 := by
  intro l
  induction l with
  | nil => intro _ a ha; exact absurd ha (by simp)
  | cons b rest ih =>
    intro hs a ha
    simp only [List.map_cons, List.sum_cons] at hs
    have h1 := hf b
    have h2 := sum_map_nonneg f hf rest
    rcases List.mem_cons.mp ha with rfl | hmem
    · omega
    · exact ih (by omega) a hmem

/-- When the completed count has reached the number of tasks, no permit is outstanding,
every task has been claimed and every worker is back at the semaphore. -/
theorem completed_all_waiting (n : Int) (st : system_state) (hinv : ClaimInv n st)
    (hdone : st.gs.completedEntriesCount = st.gs.numEntries) :
    st.gs.semaphoreEntriesToDo.count = 0 ∧ st.gs.nextEntry = n ∧
    ∀ p ∈ st.workers, p = worker_state.waiting := by
  have h1 := hinv.permits
  have h2 := hinv.completed
  have h3 := hinv.sem_nonneg
  have h4 := hinv.numEntries_eq
  have h5 := sum_map_nonneg claimingWeight claimingWeight_nonneg st.workers
  have h6 := sum_map_nonneg renderingWeight renderingWeight_nonneg st.workers
  have hc : (st.workers.map claimingWeight).sum = 0 := by omega
  have hr : (st.workers.map renderingWeight).sum = 0 := by omega
  refine ⟨by omega, by omega, ?_⟩
  intro p hp
  have hpc := sum_map_zero_terms claimingWeight claimingWeight_nonneg st.workers hc p hp
  have hpr := sum_map_zero_terms renderingWeight renderingWeight_nonneg st.workers hr p hp
  cases p with
  | waiting => rfl
  | reading => simp [claimingWeight, worker_state.isClaiming] at hpc
  | swapping e => simp [claimingWeight, worker_state.isClaiming] at hpc
  | rendering e => simp [renderingWeight] at hpr

/-- A worker at the semaphore cannot step while the count is 0. -/
theorem workerStep_blocked (st : system_state) (w : Nat)
    (hsem : st.gs.semaphoreEntriesToDo.count = 0)
    (hall : ∀ p ∈ st.workers, p = worker_state.waiting) : workerStep w st = none := by
  unfold workerStep
  cases hw : st.workers[w]? with
  | none => rfl
  | some p =>
    have hp : p = worker_state.waiting := hall p (List.mem_iff_getElem?.mpr ⟨w, hw⟩)
    subst hp
    simp only
    rw [if_neg (by omega)]

/-- The main loop keeps the invariant; when it publishes a frame, it does so from a
state without outstanding permits and with every worker at the semaphore. -/
theorem mainLoopStep_preserves (H : Int) (hH0 : 0 ≤ H) (hH1 : H ≤ 999)
    (st : system_state) (hinv : SystemInv H st) :
    ∃ st2, mainLoopStep st = some st2 ∧ SystemInv H st2 := by
  unfold mainLoopStep
  by_cases hdone : st.gs.completedEntriesCount = st.gs.numEntries
  · rw [if_pos hdone]
    obtain ⟨hsem, _, hall⟩ := completed_all_waiting _ st hinv.claim hdone
    obtain ⟨gs2, _, hbf, c1, c2, c3, c4, c5, c6, c7⟩ := BeginFrame_release st.gs
      hinv.entries_length (by rw [hinv.frameDimY_eq]; exact hH0)
      (by rw [hinv.frameDimY_eq]; exact hH1) hsem
      (by rw [hinv.semaphore_maximum, hinv.frameDimY_eq])
    rw [hinv.frameDimY_eq] at c2 c3 c5
    rw [hbf]
    refine ⟨_, rfl, ⟨?_, c4, c5, c2⟩⟩
    have hw : st.workers = List.replicate st.workers.length worker_state.waiting :=
      List.eq_replicate_iff.mpr ⟨rfl, hall⟩
    have hst : ({ st with gs := gs2, claimed := [] } : system_state)
        = startFrame gs2 st.workers.length := by
      unfold startFrame
      rw [← hw]
    rw [hst, ← c3]
    exact startFrame_inv gs2 st.workers.length c6 c7 (by omega) c1
  · rw [if_neg hdone]
    exact ⟨st, rfl, hinv⟩

theorem systemStep_preserves (H : Int) (hH0 : 0 ≤ H) (hH1 : H ≤ 999)
    (a : system_action) (st st2 : system_state) (hinv : SystemInv H st)
    (hstep : systemStep a st = some st2) : SystemInv H st2 := by
  cases a with
  | worker w =>
    have hstep2 : workerStep w st = some st2 := hstep
    obtain ⟨hc, _, _⟩ := workerStep_preserves ((H + 9) / 10) (by omega) w st st2 hinv.claim
      hstep2
    obtain ⟨f1, f2, _, f4⟩ := workerStep_frame w st st2 hstep2
    exact ⟨hc, by rw [f1]; exact hinv.entries_length, by rw [f2]; exact hinv.frameDimY_eq,
      by rw [f4]; exact hinv.semaphore_maximum⟩
  | mainLoop =>
    have hstep2 : mainLoopStep st = some st2 := hstep
    obtain ⟨st3, h3, hinv3⟩ := mainLoopStep_preserves H hH0 hH1 st hinv
    rw [h3] at hstep2
    simp only [Option.some.injEq] at hstep2
    subst hstep2
    exact hinv3

theorem runSystem_preserves (H : Int) (hH0 : 0 ≤ H) (hH1 : H ≤ 999) :
    ∀ (trace : List system_action) (st st2 : system_state), SystemInv H st →
      runSystem trace st = some st2 → SystemInv H st2 := by
  intro trace
  induction trace with
  | nil =>
    intro st st2 hinv hrun
    simp only [runSystem, Option.some.injEq] at hrun
    subst hrun
    exact hinv
  | cons a rest ih =>
    intro st st2 hinv hrun
    simp only [runSystem] at hrun
    cases hstep : systemStep a st with
    | none => rw [hstep] at hrun; exact absurd hrun (by simp)
    | some st1 =>
      rw [hstep] at hrun
      exact ih st1 st2 (systemStep_preserves H hH0 hH1 a st st1 hinv hstep) hrun

/-- The state in which the main loop is entered satisfies the invariant. -/
theorem processStart_inv (H : Int) (hH0 : 0 ≤ H) (numWorkers : Nat) (st0 : system_state)
    (hstart : processStart H numWorkers = some st0) : H ≤ 999 ∧ SystemInv H st0 := by
  unfold processStart at hstart
  cases hbf : BeginFrame (initialState H) with
  | none => rw [hbf] at hstart; exact absurd hstart (by simp)
  | some gs1 =>
    rw [hbf] at hstart
    simp only [Option.some.injEq] at hstart
    subst hstart
    obtain ⟨_, hassert⟩ := BeginFrame_some _ _ hbf
    have hcap : H ≤ 999 := by
      have h2 : H.tdiv 10 = H / 10 := by rw [Int.tdiv_eq_ediv hH0 (by decide)]
      simp only [entriesCapacity, toUmm, rowsPerEntry, initialState, h2] at hassert
      split at hassert <;> omega
    obtain ⟨gs2, _, hbf2, c1, c2, c3, c4, c5, c6, c7⟩ := BeginFrame_release (initialState H)
      (by simp [initialState]) hH0 hcap rfl rfl
    rw [hbf] at hbf2
    simp only [Option.some.injEq] at hbf2
    subst hbf2
    have c2b : gs1.semaphoreEntriesToDo.maximum = H := c2
    have c3b : gs1.numEntries = (H + 9) / 10 := c3
    have c5b : gs1.frameDimY = H := c5
    refine ⟨hcap, ⟨?_, c4, c5b, c2b⟩⟩
    rw [← c3b]
    exact startFrame_inv gs1 numWorkers c6 c7 (by omega) c1

/-- C26: in every state that the system of main loop and workers reaches from the start
of the process, the completed count is at most the number of published tasks; while it
is smaller (a task of the frame is unfinished) a pass of the main loop publishes nothing;
and when it is equal, which is when the main loop calls `BeginFrame`, no semaphore permit
is outstanding, every task has been claimed exactly once, every worker is back at the
semaphore and cannot step, so that `BeginFrame` passes `Assert(prevCount == 0)`
(`prevCount` is 0) and leaves the semaphore at exactly `numEntries` permits. -/
theorem frame_published_only_when_drained (H : Int) (numWorkers : Nat)
    (st0 st : system_state) (trace : List system_action)
    (hH0 : 0 ≤ H) (hstart : processStart H numWorkers = some st0)
    (hrun : runSystem trace st0 = some st) :
    st.gs.completedEntriesCount ≤ st.gs.numEntries ∧
    (st.gs.completedEntriesCount ≠ st.gs.numEntries → mainLoopStep st = some st) ∧
    (st.gs.completedEntriesCount = st.gs.numEntries →
      st.gs.semaphoreEntriesToDo.count = 0 ∧
      st.gs.nextEntry = st.gs.numEntries ∧
      (∀ e : Int, 0 ≤ e → e < st.gs.numEntries → claimCount st e = 1) ∧
      (∀ p ∈ st.workers, p = worker_state.waiting) ∧
      (∀ w : Nat, workerStep w st = none) ∧
      ∃ gs2, BeginFramePublish st.gs = some (gs2, 0) ∧ BeginFrame st.gs = some gs2 ∧
        gs2.semaphoreEntriesToDo.count
          = st.gs.semaphoreEntriesToDo.count + gs2.numEntries ∧
        mainLoopStep st = some { st with gs := gs2, claimed := [] }) := by
  obtain ⟨hH1, hinv0⟩ := processStart_inv H hH0 numWorkers st0 hstart
  have hinv := runSystem_preserves H hH0 hH1 trace st0 st hinv0 hrun
  have hc := hinv.claim
  have hnum := hc.numEntries_eq
  refine ⟨?_, ?_, ?_⟩
  · have h1 := hc.permits
    have h2 := hc.completed
    have h3 := hc.sem_nonneg
    have h5 := sum_map_nonneg claimingWeight claimingWeight_nonneg st.workers
    have h6 := sum_map_nonneg renderingWeight renderingWeight_nonneg st.workers
    omega
  · intro hne
    unfold mainLoopStep
    rw [if_neg hne]
  · intro hdone
    obtain ⟨hsem, hnext, hall⟩ := completed_all_waiting _ st hc hdone
    obtain ⟨gs2, hpub, hbf, c1, _⟩ := BeginFrame_release st.gs
      hinv.entries_length (by rw [hinv.frameDimY_eq]; exact hH0)
      (by rw [hinv.frameDimY_eq]; exact hH1) hsem
      (by rw [hinv.semaphore_maximum, hinv.frameDimY_eq])
    refine ⟨hsem, by omega, ?_, hall, fun w => workerStep_blocked st w hsem hall,
      gs2, hpub, hbf, by omega, ?_⟩
    · intro e he0 he1
      rw [hc.counts e, if_pos ⟨he0, by omega⟩]
    · unfold mainLoopStep
      rw [if_pos hdone, hbf]

theorem processStart_25 : processStart 25 2 = some (startFrame frame25 2) := by
  unfold processStart
  rw [BeginFrame_initialState_25]

theorem runSystem_trace25 : runSystem trace25 (startFrame frame25 2) = some finished25 := by
  decide

theorem frame_published_only_when_drained_witness :
    ((0 : Int) ≤ 25 ∧ processStart 25 2 = some (startFrame frame25 2) ∧
      runSystem trace25 (startFrame frame25 2) = some finished25 ∧
      finished25.gs.completedEntriesCount = finished25.gs.numEntries) ∧
    finished25.gs.semaphoreEntriesToDo.count = 0 ∧
    finished25.gs.nextEntry = finished25.gs.numEntries ∧
    (∀ e : Int, 0 ≤ e → e < finished25.gs.numEntries → claimCount finished25 e = 1) ∧
    (∀ p ∈ finished25.workers, p = worker_state.waiting) ∧
    (∀ w : Nat, workerStep w finished25 = none) ∧
    ∃ gs2, BeginFramePublish finished25.gs = some (gs2, 0) ∧
      BeginFrame finished25.gs = some gs2 ∧
      gs2.semaphoreEntriesToDo.count
        = finished25.gs.semaphoreEntriesToDo.count + gs2.numEntries ∧
      mainLoopStep finished25 = some { finished25 with gs := gs2, claimed := [] } :=
  ⟨⟨by decide, processStart_25, runSystem_trace25, by decide⟩,
    (frame_published_only_when_drained 25 2 (startFrame frame25 2) finished25 trace25
      (by decide) processStart_25 runSystem_trace25).2.2 (by decide)⟩

/-! ## Theorems: the frozen camera basis -/

/-- The product `YRotation3(yaw) * XRotation3(pitch)`, entry by entry. -/
theorem rotation_entries {α : Type} [LinearOrderedField α] (cos sin : α → α) (yaw pitch : α) :
    YRotation3 cos sin yaw * XRotation3 cos sin pitch =
      ({ p00 := cos yaw, p10 := sin yaw * sin pitch, p20 := -(sin yaw * cos pitch),
         p01 := 0, p11 := cos pitch, p21 := sin pitch,
         p02 := sin yaw, p12 := -(cos yaw * sin pitch), p22 := cos yaw * cos pitch } :
        mat3 α) := by
  show mat3.ofArray _ = _
  simp [mat3.ofArray, mat3.p, YRotation3, XRotation3]

/-- The basis of `BeginFrame` in terms of the cosines and sines of yaw and pitch. -/
theorem BeginFrameCamera_components {α : Type} [LinearOrderedField α] (cos sin : α → α)
    (camPos : v3 α) (yaw pitch : α) :
    (BeginFrameCamera cos sin camPos yaw pitch).frameCamForward
      = V3 (-(sin yaw * cos pitch)) (sin pitch) (cos yaw * cos pitch) ∧
    (BeginFrameCamera cos sin camPos yaw pitch).frameCamUp
      = V3 (sin yaw * sin pitch) (cos pitch) (-(cos yaw * sin pitch)) ∧
    (BeginFrameCamera cos sin camPos yaw pitch).frameCamRight
      = V3 (cos yaw * (cos pitch * cos pitch + sin pitch * sin pitch)) 0
          (sin yaw * (cos pitch * cos pitch + sin pitch * sin pitch)) := by
  unfold BeginFrameCamera
  simp only [rotation_entries]
  refine ⟨?_, ?_, ?_⟩
  · rw [v3_ext_iff]
    simp [MatrixMultiply, V3]
  · rw [v3_ext_iff]
    simp [MatrixMultiply, V3]
  · rw [v3_ext_iff]
    simp only [MatrixMultiply, V3, Cross, v3_neg_x, v3_neg_y, v3_neg_z]
    refine ⟨?_, ?_, ?_⟩ <;> ring

/-- C31: for every yaw `camAngleY` and pitch `camAngleX` the frozen basis computed by
`BeginFrame` is orthonormal: forward, up and right have length 1 and are pairwise
orthogonal; `frameCamRight` is `(cos yaw, 0, sin yaw)`; and for yaw = pitch = 0 the
basis is right `(1,0,0)`, up `(0,1,0)`, forward `(0,0,1)`. -/
theorem BeginFrame_basis_orthonormal (camPos : v3 ℝ) (camAngleY camAngleX : ℝ) :
    (Length Real.sqrt
        (BeginFrameCamera Real.cos Real.sin camPos camAngleY camAngleX).frameCamForward = 1 ∧
      Length Real.sqrt
        (BeginFrameCamera Real.cos Real.sin camPos camAngleY camAngleX).frameCamUp = 1 ∧
      Length Real.sqrt
        (BeginFrameCamera Real.cos Real.sin camPos camAngleY camAngleX).frameCamRight = 1) ∧
    (Dot (BeginFrameCamera Real.cos Real.sin camPos camAngleY camAngleX).frameCamForward
        (BeginFrameCamera Real.cos Real.sin camPos camAngleY camAngleX).frameCamUp = 0 ∧
      Dot (BeginFrameCamera Real.cos Real.sin camPos camAngleY camAngleX).frameCamForward
        (BeginFrameCamera Real.cos Real.sin camPos camAngleY camAngleX).frameCamRight = 0 ∧
      Dot (BeginFrameCamera Real.cos Real.sin camPos camAngleY camAngleX).frameCamUp
        (BeginFrameCamera Real.cos Real.sin camPos camAngleY camAngleX).frameCamRight = 0) ∧
    (BeginFrameCamera Real.cos Real.sin camPos camAngleY camAngleX).frameCamRight
      = V3 (Real.cos camAngleY) 0 (Real.sin camAngleY) ∧
    ((BeginFrameCamera Real.cos Real.sin camPos 0 0).frameCamRight = V3 1 0 0 ∧
      (BeginFrameCamera Real.cos Real.sin camPos 0 0).frameCamUp = V3 0 1 0 ∧
      (BeginFrameCamera Real.cos Real.sin camPos 0 0).frameCamForward = V3 0 0 1) := by
  have hx := Real.cos_sq_add_sin_sq camAngleX
  have hy := Real.cos_sq_add_sin_sq camAngleY
  have hx2 : Real.cos camAngleX * Real.cos camAngleX
      + Real.sin camAngleX * Real.sin camAngleX = 1 := by nlinarith
  obtain ⟨hf, hu, hr⟩ := BeginFrameCamera_components Real.cos Real.sin camPos camAngleY
    camAngleX
  have hr2 : (BeginFrameCamera Real.cos Real.sin camPos camAngleY camAngleX).frameCamRight
      = V3 (Real.cos camAngleY) 0 (Real.sin camAngleY) := by
    rw [hr, hx2, mul_one, mul_one]
  obtain ⟨hf0, hu0, hr0⟩ := BeginFrameCamera_components Real.cos Real.sin camPos 0 0
  refine ⟨⟨?_, ?_, ?_⟩, ⟨?_, ?_, ?_⟩, hr2, ⟨?_, ?_, ?_⟩⟩
  · rw [hf]
    apply Length_eq_one_of_sq
    simp only [V3]
    nlinarith
  · rw [hu]
    apply Length_eq_one_of_sq
    simp only [V3]
    nlinarith
  · rw [hr2]
    apply Length_eq_one_of_sq
    simp only [V3]
    nlinarith
  · rw [hf, hu]
    simp only [Dot, V3]
    linear_combination (-(Real.cos camAngleX * Real.sin camAngleX)) * hy
  · rw [hf, hr2]
    simp only [Dot, V3]
    ring
  · rw [hu, hr2]
    simp only [Dot, V3]
    ring
  · rw [hr0]
    simp [V3]
  · rw [hu0]
    simp [V3]
  · rw [hf0]
    simp [V3]

/-! ## Theorems: the primary ray is a unit vector -/

theorem Length_V3_1_0_0 : Length Real.sqrt (V3 1 0 0 : v3 ℝ) = 1 := by
  apply Length_eq_one_of_sq
  simp [V3]

theorem Length_V3_0_1_0 : Length Real.sqrt (V3 0 1 0 : v3 ℝ) = 1 := by
  apply Length_eq_one_of_sq
  simp [V3]

/-- The squared length of `forward + a*right + b*up` for an orthonormal basis. -/
theorem cameraRayUnnormalized_sq (f r u : v3 ℝ) (w uv : v2 ℝ)
    (hff : Dot f f = 1) (hrr : Dot r r = 1) (huu : Dot u u = 1)
    (hfr : Dot f r = 0) (hfu : Dot f u = 0) (hru : Dot r u = 0) :
    Dot (cameraRayUnnormalized f r u w uv) (cameraRayUnnormalized f r u w uv)
      = 1 + ((-1 + 2 * uv.x) * w.x / 2) ^ 2 + ((-1 + 2 * uv.y) * w.y / 2) ^ 2 := by
  simp only [Dot] at hff hrr huu hfr hfu hru
  simp only [Dot, cameraRayUnnormalized, v3_add_x, v3_add_y, v3_add_z, v3_div_x, v3_div_y,
    v3_div_z, v3_muls_x, v3_muls_y, v3_muls_z, v3_smul_x, v3_smul_y, v3_smul_z]
  linear_combination hff + ((-1 + 2 * uv.x) * w.x / 2) ^ 2 * hrr
    + ((-1 + 2 * uv.y) * w.y / 2) ^ 2 * huu
    + 2 * ((-1 + 2 * uv.x) * w.x / 2) * hfr
    + 2 * ((-1 + 2 * uv.y) * w.y / 2) * hfu
    + 2 * ((-1 + 2 * uv.x) * w.x / 2) * ((-1 + 2 * uv.y) * w.y / 2) * hru

/-- C32: for every pixel `(x, y)` and every orthonormal frozen basis, the un-normalised
direction of the camera ray, `forward + a*right + b*up` with
`a = (-1 + 2*uv.x)*worldFrameDim.x/2` and `b = (-1 + 2*uv.y)*worldFrameDim.y/2`, has length
`sqrt(1 + a^2 + b^2) ≥ 1`; so `NormalizeNonZero` divides by a non-zero length and the
direction `rd` of the primary ray is a unit vector. -/
theorem primary_ray_is_unit (tan : ℝ → ℝ) (fs : frame_state ℝ) (x y : Int)
    (hf : Length Real.sqrt fs.camera.frameCamForward = 1)
    (hr : Length Real.sqrt fs.camera.frameCamRight = 1)
    (hu : Length Real.sqrt fs.camera.frameCamUp = 1)
    (hfr : Dot fs.camera.frameCamForward fs.camera.frameCamRight = 0)
    (hfu : Dot fs.camera.frameCamForward fs.camera.frameCamUp = 0)
    (hru : Dot fs.camera.frameCamRight fs.camera.frameCamUp = 0) :
    Length Real.sqrt (primaryRayUnnormalized tan fs x y)
      = Real.sqrt (1
          + ((-1 + 2 * (pixelUV fs.frameDimX fs.frameDimY x y : v2 ℝ).x)
              * (worldFrameDimOf tan fs).x / 2) ^ 2
          + ((-1 + 2 * (pixelUV fs.frameDimX fs.frameDimY x y : v2 ℝ).y)
              * (worldFrameDimOf tan fs).y / 2) ^ 2) ∧
    1 ≤ Length Real.sqrt (primaryRayUnnormalized tan fs x y) ∧
    Length Real.sqrt (primaryRayUnnormalized tan fs x y) ≠ 0 ∧
    primaryRay Real.sqrt tan fs x y
      = primaryRayUnnormalized tan fs x y
          / Length Real.sqrt (primaryRayUnnormalized tan fs x y) ∧
    Length Real.sqrt (primaryRay Real.sqrt tan fs x y) = 1 := by
  have hsq := cameraRayUnnormalized_sq fs.camera.frameCamForward fs.camera.frameCamRight
    fs.camera.frameCamUp (worldFrameDimOf tan fs) (pixelUV fs.frameDimX fs.frameDimY x y)
    (Dot_self_of_Length_eq_one _ hf) (Dot_self_of_Length_eq_one _ hr)
    (Dot_self_of_Length_eq_one _ hu) hfr hfu hru
  have hlen : Length Real.sqrt (primaryRayUnnormalized tan fs x y)
      = Real.sqrt (1
          + ((-1 + 2 * (pixelUV fs.frameDimX fs.frameDimY x y : v2 ℝ).x)
              * (worldFrameDimOf tan fs).x / 2) ^ 2
          + ((-1 + 2 * (pixelUV fs.frameDimX fs.frameDimY x y : v2 ℝ).y)
              * (worldFrameDimOf tan fs).y / 2) ^ 2) := by
    rw [Length_eq_sqrt_Dot]
    unfold primaryRayUnnormalized
    rw [hsq]
  have hge : 1 ≤ Length Real.sqrt (primaryRayUnnormalized tan fs x y) := by
    rw [hlen]
    have h1 : (1 : ℝ) ≤ 1
        + ((-1 + 2 * (pixelUV fs.frameDimX fs.frameDimY x y : v2 ℝ).x)
            * (worldFrameDimOf tan fs).x / 2) ^ 2
        + ((-1 + 2 * (pixelUV fs.frameDimX fs.frameDimY x y : v2 ℝ).y)
            * (worldFrameDimOf tan fs).y / 2) ^ 2 := by
      nlinarith [sq_nonneg ((-1 + 2 * (pixelUV fs.frameDimX fs.frameDimY x y : v2 ℝ).x)
          * (worldFrameDimOf tan fs).x / 2),
        sq_nonneg ((-1 + 2 * (pixelUV fs.frameDimX fs.frameDimY x y : v2 ℝ).y)
          * (worldFrameDimOf tan fs).y / 2)]
    calc (1 : ℝ) = Real.sqrt 1 := Real.sqrt_one.symm
      _ ≤ _ := Real.sqrt_le_sqrt h1
  refine ⟨hlen, hge, by linarith, rfl, ?_⟩
  rw [primaryRay_eq]
  exact Length_div_Length _ (by linarith)

theorem primary_ray_is_unit_witness :
    (Length Real.sqrt (levelFrame : frame_state ℝ).camera.frameCamForward = 1 ∧
      Length Real.sqrt (levelFrame : frame_state ℝ).camera.frameCamRight = 1 ∧
      Length Real.sqrt (levelFrame : frame_state ℝ).camera.frameCamUp = 1 ∧
      Dot (levelFrame : frame_state ℝ).camera.frameCamForward
        (levelFrame : frame_state ℝ).camera.frameCamRight = 0 ∧
      Dot (levelFrame : frame_state ℝ).camera.frameCamForward
        (levelFrame : frame_state ℝ).camera.frameCamUp = 0 ∧
      Dot (levelFrame : frame_state ℝ).camera.frameCamRight
        (levelFrame : frame_state ℝ).camera.frameCamUp = 0) ∧
    1 ≤ Length Real.sqrt (primaryRayUnnormalized Real.tan (levelFrame : frame_state ℝ) 17 5) ∧
    Length Real.sqrt (primaryRay Real.sqrt Real.tan (levelFrame : frame_state ℝ) 17 5) = 1 :=
  ⟨⟨Length_V3_0_0_1, Length_V3_1_0_0, Length_V3_0_1_0, by simp [levelFrame, Dot, V3],
      by simp [levelFrame, Dot, V3], by simp [levelFrame, Dot, V3]⟩,
    (primary_ray_is_unit Real.tan (levelFrame : frame_state ℝ) 17 5 Length_V3_0_0_1
      Length_V3_1_0_0 Length_V3_0_1_0 (by simp [levelFrame, Dot, V3])
      (by simp [levelFrame, Dot, V3]) (by simp [levelFrame, Dot, V3])).2.1,
    (primary_ray_is_unit Real.tan (levelFrame : frame_state ℝ) 17 5 Length_V3_0_0_1
      Length_V3_1_0_0 Length_V3_0_1_0 (by simp [levelFrame, Dot, V3])
      (by simp [levelFrame, Dot, V3]) (by simp [levelFrame, Dot, V3])).2.2.2.2⟩

/-! ## Theorems: 2D vectors -/

/-- C38: `AngleOf` returns 0 for every `v2` with a zero component (whatever `ATan2`
would return), so `Normalize(v2)` returns `(1, 0)` for every such input; in particular
for `(0, 1)`, `(0, -1)` and `(-1, 0)`, none of which points along `(1, 0)`. -/
theorem AngleOf_zero_component (atan2 : ℝ → ℝ → ℝ) (a : v2 ℝ) (h : a.x = 0 ∨ a.y = 0) :
    AngleOf atan2 a = 0 ∧
    NormalizeV2 Real.cos Real.sin atan2 a = V2 1 0 ∧
    (NormalizeV2 Real.cos Real.sin atan2 (V2 0 1) = V2 1 0 ∧
      NormalizeV2 Real.cos Real.sin atan2 (V2 0 (-1)) = V2 1 0 ∧
      NormalizeV2 Real.cos Real.sin atan2 (V2 (-1) 0) = V2 1 0) ∧
    ((V2 1 0 : v2 ℝ) ≠ V2 0 1 ∧ (V2 1 0 : v2 ℝ) ≠ V2 0 (-1) ∧ (V2 1 0 : v2 ℝ) ≠ V2 (-1) 0) := by
  have key : ∀ b : v2 ℝ, b.x = 0 ∨ b.y = 0 →
      AngleOf atan2 b = 0 ∧ NormalizeV2 Real.cos Real.sin atan2 b = V2 1 0 := by
    intro b hb
    have h0 : AngleOf atan2 b = 0 := by
      unfold AngleOf
      rw [if_neg]
      intro hc
      rcases hb with hb | hb
      · exact hc.1 hb
      · exact hc.2 hb
    refine ⟨h0, ?_⟩
    unfold NormalizeV2 V2LengthDir
    rw [h0, Real.cos_zero, Real.sin_zero]
    simp [V2]
  refine ⟨(key a h).1, (key a h).2, ⟨?_, ?_, ?_⟩, ⟨?_, ?_, ?_⟩⟩
  · exact (key (V2 0 1) (Or.inl rfl)).2
  · exact (key (V2 0 (-1)) (Or.inl rfl)).2
  · exact (key (V2 (-1) 0) (Or.inr rfl)).2
  · intro hc
    have := congrArg v2.x hc
    simp [V2] at this
  · intro hc
    have := congrArg v2.x hc
    simp [V2] at this
  · intro hc
    have := congrArg v2.x hc
    simp only [V2] at this
    norm_num at this

theorem AngleOf_zero_component_witness :
    ((V2 0 1 : v2 ℝ).x = 0 ∨ (V2 0 1 : v2 ℝ).y = 0) ∧
    AngleOf (fun y x => Complex.arg (Complex.mk x y)) (V2 0 1 : v2 ℝ) = 0 ∧
    NormalizeV2 Real.cos Real.sin (fun y x => Complex.arg (Complex.mk x y)) (V2 0 1)
      = V2 1 0 :=
  ⟨Or.inl rfl,
    (AngleOf_zero_component (fun y x => Complex.arg (Complex.mk x y)) (V2 0 1)
      (Or.inl rfl)).1,
    (AngleOf_zero_component (fun y x => Complex.arg (Complex.mk x y)) (V2 0 1)
      (Or.inl rfl)).2.1⟩

/-- C39: `HadamardV2S(a, b)` is not the componentwise product: its body multiplies `a`
by itself, `{a.x*a.x, a.y*a.y}`, and ignores `b`. For `a = (2, 3)` and `b = (5, 7)` it
returns `(4, 9)` where the componentwise product is `(10, 21)`; `Hadamard` on `v2` is the
componentwise product. -/
theorem HadamardV2S_ignores_second_argument :
    HadamardV2S { x := 2, y := 3 } { x := 5, y := 7 } = { x := 4, y := 9 } ∧
    HadamardV2S { x := 2, y := 3 } { x := 5, y := 7 }
      ≠ { x := 2 * 5, y := 3 * 7 } ∧
    (∀ a b : v2s, HadamardV2S a b = HadamardV2S a a) ∧
    (∀ a b : v2 ℚ, Hadamard a b = V2 (a.x * b.x) (a.y * b.y)) := by
  refine ⟨by decide, by decide, fun a b => rfl, fun a b => rfl⟩

/-! ## Theorems: which occluders contribute -/

/-- C33: a sphere does not shadow its own lit points. For a sphere with centre `c` and
radius `r > 0`, a point `p` with normal `n = (p - c)/r` and a light direction `l` with
`Dot(n, l) > 0`, the projection `d = Dot(c - p, l)` is `-r*Dot(n, l) < 0`, so the
iteration of the occluder loop for that sphere ends at `continue` (whatever its index,
the light distance and the cone). -/
theorem sphere_skips_its_own_lit_points {α : Type} [LinearOrderedField α] (sqrt : α → α)
    (s : sphere α) (p l : v3 α) (pointLightLength r0 r1 : α) (perpX perpY : v3 α) (i : Nat)
    (hr : 0 < s.r) (hlit : 0 < Dot (NormalSphere s p) l) :
    Dot (s.c - p) l = -(s.r * Dot (NormalSphere s p) l) ∧
    Dot (s.c - p) l < 0 ∧
    occluderBlocked sqrt p l pointLightLength r0 r1 perpX perpY i s = none := by
  have hne : s.r ≠ 0 := ne_of_gt hr
  have hd : Dot (s.c - p) l = -(s.r * Dot (NormalSphere s p) l) := by
    simp only [Dot, NormalSphere, v3_sub_x, v3_sub_y, v3_sub_z, v3_div_x, v3_div_y, v3_div_z]
    field_simp
    ring
  have hneg : Dot (s.c - p) l < 0 := by
    rw [hd]
    have := mul_pos hr hlit
    linarith
  refine ⟨hd, hneg, ?_⟩
  unfold occluderBlocked
  by_cases h4 : i = 4
  · rw [if_pos h4]
  · rw [if_neg h4]
    simp only
    rw [if_pos (Or.inl hneg)]

theorem sphere_skips_its_own_lit_points_witness :
    ((0 : ℚ) < ({ c := V3 0 6 0, r := 3 } : sphere ℚ).r ∧
      0 < Dot (NormalSphere ({ c := V3 0 6 0, r := 3 } : sphere ℚ) (V3 0 9 0)) (V3 0 1 0)) ∧
    Dot (({ c := V3 0 6 0, r := 3 } : sphere ℚ).c - V3 0 9 0) (V3 0 1 0) < 0 ∧
    occluderBlocked sqrtRat (V3 0 9 0) (V3 0 1 0) 6 (1 / 100) (5 / 2) (V3 1 0 0) (V3 0 0 1) 1
      ({ c := V3 0 6 0, r := 3 } : sphere ℚ) = none :=
  ⟨⟨by norm_num, by simp [Dot, NormalSphere, V3]; norm_num⟩,
    (sphere_skips_its_own_lit_points sqrtRat ({ c := V3 0 6 0, r := 3 } : sphere ℚ)
      (V3 0 9 0) (V3 0 1 0) 6 (1 / 100) (5 / 2) (V3 1 0 0) (V3 0 0 1) 1 (by norm_num)
      (by simp [Dot, NormalSphere, V3]; norm_num)).2.1,
    (sphere_skips_its_own_lit_points sqrtRat ({ c := V3 0 6 0, r := 3 } : sphere ℚ)
      (V3 0 9 0) (V3 0 1 0) 6 (1 / 100) (5 / 2) (V3 1 0 0) (V3 0 0 1) 1 (by norm_num)
      (by simp [Dot, NormalSphere, V3]; norm_num)).2.2⟩

/-- Circles that do not overlap give no blocked amount. -/
theorem blockedAmountOf_zero {α : Type} [LinearOrderedField α] (r dis sphereR : α)
    (hr : 0 < r) (hd : r + sphereR ≤ dis) : blockedAmountOf r dis sphereR = 0 := by
  simp only [blockedAmountOf, Map01ToReverseSquare, Square, Clamp01_eq, Max_eq_max,
    Min_eq_min]
  have hlen : min r (dis + sphereR) - max (-r) (dis - sphereR) ≤ 0 := by
    have h1 : min r (dis + sphereR) ≤ r := min_le_left _ _
    have h2 : dis - sphereR ≤ max (-r) (dis - sphereR) := le_max_right _ _
    linarith
  have hq : (min r (dis + sphereR) - max (-r) (dis - sphereR)) / r ≤ 0 :=
    div_nonpos_of_nonpos_of_nonneg hlen (le_of_lt hr)
  have hc : max 0 (min 1 ((min r (dis + sphereR) - max (-r) (dis - sphereR)) / r)) = 0 := by
    apply max_eq_left
    exact le_trans (min_le_right _ _) hq
  rw [hc]
  ring

/-- An overlap length of at least `r` blocks everything. -/
theorem blockedAmountOf_full {α : Type} [LinearOrderedField α] (r dis sphereR : α)
    (hr : 0 < r) (hlen : r ≤ Min r (dis + sphereR) - Max (-r) (dis - sphereR)) :
    blockedAmountOf r dis sphereR = 1 := by
  have hq : 1 ≤ (Min r (dis + sphereR) - Max (-r) (dis - sphereR)) / r := by
    rw [le_div_iff₀ hr]
    linarith
  simp only [blockedAmountOf, Map01ToReverseSquare, Square, Clamp01_eq]
  have hc : max 0 (min 1 ((Min r (dis + sphereR) - Max (-r) (dis - sphereR)) / r)) = 1 := by
    rw [min_eq_left hq]
    exact max_eq_right zero_le_one
  rw [hc]
  ring

/-- C35: for every cone radius `r > 0`, occluder radius `R > 0` and projected distance
`dist ≥ 0`, the blocked amount of an in-range occluder is non-zero exactly when the
projected circles overlap, `dist < r + R`, and it is 1 whenever the overlap length
`len = Min(r, dist + R) - Max(-r, dist - R)` is at least `r`; the value an iteration of
the occluder loop accumulates is this blocked amount. -/
theorem blockedAmount_nonzero_iff_overlap {α : Type} [LinearOrderedField α]
    (r R dist : α) (hr : 0 < r) (hR : 0 < R) (hdist : 0 ≤ dist) :
    (blockedAmountOf r dist R ≠ 0 ↔ dist < r + R) ∧
    (r ≤ Min r (dist + R) - Max (-r) (dist - R) → blockedAmountOf r dist R = 1) ∧
    (∀ (sqrt : α → α) (p l : v3 α) (pointLightLength r0 r1 : α) (perpX perpY : v3 α)
      (i : Nat) (s : sphere α) (b : α),
      occluderBlocked sqrt p l pointLightLength r0 r1 perpX perpY i s = some b →
      b = blockedAmountOf (LerpClamp r0 r1 (Dot (s.c - p) l / pointLightLength))
        (LengthV2 sqrt { x := Dot (s.c - p) perpX, y := Dot (s.c - p) perpY }) s.r) := by
  refine ⟨⟨?_, ?_⟩, blockedAmountOf_full r dist R hr, ?_⟩
  · intro hne
    by_contra hge
    exact hne (blockedAmountOf_zero r dist R hr (not_lt.mp hge))
  · intro hlt
    exact ne_of_gt (blockedAmountOf_pos r dist R hr hR hdist hlt)
  · intro sqrt p l pointLightLength r0 r1 perpX perpY i s b hb
    unfold occluderBlocked at hb
    split at hb
    · exact absurd hb (by simp)
    · simp only at hb
      split at hb
      · exact absurd hb (by simp)
      · simp only [Option.some.injEq] at hb
        exact hb.symm

theorem blockedAmount_nonzero_iff_overlap_witness :
    ((0 : ℚ) < 1 ∧ (0 : ℚ) < 1 ∧ (0 : ℚ) ≤ 1) ∧
    (blockedAmountOf (1 : ℚ) 1 1 ≠ 0 ↔ (1 : ℚ) < 1 + 1) :=
  ⟨⟨by norm_num, by norm_num, by norm_num⟩,
    (blockedAmount_nonzero_iff_overlap (1 : ℚ) 1 1 (by norm_num) (by norm_num)
      (by norm_num)).1⟩

/-! ## Theorems: bounds of the shadow multiplier -/

theorem list_sum_bounds {α : Type} [LinearOrderedField α] :
    ∀ l : List α, (∀ b ∈ l, 0 < b ∧ b ≤ 1) → 0 ≤ l.sum ∧ l.sum ≤ (l.length : α) := by
  intro l
  induction l with
  | nil => intro _; simp
  | cons a rest ih =>
    intro h
    obtain ⟨h0, h1⟩ := ih (fun b hb => h b (List.mem_cons_of_mem a hb))
    obtain ⟨ha0, ha1⟩ := h a (List.mem_cons_self a rest)
    simp only [List.sum_cons, List.length_cons, Nat.cast_add, Nat.cast_one]
    constructor <;> linarith

/-- The accumulators after the occluder loop in terms of the list of non-zero blocked
fractions. -/
theorem softShadowAccum_spec {α : Type} [LinearOrderedField α] (sqrt : α → α)
    (spheres : List (sphere α)) (worldFrameDim : v2 α) (frameDimX frameDimY : Int) (t : α)
    (p pointLightDir : v3 α) (pointLightLength : α) :
    (∀ b ∈ softShadowFractions sqrt spheres worldFrameDim frameDimX frameDimY t p
        pointLightDir pointLightLength, 0 < b ∧ b ≤ 1) ∧
    (softShadowAccum sqrt spheres worldFrameDim frameDimX frameDimY t p pointLightDir
        pointLightLength).blockCount
      = ((softShadowFractions sqrt spheres worldFrameDim frameDimX frameDimY t p
          pointLightDir pointLightLength).length : α) ∧
    (softShadowAccum sqrt spheres worldFrameDim frameDimX frameDimY t p pointLightDir
        pointLightLength).blockedSum
      = (softShadowFractions sqrt spheres worldFrameDim frameDimX frameDimY t p
          pointLightDir pointLightLength).sum ∧
    (softShadowAccum sqrt spheres worldFrameDim frameDimX frameDimY t p pointLightDir
        pointLightLength).lSum
      = max 0 (1 - (softShadowFractions sqrt spheres worldFrameDim frameDimX frameDimY t p
          pointLightDir pointLightLength).sum) ∧
    ((softShadowAccum sqrt spheres worldFrameDim frameDimX frameDimY t p pointLightDir
        pointLightLength).lMin = 1 ∨
      ∃ b ∈ softShadowFractions sqrt spheres worldFrameDim frameDimX frameDimY t p
        pointLightDir pointLightLength,
      (softShadowAccum sqrt spheres worldFrameDim frameDimX frameDimY t p pointLightDir
        pointLightLength).lMin = 1 - b) := by
  unfold softShadowAccum softShadowFractions
  simp only
  obtain ⟨k1, k2, k3, k4, _, _, k7⟩ := occluderLoop_spec sqrt p pointLightDir pointLightLength
    (sqrt (worldFrameDim.x / (frameDimX : α) * (worldFrameDim.y / (frameDimY : α)) / (PI * t)))
    (sphereAt spheres 4).r (Perpendicular sqrt pointLightDir)
    (Cross (Perpendicular sqrt pointLightDir) pointLightDir) spheres 0
    { lMin := 1, lSum := 1, blockCount := 0, blockedSum := 0 } zero_le_one
  simp only [zero_add] at k2 k3
  exact ⟨k1, k2, k3, k4, k7⟩

/-- The multiplier for accumulators with `lMin` in `[0,1]`, `lSum ≥ 0` and a mean blocked
fraction of at most 1. -/
theorem shadowMultiplier_bounds {α : Type} [LinearOrderedField α] (acc : shadow_accum α)
    (hcount : acc.blockCount ≠ 0) (h0 : 0 ≤ acc.lMin) (hs : 0 ≤ acc.lSum)
    (havg : acc.blockedSum / acc.blockCount ≤ 1) :
    acc.lMin / 2 ≤ shadowMultiplier acc ∧ shadowMultiplier acc ≤ acc.lMin := by
  rw [shadowMultiplier_blend acc hcount]
  refine ⟨?_, min_le_left _ _⟩
  apply le_min
  · linarith
  · have e : (0.5 : α) = 1 / 2 := by norm_num
    rw [e]
    linarith

/-- C34: the shadow multiplier computed from the accumulators of the occluder loop is
always in `[0,1]`: it is 1 when no occluder contributed, and when at least one did
(every blocked fraction lies in `(0,1]`) it satisfies `lMin/2 ≤ l ≤ lMin` with `lMin` in
`[0,1]`. In the shading of a hit `l` is in `[0,1]` and the shadowed light term lies
between 0 and the light term before the shadow code whenever that term is not
negative. -/
theorem shadow_multiplier_in_unit_interval {α : Type} [LinearOrderedField α] (sqrt : α → α)
    (spheres : List (sphere α)) (worldFrameDim : v2 α) (frameDimX frameDimY : Int) (t : α)
    (p pointLightDir : v3 α) (pointLightLength : α) :
    (0 ≤ shadowMultiplier (softShadowAccum sqrt spheres worldFrameDim frameDimX frameDimY t
        p pointLightDir pointLightLength) ∧
      shadowMultiplier (softShadowAccum sqrt spheres worldFrameDim frameDimX frameDimY t p
        pointLightDir pointLightLength) ≤ 1) ∧
    (softShadowFractions sqrt spheres worldFrameDim frameDimX frameDimY t p pointLightDir
        pointLightLength = [] →
      shadowMultiplier (softShadowAccum sqrt spheres worldFrameDim frameDimX frameDimY t p
        pointLightDir pointLightLength) = 1) ∧
    (softShadowFractions sqrt spheres worldFrameDim frameDimX frameDimY t p pointLightDir
        pointLightLength ≠ [] →
      (∀ b ∈ softShadowFractions sqrt spheres worldFrameDim frameDimX frameDimY t p
        pointLightDir pointLightLength, 0 < b ∧ b ≤ 1) ∧
      (softShadowAccum sqrt spheres worldFrameDim frameDimX frameDimY t p pointLightDir
        pointLightLength).lMin / 2
        ≤ shadowMultiplier (softShadowAccum sqrt spheres worldFrameDim frameDimX frameDimY t
          p pointLightDir pointLightLength) ∧
      shadowMultiplier (softShadowAccum sqrt spheres worldFrameDim frameDimX frameDimY t p
          pointLightDir pointLightLength)
        ≤ (softShadowAccum sqrt spheres worldFrameDim frameDimX frameDimY t p pointLightDir
          pointLightLength).lMin ∧
      0 ≤ (softShadowAccum sqrt spheres worldFrameDim frameDimX frameDimY t p pointLightDir
          pointLightLength).lMin ∧
      (softShadowAccum sqrt spheres worldFrameDim frameDimX frameDimY t p pointLightDir
          pointLightLength).lMin ≤ 1) ∧
    (∀ (pow : α → α → α) (camNear camFar : α) (frameCamPos ro rd : v3 α) (shapeIndex : Int)
      (res : hit_shading α),
      shadeHit sqrt pow camNear camFar frameCamPos worldFrameDim frameDimX frameDimY ro rd t
        shapeIndex = some res →
      0 ≤ res.l ∧ res.l ≤ 1 ∧
      (0 ≤ res.pointLightPre → 0 ≤ res.pointLight ∧ res.pointLight ≤ res.pointLightPre)) := by
  have key : ∀ (sp : List (sphere α)) (q dir : v3 α) (len : α),
      (softShadowFractions sqrt sp worldFrameDim frameDimX frameDimY t q dir len = [] →
        shadowMultiplier (softShadowAccum sqrt sp worldFrameDim frameDimX frameDimY t q dir
          len) = 1) ∧
      (softShadowFractions sqrt sp worldFrameDim frameDimX frameDimY t q dir len ≠ [] →
        (softShadowAccum sqrt sp worldFrameDim frameDimX frameDimY t q dir len).lMin / 2
          ≤ shadowMultiplier (softShadowAccum sqrt sp worldFrameDim frameDimX frameDimY t q
            dir len) ∧
        shadowMultiplier (softShadowAccum sqrt sp worldFrameDim frameDimX frameDimY t q dir
            len)
          ≤ (softShadowAccum sqrt sp worldFrameDim frameDimX frameDimY t q dir len).lMin ∧
        0 ≤ (softShadowAccum sqrt sp worldFrameDim frameDimX frameDimY t q dir len).lMin ∧
        (softShadowAccum sqrt sp worldFrameDim frameDimX frameDimY t q dir len).lMin ≤ 1) := by
    intro sp q dir len
    obtain ⟨k1, k2, k3, k4, k5⟩ := softShadowAccum_spec sqrt sp worldFrameDim frameDimX
      frameDimY t q dir len
    obtain ⟨s0, s1⟩ := list_sum_bounds _ k1
    constructor
    · intro hnil
      unfold shadowMultiplier
      rw [k2, hnil]
      simp
    · intro hne
      have hpos : 0 < (softShadowFractions sqrt sp worldFrameDim frameDimX frameDimY t q dir
          len).length := List.length_pos.mpr hne
      have hposα : (0 : α) < ((softShadowFractions sqrt sp worldFrameDim frameDimX frameDimY
          t q dir len).length : α) := by exact_mod_cast hpos
      have hcount : (softShadowAccum sqrt sp worldFrameDim frameDimX frameDimY t q dir
          len).blockCount ≠ 0 := by rw [k2]; exact ne_of_gt hposα
      have hmin : 0 ≤ (softShadowAccum sqrt sp worldFrameDim frameDimX frameDimY t q dir
          len).lMin ∧ (softShadowAccum sqrt sp worldFrameDim frameDimX frameDimY t q dir
          len).lMin ≤ 1 := by
        rcases k5 with h | ⟨b, hb, h⟩
        · rw [h]; exact ⟨zero_le_one, le_refl _⟩
        · rw [h]
          obtain ⟨b0, b1⟩ := k1 b hb
          constructor <;> linarith
      have hsum : 0 ≤ (softShadowAccum sqrt sp worldFrameDim frameDimX frameDimY t q dir
          len).lSum := by rw [k4]; exact le_max_left _ _
      have havg : (softShadowAccum sqrt sp worldFrameDim frameDimX frameDimY t q dir
          len).blockedSum / (softShadowAccum sqrt sp worldFrameDim frameDimX frameDimY t q
          dir len).blockCount ≤ 1 := by
        rw [k2, k3, div_le_one hposα]
        exact s1
      obtain ⟨b1, b2⟩ := shadowMultiplier_bounds _ hcount hmin.1 hsum havg
      exact ⟨b1, b2, hmin.1, hmin.2⟩
  have range : ∀ (sp : List (sphere α)) (q dir : v3 α) (len : α),
      0 ≤ shadowMultiplier (softShadowAccum sqrt sp worldFrameDim frameDimX frameDimY t q dir
          len) ∧
      shadowMultiplier (softShadowAccum sqrt sp worldFrameDim frameDimX frameDimY t q dir
          len) ≤ 1 := by
    intro sp q dir len
    by_cases hnil : softShadowFractions sqrt sp worldFrameDim frameDimX frameDimY t q dir
        len = []
    · rw [(key sp q dir len).1 hnil]
      exact ⟨zero_le_one, le_refl _⟩
    · obtain ⟨b1, b2, b3, b4⟩ := (key sp q dir len).2 hnil
      constructor <;> linarith
  refine ⟨range spheres p pointLightDir pointLightLength,
    (key spheres p pointLightDir pointLightLength).1, ?_, ?_⟩
  · intro hne
    exact ⟨(softShadowAccum_spec sqrt spheres worldFrameDim frameDimX frameDimY t p
      pointLightDir pointLightLength).1,
      (key spheres p pointLightDir pointLightLength).2 hne⟩
  · intro pow camNear camFar frameCamPos ro rd shapeIndex res hres
    obtain ⟨_, _, _, _, _, _, _, _, _, _, hl, hpl, _⟩ := shadeHit_some sqrt pow camNear camFar
      frameCamPos worldFrameDim frameDimX frameDimY ro rd t shapeIndex res hres
    have hlr : 0 ≤ res.l ∧ res.l ≤ 1 := by
      rw [hl]
      split
      · exact range _ _ _ _
      · exact ⟨zero_le_one, le_refl _⟩
    refine ⟨hlr.1, hlr.2, ?_⟩
    intro hpre
    rw [hpl]
    split
    · constructor
      · exact mul_nonneg hpre hlr.1
      · nlinarith [hlr.1, hlr.2]
    · exact ⟨hpre, le_refl _⟩

/-! ## Theorems: a single occluder -/

theorem softShadowAccum_lMin_le {α : Type} [LinearOrderedField α] (sqrt : α → α)
    (spheres : List (sphere α)) (worldFrameDim : v2 α) (frameDimX frameDimY : Int) (t : α)
    (p pointLightDir : v3 α) (pointLightLength : α) :
    ∀ b ∈ softShadowFractions sqrt spheres worldFrameDim frameDimX frameDimY t p
        pointLightDir pointLightLength,
      (softShadowAccum sqrt spheres worldFrameDim frameDimX frameDimY t p pointLightDir
        pointLightLength).lMin ≤ 1 - b := by
  unfold softShadowAccum softShadowFractions
  simp only
  exact (occluderLoop_spec sqrt p pointLightDir pointLightLength
    (sqrt (worldFrameDim.x / (frameDimX : α) * (worldFrameDim.y / (frameDimY : α)) / (PI * t)))
    (sphereAt spheres 4).r (Perpendicular sqrt pointLightDir)
    (Cross (Perpendicular sqrt pointLightDir) pointLightDir) spheres 0
    { lMin := 1, lSum := 1, blockCount := 0, blockedSum := 0 } zero_le_one).2.2.2.2.2.1

/-- C36: when exactly one occluder contributes, with blocked fraction `b` (which lies in
`(0,1]`), the three estimators `lMin`, `lSum` and `1 - blockedSum/blockCount` all equal
`1 - b`, and so does the shadow multiplier; in the shading of a hit with a non-zero light
term, `l = 1 - b` and the light term is multiplied by `1 - b`. -/
theorem single_occluder_multiplier {α : Type} [LinearOrderedField α] (sqrt : α → α)
    (spheres : List (sphere α)) (worldFrameDim : v2 α) (frameDimX frameDimY : Int) (t : α)
    (p pointLightDir : v3 α) (pointLightLength : α) (b : α)
    (hone : softShadowFractions sqrt spheres worldFrameDim frameDimX frameDimY t p
      pointLightDir pointLightLength = [b]) :
    (0 < b ∧ b ≤ 1) ∧
    (softShadowAccum sqrt spheres worldFrameDim frameDimX frameDimY t p pointLightDir
      pointLightLength).lMin = 1 - b ∧
    (softShadowAccum sqrt spheres worldFrameDim frameDimX frameDimY t p pointLightDir
      pointLightLength).lSum = 1 - b ∧
    1 - (softShadowAccum sqrt spheres worldFrameDim frameDimX frameDimY t p pointLightDir
        pointLightLength).blockedSum
      / (softShadowAccum sqrt spheres worldFrameDim frameDimX frameDimY t p pointLightDir
        pointLightLength).blockCount = 1 - b ∧
    shadowMultiplier (softShadowAccum sqrt spheres worldFrameDim frameDimX frameDimY t p
      pointLightDir pointLightLength) = 1 - b ∧
    (∀ (pow : α → α → α) (camNear camFar : α) (frameCamPos ro rd : v3 α) (shapeIndex : Int)
      (res : hit_shading α), spheres = sceneSpheres frameCamPos →
      shadeHit sqrt pow camNear camFar frameCamPos worldFrameDim frameDimX frameDimY ro rd t
        shapeIndex = some res →
      res.p = p → res.pointLightDir = pointLightDir →
      res.pointLightLength = pointLightLength → res.pointLightPre ≠ 0 →
      res.l = 1 - b ∧ res.pointLight = res.pointLightPre * (1 - b)) := by
  obtain ⟨k1, k2, k3, k4, k5⟩ := softShadowAccum_spec sqrt spheres worldFrameDim frameDimX
    frameDimY t p pointLightDir pointLightLength
  have k6 := softShadowAccum_lMin_le sqrt spheres worldFrameDim frameDimX frameDimY t p
    pointLightDir pointLightLength
  rw [hone] at k1 k2 k3 k4 k5 k6
  obtain ⟨hb0, hb1⟩ := k1 b (List.mem_singleton.mpr rfl)
  simp only [List.length_singleton, Nat.cast_one, List.sum_cons, List.sum_nil, add_zero]
    at k2 k3 k4
  have hmin : (softShadowAccum sqrt spheres worldFrameDim frameDimX frameDimY t p
      pointLightDir pointLightLength).lMin = 1 - b := by
    rcases k5 with h | ⟨b2, hb2, h⟩
    · have := k6 b (List.mem_singleton.mpr rfl)
      rw [h] at this
      linarith
    · rw [List.mem_singleton.mp hb2] at h
      exact h
  have hsum : (softShadowAccum sqrt spheres worldFrameDim frameDimX frameDimY t p
      pointLightDir pointLightLength).lSum = 1 - b := by
    rw [k4]
    exact max_eq_right (by linarith)
  have hcount : (softShadowAccum sqrt spheres worldFrameDim frameDimX frameDimY t p
      pointLightDir pointLightLength).blockCount ≠ 0 := by
    rw [k2]
    exact one_ne_zero
  have hmul : shadowMultiplier (softShadowAccum sqrt spheres worldFrameDim frameDimX
      frameDimY t p pointLightDir pointLightLength) = 1 - b := by
    rw [shadowMultiplier_blend _ hcount, hmin, hsum, k2, k3, div_one]
    have e : (0.5 : α) * (1 - b) + 0.5 * (0.5 * (1 - b) + 0.5 * (1 - b)) = 1 - b := by
      norm_num
      ring
    rw [e]
    exact min_self _
  refine ⟨⟨hb0, hb1⟩, hmin, hsum, by rw [k2, k3, div_one], hmul, ?_⟩
  intro pow camNear camFar frameCamPos ro rd shapeIndex res hsp hres hp hdir hlen hpre
  obtain ⟨_, _, _, _, _, _, _, _, _, _, hl, hpl, _⟩ := shadeHit_some sqrt pow camNear camFar
    frameCamPos worldFrameDim frameDimX frameDimY ro rd t shapeIndex res hres
  have hl2 : res.l = 1 - b := by
    rw [hl, if_pos hpre, hp, hdir, hlen, ← hsp, hmul]
  refine ⟨hl2, ?_⟩
  rw [hpl, if_pos hpre, hl2]

theorem occluderBlocked_behind {α : Type} [LinearOrderedField α] (sqrt : α → α)
    (p l : v3 α) (len r0 r1 : α) (perpX perpY : v3 α) (i : Nat) (s : sphere α)
    (h : Dot (s.c - p) l < 0) :
    occluderBlocked sqrt p l len r0 r1 perpX perpY i s = none := by
  unfold occluderBlocked
  by_cases h4 : i = 4
  · rw [if_pos h4]
  · rw [if_neg h4]
    simp only
    rw [if_pos (Or.inl h)]

/-- With the camera at `(0, 12, 0)` the camera sphere is the only occluder between the
point `(0, 9, 0)` and the light. -/
theorem camera_sphere_single (worldFrameDim : v2 ℝ) (frameDimX frameDimY : Int) (t : ℝ) :
    ∃ b : ℝ, softShadowFractions Real.sqrt (sceneSpheres (V3 0 12 0 : v3 ℝ)) worldFrameDim
      frameDimX frameDimY t (V3 0 9 0) (V3 0 1 0) 6 = [b] := by
  have hne := camera_sphere_blocks worldFrameDim frameDimX frameDimY t
  unfold softShadowFractions at hne ⊢
  simp only [sphereAt_light, Perpendicular_up] at hne ⊢
  generalize Real.sqrt (worldFrameDim.x / (frameDimX : ℝ) * (worldFrameDim.y / (frameDimY : ℝ))
    / (PI * t)) = r0 at hne ⊢
  have h0 : occluderBlocked Real.sqrt (V3 0 9 0 : v3 ℝ) (V3 0 1 0) 6 r0 2.5 (V3 1 0 0)
      (Cross (V3 1 0 0) (V3 0 1 0)) 0 { c := V3xyz 0, r := 5 } = none :=
    occluderBlocked_behind _ _ _ _ _ _ _ _ _ _ (by norm_num [Dot, V3xyz, V3])
  have h1 : occluderBlocked Real.sqrt (V3 0 9 0 : v3 ℝ) (V3 0 1 0) 6 r0 2.5 (V3 1 0 0)
      (Cross (V3 1 0 0) (V3 0 1 0)) 1 { c := V3 0 6 0, r := 3 } = none :=
    occluderBlocked_behind _ _ _ _ _ _ _ _ _ _ (by norm_num [Dot, V3])
  have h2 : occluderBlocked Real.sqrt (V3 0 9 0 : v3 ℝ) (V3 0 1 0) 6 r0 2.5 (V3 1 0 0)
      (Cross (V3 1 0 0) (V3 0 1 0)) 2 { c := V3 8 0 0, r := 2 } = none :=
    occluderBlocked_behind _ _ _ _ _ _ _ _ _ _ (by norm_num [Dot, V3])
  have h3 : occluderBlocked Real.sqrt (V3 0 9 0 : v3 ℝ) (V3 0 1 0) 6 r0 2.5 (V3 1 0 0)
      (Cross (V3 1 0 0) (V3 0 1 0)) 3 { c := V3 9.2 4 1, r := 1.8 } = none :=
    occluderBlocked_behind _ _ _ _ _ _ _ _ _ _ (by norm_num [Dot, V3])
  have h4 : occluderBlocked Real.sqrt (V3 0 9 0 : v3 ℝ) (V3 0 1 0) 6 r0 2.5 (V3 1 0 0)
      (Cross (V3 1 0 0) (V3 0 1 0)) 4 { c := V3 0 15 0, r := 2.5 } = none := by
    unfold occluderBlocked
    rw [if_pos rfl]
  simp only [sceneSpheres, blockedFractions, zero_add, Nat.reduceAdd, h0, h1, h2, h3, h4]
    at hne ⊢
  cases h5 : occluderBlocked Real.sqrt (V3 0 9 0 : v3 ℝ) (V3 0 1 0) 6 r0 2.5 (V3 1 0 0)
      (Cross (V3 1 0 0) (V3 0 1 0)) 5 { c := V3 0 12 0, r := 1.5 } with
  | none =>
    rw [h5] at hne
    exact absurd rfl hne
  | some b =>
    rw [h5] at hne
    simp only at hne ⊢
    by_cases hb : b ≠ 0
    · rw [if_pos hb]
      exact ⟨b, rfl⟩
    · rw [if_neg hb] at hne
      exact absurd rfl hne

theorem single_occluder_multiplier_witness :
    ∃ b : ℝ,
      softShadowFractions Real.sqrt (sceneSpheres (V3 0 12 0 : v3 ℝ)) { x := 1, y := 1 } 640
        480 10 (V3 0 9 0) (V3 0 1 0) 6 = [b] ∧
      shadowMultiplier (softShadowAccum Real.sqrt (sceneSpheres (V3 0 12 0 : v3 ℝ))
        { x := 1, y := 1 } 640 480 10 (V3 0 9 0) (V3 0 1 0) 6) = 1 - b := by
  obtain ⟨b, hb⟩ := camera_sphere_single { x := 1, y := 1 } 640 480 10
  exact ⟨b, hb,
    (single_occluder_multiplier Real.sqrt (sceneSpheres (V3 0 12 0 : v3 ℝ))
      { x := 1, y := 1 } 640 480 10 (V3 0 9 0) (V3 0 1 0) 6 b hb).2.2.2.2.1⟩

/-! ## Theorems: the reflected ray -/

/-- Reflection about a unit vector keeps the squared length and flips the component
along that vector. -/
theorem reflect_dot {α : Type} [LinearOrderedField α] (v n : v3 α) (hn : Dot n n = 1) :
    Dot (v - (2 * Dot v n) * n) (v - (2 * Dot v n) * n) = Dot v v ∧
    Dot (v - (2 * Dot v n) * n) n = -Dot v n := by
  simp only [Dot] at hn
  simp only [Dot, v3_sub_x, v3_sub_y, v3_sub_z, v3_smul_x, v3_smul_y, v3_smul_z]
  constructor
  · linear_combination (4 * (v.x * n.x + v.y * n.y + v.z * n.z) ^ 2) * hn
  · linear_combination (-2 * (v.x * n.x + v.y * n.y + v.z * n.z)) * hn

/-- From a point on the surface of a sphere the lower root is never positive. -/
theorem IntersectSphere_from_surface (s : sphere ℝ) (p d : v3 ℝ)
    (hp : Dot (p - s.c) (p - s.c) = s.r ^ 2) :
    IntersectSphere Real.sqrt s p d = (-(2 * Dot (p - s.c) d) - |2 * Dot (p - s.c) d|) / 2 ∧
    IntersectSphere Real.sqrt s p d ≤ 0 := by
  have he : IntersectSphere Real.sqrt s p d
      = (-(2 * Dot (p - s.c) d) - |2 * Dot (p - s.c) d|) / 2 := by
    rw [IntersectSphere_eq, hp]
    have hz : (2 * Dot (p - s.c) d) ^ 2 - 4 * (s.r ^ 2 - s.r ^ 2) = (2 * Dot (p - s.c) d) ^ 2 := by
      ring
    rw [hz, if_pos (sq_nonneg _), Real.sqrt_sq_eq_abs]
  refine ⟨he, ?_⟩
  rw [he]
  have := neg_abs_le (2 * Dot (p - s.c) d)
  linarith

/-- The normal of a sphere of non-zero radius at a point of its surface is a unit
vector. -/
theorem NormalSphere_unit (s : sphere ℝ) (p : v3 ℝ) (hr : s.r ≠ 0)
    (hp : Dot (p - s.c) (p - s.c) = s.r ^ 2) :
    Dot (NormalSphere s p) (NormalSphere s p) = 1 := by
  simp only [Dot, v3_sub_x, v3_sub_y, v3_sub_z] at hp
  simp only [Dot, NormalSphere, v3_sub_x, v3_sub_y, v3_sub_z, v3_div_x, v3_div_y, v3_div_z]
  field_simp
  linarith

/-- C37: reflection about a unit normal `n` preserves length and flips the normal
component: `rd2 = rd - 2*Dot(rd, n)*n` has `|rd2| = |rd|` and `Dot(rd2, n) = -Dot(rd, n)`.
For a unit ray `rd` that hits sphere `i` of the scene from the front at the point `p` of
its surface, the normal is a unit vector, the reflected ray is a unit vector, the
intersection of the reflected ray from `p` with that same sphere is
`2*r*Dot(rd, n) < 0`, and with `camNear ≥ 0` the nearest-hit search along the reflected
ray does not select that sphere. -/
theorem reflected_ray_leaves_sphere (camNear camFar : ℝ) (frameCamPos : v3 ℝ) (i : Nat)
    (s : sphere ℝ) (p rd : v3 ℝ)
    (hs : (sceneSpheres frameCamPos)[i]? = some s) (hr : 0 < s.r)
    (hp : Dot (p - s.c) (p - s.c) = s.r ^ 2)
    (hrd : Length Real.sqrt rd = 1) (hfront : Dot rd (NormalSphere s p) < 0)
    (hnear : 0 ≤ camNear) :
    (∀ v n : v3 ℝ, Length Real.sqrt n = 1 →
      Length Real.sqrt (v - (2 * Dot v n) * n) = Length Real.sqrt v ∧
      Dot (v - (2 * Dot v n) * n) n = -Dot v n) ∧
    Length Real.sqrt (NormalSphere s p) = 1 ∧
    Length Real.sqrt (rd - (2 * Dot rd (NormalSphere s p)) * NormalSphere s p) = 1 ∧
    IntersectSphere Real.sqrt s p (rd - (2 * Dot rd (NormalSphere s p)) * NormalSphere s p)
      = 2 * s.r * Dot rd (NormalSphere s p) ∧
    IntersectSphere Real.sqrt s p (rd - (2 * Dot rd (NormalSphere s p)) * NormalSphere s p)
      < 0 ∧
    (traceRay Real.sqrt camNear camFar frameCamPos p
      (rd - (2 * Dot rd (NormalSphere s p)) * NormalSphere s p)).2 ≠ 1 + (i : Int) := by
  have hgen : ∀ v n : v3 ℝ, Length Real.sqrt n = 1 →
      Length Real.sqrt (v - (2 * Dot v n) * n) = Length Real.sqrt v ∧
      Dot (v - (2 * Dot v n) * n) n = -Dot v n := by
    intro v n hn
    obtain ⟨h1, h2⟩ := reflect_dot v n (Dot_self_of_Length_eq_one n hn)
    refine ⟨?_, h2⟩
    rw [Length_eq_sqrt_Dot, Length_eq_sqrt_Dot, h1]
  have hnn := NormalSphere_unit s p (ne_of_gt hr) hp
  have hnlen : Length Real.sqrt (NormalSphere s p) = 1 := by
    rw [Length_eq_sqrt_Dot, hnn, Real.sqrt_one]
  obtain ⟨hl2, hd2⟩ := hgen rd (NormalSphere s p) hnlen
  obtain ⟨he, hle⟩ := IntersectSphere_from_surface s p
    (rd - (2 * Dot rd (NormalSphere s p)) * NormalSphere s p) hp
  have hpc : Dot (p - s.c) (rd - (2 * Dot rd (NormalSphere s p)) * NormalSphere s p)
      = -(s.r * Dot rd (NormalSphere s p)) := by
    have h1 : Dot (p - s.c) (rd - (2 * Dot rd (NormalSphere s p)) * NormalSphere s p)
        = s.r * Dot (rd - (2 * Dot rd (NormalSphere s p)) * NormalSphere s p)
            (NormalSphere s p) := by
      simp only [Dot, NormalSphere, v3_sub_x, v3_sub_y, v3_sub_z, v3_div_x, v3_div_y,
        v3_div_z, v3_smul_x, v3_smul_y, v3_smul_z]
      field_simp
      ring
    rw [h1, hd2]
    ring
  have hval : IntersectSphere Real.sqrt s p
      (rd - (2 * Dot rd (NormalSphere s p)) * NormalSphere s p)
      = 2 * s.r * Dot rd (NormalSphere s p) := by
    rw [he, hpc]
    have hpos : 0 ≤ 2 * -(s.r * Dot rd (NormalSphere s p)) := by nlinarith
    rw [abs_of_nonneg hpos]
    ring
  refine ⟨hgen, hnlen, by rw [hl2, hrd], hval, by rw [hval]; nlinarith, ?_⟩
  intro hidx
  have hi : i < (sceneSpheres frameCamPos).length := by
    by_contra hge
    rw [List.getElem?_eq_none (by omega)] at hs
    exact absurd hs (by simp)
  have hi6 : i < 6 := by simpa [sceneSpheres] using hi
  obtain ⟨t2, ht2, hgt⟩ := nearestHit_index_sphere camNear camFar
    ((sceneSpheres frameCamPos).map (fun s2 => IntersectSphere Real.sqrt s2 p
      (rd - (2 * Dot rd (NormalSphere s p)) * NormalSphere s p)))
    (IntersectPlane 0 p (rd - (2 * Dot rd (NormalSphere s p)) * NormalSphere s p)) i hidx
    (by omega)
  rw [List.getElem?_map, hs] at ht2
  simp only [Option.map_some', Option.some.injEq] at ht2
  rw [← ht2] at hgt
  linarith

theorem Length_V3_0_neg1_0 : Length Real.sqrt (V3 0 (-1) 0 : v3 ℝ) = 1 := by
  apply Length_eq_one_of_sq
  simp [V3]

theorem reflected_ray_leaves_sphere_witness :
    ((sceneSpheres (V3 0 2 (-15) : v3 ℝ))[1]? = some (secondSphere : sphere ℝ) ∧
      (0 : ℝ) < (secondSphere : sphere ℝ).r ∧
      Dot ((V3 0 9 0 : v3 ℝ) - (secondSphere : sphere ℝ).c)
          ((V3 0 9 0 : v3 ℝ) - (secondSphere : sphere ℝ).c)
        = (secondSphere : sphere ℝ).r ^ 2 ∧
      Length Real.sqrt (V3 0 (-1) 0 : v3 ℝ) = 1 ∧
      Dot (V3 0 (-1) 0 : v3 ℝ) (NormalSphere (secondSphere : sphere ℝ) (V3 0 9 0)) < 0 ∧
      (0 : ℝ) ≤ 1 / 1000) ∧
    Length Real.sqrt ((V3 0 (-1) 0 : v3 ℝ)
      - (2 * Dot (V3 0 (-1) 0 : v3 ℝ) (NormalSphere (secondSphere : sphere ℝ) (V3 0 9 0)))
        * NormalSphere (secondSphere : sphere ℝ) (V3 0 9 0)) = 1 ∧
    (traceRay Real.sqrt (1 / 1000) 1000000 (V3 0 2 (-15)) (V3 0 9 0)
      ((V3 0 (-1) 0 : v3 ℝ)
        - (2 * Dot (V3 0 (-1) 0 : v3 ℝ) (NormalSphere (secondSphere : sphere ℝ) (V3 0 9 0)))
          * NormalSphere (secondSphere : sphere ℝ) (V3 0 9 0))).2 ≠ 1 + ((1 : Nat) : Int) :=
  ⟨⟨by simp [sceneSpheres, secondSphere], by norm_num [secondSphere],
      by norm_num [Dot, V3, secondSphere], Length_V3_0_neg1_0,
      by norm_num [Dot, NormalSphere, V3, secondSphere], by norm_num⟩,
    (reflected_ray_leaves_sphere (1 / 1000) 1000000 (V3 0 2 (-15)) 1
      (secondSphere : sphere ℝ) (V3 0 9 0) (V3 0 (-1) 0)
      (by simp [sceneSpheres, secondSphere])
      (by norm_num [secondSphere]) (by norm_num [Dot, V3, secondSphere]) Length_V3_0_neg1_0
      (by norm_num [Dot, NormalSphere, V3, secondSphere]) (by norm_num)).2.2.1,
    (reflected_ray_leaves_sphere (1 / 1000) 1000000 (V3 0 2 (-15)) 1
      (secondSphere : sphere ℝ) (V3 0 9 0) (V3 0 (-1) 0)
      (by simp [sceneSpheres, secondSphere])
      (by norm_num [secondSphere]) (by norm_num [Dot, V3, secondSphere]) Length_V3_0_neg1_0
      (by norm_num [Dot, NormalSphere, V3, secondSphere]) (by norm_num)).2.2.2.2.2⟩

end RayTracer
